import Mathlib

/-!
# cddm : the belief engine, the timing model and the two example tasks

A shallow embedding of `src/belief.cpp`, `src/rng.cpp`, `src/utils.h`,
`src/architecture.cpp`, `src/recorder.h`, `src/task.cpp`,
`src/examples/Flanker/flanker.cpp` and `src/examples/AX-CPT/axcpt.cpp`.

* `double` values are elements of a linearly ordered field `K` (exact arithmetic); the
  C library function `exp` is a parameter `exp : K → K` of every definition that calls it,
  instantiated with `Real.exp` in the theorems that need its analytic properties.
* The random source is made explicit. In the belief engine every variate drawn by
  `arma::randn`, `arma::randu` or `arma::randi` is an argument of the function that
  consumes it; the timing draws and the tasks, which draw a number of variates that
  depends on the path taken, thread a state of the source (`RandomSource`).
* `arma::mat` with `n_rows = n`, `n_cols = m` is a function `Fin n → Fin m → K`.
* `throw fatal_error()` is `Except.error` with the text of the message.
* An object is a structure of its members; a method that mutates the object returns the
  new state. The recorder a task points to is part of the state of the task.
-/

namespace Cddm

variable {K : Type} [LinearOrderedField K]

/-! ## `utils` -/

namespace utils

/-- Loop body of `utils::kahanSum`; the pair is `(sum, correction)`. -/
def kahanStep (st : K × K) (x : K) : K × K :=
  let corrected_next_term := x - st.2
  let new_sum := st.1 + corrected_next_term
  (new_sum, (new_sum - st.1) - corrected_next_term)

/-- Compensated summation `utils::kahanSum` over the elements of a container. -/
def kahanSum (container : List K) : K :=
  (container.foldl kahanStep (0, 0)).1

end utils

/-! ## `RNG` -/

namespace RNG

/-- The constant `inv_sqrt_2pi` of `RNG::dnorm`. -/
def inv_sqrt_2pi : K := 3989422804014327 / 10000000000000000

/-- Gaussian density `RNG::dnorm(x, m, s)`. -/
def dnorm (exp : K → K) (x m s : K) : K :=
  let a := (x - m) / s
  inv_sqrt_2pi / s * exp (-(1 / 2) * a * a)

/-- Gaussian variate `RNG::rnorm(m, s)`; `z` is the value of `arma::randn(1)[0]`. -/
def rnorm (m s z : K) : K := m + (s * z)

/-- Uniform variate `RNG::runif(max)`; `u` is the value of `arma::randu(1)[0]`. -/
def runif (max u : K) : K := u * max

/-- Integer variate `RNG::runif_int(max)`; `r` is the value of
`arma::randi(1, distr_param(0,max))[0]`. -/
def runif_int (_max : Int) (r : Int) : Int := r

/-- Bernoulli variate `RNG::rbernoulli(p)`; `u` is the value of `arma::randu(1)[0]`. -/
def rbernoulli (p u : K) : Int := if u < p then 1 else 0

end RNG

/-! ## Matrices -/

/-- An `arma::mat` with `n` rows and `m` columns. -/
abbrev Mat (K : Type) (n m : Nat) := Fin n → Fin m → K

/-- The elements of a matrix in iteration (column-major) order. -/
def Mat.elems {n m : Nat} (M : Mat K n m) : List K :=
  (List.finRange m).flatMap fun j => (List.finRange n).map fun i => M i j

/-- Row sums `arma::sum(M, 1)`. -/
def rowSums {n m : Nat} (M : Mat K n m) : Fin n → K := fun i => ∑ j, M i j

/-- Running totals `arma::cumsum(v)`, started from the accumulator `acc`. -/
def cumsumFrom (acc : K) : List K → List K
  | [] => []
  | x :: xs => (acc + x) :: cumsumFrom (acc + x) xs

/-- Running totals `arma::cumsum(v)` of a vector. -/
def cumsum {n : Nat} (v : Fin n → K) : List K := cumsumFrom 0 (List.ofFn v)

/-- The categorical scan `for (truth=0; p >= cumContextProb[truth]; ++truth);` started at
index `k` with `cum` the entries from index `k` on. `none` means that the scan left the
vector: the loop condition would read `cumContextProb` past its last entry. -/
def scanFrom (p : K) : List K → Nat → Option Nat
  | [], _ => none
  | c :: cs, k => if p ≥ c then scanFrom p cs (k + 1) else some k

/-- The categorical scan from index 0. -/
def categoricalScan (p : K) (cum : List K) : Option Nat := scanFrom p cum 0

/-! ## `Belief` -/

/-- Source of an update (`enum UpdateSource`). -/
inductive UpdateSource
  | Context
  | Target
  deriving DecidableEq, Repr

/-- Substitution policy (`enum PriorType`). -/
inductive PriorType
  | Informative
  | Uniform
  deriving DecidableEq, Repr

/-- The keys of `Config` read by the belief constructors. -/
structure Config (K : Type) (n m : Nat) where
  urPrior : Mat K n m
  contextMeanSpacing : Option K
  targetMeanSpacing : Option K
  decayRate : Option K

/-- State of a `Belief` object; `_nContexts = n` and `_nTargets = m`. -/
structure Belief (K : Type) (n m : Nat) where
  trueContext : Int
  trueTarget : Int
  belief : Mat K n m
  urPrior : Mat K n m
  lik : Mat K n m
  contextMeanSpacing : K
  targetMeanSpacing : K

namespace Belief

variable {n m : Nat}

/-- The member `_nContexts`. -/
def nContexts (_b : Belief K n m) : Int := n

/-- The member `_nTargets`. -/
def nTargets (_b : Belief K n m) : Int := m

/-- Method `Belief::reset`. -/
def reset (b : Belief K n m) : Belief K n m := { b with belief := b.urPrior }

/-- Method `Belief::getBelief`. -/
def getBelief (b : Belief K n m) : Mat K n m := b.belief

/-- Method `Belief::getLik`. -/
def getLik (b : Belief K n m) : Mat K n m := b.lik

/-- Constructor `Belief::Belief(const Config*)`. -/
def ctor (c : Config K n m) : Except String (Belief K n m) :=
  if utils.kahanSum (Mat.elems c.urPrior) ≠ 1 then
    .error "urPrior is not proper!"
  else
    .ok (reset {
      trueContext := -1
      trueTarget := -1
      urPrior := c.urPrior
      contextMeanSpacing := match c.contextMeanSpacing with
        | some s => s
        | none => 1
      targetMeanSpacing := match c.targetMeanSpacing with
        | some s => s
        | none => 1
      belief := fun _ _ => 0
      lik := fun _ _ => -1 })

/-- Method `Belief::setTrueStim`. -/
def setTrueStim (b : Belief K n m) (trueContext trueTarget : Int) :
    Except String (Belief K n m) :=
  if trueContext ≥ b.nContexts then .error "ERROR: setting context too high"
  else if trueContext < 0 then .error "ERROR: context < 0?!"
  else if trueTarget ≥ b.nTargets then .error "ERROR: setting target too high"
  else if trueTarget < 0 then .error "ERROR: target < 0?!"
  else .ok { b with trueContext := trueContext, trueTarget := trueTarget }

/-- Method `Belief::_computeLikelihoods`. -/
def computeLikelihoods (exp : K → K) (b : Belief K n m) (samp noise : K)
    (source : UpdateSource) : Belief K n m :=
  { b with lik := fun i j =>
      match source with
      | .Context => RNG.dnorm exp samp (((i : Nat) : K) * b.contextMeanSpacing) noise
      | .Target => RNG.dnorm exp samp (((j : Nat) : K) * b.targetMeanSpacing) noise }

/-- The tail of `Belief::update` after the likelihoods are set: `_belief %= _lik`,
the normalizer, and the division. -/
def multiplyAndNormalize (b : Belief K n m) : Belief K n m :=
  let b1 := { b with belief := fun i j => b.belief i j * b.lik i j }
  let normalizer := utils.kahanSum (Mat.elems b1.belief)
  { b1 with belief := fun i j => b1.belief i j / normalizer }

/-- The value `truth` selected by the `switch` of `Belief::update`. -/
def truthOf (b : Belief K n m) (source : UpdateSource) : K :=
  match source with
  | .Context => (b.trueContext : K)
  | .Target => (b.trueTarget : K)

/-- Method `Belief::update`; `z` is the standard normal variate drawn by `RNG::rnorm`. -/
def update (exp : K → K) (b : Belief K n m) (source : UpdateSource) (noise : K) (z : K) :
    Belief K n m :=
  let truth := b.truthOf source
  let samp := RNG.rnorm truth noise z
  multiplyAndNormalize (b.computeLikelihoods exp samp noise source)

/-- Method `Belief::updateFromContext`. -/
def updateFromContext (exp : K → K) (b : Belief K n m) (noise : K) (z : K) : Belief K n m :=
  b.update exp .Context noise z

/-- Method `Belief::updateFromTarget`. -/
def updateFromTarget (exp : K → K) (b : Belief K n m) (noise : K) (z : K) : Belief K n m :=
  b.update exp .Target noise z

end Belief

/-! ## `DecayBelief` -/

/-- State of a `DecayBelief` object. -/
structure DecayBelief (K : Type) (n m : Nat) extends Belief K n m where
  contextMarginals : Fin n → K
  decayRate : K

namespace DecayBelief

variable {n m : Nat}

/-- Constructor `DecayBelief::DecayBelief(const Config*)`. -/
def ctor (c : Config K n m) : Except String (DecayBelief K n m) :=
  match Belief.ctor c with
  | .error e => .error e
  | .ok b =>
    .ok {
      toBelief := b
      decayRate := match c.decayRate with
        | some d => d
        | none => 0
      contextMarginals := rowSums b.urPrior }

/-- The inner loop `for k: noisyLik += _contextMarginals(k) * dnorm(samp, k*spacing, noise)`
of `DecayBelief::_computeLikelihoods`. -/
def noisyLik (exp : K → K) (b : DecayBelief K n m) (samp noise : K) : K :=
  (List.finRange n).foldl
    (fun acc k =>
      acc + b.contextMarginals k * RNG.dnorm exp samp (((k : Nat) : K) * b.contextMeanSpacing) noise)
    0

/-- Method `DecayBelief::_computeLikelihoods` (default `pCorrectUpdate = 1`). -/
def computeLikelihoods (exp : K → K) (b : DecayBelief K n m) (samp noise : K)
    (source : UpdateSource) (pCorrectUpdate : K) : DecayBelief K n m :=
  { b with lik := fun i j =>
      match source with
      | .Context =>
        let correctLik := RNG.dnorm exp samp (((i : Nat) : K) * b.contextMeanSpacing) noise
        pCorrectUpdate * correctLik + (1 - pCorrectUpdate) * noisyLik exp b samp noise
      | .Target => RNG.dnorm exp samp (((j : Nat) : K) * b.targetMeanSpacing) noise }

/-- The substituted context drawn in the bad-retrieval branch of
`DecayBelief::updateFromContext`, before the range check: `r` is the `randi` variate
used by the `Uniform` policy, `u2` the `randu` variate used by the `Informative` policy.
`none` means that the categorical scan left `cumContextProb`. -/
def drawSubstitute (urPrior : Mat K n m) (decayTo : PriorType) (r : Int) (u2 : K) :
    Option Int :=
  let cumContextProb := cumsum (rowSums urPrior)
  match decayTo with
  | .Uniform => some (RNG.runif_int ((n : Int) - 1) r)
  | .Informative =>
    let p := RNG.runif 1 u2
    match categoricalScan p cumContextProb with
    | some k => some (k : Int)
    | none => none

/-- The range check that follows the draw of a substitute. -/
def checkSubstitute (nContexts : Int) (drawn : Option Int) : Except String Int :=
  match drawn with
  | none => .error "failed to draw any contexts? (scan left cumContextProb)"
  | some t =>
    if t ≥ nContexts ∨ t < 0 then .error "failed to draw any contexts?"
    else .ok t

/-- The bad-retrieval/good-retrieval part of the `else` branch of
`DecayBelief::updateFromContext`, up to and including the call of `_computeLikelihoods`:
returns the value that the method will return and the state with the likelihoods set.
The variates are `u` (Bernoulli step), `r` or `u2` (substitution, see `drawSubstitute`)
and `z` (evidence). -/
def sampleAndLikelihood (exp : K → K) (b : DecayBelief K n m) (noise trialTime : K)
    (decayTo : PriorType) (u : K) (r : Int) (u2 : K) (z : K) :
    Except String (Int × DecayBelief K n m) :=
  let pCorrectUpdate := exp (-b.decayRate * trialTime)
  let goodRetrieval := RNG.rbernoulli pCorrectUpdate u
  let truthE : Except String Int :=
    if goodRetrieval = 0 then
      checkSubstitute b.nContexts (drawSubstitute b.urPrior decayTo r u2)
    else .ok b.trueContext
  match truthE with
  | .error e => .error e
  | .ok truth =>
    let samp := RNG.rnorm (truth : K) noise z
    .ok (if goodRetrieval = 1 then -1 else truth,
         b.computeLikelihoods exp samp noise .Context pCorrectUpdate)

/-- Method `DecayBelief::updateFromContext(noise, trialTime, decayTo)`. -/
def updateFromContext (exp : K → K) (b : DecayBelief K n m) (noise trialTime : K)
    (decayTo : PriorType) (u : K) (r : Int) (u2 : K) (z : K) :
    Except String (Int × DecayBelief K n m) :=
  if b.decayRate = 0 ∨ trialTime = 0 then
    .ok (-1, { b with toBelief := b.toBelief.updateFromContext exp noise z })
  else
    match sampleAndLikelihood exp b noise trialTime decayTo u r u2 z with
    | .error e => .error e
    | .ok (ret, b1) => .ok (ret, { b1 with toBelief := b1.toBelief.multiplyAndNormalize })

end DecayBelief

/-! ## `ForgetBelief` -/

/-- State of a `ForgetBelief` object. -/
structure ForgetBelief (K : Type) (n m : Nat) extends Belief K n m where
  forgetProb : K
  forgot : Bool

namespace ForgetBelief

variable {n m : Nat}

/-- Method `ForgetBelief::reset`. -/
def reset (b : ForgetBelief K n m) : ForgetBelief K n m :=
  { b with forgot := false, toBelief := b.toBelief.reset }

/-- Method `ForgetBelief::contextForgetUpdate(noise, forgetTo)`. The variates are `u`
(Bernoulli step), `r` or `u2` (substitution) and `z` (evidence). -/
def contextForgetUpdate (exp : K → K) (b : ForgetBelief K n m) (noise : K)
    (forgetTo : PriorType) (u : K) (r : Int) (u2 : K) (z : K) :
    Except String (Int × ForgetBelief K n m) :=
  if b.forgetProb = 0 ∨ b.forgot = true then
    .ok (-1, { b with toBelief := b.toBelief.updateFromContext exp noise z })
  else if RNG.rbernoulli b.forgetProb u = 1 then
    let b1 := { b with forgot := true }
    match DecayBelief.checkSubstitute b.nContexts
        (DecayBelief.drawSubstitute b.urPrior forgetTo r u2) with
    | .error e => .error e
    | .ok drawFrom =>
      let b2 := { b1 with trueContext := drawFrom }
      .ok (drawFrom, { b2 with toBelief := b2.toBelief.updateFromContext exp noise z })
  else
    .ok (-1, { b with toBelief := b.toBelief.updateFromContext exp noise z })

end ForgetBelief

/-! ## Sequences of calls -/

/-- A call of a public method of `Belief`, with the variates it consumes. -/
inductive BaseCall (K : Type)
  | reset
  | setTrueStim (trueContext trueTarget : Int)
  | updateFromContext (noise z : K)
  | updateFromTarget (noise z : K)

/-- A call of a public method of `DecayBelief`: an inherited one, or the decaying
`updateFromContext(noise, trialTime, decayTo)`. -/
inductive Call (K : Type)
  | base (c : BaseCall K)
  | decayUpdate (noise trialTime : K) (decayTo : PriorType) (u : K) (r : Int) (u2 z : K)

/-- The state of a `Belief` after a call; a call that throws leaves the state as it was
when the exception was raised. -/
def Belief.call {n m : Nat} (exp : K → K) (b : Belief K n m) : BaseCall K → Belief K n m
  | .reset => b.reset
  | .setTrueStim c t =>
    match b.setTrueStim c t with
    | .ok b1 => b1
    | .error _ => b
  | .updateFromContext noise z => b.updateFromContext exp noise z
  | .updateFromTarget noise z => b.updateFromTarget exp noise z

/-- The state of a `Belief` after a sequence of calls. -/
def Belief.run {n m : Nat} (exp : K → K) (b : Belief K n m) (calls : List (BaseCall K)) :
    Belief K n m :=
  calls.foldl (Belief.call exp) b

/-- The state of a `DecayBelief` after a call; a call that throws leaves the state as it
was when the exception was raised. -/
def DecayBelief.call {n m : Nat} (exp : K → K) (b : DecayBelief K n m) :
    Call K → DecayBelief K n m
  | .base c => { b with toBelief := b.toBelief.call exp c }
  | .decayUpdate noise trialTime decayTo u r u2 z =>
    match b.updateFromContext exp noise trialTime decayTo u r u2 z with
    | .ok (_, b1) => b1
    | .error _ => b

/-- The state of a `DecayBelief` after a sequence of calls. -/
def DecayBelief.run {n m : Nat} (exp : K → K) (b : DecayBelief K n m) (calls : List (Call K)) :
    DecayBelief K n m :=
  calls.foldl (DecayBelief.call exp) b

/-! ## `utils::roundToIncrement` -/

/-- Function `utils::roundToIncrement(val, prec)`: `floor(val / prec + 0.5) * prec`. -/
def utils.roundToIncrement [FloorRing K] (val prec : K) : K :=
  ((⌊val / prec + 1 / 2⌋ : Int) : K) * prec

/-! ## The random source as a state

The tasks draw a number of variates that depends on the path taken, so the generator is
a state `S` with the primitives of `arma` as transitions. `_rgamma_gsl_arma`, a rejection
sampler over `arma::randn` and `arma::randu`, is the primitive `rgammaRaw`. -/

/-- The primitives of the random source: each returns a variate and the next state. -/
structure RandomSource (K S : Type) where
  randu : S → K × S
  randn : S → K × S
  randi : Int → S → Int × S
  rgammaRaw : K → K → S → K × S

namespace RandomSource

variable {S : Type}

/-- Function `RNG::rgamma(m, s)` on the random source. -/
def rgamma (src : RandomSource K S) (m s : K) (g : S) : K × S :=
  if m = 0 then (0, g)
  else
    let k := (m * m) / (s * s)
    let theta := (s * s) / m
    src.rgammaRaw k theta g

/-- Function `RNG::runif(max)` on the random source. -/
def runif (src : RandomSource K S) (max : K) (g : S) : K × S :=
  (RNG.runif max (src.randu g).1, (src.randu g).2)

/-- Function `RNG::rbernoulli(p)` on the random source. -/
def rbernoulli (src : RandomSource K S) (p : K) (g : S) : Int × S :=
  (RNG.rbernoulli p (src.randu g).1, (src.randu g).2)

end RandomSource

/-! ## `Architecture` -/

/-- State of an `Architecture` object. -/
structure Architecture (K : Type) where
  eblMean : K
  motorPlanMean : K
  motorExecuteMean : K
  eblSd : K
  motorSd : K
  timePerStep : K

namespace Architecture

variable {S : Type} [FloorRing K]

/-- Method `Architecture::drawEBL`. -/
def drawEBL (src : RandomSource K S) (a : Architecture K) (g : S) : K × S :=
  let unrounded := src.rgamma a.eblMean a.eblSd g
  (utils.roundToIncrement unrounded.1 a.timePerStep, unrounded.2)

/-- Method `Architecture::drawMotorExec`. -/
def drawMotorExec (src : RandomSource K S) (a : Architecture K) (g : S) : K × S :=
  let unrounded := src.rgamma a.motorPlanMean a.motorSd g
  (utils.roundToIncrement unrounded.1 a.motorSd, unrounded.2)

/-- Method `Architecture::drawMotorPlanning`. -/
def drawMotorPlanning (src : RandomSource K S) (a : Architecture K) (g : S) : K × S :=
  let unrounded := src.rgamma a.motorExecuteMean a.motorSd g
  (utils.roundToIncrement unrounded.1 a.motorSd, unrounded.2)

end Architecture

/-! ## `Recorder`

The tasks only call `Recorder::updateDatum`. The map `_contents` is represented by the
list of its keys, and the datum objects by the log of the values handed to their
`record` method, in call order. -/

/-- A value passed to `Recorder::updateDatum`: a `double`, an `Event` or a `Timepoint`. -/
inductive Obs (K : Type)
  | scalar (value : K)
  | event (startTime endTime : K)
  | timepoint (time : K) (value : List K)

/-- Constructor `Event::Event(start, end)`; the message is given without the two times
that the program appends to it. -/
def Event.ctor (start stop : K) : Except String (Obs K) :=
  if start > stop then .error "Start time is later than end time!"
  else .ok (.event start stop)

/-- State of a `Recorder`: the registered keys and the recorded values. -/
structure Recorder (K : Type) where
  keys : List String
  log : List (String × Obs K)

/-- Method `Recorder::updateDatum(key, val)`. -/
def Recorder.updateDatum (r : Recorder K) (key : String) (val : Obs K) :
    Except String (Recorder K) :=
  if key ∉ r.keys then
    .error ("ERROR: attempting to update datum " ++ key
      ++ " which was not registered to the recorder!")
  else .ok { r with log := r.log ++ [(key, val)] }

/-! ## `Task` -/

/-- State of a `Task` object; `_trialDist` has `nd` rows and `md` columns. The recorder
the task points to is part of the state. -/
structure Task (K : Type) (nd md : Nat) where
  trialDist : Mat K nd md
  context : Int
  target : Int
  trialLabel : String
  recorder : Recorder K

/-- The cells of a matrix in the order of the loops `for c ... for t ...` (row-major). -/
def rowMajorCells (nd md : Nat) : List (Fin nd × Fin md) :=
  (List.finRange nd).flatMap fun c => (List.finRange md).map fun t => (c, t)

/-- The two nested loops of `Task::drawTrialType` over the cells still to visit, with
the current value of `probSoFar`; `none` is the fall-through. -/
def drawScan {nd md : Nat} (p : K) (trialDist : Mat K nd md) :
    List (Fin nd × Fin md) → K → Option (Fin nd × Fin md)
  | [], _ => none
  | cell :: rest, probSoFar =>
    if p ≤ trialDist cell.1 cell.2 + probSoFar then some cell
    else drawScan p trialDist rest (probSoFar + trialDist cell.1 cell.2)

namespace Task

variable {S : Type} {nd md : Nat}

/-- The label `"Context" + to_string(c) + "_Target" + to_string(t) + "_"`. -/
def labelOf (c t : Nat) : String :=
  "Context" ++ toString c ++ "_Target" ++ toString t ++ "_"

/-- Method `Task::drawTrialType`; the message of the fall-through error is given
without the values of `p` and `probSoFar` that the program appends to it. -/
def drawTrialType (src : RandomSource K S) (t : Task K nd md) (g : S) :
    Except String (Task K nd md × S) :=
  let p := src.runif 1 g
  match drawScan p.1 t.trialDist (rowMajorCells nd md) 0 with
  | some cell =>
    .ok ({ t with
            context := ((cell.1 : Nat) : Int)
            target := ((cell.2 : Nat) : Int)
            trialLabel := labelOf cell.1 cell.2 }, p.2)
  | none => .error "drawTrialType() fallthrough case! Should never get here!"

/-- Method `Task::getCurrentContext`. -/
def getCurrentContext (t : Task K nd md) : Int := t.context

/-- Method `Task::getCurrentTarget`. -/
def getCurrentTarget (t : Task K nd md) : Int := t.target

end Task

/-! ## Matrix access and conversions used by the tasks -/

/-- Element access `M(i, j)`, with the bounds check of Armadillo. -/
def Mat.at {n m : Nat} (M : Mat K n m) (i j : Nat) : Except String K :=
  if h : i < n ∧ j < m then .ok (M ⟨i, h.1⟩ ⟨j, h.2⟩)
  else .error "Mat::operator(): index out of bounds"

/-- Function `arma::vectorise(M)`: the columns of `M`, one after the other. -/
def Mat.vectorise {n m : Nat} (M : Mat K n m) : List K :=
  (List.finRange m).flatMap fun j => (List.finRange n).map fun i => M i j

/-- Function `arma::trace(M)`: the sum of the entries `M(i, i)` for `i < min(n, m)`. -/
def Mat.trace {n m : Nat} (M : Mat K n m) : K :=
  ((List.range (min n m)).map fun i =>
    if h : i < n ∧ i < m then M ⟨i, h.1⟩ ⟨i, h.2⟩ else 0).sum

/-- The conversion `double → int` of an initialisation `int k = x`: truncation toward
zero. Values outside the range of `int` are not modelled. -/
def truncToInt [FloorRing K] (x : K) : Int := if 0 ≤ x then ⌊x⌋ else ⌈x⌉

/-- The loop `for (i = 0; i < k; ++i) body`, whose body may throw. -/
def iterate {σ : Type} (body : σ → Except String σ) : Nat → σ → Except String σ
  | 0, s => .ok s
  | k + 1, s =>
    match body s with
    | .error e => .error e
    | .ok s1 => iterate body k s1

/-- The loop `for (samp; samp < maxSamps; ++samp) body` of the two tasks: the body
returns the next state and whether it left the loop with `break`. The result is the
value of `samp` and the state after the loop. The fuel bounds the number of iterations;
`(maxSamps - samp).toNat` is the number the loop can make. -/
def forSamp {σ : Type} (maxSamps : Int) (body : σ → Except String (σ × Bool)) :
    Nat → Int → σ → Except String (Int × σ)
  | 0, samp, s => .ok (samp, s)
  | fuel + 1, samp, s =>
    if samp < maxSamps then
      match body s with
      | .error e => .error e
      | .ok (s1, true) => .ok (samp, s1)
      | .ok (s1, false) => forSamp maxSamps body fuel (samp + 1) s1
    else .ok (samp, s)

/-- The body of the loop over `samp`: the sampling step, then the test of the stop
condition and, if it holds, the commit block that ends with `break`. -/
def sampBody {σ : Type} (step : σ → Except String σ) (stop : σ → Bool)
    (commit : σ → Except String σ) (s : σ) : Except String (σ × Bool) :=
  match step s with
  | .error e => .error e
  | .ok s1 =>
    if stop s1 then
      match commit s1 with
      | .error e => .error e
      | .ok s2 => .ok (s2, true)
    else .ok (s1, false)

/-- The text of the error thrown when `samp == _maxSamps` after the loop. -/
def maxSampsMessage (maxSamps : Int) : String :=
  "ERROR: hit maxSamps (" ++ toString maxSamps ++ ")! If you're sure you know what you're doing, you can increase maxSamps to prevent this, but verifying that you really need this many should be a first step!"

/-! ## Configuration of the tasks -/

/-- The keys of `Config` read by `Task`, `Architecture`, `FlankerTask` and `AxcptTask`,
on top of those read by the belief constructors. A key that `AxcptTask` tests with
`Config::keyExists` is an `Option`; the other keys are read with `Config::get` by every
constructor that uses them and are plain fields. -/
structure TaskConfig (K : Type) (nd md n m : Nat) extends Config K n m where
  trialDist : Mat K nd md
  timePerStep : K
  eblMean : K
  eblSd : K
  motorPlanMean : K
  motorExecMean : K
  motorSd : K
  maxTrials : Int
  maxSamps : Int
  decisionThresh : K
  pPrematureResp : K
  retentionIntervalDur : K
  contextNoise : Option K
  targetNoise : Option K
  totalNoise : Option K
  proportionContextNoise : Option K
  retentionNoise : Option K
  decayTo : Option Int

/-- Method `Config::get` for a key that may be absent: the underlying
`ConfigFile::read` throws when the key is not found. -/
def Config.get {α : Type} (key : String) : Option α → Except String α
  | some v => .ok v
  | none => .error ("key not found: " ++ key)

/-- Constructor `Task::Task(const Config*, Recorder*)`. -/
def Task.ctor {nd md n m : Nat} (c : TaskConfig K nd md n m) (r : Recorder K) :
    Except String (Task K nd md) :=
  if utils.kahanSum (Mat.elems c.trialDist) ≠ 1 then .error "trialDist is not proper!"
  else .ok { trialDist := c.trialDist, context := -1, target := -1, trialLabel := "",
             recorder := r }

/-- Constructor `Architecture::Architecture(const Config*)`. -/
def Architecture.ctor {nd md n m : Nat} (c : TaskConfig K nd md n m) : Architecture K :=
  { timePerStep := c.timePerStep
    eblMean := c.eblMean
    eblSd := c.eblSd
    motorPlanMean := c.motorPlanMean
    motorExecuteMean := c.motorExecMean
    motorSd := c.motorSd }

/-! ## `FlankerTask` -/

/-- State of a `FlankerTask` object. -/
structure FlankerTask (K : Type) (nd md n m : Nat) extends Task K nd md where
  belief : Belief K n m
  arch : Architecture K
  trialTime : K
  timePerStep : K
  contextNoise : K
  targetNoise : K
  decisionThresh : K
  pPrematureResponse : K
  maxTrials : Int
  maxSamps : Int

/-- Constructor `FlankerTask::FlankerTask(const Config*, Recorder*)`. -/
def FlankerTask.ctor {nd md n m : Nat} (c : TaskConfig K nd md n m) (r : Recorder K) :
    Except String (FlankerTask K nd md n m) := do
  let task ← Task.ctor c r
  let arch := Architecture.ctor c
  let belief ← Belief.ctor c.toConfig
  let contextNoise ← Config.get "contextNoise" c.contextNoise
  let targetNoise ← Config.get "targetNoise" c.targetNoise
  if contextNoise < 0 then .error "ERROR: contextNoise < 0, did you set it?"
  else if targetNoise < 0 then .error "ERROR: targetNoise < 0, did you set it?"
  else if c.decisionThresh < 0 then
    .error "ERROR: decisionThresh < 0, did you set it (FlankerTask is implemented in prob space, not log space)?"
  else if c.decisionThresh ≥ 1 then
    .error "ERROR: decisionThresh >=1 (FlankerTask is implemented in prob space, not log space) "
  else
    .ok { toTask := task
          belief := belief
          arch := arch
          trialTime := -1
          timePerStep := c.timePerStep
          contextNoise := contextNoise
          targetNoise := targetNoise
          decisionThresh := c.decisionThresh
          pPrematureResponse := c.pPrematureResp
          maxTrials := c.maxTrials
          maxSamps := c.maxSamps }

/-- The object, the state of the random source and the local variables of
`FlankerTask::run`. `calls` is the trace of the calls made on `_belief` during the run,
with the variates they consumed; it is not a variable of the program. `dv` is
uninitialised in the program until the first sampling step assigns it. -/
structure FlankerRun (K S : Type) (nd md n m : Nat) where
  task : FlankerTask K nd md n m
  rng : S
  eblDur : K
  sampStart : K
  cresp : Int
  dv : K
  calls : List (BaseCall K)

namespace FlankerRun

variable {S : Type} {nd md n m : Nat}

/-- The call `_recorder->updateDatum(_trialLabel + key, val)`. -/
def update (s : FlankerRun K S nd md n m) (key : String) (val : Obs K) :
    Except String (FlankerRun K S nd md n m) :=
  match s.task.recorder.updateDatum (s.task.trialLabel ++ key) val with
  | .error e => .error e
  | .ok r => .ok { s with task := { s.task with recorder := r } }

/-- The call `_recorder->updateDatum(_trialLabel + key, Event(start, stop))`. -/
def updateEvent (s : FlankerRun K S nd md n m) (key : String) (start stop : K) :
    Except String (FlankerRun K S nd md n m) :=
  match Event.ctor start stop with
  | .error e => .error e
  | .ok ev => s.update key ev

/-- Method `FlankerTask::_recordBelief`. -/
def recordBelief (s : FlankerRun K S nd md n m) : Except String (FlankerRun K S nd md n m) :=
  s.update "post" (.timepoint s.task.trialTime (Mat.vectorise s.task.belief.getBelief))

/-- The call `_belief->updateFromContext(_contextNoise)`. -/
def updateFromContext (exp : K → K) (src : RandomSource K S) (s : FlankerRun K S nd md n m) :
    FlankerRun K S nd md n m :=
  let z := src.randn s.rng
  { s with
    rng := z.2
    task := { s.task with belief := s.task.belief.updateFromContext exp s.task.contextNoise z.1 }
    calls := s.calls ++ [.updateFromContext s.task.contextNoise z.1] }

/-- The call `_belief->updateFromTarget(_targetNoise)`. -/
def updateFromTarget (exp : K → K) (src : RandomSource K S) (s : FlankerRun K S nd md n m) :
    FlankerRun K S nd md n m :=
  let z := src.randn s.rng
  { s with
    rng := z.2
    task := { s.task with belief := s.task.belief.updateFromTarget exp s.task.targetNoise z.1 }
    calls := s.calls ++ [.updateFromTarget s.task.targetNoise z.1] }

/-- The statement `_trialTime += _timePerStep`. -/
def tick (s : FlankerRun K S nd md n m) : FlankerRun K S nd md n m :=
  { s with task := { s.task with trialTime := s.task.trialTime + s.task.timePerStep } }

variable [FloorRing K]

/-- The test `_pPrematureResponse > 0` and, if it holds, the draw
`RNG::rbernoulli(_pPrematureResponse)`: whether the premature branch is taken, and the
state after the draw. -/
def prematureDraw (src : RandomSource K S) (s : FlankerRun K S nd md n m) :
    Bool × FlankerRun K S nd md n m :=
  if s.task.pPrematureResponse > 0 then
    let prematureResponse := src.rbernoulli s.task.pPrematureResponse s.rng
    (decide (prematureResponse.1 = 1), { s with rng := prematureResponse.2 })
  else (false, s)

/-- The block of `FlankerTask::run` executed when `prematureResponse == 1`. -/
def prematureBranch (src : RandomSource K S) (s : FlankerRun K S nd md n m) :
    Except String (FlankerRun K S nd md n m) := do
  let motorPlanning := s.task.arch.drawMotorPlanning src s.rng
  let motorTimeDur := s.task.arch.drawMotorExec src motorPlanning.2
  let resp := src.rbernoulli (1 / 2) motorTimeDur.2
  let acc : Int := if resp.1 = s.cresp then 1 else 0
  let s1 := { s with rng := resp.2 }
  let s2 ← s1.updateEvent "motorPlanEvent" 0 motorPlanning.1
  let s3 ← s2.update "Resp" (.scalar (resp.1 : K))
  let s4 ← s3.update "Acc" (.scalar (acc : K))
  let s5 ← s4.updateEvent "motorExecEvent" 0 motorTimeDur.1
  s5.update "RT" (.scalar motorTimeDur.1)

/-- One pass of the loop over `samp` of `FlankerTask::run` up to the assignment of
`dv`. -/
def accStep (exp : K → K) (src : RandomSource K S) (s : FlankerRun K S nd md n m) :
    Except String (FlankerRun K S nd md n m) := do
  let s1 := s.updateFromContext exp src
  let s2 := s1.updateFromContext exp src
  let s3 := s2.updateFromTarget exp src
  let post := s3.task.belief.getBelief
  let s4 ← s3.tick.recordBelief
  let p00 ← Mat.at post 0 0
  let p10 ← Mat.at post 1 0
  .ok { s4 with dv := p00 + p10 }

/-- The stop condition `dv > _decisionThresh || dv < (1-_decisionThresh)`. -/
def stop (s : FlankerRun K S nd md n m) : Bool :=
  decide (s.dv > s.task.decisionThresh ∨ s.dv < 1 - s.task.decisionThresh)

/-- The body of the loop over `i` in the commit block of `FlankerTask::run`. -/
def planStep (exp : K → K) (src : RandomSource K S) (s : FlankerRun K S nd md n m) :
    Except String (FlankerRun K S nd md n m) :=
  ((s.updateFromContext exp src).updateFromTarget exp src).tick.recordBelief

/-- The commit block of `FlankerTask::run`, entered when the stop condition holds and
left with `break`. -/
def commit (exp : K → K) (src : RandomSource K S) (s : FlankerRun K S nd md n m) :
    Except String (FlankerRun K S nd md n m) := do
  let motorPlanning := s.task.arch.drawMotorPlanning src s.rng
  let s1 := { s with rng := motorPlanning.2 }
  let s2 ← s1.updateEvent "motorPlanEvent" s1.task.trialTime
    (s1.task.trialTime + motorPlanning.1)
  let resp : Int := if s.dv > 1 / 2 then 0 else 1
  let acc : Int := if resp = s.cresp then 1 else 0
  let s3 ← s2.update "Resp" (.scalar (resp : K))
  let s4 ← s3.update "Acc" (.scalar (acc : K))
  let sampsDuringMotorPlan : Int := truncToInt (motorPlanning.1 / s4.task.timePerStep)
  let s5 ← iterate (planStep exp src) sampsDuringMotorPlan.toNat s4
  let motorTimeDur := s5.task.arch.drawMotorExec src s5.rng
  let s6 := { s5 with rng := motorTimeDur.2 }
  let s7 ← s6.updateEvent "motorExecEvent" s6.task.trialTime
    (s6.task.trialTime + motorTimeDur.1)
  let rt := s7.task.trialTime + motorTimeDur.1 + s7.eblDur
  s7.update "RT" (.scalar rt)

/-- The part of `FlankerTask::run` after the premature-response block: the loop over
`samp`, the sampling event and the check `samp == _maxSamps`. -/
def accumulate (exp : K → K) (src : RandomSource K S) (s : FlankerRun K S nd md n m) :
    Except String (FlankerRun K S nd md n m) := do
  let r ← forSamp s.task.maxSamps (sampBody (accStep exp src) stop (commit exp src))
    s.task.maxSamps.toNat 0 s
  let s1 ← r.2.updateEvent "samplingEvent" r.2.sampStart r.2.task.trialTime
  if r.1 = s1.task.maxSamps then .error (maxSampsMessage s1.task.maxSamps)
  else .ok s1

end FlankerRun

namespace FlankerTask

variable {S : Type} {nd md n m : Nat} [FloorRing K]

/-- The part of `FlankerTask::run` before the premature-response block. -/
def prelude (src : RandomSource K S) (t : FlankerTask K nd md n m) (g : S) :
    Except String (FlankerRun K S nd md n m) := do
  let t0 := { t with trialTime := 0 }
  let eblDur := t0.arch.drawEBL src g
  let sampStart := t0.trialTime
  let drawn ← t0.toTask.drawTrialType src eblDur.2
  let t1 := { t0 with toTask := drawn.1 }
  let cresp : Int := if t1.target = 0 then 0 else 1
  let b1 ← t1.belief.setTrueStim t1.context t1.target
  let s : FlankerRun K S nd md n m :=
    { task := { t1 with belief := b1.reset }
      rng := drawn.2
      eblDur := eblDur.1
      sampStart := sampStart
      cresp := cresp
      dv := 0
      calls := [.setTrueStim t1.context t1.target, .reset] }
  s.updateEvent "eblEvent" 0 eblDur.1

/-- Method `FlankerTask::run`. -/
def run (exp : K → K) (src : RandomSource K S) (t : FlankerTask K nd md n m) (g : S) :
    Except String (FlankerRun K S nd md n m) := do
  let s ← t.prelude src g
  let d := s.prematureDraw src
  if d.1 then d.2.prematureBranch src
  else d.2.accumulate exp src

end FlankerTask

/-! ## `AxcptTask` -/

/-- The global `DBL_TOL = 10 * std::numeric_limits<double>::min()`, with
`numeric_limits<double>::min() = 2^(-1022)`. -/
def DBL_TOL : K := 10 * (1 / 2 ^ 1022)

/-- The variates consumed by `DecayBelief::updateFromContext(noise, trialTime, decayTo)`,
in the order in which the method draws them, and the state of the random source after
them: `(u, r, u2, z)` as in `DecayBelief.updateFromContext`. A variate that the path
taken does not draw is reported as `0`; `DecayBelief.updateFromContext` does not read it
on that path. -/
def DecayBelief.drawVariates {S : Type} {n m : Nat} (exp : K → K) (src : RandomSource K S)
    (b : DecayBelief K n m) (trialTime : K) (decayTo : PriorType) (g : S) :
    (K × Int × K × K) × S :=
  if b.decayRate = 0 ∨ trialTime = 0 then
    let z := src.randn g
    ((0, 0, 0, z.1), z.2)
  else
    let u := src.randu g
    if RNG.rbernoulli (exp (-b.decayRate * trialTime)) u.1 = 0 then
      match decayTo with
      | .Uniform =>
        let r := src.randi ((n : Int) - 1) u.2
        let z := src.randn r.2
        ((u.1, r.1, 0, z.1), z.2)
      | .Informative =>
        let u2 := src.randu u.2
        let z := src.randn u2.2
        ((u.1, 0, u2.1, z.1), z.2)
    else
      let z := src.randn u.2
      ((u.1, 0, 0, z.1), z.2)

/-- State of an `AxcptTask` object; `_belief` points to a `DecayBelief`. -/
structure AxcptTask (K : Type) (nd md n m : Nat) extends Task K nd md where
  belief : DecayBelief K n m
  arch : Architecture K
  trialTime : K
  timePerStep : K
  retentionIntervalDur : K
  nPrecomputeSamps : Int
  retentionNoise : K
  contextNoise : K
  targetNoise : K
  decisionThresh : K
  pPrematureResponse : K
  maxTrials : Int
  maxSamps : Int
  decayTo : PriorType

/-- The block of `AxcptTask::AxcptTask` that sets `_contextNoise` and `_targetNoise`;
`sqrt` is the C function. -/
def AxcptTask.noises {nd md n m : Nat} (sqrt : K → K) (c : TaskConfig K nd md n m) :
    Except String (K × K) :=
  if c.totalNoise.isSome ∧ c.proportionContextNoise.isSome then
    if c.contextNoise.isSome ∨ c.targetNoise.isSome then
      .error "ERROR: have totalNoise and proportionContextNoise but also direct assignments of context or target noise!"
    else do
      let totalNoise ← Config.get "totalNoise" c.totalNoise
      let totalNoiseVar := totalNoise * totalNoise
      let proportionContextNoise ← Config.get "proportionContextNoise" c.proportionContextNoise
      .ok (sqrt (totalNoiseVar * proportionContextNoise),
           sqrt (totalNoiseVar * (1 - proportionContextNoise)))
  else if c.contextNoise.isSome ∧ c.targetNoise.isSome then
    if c.totalNoise.isSome ∨ c.proportionContextNoise.isSome then
      .error "ERROR: have context or target noise but also assignments of totalNoise and proportionContextNoise!"
    else do
      let contextNoise ← Config.get "contextNoise" c.contextNoise
      let targetNoise ← Config.get "targetNoise" c.targetNoise
      .ok (contextNoise, targetNoise)
  else
    .error "ERROR: Unknown noise configuration! Need to pass in either contextNoise and targetNoise, or totalNoise and proportionContextNoise!"

/-- Constructor `AxcptTask::AxcptTask(const Config*, Recorder*)`. The member
`_nPrecomputeSamps` is an `int` initialised to `-1`, and the first check compares it
with its own conversion to `int`. -/
def AxcptTask.ctor {nd md n m : Nat} (sqrt : K → K) (c : TaskConfig K nd md n m)
    (r : Recorder K) : Except String (AxcptTask K nd md n m) := do
  let task ← Task.ctor c r
  let arch := Architecture.ctor c
  let nPrecomputeSamps : Int := -1
  let _ ← DecayBelief.ctor c.toConfig
  let noise ← AxcptTask.noises sqrt c
  let retentionNoise := match c.retentionNoise with
    | some v => v
    | none => noise.1
  if nPrecomputeSamps ≠ nPrecomputeSamps then
    .error "ERROR: Retention interval duration does not divide evenly into timePerStep! This is undefined behavior -- what's happening during that extra partial sample?"
  else if noise.1 < 0 then .error "ERROR: contextNoise < 0, did you set it?"
  else if noise.2 < 0 then .error "ERROR: targetNoise < 0, did you set it?"
  else if c.decisionThresh < 0 then
    .error "ERROR: decisionThresh < 0, did you set it (MinimalArchAxcptTask is implemented in prob space, not log space)?"
  else if c.decisionThresh ≥ 1 then
    .error "ERROR: decisionThresh >=1 (MinimalArchAxcptTask is implemented in prob space, not log space) "
  else do
    let belief ← DecayBelief.ctor c.toConfig
    .ok { toTask := task
          belief := belief
          arch := arch
          trialTime := -1
          timePerStep := c.timePerStep
          retentionIntervalDur := c.retentionIntervalDur
          nPrecomputeSamps := nPrecomputeSamps
          retentionNoise := retentionNoise
          contextNoise := noise.1
          targetNoise := noise.2
          decisionThresh := c.decisionThresh
          pPrematureResponse := c.pPrematureResp
          maxTrials := c.maxTrials
          maxSamps := c.maxSamps
          decayTo := match c.decayTo with
            | none => .Informative
            | some v => if v = 0 then .Informative else .Uniform }

/-- The object, the state of the random source and the local variables of
`AxcptTask::run`. `calls` is the trace of the calls made on `_belief` during the run,
with the variates they consumed; it is not a variable of the program. -/
structure AxcptRun (K S : Type) (nd md n m : Nat) where
  task : AxcptTask K nd md n m
  rng : S
  eblDur : K
  sampStart : K
  cresp : Int
  dv : K
  oldDv : K
  calls : List (Call K)

namespace AxcptRun

variable {S : Type} {nd md n m : Nat}

/-- The call `_recorder->updateDatum(_trialLabel + key, val)`. -/
def update (s : AxcptRun K S nd md n m) (key : String) (val : Obs K) :
    Except String (AxcptRun K S nd md n m) :=
  match s.task.recorder.updateDatum (s.task.trialLabel ++ key) val with
  | .error e => .error e
  | .ok r => .ok { s with task := { s.task with recorder := r } }

/-- The call `_recorder->updateDatum(_trialLabel + key, Event(start, stop))`. -/
def updateEvent (s : AxcptRun K S nd md n m) (key : String) (start stop : K) :
    Except String (AxcptRun K S nd md n m) :=
  match Event.ctor start stop with
  | .error e => .error e
  | .ok ev => s.update key ev

/-- Method `AxcptTask::_recordBelief`. -/
def recordBelief (s : AxcptRun K S nd md n m) : Except String (AxcptRun K S nd md n m) :=
  s.update "post" (.timepoint s.task.trialTime (Mat.vectorise s.task.belief.getBelief))

/-- The call `_belief->updateFromContext(_contextNoise)` of the base method. -/
def updateFromContext (exp : K → K) (src : RandomSource K S) (s : AxcptRun K S nd md n m) :
    AxcptRun K S nd md n m :=
  let z := src.randn s.rng
  { s with
    rng := z.2
    task := { s.task with belief := { s.task.belief with
      toBelief := s.task.belief.toBelief.updateFromContext exp s.task.contextNoise z.1 } }
    calls := s.calls ++ [.base (.updateFromContext s.task.contextNoise z.1)] }

/-- The call `_belief->updateFromTarget(_targetNoise)`. -/
def updateFromTarget (exp : K → K) (src : RandomSource K S) (s : AxcptRun K S nd md n m) :
    AxcptRun K S nd md n m :=
  let z := src.randn s.rng
  { s with
    rng := z.2
    task := { s.task with belief := { s.task.belief with
      toBelief := s.task.belief.toBelief.updateFromTarget exp s.task.targetNoise z.1 } }
    calls := s.calls ++ [.base (.updateFromTarget s.task.targetNoise z.1)] }

/-- The call
`static_cast<DecayBelief*>(_belief)->updateFromContext(noise, _trialTime, _decayTo)`. -/
def decayingUpdate (exp : K → K) (src : RandomSource K S) (s : AxcptRun K S nd md n m)
    (noise : K) : Except String (AxcptRun K S nd md n m) :=
  let v := DecayBelief.drawVariates exp src s.task.belief s.task.trialTime s.task.decayTo s.rng
  match s.task.belief.updateFromContext exp noise s.task.trialTime s.task.decayTo
      v.1.1 v.1.2.1 v.1.2.2.1 v.1.2.2.2 with
  | .error e => .error e
  | .ok res =>
    .ok { s with
      rng := v.2
      task := { s.task with belief := res.2 }
      calls := s.calls ++ [.decayUpdate noise s.task.trialTime s.task.decayTo
        v.1.1 v.1.2.1 v.1.2.2.1 v.1.2.2.2] }

/-- The statement `_trialTime += _timePerStep`. -/
def tick (s : AxcptRun K S nd md n m) : AxcptRun K S nd md n m :=
  { s with task := { s.task with trialTime := s.task.trialTime + s.task.timePerStep } }

/-- The body of the loop of `AxcptTask::_precomputeSamples`. -/
def precomputeStep (exp : K → K) (src : RandomSource K S) (s : AxcptRun K S nd md n m) :
    Except String (AxcptRun K S nd md n m) :=
  match s.recordBelief with
  | .error e => .error e
  | .ok s1 => s1.tick.decayingUpdate exp src s1.task.retentionNoise

/-- Method `AxcptTask::_precomputeSamples`. The loop counter is `unsigned`, so that the
bound `_nPrecomputeSamps` is converted to `unsigned` (32 bits) in the comparison. -/
def precomputeSamples (exp : K → K) (src : RandomSource K S) (s : AxcptRun K S nd md n m) :
    Except String (AxcptRun K S nd md n m) :=
  match iterate (precomputeStep exp src) (s.task.nPrecomputeSamps % 2 ^ 32).toNat s with
  | .error e => .error e
  | .ok s1 =>
    s1.updateEvent "samplingContextEvent" 0
      ((s1.task.nPrecomputeSamps : K) * s1.task.timePerStep)

variable [FloorRing K]

/-- The test `_pPrematureResponse > 0` and, if it holds, the draw
`RNG::rbernoulli(_pPrematureResponse)`: whether the premature branch is taken, and the
state after the draw. -/
def prematureDraw (src : RandomSource K S) (s : AxcptRun K S nd md n m) :
    Bool × AxcptRun K S nd md n m :=
  if s.task.pPrematureResponse > 0 then
    let prematureResponse := src.rbernoulli s.task.pPrematureResponse s.rng
    (decide (prematureResponse.1 = 1), { s with rng := prematureResponse.2 })
  else (false, s)

/-- The block of `AxcptTask::run` executed when `prematureResponse == 1`. -/
def prematureBranch (src : RandomSource K S) (s : AxcptRun K S nd md n m) :
    Except String (AxcptRun K S nd md n m) := do
  let motorPlanning := s.task.arch.drawMotorPlanning src s.rng
  let motorTimeDur := s.task.arch.drawMotorExec src motorPlanning.2
  let resp := src.rbernoulli (1 / 2) motorTimeDur.2
  let acc : Int := if resp.1 = s.cresp then 1 else 0
  let s1 := { s with rng := resp.2 }
  let s2 ← s1.updateEvent "motorPlanEvent" 0 motorPlanning.1
  let s3 ← s2.update "Resp" (.scalar (resp.1 : K))
  let s4 ← s3.update "Acc" (.scalar (acc : K))
  let s5 ← s4.updateEvent "motorExecEvent" 0 motorTimeDur.1
  s5.update "RT" (.scalar motorTimeDur.1)

/-- One pass of the loop over `samp` of `AxcptTask::run` up to the assignment of `dv`. -/
def accStep (exp : K → K) (src : RandomSource K S) (s : AxcptRun K S nd md n m) :
    Except String (AxcptRun K S nd md n m) := do
  let s1 ← s.decayingUpdate exp src s.task.contextNoise
  let s2 := s1.updateFromTarget exp src
  let post := s2.task.belief.getBelief
  let s3 ← s2.tick.recordBelief
  .ok { s3 with oldDv := s3.dv, dv := Mat.trace post }

/-- The stop condition
`dv > _decisionThresh || dv < (1-_decisionThresh) || (fabs(oldDv-dv) <= DBL_TOL)`. -/
def stop (s : AxcptRun K S nd md n m) : Bool :=
  decide (s.dv > s.task.decisionThresh ∨ s.dv < 1 - s.task.decisionThresh
    ∨ |s.oldDv - s.dv| ≤ DBL_TOL)

/-- The body of the loop over `i` in the commit block of `AxcptTask::run`. -/
def planStep (exp : K → K) (src : RandomSource K S) (s : AxcptRun K S nd md n m) :
    Except String (AxcptRun K S nd md n m) :=
  ((s.updateFromContext exp src).updateFromTarget exp src).tick.recordBelief

/-- The commit block of `AxcptTask::run`, entered when the stop condition holds and left
with `break`. -/
def commit (exp : K → K) (src : RandomSource K S) (s : AxcptRun K S nd md n m) :
    Except String (AxcptRun K S nd md n m) := do
  let motorPlanning := s.task.arch.drawMotorPlanning src s.rng
  let s1 := { s with rng := motorPlanning.2 }
  let s2 ← s1.updateEvent "motorPlanEvent" s1.task.trialTime
    (s1.task.trialTime + motorPlanning.1)
  let resp : Int := if s.dv > 1 / 2 then 1 else 0
  let acc : Int := if resp = s.cresp then 1 else 0
  let s3 ← s2.update "Resp" (.scalar (resp : K))
  let s4 ← s3.update "Acc" (.scalar (acc : K))
  let sampsDuringMotorPlan : Int := truncToInt (motorPlanning.1 / s4.task.timePerStep)
  let s5 ← iterate (planStep exp src) sampsDuringMotorPlan.toNat s4
  let motorTimeDur := s5.task.arch.drawMotorExec src s5.rng
  let s6 := { s5 with rng := motorTimeDur.2 }
  let s7 ← s6.updateEvent "motorExecEvent" s6.task.trialTime
    (s6.task.trialTime + motorTimeDur.1)
  let rt := s7.task.trialTime + motorTimeDur.1 - s7.task.retentionIntervalDur + s7.eblDur
  let s8 ← s7.update "RT" (.scalar rt)
  if acc = 1 then s8.update "CorrectRT" (.scalar rt)
  else s8.update "IncorrectRT" (.scalar rt)

/-- The part of `AxcptTask::run` after the premature-response block: the loop over
`samp`, the sampling event and the check `samp == _maxSamps`. -/
def accumulate (exp : K → K) (src : RandomSource K S) (s : AxcptRun K S nd md n m) :
    Except String (AxcptRun K S nd md n m) := do
  let r ← forSamp s.task.maxSamps (sampBody (accStep exp src) stop (commit exp src))
    s.task.maxSamps.toNat 0 s
  let s1 ← r.2.updateEvent "samplingBothEvent" r.2.sampStart r.2.task.trialTime
  if r.1 = s1.task.maxSamps then .error (maxSampsMessage s1.task.maxSamps)
  else .ok s1

end AxcptRun

namespace AxcptTask

variable {S : Type} {nd md n m : Nat} [FloorRing K]

/-- The part of `AxcptTask::run` up to the recording of the eye-brain-lag event, before
the call of `_precomputeSamples`. -/
def start (src : RandomSource K S) (t : AxcptTask K nd md n m) (g : S) :
    Except String (AxcptRun K S nd md n m) := do
  let drawn ← t.toTask.drawTrialType src g
  let t1 := { t with toTask := drawn.1 }
  let b1 ← t1.belief.toBelief.setTrueStim t1.context t1.target
  let t2 := { t1 with belief := { t1.belief with toBelief := b1.reset }, trialTime := 0 }
  let cresp : Int := if t2.context = t2.target then 1 else 0
  let eblDur := t2.arch.drawEBL src drawn.2
  let t3 := { t2 with
    nPrecomputeSamps := truncToInt (t2.retentionIntervalDur / t2.timePerStep) }
  let s : AxcptRun K S nd md n m :=
    { task := t3
      rng := eblDur.2
      eblDur := eblDur.1
      sampStart := 0
      cresp := cresp
      dv := 0
      oldDv := 0
      calls := [.base (.setTrueStim t1.context t1.target), .base .reset] }
  s.updateEvent "eblEvent" t3.retentionIntervalDur (t3.retentionIntervalDur + eblDur.1)

/-- The part of `AxcptTask::run` before the premature-response block: it ends with the
call of `_precomputeSamples` and the initialisation of `dv`, `oldDv` and `sampStart`. -/
def prelude (exp : K → K) (src : RandomSource K S) (t : AxcptTask K nd md n m) (g : S) :
    Except String (AxcptRun K S nd md n m) := do
  let s ← t.start src g
  let s1 ← s.precomputeSamples exp src
  .ok { s1 with dv := 0, oldDv := 0, sampStart := s1.task.trialTime }

/-- Method `AxcptTask::run`. -/
def run (exp : K → K) (src : RandomSource K S) (t : AxcptTask K nd md n m) (g : S) :
    Except String (AxcptRun K S nd md n m) := do
  let s ← t.prelude exp src g
  let d := s.prematureDraw src
  if d.1 then d.2.prematureBranch src
  else d.2.accumulate exp src

end AxcptTask

/-! ## `utils::mean`, `utils::variance` and the summary datums of `recorder.h` -/

namespace utils

/-- Function `utils::mean`: the compensated sum divided by `container.size()`. -/
def mean (container : List K) : K := kahanSum container / ((container.length : Nat) : K)

/-- Function `utils::variance`. The divisor `container.size() - 1` is computed in the
unsigned type `size_t` (64 bits) before the division. -/
def variance (container : List K) : K :=
  let m := mean container
  let s2 := container.foldl (fun s2 x => s2 + (x - m) * (x - m)) 0
  s2 / (((container.length + 2 ^ 64 - 1) % 2 ^ 64 : Nat) : K)

end utils

/-- State of a `RawVectorsDatum<T>` object. -/
structure RawVectorsDatum (K : Type) where
  rawData : List K
  traceIds : List Int
  latestTraceId : Int

namespace RawVectorsDatum

/-- Constructor `RawVectorsDatum<T>::RawVectorsDatum()`, with the default member
initialiser `_latestTraceId = -1`. -/
def ctor : RawVectorsDatum K := { rawData := [], traceIds := [], latestTraceId := -1 }

/-- Method `RawVectorsDatum<T>::record`. -/
def record (d : RawVectorsDatum K) (val : K) : RawVectorsDatum K :=
  { d with traceIds := d.traceIds ++ [d.latestTraceId], rawData := d.rawData ++ [val] }

/-- Method `RawVectorsDatum<T>::getMean`. -/
def getMean (d : RawVectorsDatum K) : K := utils.mean d.rawData

/-- Method `RawVectorsDatum<T>::getVariance`. -/
def getVariance (d : RawVectorsDatum K) : K := utils.variance d.rawData

/-- Method `RawVectorsDatum<T>::getN`; sizes outside the range of `int` are not
modelled. -/
def getN (d : RawVectorsDatum K) : Int := (d.rawData.length : Int)

/-- Method `RawVectorsDatum<T>::getRawData`. -/
def getRawData (d : RawVectorsDatum K) : List K := d.rawData

/-- Method `RawVectorsDatum<T>::newTrial`. -/
def newTrial (d : RawVectorsDatum K) : RawVectorsDatum K :=
  { d with latestTraceId := d.latestTraceId + 1 }

end RawVectorsDatum

/-- State of an `IncrementalMeanVarianceDatum<T>` object. -/
structure IncrementalMeanVarianceDatum (K : Type) where
  mean : K
  ssq : K
  n : Int

namespace IncrementalMeanVarianceDatum

/-- Constructor `IncrementalMeanVarianceDatum<T>::IncrementalMeanVarianceDatum()`. -/
def ctor : IncrementalMeanVarianceDatum K := { mean := 0, ssq := 0, n := 0 }

/-- Method `IncrementalMeanVarianceDatum<T>::record`; counts outside the range of `int`
are not modelled. -/
def record (d : IncrementalMeanVarianceDatum K) (val : K) : IncrementalMeanVarianceDatum K :=
  let oldMean := d.mean
  let n := d.n + 1
  let mean := d.mean + (if n = 0 then val else (val - oldMean) / ((n : Int) : K))
  { mean := mean, ssq := d.ssq + (val - oldMean) * (val - mean), n := n }

/-- Method `IncrementalMeanVarianceDatum<T>::getMean`. -/
def getMean (d : IncrementalMeanVarianceDatum K) : K := d.mean

/-- Method `IncrementalMeanVarianceDatum<T>::getVariance`. -/
def getVariance (d : IncrementalMeanVarianceDatum K) : K := d.ssq / ((d.n - 1 : Int) : K)

/-- Method `IncrementalMeanVarianceDatum<T>::getN`. -/
def getN (d : IncrementalMeanVarianceDatum K) : Int := d.n

end IncrementalMeanVarianceDatum

/-! ## The other methods of `Recorder`, and the state in which a method exits

A method that can throw is also given with the state of the object at its exit: the pair
of the state reached when the method returns or throws, and the exception thrown, if
any. The statements are taken in the order of the source. -/

/-- The datum classes of `recorder.h`; `registerDatum` is instantiated with one of
them. -/
inductive DatumKind
  | GMMDatum
  | RawVectorsDatum
  | DummyDatum
  | IncrementalMeanVarianceDatum
  | EventDatum
  | TraceDatum
  deriving DecidableEq, Repr

namespace Recorder

/-- Method `Recorder::registerDatum<T>(key, ex)`: the state at the exit and the exception,
if any. `_contents[key] = new T` makes `key` a registered key whose datum has recorded
nothing; the class `T` of the datum is not part of the represented state. -/
def registerDatum (r : Recorder K) (key : String) (_T : DatumKind) :
    Recorder K × Option String :=
  if key ∈ r.keys then
    (r, some ("ERROR: attempting to register datum " ++ key
      ++ " which was already registered!"))
  else
    ({ keys := key :: r.keys, log := r.log.filter fun e => e.1 ≠ key }, none)

/-- Method `Recorder::getDatum<T>(key)`: the state at the exit, and the exception or the
datum returned, represented by the values handed to its `record` method. -/
def getDatum (r : Recorder K) (key : String) : Recorder K × Except String (List (Obs K)) :=
  if key ∉ r.keys then
    (r, .error ("ERROR: attempting to get datum " ++ key
      ++ " which was not registered to the recorder!"))
  else
    (r, .ok ((r.log.filter fun e => e.1 = key).map fun e => e.2))

/-- Method `Recorder::updateDatum(key, val)`: the state at the exit and the exception, if
any. -/
def updateDatumExit (r : Recorder K) (key : String) (val : Obs K) :
    Recorder K × Option String :=
  if key ∉ r.keys then
    (r, some ("ERROR: attempting to update datum " ++ key
      ++ " which was not registered to the recorder!"))
  else
    ({ r with log := r.log ++ [(key, val)] }, none)

/-- Method `Recorder::reset`: `_contents.clear()`. -/
def reset (_r : Recorder K) : Recorder K := { keys := [], log := [] }

end Recorder

/-- Method `Belief::setTrueStim`: the state at the exit and the exception, if any. The
four checks precede the two assignments. -/
def Belief.setTrueStimExit {n m : Nat} (b : Belief K n m) (trueContext trueTarget : Int) :
    Belief K n m × Option String :=
  if trueContext ≥ b.nContexts then (b, some "ERROR: setting context too high")
  else if trueContext < 0 then (b, some "ERROR: context < 0?!")
  else if trueTarget ≥ b.nTargets then (b, some "ERROR: setting target too high")
  else if trueTarget < 0 then (b, some "ERROR: target < 0?!")
  else
    let b1 := { b with trueContext := trueContext }
    let b2 := { b1 with trueTarget := trueTarget }
    (b2, none)

/-! ## Quantities named by the specification -/

/-- The Gaussian density `N(x; m, s) = exp(−(x−m)²/(2s²)) / (s·√(2π))` of the
specification; `sqrt2pi` stands for `√(2π)`. -/
def gaussianDensity (exp : K → K) (sqrt2pi : K) (x m s : K) : K :=
  exp (-(x - m) ^ 2 / (2 * s ^ 2)) / (s * sqrt2pi)

/-- Sum of all entries of a matrix. -/
def Mat.total {n m : Nat} (M : Mat K n m) : K := ∑ i, ∑ j, M i j

/-- The posterior is a probability mass function: entries `≥ 0` summing to 1. -/
def Belief.PosteriorOk {n m : Nat} (b : Belief K n m) : Prop :=
  (∀ i j, 0 ≤ b.getBelief i j) ∧ Mat.total b.getBelief = 1

/-- The construction-time data of a `DecayBelief` are as the specification assumes: a
prior with nonnegative entries summing to 1, its row sums as marginals, and a decay rate
that is not negative. -/
def DecayBelief.WellFormed {n m : Nat} (b : DecayBelief K n m) : Prop :=
  (∀ i j, 0 ≤ b.urPrior i j) ∧ Mat.total b.urPrior = 1 ∧
    b.contextMarginals = rowSums b.urPrior ∧ 0 ≤ b.decayRate

/-- The value of the local variable `normalizer` computed from a state whose likelihoods
are set: the compensated sum of `_belief % _lik`. -/
def Belief.normalizer {n m : Nat} (b : Belief K n m) : K :=
  utils.kahanSum (Mat.elems fun i j => b.belief i j * b.lik i j)

/-- The normalizer computed by a call of `Belief`, if it computes one. -/
def Belief.callNormalizer {n m : Nat} (exp : K → K) (b : Belief K n m) :
    BaseCall K → Option K
  | .reset => none
  | .setTrueStim _ _ => none
  | .updateFromContext noise z =>
    some (b.computeLikelihoods exp
      (RNG.rnorm (b.truthOf .Context) noise z) noise .Context).normalizer
  | .updateFromTarget noise z =>
    some (b.computeLikelihoods exp
      (RNG.rnorm (b.truthOf .Target) noise z) noise .Target).normalizer

/-- The normalizer computed by a call of `DecayBelief`, if it computes one. -/
def DecayBelief.callNormalizer {n m : Nat} (exp : K → K) (b : DecayBelief K n m) :
    Call K → Option K
  | .base c => b.toBelief.callNormalizer exp c
  | .decayUpdate noise trialTime decayTo u r u2 z =>
    if b.decayRate = 0 ∨ trialTime = 0 then
      b.toBelief.callNormalizer exp (.updateFromContext noise z)
    else
      match b.sampleAndLikelihood exp noise trialTime decayTo u r u2 z with
      | .ok (_, b1) => some b1.toBelief.normalizer
      | .error _ => none

/-- Every normalizer computed along a sequence of calls of `Belief` is non-zero. -/
def Belief.NormalizersNonzero {n m : Nat} (exp : K → K) :
    Belief K n m → List (BaseCall K) → Prop
  | _, [] => True
  | b, c :: cs =>
    (∀ v, b.callNormalizer exp c = some v → v ≠ 0) ∧
      Belief.NormalizersNonzero exp (b.call exp c) cs

/-- Every normalizer computed along a sequence of calls of `DecayBelief` is non-zero. -/
def DecayBelief.NormalizersNonzero {n m : Nat} (exp : K → K) :
    DecayBelief K n m → List (Call K) → Prop
  | _, [] => True
  | b, c :: cs =>
    (∀ v, b.callNormalizer exp c = some v → v ≠ 0) ∧
      DecayBelief.NormalizersNonzero exp (b.call exp c) cs

/-- The elapsed trial time passed to a decaying update is not negative. -/
def Call.TrialTimeNonneg : Call K → Prop
  | .base _ => True
  | .decayUpdate _ trialTime _ _ _ _ _ => 0 ≤ trialTime

/-- The noise passed to an update is positive. -/
def BaseCall.NoisePos : BaseCall K → Prop
  | .reset => True
  | .setTrueStim _ _ => True
  | .updateFromContext noise _ => 0 < noise
  | .updateFromTarget noise _ => 0 < noise

/-- The noise passed to an update is positive. -/
def Call.NoisePos : Call K → Prop
  | .base c => c.NoisePos
  | .decayUpdate noise _ _ _ _ _ _ => 0 < noise

/-- The cumulative probability `Σ_{j ≤ k} v(j)`: the sum of the first `k + 1` entries. -/
def cumulative {n : Nat} (v : Fin n → K) (k : Nat) : K := ((List.ofFn v).take (k + 1)).sum

/-- The state after the decaying update has sampled from context `truth` with
probability of a correct update `p`: likelihoods, product and renormalisation. -/
def DecayBelief.sampledFrom {n m : Nat} (exp : K → K) (b : DecayBelief K n m)
    (noise p : K) (truth : Int) (z : K) : DecayBelief K n m :=
  { b.computeLikelihoods exp (RNG.rnorm (truth : K) noise z) noise .Context p with
    toBelief := (b.computeLikelihoods exp (RNG.rnorm (truth : K) noise z) noise
      .Context p).toBelief.multiplyAndNormalize }

/-- The state after `ForgetBelief::contextForgetUpdate` has forgotten the context and
replaced it by `drawFrom`: the flag is set, the truth overwritten, the base context
update run. -/
def ForgetBelief.forgottenTo {n m : Nat} (exp : K → K) (b : ForgetBelief K n m) (noise : K)
    (drawFrom : Int) (z : K) : ForgetBelief K n m :=
  { toBelief := ({ b.toBelief with trueContext := drawFrom }).updateFromContext exp noise z,
    forgetProb := b.forgetProb, forgot := true }

/-! ## Repeated updates -/

/-- The state after `N` successive calls of `Belief::update` with the same source and
noise (`updateFromContext` for `Context`, `updateFromTarget` for `Target`); the `k`-th
call consumes the normal variate `z k`. -/
def Belief.repeatUpdate {n m : Nat} (exp : K → K) (b : Belief K n m) (source : UpdateSource)
    (noise : K) (z : Nat → K) : Nat → Belief K n m
  | 0 => b
  | N + 1 => (Belief.repeatUpdate exp b source noise z N).update exp source noise (z N)

/-- The evidence sample drawn by the `k`-th call of an update from `source`. -/
def Belief.sampleOf {n m : Nat} (b : Belief K n m) (source : UpdateSource) (noise : K)
    (z : Nat → K) (k : Nat) : K :=
  RNG.rnorm (b.truthOf source) noise (z k)

/-- The mean of the first `N` values of a sequence. -/
def runningMean (x : Nat → K) (N : Nat) : K := (∑ k in Finset.range N, x k) / N

/-- The mean that `_computeLikelihoods` assigns to the hypothesis of cell `(i, j)`. -/
def Belief.hypMean {n m : Nat} (b : Belief K n m) (source : UpdateSource)
    (i : Fin n) (j : Fin m) : K :=
  match source with
  | .Context => ((i : Nat) : K) * b.contextMeanSpacing
  | .Target => ((j : Nat) : K) * b.targetMeanSpacing

/-- The sum over the first `N` samples of the exponent `0.5 * a * a` of `RNG::dnorm`
evaluated at mean `mu`. -/
def energy (s : K) (x : Nat → K) (mu : K) (N : Nat) : K :=
  ∑ k in Finset.range N, 1 / 2 * ((x k - mu) / s) * ((x k - mu) / s)

/-! ## Test fixtures of `src/tests/belief_test.cpp` and further concrete engines -/

/-- The prior `0.5 0.2; 0.2 0.1` of the belief tests. -/
def testPrior : Mat K 2 2 := ![![1 / 2, 1 / 5], ![1 / 5, 1 / 10]]

/-- The configuration `urPrior = "0.5 0.2; 0.2 0.1"` of the belief tests. -/
def testConfig : Config K 2 2 :=
  { urPrior := testPrior, contextMeanSpacing := none, targetMeanSpacing := none,
    decayRate := none }

/-- The state constructed from `testConfig`. -/
def testBelief0 : Belief K 2 2 :=
  { trueContext := -1, trueTarget := -1, belief := testPrior, urPrior := testPrior,
    lik := fun _ _ => -1, contextMeanSpacing := 1, targetMeanSpacing := 1 }

/-- The state of the test engine after construction and `setTrueStim(0,0)`. -/
def testBelief : Belief K 2 2 :=
  { trueContext := 0, trueTarget := 0, belief := testPrior, urPrior := testPrior,
    lik := fun _ _ => -1, contextMeanSpacing := 1, targetMeanSpacing := 1 }

/-- The configuration of the test "Correct proportion of incorrect draws": the test
prior with `decayRate = 0.01`. -/
def testDecayConfig : Config K 2 2 :=
  { urPrior := testPrior, contextMeanSpacing := none, targetMeanSpacing := none,
    decayRate := some (1 / 100) }

/-- The state constructed from `testDecayConfig`. -/
def testDecayBelief : DecayBelief K 2 2 :=
  { trueContext := -1, trueTarget := -1, belief := testPrior, urPrior := testPrior,
    lik := fun _ _ => -1, contextMeanSpacing := 1, targetMeanSpacing := 1,
    contextMarginals := rowSums testPrior, decayRate := 1 / 100 }

/-- A `ForgetBelief` on the test prior with `_forgetProb = 0.5` that has not forgotten. -/
def testForgetBelief : ForgetBelief K 2 2 :=
  { trueContext := 0, trueTarget := 0, belief := testPrior, urPrior := testPrior,
    lik := fun _ _ => -1, contextMeanSpacing := 1, targetMeanSpacing := 1,
    forgetProb := 1 / 2, forgot := false }

/-- The test engine with `contextMeanSpacing = 2` after `setTrueStim(1,0)`. -/
def spacedBelief : Belief K 2 2 :=
  { trueContext := 1, trueTarget := 0, belief := testPrior, urPrior := testPrior,
    lik := fun _ _ => -1, contextMeanSpacing := 2, targetMeanSpacing := 1 }

/-- A configuration whose `urPrior` sums to 1 but has a negative entry. -/
def signedConfig : Config K 1 2 :=
  { urPrior := ![![3 / 2, -(1 / 2)]], contextMeanSpacing := none, targetMeanSpacing := none,
    decayRate := none }

/-- The state constructed from `signedConfig`. -/
def signedBelief : Belief K 1 2 :=
  { trueContext := -1, trueTarget := -1, belief := ![![3 / 2, -(1 / 2)]],
    urPrior := ![![3 / 2, -(1 / 2)]], lik := fun _ _ => -1,
    contextMeanSpacing := 1, targetMeanSpacing := 1 }

/-- The test prior with a negative decay rate, `decayRate = -1`. -/
def negDecayConfig : Config K 2 2 :=
  { urPrior := testPrior, contextMeanSpacing := none, targetMeanSpacing := none,
    decayRate := some (-1) }

/-- The state constructed from `negDecayConfig`. -/
def negDecayBelief : DecayBelief K 2 2 :=
  { trueContext := -1, trueTarget := -1, belief := testPrior, urPrior := testPrior,
    lik := fun _ _ => -1, contextMeanSpacing := 1, targetMeanSpacing := 1,
    contextMarginals := rowSums testPrior, decayRate := -1 }

/-- A random source whose state counts the variates drawn and whose primitives return
fixed values: `u` for `randu`, `z` for `randn`, `r` for `randi` and `gam` for
`_rgamma_gsl_arma`. -/
def countingSource (u z : K) (r : Int) (gam : K) : RandomSource K Nat :=
  { randu := fun g => (u, g + 1)
    randn := fun g => (z, g + 1)
    randi := fun _ g => (r, g + 1)
    rgammaRaw := fun _ _ g => (gam, g + 1) }

/-- The architecture of `src/tests/architecture_test.cpp` (`timePerStep = 1`) with
`motorSd = 1.5`. -/
def fractionalSdArchitecture : Architecture K :=
  { eblMean := 50, motorPlanMean := 150, motorExecuteMean := 125, eblSd := 20,
    motorSd := 3 / 2, timePerStep := 1 }

/-- The architecture of `src/tests/architecture_test.cpp` with `motorPlanMean = 0`. -/
def zeroPlanMeanArchitecture : Architecture K :=
  { eblMean := 50, motorPlanMean := 0, motorExecuteMean := 125, eblSd := 20,
    motorSd := 50, timePerStep := 1 }

/-- A random source whose gamma sampler returns the mean `k·θ` of the distribution it is
asked for; the other primitives return 0. -/
def meanSource : RandomSource K Nat :=
  { randu := fun g => (0, g + 1)
    randn := fun g => (0, g + 1)
    randi := fun _ g => (0, g + 1)
    rgammaRaw := fun k theta g => (k * theta, g + 1) }

/-- The sum of the entries of `trialDist` that precede cell `(c, t)` in row-major
order. -/
def precedingSum {nd md : Nat} (trialDist : Mat K nd md) (c : Fin nd) (t : Fin md) : K :=
  (((rowMajorCells nd md).takeWhile fun cell => decide (cell ≠ (c, t))).map
    fun cell => trialDist cell.1 cell.2).sum

/-- The trial distribution `0.25 0.25; 0.25 0.25` of `src/tests/task_test.cpp`. -/
def testTrialDist : Mat K 2 2 := ![![1 / 4, 1 / 4], ![1 / 4, 1 / 4]]

/-- A recorder with no key and an empty log. -/
def emptyRecorder : Recorder K := { keys := [], log := [] }

/-- The task of `src/tests/task_test.cpp` after construction. -/
def testTask : Task K 2 2 :=
  { trialDist := testTrialDist, context := -1, target := -1, trialLabel := "",
    recorder := emptyRecorder }

/-- The configuration written by `populateDefaults` of the AX-CPT and Flanker runners:
`timePerStep = 10`, `retentionIntervalDur = 200`, `maxTrials = 100`, `maxSamps = 1000`,
both noises `3`, `decisionThresh = 0.95`, `eblMean = 50`, both motor means `150`,
`eblSd = 20`, `motorSd = 50`, `urPrior` and `trialDist` `0.4 0.3; 0.2 0.1`,
`decayRate = 0.01`, `pPrematureResp = 0`. -/
def defaultTaskConfig : TaskConfig K 2 2 2 2 :=
  { urPrior := ![![2 / 5, 3 / 10], ![1 / 5, 1 / 10]]
    contextMeanSpacing := none
    targetMeanSpacing := none
    decayRate := some (1 / 100)
    trialDist := ![![2 / 5, 3 / 10], ![1 / 5, 1 / 10]]
    timePerStep := 10
    eblMean := 50
    eblSd := 20
    motorPlanMean := 150
    motorExecMean := 150
    motorSd := 50
    maxTrials := 100
    maxSamps := 1000
    decisionThresh := 19 / 20
    pPrematureResp := 0
    retentionIntervalDur := 200
    contextNoise := some 3
    targetNoise := some 3
    totalNoise := none
    proportionContextNoise := none
    retentionNoise := none
    decayTo := none }

/-- The datum names set by the constructor of `FlankerTask` (`_traceDatumNames`,
`_summaryDatumNames`, `_eventDatumNames`). -/
def FlankerTask.datumNames : List String :=
  ["post", "RT", "Resp", "Acc", "eblEvent", "motorPlanEvent", "motorExecEvent",
    "samplingEvent"]

/-- The datum names set by the constructor of `AxcptTask`. -/
def AxcptTask.datumNames : List String :=
  ["post", "RT", "Resp", "Acc", "CorrectRT", "IncorrectRT", "eblEvent", "motorPlanEvent",
    "motorExecEvent", "samplingBothEvent", "samplingContextEvent"]

/-- The keys registered by the constructors of the experiments in `src/experiment.cpp`:
for every datum name and every `c < nContexts`, `t < nTargets`, the key
`"Context" + to_string(c) + "_Target" + to_string(t) + "_" + name`. -/
def registeredKeys (nContexts nTargets : Nat) (names : List String) : List String :=
  names.flatMap fun name =>
    (List.range nContexts).flatMap fun c =>
      (List.range nTargets).map fun t => Task.labelOf c t ++ name

/-- The state of a Flanker run after `updateDatum(_trialLabel + key, val)` has
recorded `val`. -/
def FlankerRun.logged {S : Type} {nd md n m : Nat} (s : FlankerRun K S nd md n m)
    (key : String) (val : Obs K) : FlankerRun K S nd md n m :=
  { s with task := { s.task with recorder := { s.task.recorder with
      log := s.task.recorder.log ++ [(s.task.trialLabel ++ key, val)] } } }

/-- The state of an AX-CPT run after `updateDatum(_trialLabel + key, val)` has
recorded `val`. -/
def AxcptRun.logged {S : Type} {nd md n m : Nat} (s : AxcptRun K S nd md n m)
    (key : String) (val : Obs K) : AxcptRun K S nd md n m :=
  { s with task := { s.task with recorder := { s.task.recorder with
      log := s.task.recorder.log ++ [(s.task.trialLabel ++ key, val)] } } }

/-- Every datum name of the Flanker task is registered under the current trial label. -/
def FlankerRun.KeysRegistered {S : Type} {nd md n m : Nat} (s : FlankerRun K S nd md n m) :
    Prop :=
  ∀ name ∈ FlankerTask.datumNames, s.task.trialLabel ++ name ∈ s.task.recorder.keys

/-- Every datum name of the AX-CPT task is registered under the current trial label. -/
def AxcptRun.KeysRegistered {S : Type} {nd md n m : Nat} (s : AxcptRun K S nd md n m) :
    Prop :=
  ∀ name ∈ AxcptTask.datumNames, s.task.trialLabel ++ name ∈ s.task.recorder.keys

/-- The observations recorded by the premature-response block, in order: the motor
planning event, `Resp`, `Acc`, the motor execution event and `RT`. `u` is the uniform
variate of the coin flip. -/
def prematureLog (label : String) (cresp : Int) (motorPlanning motorTimeDur u : K) :
    List (String × Obs K) :=
  [(label ++ "motorPlanEvent", .event 0 motorPlanning),
   (label ++ "Resp", .scalar (if u < 1 / 2 then 1 else 0)),
   (label ++ "Acc", .scalar (if (if u < 1 / 2 then (1 : Int) else 0) = cresp then 1 else 0)),
   (label ++ "motorExecEvent", .event 0 motorTimeDur),
   (label ++ "RT", .scalar motorTimeDur)]

/-- The state in which the premature-response block of `FlankerTask::run` ends when
none of its calls throws. -/
def FlankerRun.prematureResult [FloorRing K] {S : Type} {nd md n m : Nat}
    (src : RandomSource K S) (s : FlankerRun K S nd md n m) : FlankerRun K S nd md n m :=
  let motorPlanning := s.task.arch.drawMotorPlanning src s.rng
  let motorTimeDur := s.task.arch.drawMotorExec src motorPlanning.2
  let resp := src.rbernoulli (1 / 2) motorTimeDur.2
  let acc : Int := if resp.1 = s.cresp then 1 else 0
  ((((({ s with rng := resp.2 } : FlankerRun K S nd md n m).logged "motorPlanEvent"
    (.event 0 motorPlanning.1)).logged "Resp" (.scalar (resp.1 : K))).logged "Acc"
    (.scalar (acc : K))).logged "motorExecEvent" (.event 0 motorTimeDur.1)).logged "RT"
    (.scalar motorTimeDur.1)

/-- The state in which the premature-response block of `AxcptTask::run` ends when none
of its calls throws. -/
def AxcptRun.prematureResult [FloorRing K] {S : Type} {nd md n m : Nat}
    (src : RandomSource K S) (s : AxcptRun K S nd md n m) : AxcptRun K S nd md n m :=
  let motorPlanning := s.task.arch.drawMotorPlanning src s.rng
  let motorTimeDur := s.task.arch.drawMotorExec src motorPlanning.2
  let resp := src.rbernoulli (1 / 2) motorTimeDur.2
  let acc : Int := if resp.1 = s.cresp then 1 else 0
  ((((({ s with rng := resp.2 } : AxcptRun K S nd md n m).logged "motorPlanEvent"
    (.event 0 motorPlanning.1)).logged "Resp" (.scalar (resp.1 : K))).logged "Acc"
    (.scalar (acc : K))).logged "motorExecEvent" (.event 0 motorTimeDur.1)).logged "RT"
    (.scalar motorTimeDur.1)

/-- Two states of a Flanker run that belong to the same trial of the same task: the
trial type, its label, the registered keys, the parameters of the task, the true
stimulus of the engine and the local constants of `run` agree. -/
structure FlankerRun.SameTrial {S : Type} {nd md n m : Nat}
    (s s1 : FlankerRun K S nd md n m) : Prop where
  trialLabel : s1.task.trialLabel = s.task.trialLabel
  context : s1.task.context = s.task.context
  target : s1.task.target = s.task.target
  keys : s1.task.recorder.keys = s.task.recorder.keys
  arch : s1.task.arch = s.task.arch
  timePerStep : s1.task.timePerStep = s.task.timePerStep
  contextNoise : s1.task.contextNoise = s.task.contextNoise
  targetNoise : s1.task.targetNoise = s.task.targetNoise
  decisionThresh : s1.task.decisionThresh = s.task.decisionThresh
  pPrematureResponse : s1.task.pPrematureResponse = s.task.pPrematureResponse
  maxSamps : s1.task.maxSamps = s.task.maxSamps
  trueContext : s1.task.belief.trueContext = s.task.belief.trueContext
  trueTarget : s1.task.belief.trueTarget = s.task.belief.trueTarget
  eblDur : s1.eblDur = s.eblDur
  sampStart : s1.sampStart = s.sampStart
  cresp : s1.cresp = s.cresp

/-- Two states of an AX-CPT run that belong to the same trial of the same task: the
trial type, its label, the registered keys, the parameters of the task, the true
stimulus of the engine and the local constants of `run` agree. -/
structure AxcptRun.SameTrial {S : Type} {nd md n m : Nat}
    (s s1 : AxcptRun K S nd md n m) : Prop where
  trialLabel : s1.task.trialLabel = s.task.trialLabel
  context : s1.task.context = s.task.context
  target : s1.task.target = s.task.target
  keys : s1.task.recorder.keys = s.task.recorder.keys
  arch : s1.task.arch = s.task.arch
  timePerStep : s1.task.timePerStep = s.task.timePerStep
  retentionIntervalDur : s1.task.retentionIntervalDur = s.task.retentionIntervalDur
  nPrecomputeSamps : s1.task.nPrecomputeSamps = s.task.nPrecomputeSamps
  retentionNoise : s1.task.retentionNoise = s.task.retentionNoise
  contextNoise : s1.task.contextNoise = s.task.contextNoise
  targetNoise : s1.task.targetNoise = s.task.targetNoise
  decisionThresh : s1.task.decisionThresh = s.task.decisionThresh
  pPrematureResponse : s1.task.pPrematureResponse = s.task.pPrematureResponse
  maxSamps : s1.task.maxSamps = s.task.maxSamps
  decayTo : s1.task.decayTo = s.task.decayTo
  trueContext : s1.task.belief.trueContext = s.task.belief.trueContext
  trueTarget : s1.task.belief.trueTarget = s.task.belief.trueTarget
  decayRate : s1.task.belief.decayRate = s.task.belief.decayRate
  eblDur : s1.eblDur = s.eblDur
  sampStart : s1.sampStart = s.sampStart
  cresp : s1.cresp = s.cresp

/-- A call of the decaying `updateFromContext` with the given noise. -/
def Call.IsDecayUpdateWith (noise : K) : Call K → Prop
  | .base _ => False
  | .decayUpdate noise1 _ _ _ _ _ _ => noise1 = noise

/-- The default configuration of the runners with the prior of the belief tests, the
trial distribution of the task test, `pPrematureResp = 1`, a retention interval of one
time step and no `decayRate` key. -/
def prematureConfig : TaskConfig K 2 2 2 2 :=
  { (defaultTaskConfig : TaskConfig K 2 2 2 2) with
    urPrior := testPrior
    decayRate := none
    trialDist := testTrialDist
    pPrematureResp := 1
    retentionIntervalDur := 10 }

/-- A recorder in which an experiment has registered the given datum names for two
contexts and two targets. -/
def registeredRecorder (names : List String) : Recorder K :=
  { keys := registeredKeys 2 2 names, log := [] }

/-- The `FlankerTask` constructed from `prematureConfig` and a recorder with the keys
of the task registered. -/
def prematureFlankerTask : FlankerTask K 2 2 2 2 :=
  { trialDist := testTrialDist
    context := -1
    target := -1
    trialLabel := ""
    recorder := registeredRecorder FlankerTask.datumNames
    belief := testBelief0
    arch := Architecture.ctor (prematureConfig : TaskConfig K 2 2 2 2)
    trialTime := -1
    timePerStep := 10
    contextNoise := 3
    targetNoise := 3
    decisionThresh := 19 / 20
    pPrematureResponse := 1
    maxTrials := 100
    maxSamps := 1000 }

/-- The `AxcptTask` constructed from `prematureConfig` and a recorder with the keys of
the task registered. -/
def prematureAxcptTask : AxcptTask K 2 2 2 2 :=
  { trialDist := testTrialDist
    context := -1
    target := -1
    trialLabel := ""
    recorder := registeredRecorder AxcptTask.datumNames
    belief := { toBelief := testBelief0, contextMarginals := rowSums testPrior, decayRate := 0 }
    arch := Architecture.ctor (prematureConfig : TaskConfig K 2 2 2 2)
    trialTime := -1
    timePerStep := 10
    retentionIntervalDur := 10
    nPrecomputeSamps := -1
    retentionNoise := 3
    contextNoise := 3
    targetNoise := 3
    decisionThresh := 19 / 20
    pPrematureResponse := 1
    maxTrials := 100
    maxSamps := 1000
    decayTo := .Informative }

/-- None of the first `k` passes of the sampling loop started in state `s` satisfies the
stop condition: each of these passes executes its sampling step, and the stop condition
is false in the state the step leaves. -/
def NoStopFor {σ : Type} (step : σ → Except String σ) (stop : σ → Bool) : Nat → σ → Prop
  | 0, _ => True
  | k + 1, s => ∃ s1, step s = .ok s1 ∧ stop s1 = false ∧ NoStopFor step stop k s1

/-- The sampling loop started in state `s` crosses on pass `j + 1`: the first `j` passes
execute and do not satisfy the stop condition, and pass `j + 1` executes and satisfies
it. -/
def CrossesAfter {σ : Type} (step : σ → Except String σ) (stop : σ → Bool) :
    Nat → σ → Prop
  | 0, s => ∃ s1, step s = .ok s1 ∧ stop s1 = true
  | j + 1, s => ∃ s1, step s = .ok s1 ∧ stop s1 = false ∧ CrossesAfter step stop j s1

/-- An error text that is not the text of the max-samples error, whatever the value of
`maxSamps`. -/
def NotMaxSamps (e : String) : Prop := ∀ maxSamps : Int, e ≠ maxSampsMessage maxSamps

/-- Every error that the computation can raise satisfies `P`. -/
def ErrorsIn {α : Type} (P : String → Prop) (x : Except String α) : Prop :=
  ∀ e, x = .error e → P e

/-- The Flanker fixture with `pPrematureResp = 0`, `decisionThresh = 0` and the given
`maxSamps`. -/
def guardFlankerTask (maxSamps : Int) : FlankerTask K 2 2 2 2 :=
  { (prematureFlankerTask : FlankerTask K 2 2 2 2) with
    pPrematureResponse := 0
    decisionThresh := 0
    maxSamps := maxSamps }

/-- The AX-CPT fixture with `pPrematureResp = 0`, `decisionThresh = 0` and the given
`maxSamps`. -/
def guardAxcptTask (maxSamps : Int) : AxcptTask K 2 2 2 2 :=
  { (prematureAxcptTask : AxcptTask K 2 2 2 2) with
    pPrematureResponse := 0
    decisionThresh := 0
    maxSamps := maxSamps }

/-- The state of a Flanker run when the commit block has recorded the motor planning
event, `Resp` and `Acc`, before its loop over `i`. -/
def FlankerRun.committed [FloorRing K] {S : Type} {nd md n m : Nat}
    (src : RandomSource K S) (s : FlankerRun K S nd md n m) : FlankerRun K S nd md n m :=
  let motorPlanning := s.task.arch.drawMotorPlanning src s.rng
  let resp : Int := if s.dv > 1 / 2 then 0 else 1
  let acc : Int := if resp = s.cresp then 1 else 0
  ((({ s with rng := motorPlanning.2 } : FlankerRun K S nd md n m).logged "motorPlanEvent"
    (.event s.task.trialTime (s.task.trialTime + motorPlanning.1))).logged "Resp"
    (.scalar (resp : K))).logged "Acc" (.scalar (acc : K))

/-- The value of `sampsDuringMotorPlan` in the commit block of `FlankerTask::run`, as
the number of passes of the loop over `i`. -/
def FlankerRun.planSamps [FloorRing K] {S : Type} {nd md n m : Nat}
    (src : RandomSource K S) (s : FlankerRun K S nd md n m) : Nat :=
  (truncToInt ((s.task.arch.drawMotorPlanning src s.rng).1 / s.task.timePerStep)).toNat

/-- The state in which the commit block of `FlankerTask::run` ends, from the state left
by its loop over `i`: the motor execution event and `RT` are recorded. -/
def FlankerRun.executed [FloorRing K] {S : Type} {nd md n m : Nat}
    (src : RandomSource K S) (s : FlankerRun K S nd md n m) : FlankerRun K S nd md n m :=
  let motorTimeDur := s.task.arch.drawMotorExec src s.rng
  (({ s with rng := motorTimeDur.2 } : FlankerRun K S nd md n m).logged "motorExecEvent"
    (.event s.task.trialTime (s.task.trialTime + motorTimeDur.1))).logged "RT"
    (.scalar (s.task.trialTime + motorTimeDur.1 + s.eblDur))

/-- The state of an AX-CPT run when the commit block has recorded the motor planning
event, `Resp` and `Acc`, before its loop over `i`. -/
def AxcptRun.committed [FloorRing K] {S : Type} {nd md n m : Nat}
    (src : RandomSource K S) (s : AxcptRun K S nd md n m) : AxcptRun K S nd md n m :=
  let motorPlanning := s.task.arch.drawMotorPlanning src s.rng
  let resp : Int := if s.dv > 1 / 2 then 1 else 0
  let acc : Int := if resp = s.cresp then 1 else 0
  ((({ s with rng := motorPlanning.2 } : AxcptRun K S nd md n m).logged "motorPlanEvent"
    (.event s.task.trialTime (s.task.trialTime + motorPlanning.1))).logged "Resp"
    (.scalar (resp : K))).logged "Acc" (.scalar (acc : K))

/-- The value of `sampsDuringMotorPlan` in the commit block of `AxcptTask::run`, as the
number of passes of the loop over `i`. -/
def AxcptRun.planSamps [FloorRing K] {S : Type} {nd md n m : Nat}
    (src : RandomSource K S) (s : AxcptRun K S nd md n m) : Nat :=
  (truncToInt ((s.task.arch.drawMotorPlanning src s.rng).1 / s.task.timePerStep)).toNat

/-- The state in which the commit block of `AxcptTask::run` ends, from the state left by
its loop over `i` and the value of `acc`: the motor execution event, `RT` and
`CorrectRT` or `IncorrectRT` are recorded. -/
def AxcptRun.executed [FloorRing K] {S : Type} {nd md n m : Nat}
    (src : RandomSource K S) (acc : Int) (s : AxcptRun K S nd md n m) :
    AxcptRun K S nd md n m :=
  let motorTimeDur := s.task.arch.drawMotorExec src s.rng
  let rt := s.task.trialTime + motorTimeDur.1 - s.task.retentionIntervalDur + s.eblDur
  ((({ s with rng := motorTimeDur.2 } : AxcptRun K S nd md n m).logged "motorExecEvent"
    (.event s.task.trialTime (s.task.trialTime + motorTimeDur.1))).logged "RT"
    (.scalar rt)).logged (if acc = 1 then "CorrectRT" else "IncorrectRT") (.scalar rt)

/-- The value of `resp` computed by the commit block of `AxcptTask::run`. -/
def AxcptRun.resp {S : Type} {nd md n m : Nat} (s : AxcptRun K S nd md n m) : Int :=
  if s.dv > 1 / 2 then 1 else 0

/-- The value of `acc` computed by the commit block of `AxcptTask::run`. -/
def AxcptRun.acc {S : Type} {nd md n m : Nat} (s : AxcptRun K S nd md n m) : Int :=
  if s.resp = s.cresp then 1 else 0

/-- The value of `resp` computed by the commit block of `FlankerTask::run`. -/
def FlankerRun.resp {S : Type} {nd md n m : Nat} (s : FlankerRun K S nd md n m) : Int :=
  if s.dv > 1 / 2 then 0 else 1

/-- The value of `acc` computed by the commit block of `FlankerTask::run`. -/
def FlankerRun.acc {S : Type} {nd md n m : Nat} (s : FlankerRun K S nd md n m) : Int :=
  if s.resp = s.cresp then 1 else 0

/-! ## Frame of the belief updates, and trials of `ForgetBelief` -/

/-- The members of a `Belief` other than the posterior `_belief` and the likelihood
scratch matrix `_lik` are the same in `b1` as in `b`. -/
def Belief.SameFrame {n m : Nat} (b b1 : Belief K n m) : Prop :=
  b1.urPrior = b.urPrior ∧ b1.trueContext = b.trueContext ∧ b1.trueTarget = b.trueTarget ∧
    b1.nContexts = b.nContexts ∧ b1.nTargets = b.nTargets ∧
    b1.contextMeanSpacing = b.contextMeanSpacing ∧
    b1.targetMeanSpacing = b.targetMeanSpacing

/-- The arguments of one call of `ForgetBelief::contextForgetUpdate` and the variates it
may consume. -/
structure ForgetCall (K : Type) where
  noise : K
  forgetTo : PriorType
  u : K
  r : Int
  u2 : K
  z : K

/-- The state of a `ForgetBelief` after `contextForgetUpdate` on the arguments `c`. -/
def ForgetBelief.forgetCall {n m : Nat} (exp : K → K) (b : ForgetBelief K n m)
    (c : ForgetCall K) : Except String (Int × ForgetBelief K n m) :=
  b.contextForgetUpdate exp c.noise c.forgetTo c.u c.r c.u2 c.z

/-- A sequence of `contextForgetUpdate` calls with no `reset()` in between: the values
returned, in order, and the final state; the first exception ends the sequence. -/
def ForgetBelief.calls {n m : Nat} (exp : K → K) (b : ForgetBelief K n m) :
    List (ForgetCall K) → Except String (List Int × ForgetBelief K n m)
  | [] => .ok ([], b)
  | c :: cs =>
    match b.forgetCall exp c with
    | .error e => .error e
    | .ok (ret, b1) =>
      match ForgetBelief.calls exp b1 cs with
      | .error e => .error e
      | .ok (rets, b2) => .ok (ret :: rets, b2)

/-- The plain context update `Belief::updateFromContext(noise)` on a `ForgetBelief`. -/
def ForgetBelief.plainUpdate {n m : Nat} (exp : K → K) (b : ForgetBelief K n m)
    (noise z : K) : ForgetBelief K n m :=
  { b with toBelief := b.toBelief.updateFromContext exp noise z }

/-- The elapsed trial time passed to a decaying `updateFromContext`; `none` for a call of
an inherited method. -/
def Call.decayTime : Call K → Option K
  | .base _ => none
  | .decayUpdate _ trialTime _ _ _ _ _ => some trialTime

/-- The configuration `prematureConfig` with the given `retentionIntervalDur`. -/
def retentionConfig (ret : K) : TaskConfig K 2 2 2 2 :=
  { (prematureConfig : TaskConfig K 2 2 2 2) with retentionIntervalDur := ret }

/-- The `AxcptTask` constructed from `retentionConfig ret` and a recorder with the keys
of the task registered. -/
def retentionAxcptTask (ret : K) : AxcptTask K 2 2 2 2 :=
  { (prematureAxcptTask : AxcptTask K 2 2 2 2) with retentionIntervalDur := ret }

/-- The observations that a committed trial of `FlankerTask::run` records after the stop
condition holds, in order: the motor planning event, `Resp`, `Acc`, the posteriors `posts`
of the samples taken during motor planning, the motor execution event, `RT` and the
sampling event. -/
def FlankerTask.trialLog (label : String) (planEvent : Obs K) (resp acc : Int)
    (posts : List (String × Obs K)) (execEvent : Obs K) (rt : K) (sampling : Obs K) :
    List (String × Obs K) :=
  [(label ++ "motorPlanEvent", planEvent),
   (label ++ "Resp", .scalar ((resp : Int) : K)),
   (label ++ "Acc", .scalar ((acc : Int) : K))] ++ posts ++
  [(label ++ "motorExecEvent", execEvent),
   (label ++ "RT", .scalar rt),
   (label ++ "samplingEvent", sampling)]

/-- The observations that a committed trial of `AxcptTask::run` records after the stop
condition holds, in order: the motor planning event, `Resp`, `Acc`, the posteriors `posts`
of the samples taken during motor planning, the motor execution event, `RT`, `CorrectRT`
or `IncorrectRT`, and the sampling event. -/
def AxcptTask.trialLog (label : String) (planEvent : Obs K) (resp acc : Int)
    (posts : List (String × Obs K)) (execEvent : Obs K) (rt : K) (sampling : Obs K) :
    List (String × Obs K) :=
  [(label ++ "motorPlanEvent", planEvent),
   (label ++ "Resp", .scalar ((resp : Int) : K)),
   (label ++ "Acc", .scalar ((acc : Int) : K))] ++ posts ++
  [(label ++ "motorExecEvent", execEvent),
   (label ++ "RT", .scalar rt),
   (label ++ (if acc = 1 then "CorrectRT" else "IncorrectRT"), .scalar rt),
   (label ++ "samplingBothEvent", sampling)]

/-! ## Sample statistics -/

/-- The mean `(Σ x_i)/n` of the specification. -/
def sampleMean (xs : List K) : K := xs.sum / ((xs.length : Nat) : K)

/-- The sample variance `Σ (x_i − mean)²/(n − 1)` of the specification. -/
def sampleVariance (xs : List K) : K :=
  (xs.map fun x => (x - sampleMean xs) ^ 2).sum / (((xs.length : Nat) : K) - 1)

/-- The values recorded by the test cases of `src/tests/recorder_test.cpp`. -/
def testInputVec : List K := [1 / 10, 2, 3, 41 / 10, 57 / 10, 32 / 5]

/-! ## An engine whose prior excludes a context -/

/-- A prior that gives no mass to the second context: `urPrior = "0.5 0.5; 0 0"`. -/
def excludingPrior : Mat K 2 2 := ![![1 / 2, 1 / 2], ![0, 0]]

/-- The state of an engine constructed from `excludingPrior` after `setTrueStim(0,0)`. -/
def excludingBelief : Belief K 2 2 :=
  { trueContext := 0, trueTarget := 0, belief := excludingPrior, urPrior := excludingPrior,
    lik := fun _ _ => -1, contextMeanSpacing := 1, targetMeanSpacing := 1 }

/-- The `DecayBelief` on `excludingPrior` with `decayRate = 0.01`. -/
def excludingDecayBelief : DecayBelief K 2 2 :=
  { toBelief := excludingBelief, contextMarginals := rowSums excludingPrior,
    decayRate := 1 / 100 }

/-- The `ForgetBelief` on `excludingPrior` with `_forgetProb = 0.5` that has not
forgotten. -/
def excludingForgetBelief : ForgetBelief K 2 2 :=
  { toBelief := excludingBelief, forgetProb := 1 / 2, forgot := false }

/-! ## Fixture tasks with a given threshold and maximum number of samples -/

/-- The configuration `prematureConfig` with `pPrematureResp = 0` and the given
`decisionThresh` and `maxSamps`. -/
def threshConfig (thresh : K) (maxSamps : Int) : TaskConfig K 2 2 2 2 :=
  { (prematureConfig : TaskConfig K 2 2 2 2) with
    pPrematureResp := 0
    decisionThresh := thresh
    maxSamps := maxSamps }

/-- The Flanker fixture with `pPrematureResp = 0` and the given `decisionThresh` and
`maxSamps`. -/
def threshFlankerTask (thresh : K) (maxSamps : Int) : FlankerTask K 2 2 2 2 :=
  { (prematureFlankerTask : FlankerTask K 2 2 2 2) with
    pPrematureResponse := 0
    decisionThresh := thresh
    maxSamps := maxSamps }

/-- The AX-CPT fixture with `pPrematureResp = 0` and the given `decisionThresh` and
`maxSamps`. -/
def threshAxcptTask (thresh : K) (maxSamps : Int) : AxcptTask K 2 2 2 2 :=
  { (prematureAxcptTask : AxcptTask K 2 2 2 2) with
    pPrematureResponse := 0
    decisionThresh := thresh
    maxSamps := maxSamps }

/-! ## Logs that extend a log -/

/-- The log `log1` is the log `log` followed by observations recorded under keys
`label ++ name` with `name` in `names`. -/
def LogExtendsBy (label : String) (names : List String)
    (log log1 : List (String × Obs K)) : Prop :=
  ∃ P : List (String × Obs K), log1 = log ++ P ∧ ∀ e ∈ P, ∃ name ∈ names, e.1 = label ++ name

/-! ## Basic facts about the embedding -/

namespace utils

theorem foldl_kahanStep (l : List K) (s : K) :
    l.foldl kahanStep (s, 0) = (s + l.sum, 0) := by
  induction l generalizing s with
  | nil => simp
  | cons x xs ih =>
    have hstep : kahanStep (s, 0) x = (s + x, 0) := by
      simp [kahanStep]
    rw [List.foldl_cons, hstep, ih, List.sum_cons, add_assoc]

theorem kahanSum_eq_sum (l : List K) : kahanSum l = l.sum := by
  unfold kahanSum
  rw [foldl_kahanStep]
  simp

end utils

theorem Mat.sum_elems {n m : Nat} (M : Mat K n m) : (Mat.elems M).sum = Mat.total M := by
  unfold Mat.elems Mat.total
  rw [Finset.sum_comm]
  have h : ∀ (l : List (Fin m)),
      (l.flatMap fun j => (List.finRange n).map fun i => M i j).sum
        = (l.map fun j => ∑ i, M i j).sum := by
    intro l
    induction l with
    | nil => simp
    | cons a l ih =>
      simp only [List.flatMap_cons, List.sum_append, List.map_cons, List.sum_cons, ih]
      rw [Fin.sum_univ_def]
  rw [h, Fin.sum_univ_def]

theorem Mat.kahanSum_elems {n m : Nat} (M : Mat K n m) :
    utils.kahanSum (Mat.elems M) = Mat.total M := by
  rw [utils.kahanSum_eq_sum, Mat.sum_elems]

namespace Belief

variable {n m : Nat}

theorem multiplyAndNormalize_belief (b : Belief K n m) (c : Fin n) (t : Fin m) :
    (multiplyAndNormalize b).belief c t
      = b.belief c t * b.lik c t / Mat.total (fun i j => b.belief i j * b.lik i j) := by
  simp [multiplyAndNormalize, Mat.kahanSum_elems]

end Belief

theorem dnorm_eq_const_mul_gaussianDensity (x m s : ℝ) :
    RNG.dnorm Real.exp x m s
      = (RNG.inv_sqrt_2pi * Real.sqrt (2 * Real.pi))
          * gaussianDensity Real.exp (Real.sqrt (2 * Real.pi)) x m s := by
  have hpi : Real.sqrt (2 * Real.pi) ≠ 0 := by positivity
  have hexp : -(1 / 2) * ((x - m) / s) * ((x - m) / s) = -(x - m) ^ 2 / (2 * s ^ 2) := by
    ring
  unfold RNG.dnorm gaussianDensity
  simp only [hexp]
  generalize Real.exp (-(x - m) ^ 2 / (2 * s ^ 2)) = E
  by_cases hs : s = 0
  · simp [hs]
  · field_simp
    ring

theorem gaussian_const_ne_zero : (RNG.inv_sqrt_2pi * Real.sqrt (2 * Real.pi) : ℝ) ≠ 0 := by
  have hpi : Real.sqrt (2 * Real.pi) ≠ 0 := by positivity
  have : (RNG.inv_sqrt_2pi : ℝ) ≠ 0 := by unfold RNG.inv_sqrt_2pi; norm_num
  exact mul_ne_zero this hpi

namespace Belief

variable {n m : Nat}

theorem update_belief (exp : K → K) (b : Belief K n m) (source : UpdateSource) (s z : K)
    (c : Fin n) (t : Fin m) :
    (b.update exp source s z).belief c t
      = b.belief c t * (b.computeLikelihoods exp (RNG.rnorm (b.truthOf source) s z) s source).lik c t
        / Mat.total (fun i j => b.belief i j *
            (b.computeLikelihoods exp (RNG.rnorm (b.truthOf source) s z) s source).lik i j) := by
  unfold update
  rw [multiplyAndNormalize_belief]
  rfl

end Belief

theorem Mat.total_const_mul {n m : Nat} (k : K) (M : Mat K n m) :
    Mat.total (fun i j => k * M i j) = k * Mat.total M := by
  simp [Mat.total, Finset.mul_sum]

/-- C1: for every posterior `B`, evidence sample `x` and noise `s > 0` with a non-zero
normalizer, `Belief::update(Context, s)` replaces `B(c,t)` by
`B(c,t)·N(x; c·contextMeanSpacing, s) / Σ B(c',t')·N(x; c'·contextMeanSpacing, s)` and
`Belief::update(Target, s)` replaces it by
`B(c,t)·N(x; t·targetMeanSpacing, s) / Σ B(c',t')·N(x; t'·targetMeanSpacing, s)`,
with `N` the Gaussian density with `√(2π)` normalisation. -/
theorem update_is_bayes_rule {n m : Nat} (b : Belief ℝ n m) (s x z : ℝ) (hs : 0 < s) :
    (RNG.rnorm (b.trueContext : ℝ) s z = x →
      Mat.total (fun c' t' => b.belief c' t' *
          gaussianDensity Real.exp (Real.sqrt (2 * Real.pi)) x
            (((c' : Nat) : ℝ) * b.contextMeanSpacing) s) ≠ 0 →
      ∀ c t, (b.update Real.exp .Context s z).getBelief c t
        = b.belief c t *
            gaussianDensity Real.exp (Real.sqrt (2 * Real.pi)) x
              (((c : Nat) : ℝ) * b.contextMeanSpacing) s
          / Mat.total (fun c' t' => b.belief c' t' *
              gaussianDensity Real.exp (Real.sqrt (2 * Real.pi)) x
                (((c' : Nat) : ℝ) * b.contextMeanSpacing) s)) ∧
    (RNG.rnorm (b.trueTarget : ℝ) s z = x →
      Mat.total (fun c' t' => b.belief c' t' *
          gaussianDensity Real.exp (Real.sqrt (2 * Real.pi)) x
            (((t' : Nat) : ℝ) * b.targetMeanSpacing) s) ≠ 0 →
      ∀ c t, (b.update Real.exp .Target s z).getBelief c t
        = b.belief c t *
            gaussianDensity Real.exp (Real.sqrt (2 * Real.pi)) x
              (((t : Nat) : ℝ) * b.targetMeanSpacing) s
          / Mat.total (fun c' t' => b.belief c' t' *
              gaussianDensity Real.exp (Real.sqrt (2 * Real.pi)) x
                (((t' : Nat) : ℝ) * b.targetMeanSpacing) s)) := by
  have _hs := hs
  have hk := gaussian_const_ne_zero
  constructor
  · intro hx _ c t
    subst hx
    simp only [Belief.getBelief]
    rw [Belief.update_belief]
    simp only [Belief.computeLikelihoods, Belief.truthOf, dnorm_eq_const_mul_gaussianDensity]
    simp only [mul_left_comm _ (RNG.inv_sqrt_2pi * Real.sqrt (2 * Real.pi))]
    rw [Mat.total_const_mul, mul_div_mul_left _ _ hk]
  · intro hx _ c t
    subst hx
    simp only [Belief.getBelief]
    rw [Belief.update_belief]
    simp only [Belief.computeLikelihoods, Belief.truthOf, dnorm_eq_const_mul_gaussianDensity]
    simp only [mul_left_comm _ (RNG.inv_sqrt_2pi * Real.sqrt (2 * Real.pi))]
    rw [Mat.total_const_mul, mul_div_mul_left _ _ hk]


theorem gaussianDensity_pos (x mu s : ℝ) (hs : 0 < s) :
    0 < gaussianDensity Real.exp (Real.sqrt (2 * Real.pi)) x mu s := by
  unfold gaussianDensity
  positivity

/-- The context update of the test engine at noise 1 and sample 0 is the Bayes quotient:
the hypotheses of `update_is_bayes_rule` hold there. -/
theorem update_is_bayes_rule_witness :
    (0 : ℝ) < 1 ∧
    RNG.rnorm (((testBelief : Belief ℝ 2 2).trueContext : Int) : ℝ) 1 0 = 0 ∧
    Mat.total (fun c' t' => (testBelief : Belief ℝ 2 2).belief c' t' *
        gaussianDensity Real.exp (Real.sqrt (2 * Real.pi)) 0
          (((c' : Nat) : ℝ) * (testBelief : Belief ℝ 2 2).contextMeanSpacing) 1) ≠ 0 ∧
    ∀ c t, ((testBelief : Belief ℝ 2 2).update Real.exp .Context 1 0).getBelief c t
      = (testBelief : Belief ℝ 2 2).belief c t *
          gaussianDensity Real.exp (Real.sqrt (2 * Real.pi)) 0
            (((c : Nat) : ℝ) * (testBelief : Belief ℝ 2 2).contextMeanSpacing) 1
        / Mat.total (fun c' t' => (testBelief : Belief ℝ 2 2).belief c' t' *
            gaussianDensity Real.exp (Real.sqrt (2 * Real.pi)) 0
              (((c' : Nat) : ℝ) * (testBelief : Belief ℝ 2 2).contextMeanSpacing) 1) := by
  have h0 : RNG.rnorm (((testBelief : Belief ℝ 2 2).trueContext : Int) : ℝ) 1 0 = 0 := by
    simp [RNG.rnorm, testBelief]
  have hnz : Mat.total (fun c' t' => (testBelief : Belief ℝ 2 2).belief c' t' *
        gaussianDensity Real.exp (Real.sqrt (2 * Real.pi)) 0
          (((c' : Nat) : ℝ) * (testBelief : Belief ℝ 2 2).contextMeanSpacing) 1) ≠ 0 := by
    have g0 := gaussianDensity_pos 0 (((0 : Nat) : ℝ) * 1) 1 one_pos
    have g1 := gaussianDensity_pos 0 (((1 : Nat) : ℝ) * 1) 1 one_pos
    simp only [Mat.total, Fin.sum_univ_two, testBelief, testPrior, Matrix.cons_val_zero,
      Matrix.cons_val_one, Matrix.head_cons, Fin.val_zero, Fin.val_one]
    positivity
  exact ⟨one_pos, h0, hnz, (update_is_bayes_rule testBelief 1 0 0 one_pos).1 h0 hnz⟩

/-! ## The posterior invariant -/

theorem Mat.total_div {n m : Nat} (M : Mat K n m) (k : K) :
    Mat.total (fun i j => M i j / k) = Mat.total M / k := by
  simp [Mat.total, Finset.sum_div]

theorem Mat.total_nonneg {n m : Nat} (M : Mat K n m) (h : ∀ i j, 0 ≤ M i j) :
    0 ≤ Mat.total M :=
  Finset.sum_nonneg fun i _ => Finset.sum_nonneg fun j _ => h i j

/-- Multiplying a nonnegative matrix by likelihoods of the form `k * g` with `g ≥ 0` and
renormalising gives a nonnegative matrix of total 1, provided the normalizer is not 0. -/
theorem normalize_invariant {n m : Nat} (B L g : Mat K n m) (k : K)
    (hL : ∀ i j, L i j = k * g i j) (hg : ∀ i j, 0 ≤ g i j) (hB : ∀ i j, 0 ≤ B i j)
    (hnz : Mat.total (fun i j => B i j * L i j) ≠ 0) :
    (∀ i j, 0 ≤ B i j * L i j / Mat.total (fun i j => B i j * L i j)) ∧
      Mat.total (fun i j => B i j * L i j / Mat.total (fun i j => B i j * L i j)) = 1 := by
  refine ⟨?_, ?_⟩
  · intro i j
    have htot : Mat.total (fun i j => B i j * L i j)
        = k * Mat.total (fun i j => B i j * g i j) := by
      rw [← Mat.total_const_mul]
      congr 1
      funext i j
      rw [hL]
      ring
    have hk : k ≠ 0 := by
      intro hk0
      apply hnz
      rw [htot, hk0, zero_mul]
    rw [htot, hL, show B i j * (k * g i j) = k * (B i j * g i j) by ring,
      mul_div_mul_left _ _ hk]
    exact div_nonneg (mul_nonneg (hB i j) (hg i j))
      (Mat.total_nonneg _ fun i j => mul_nonneg (hB i j) (hg i j))
  · rw [Mat.total_div, div_self hnz]

theorem RNG.dnorm_factor (exp : K → K) (x mu s : K) :
    RNG.dnorm exp x mu s
      = (RNG.inv_sqrt_2pi / s) * exp (-(1 / 2) * ((x - mu) / s) * ((x - mu) / s)) := rfl

theorem Belief.normalizer_eq {n m : Nat} (b : Belief K n m) :
    b.normalizer = Mat.total (fun i j => b.belief i j * b.lik i j) := by
  unfold Belief.normalizer
  rw [Mat.kahanSum_elems]

theorem Belief.multiplyAndNormalize_posteriorOk {n m : Nat} (b : Belief K n m)
    (g : Mat K n m) (k : K) (hL : ∀ i j, b.lik i j = k * g i j) (hg : ∀ i j, 0 ≤ g i j)
    (hb : b.PosteriorOk) (hnz : b.normalizer ≠ 0) :
    b.multiplyAndNormalize.PosteriorOk := by
  rw [Belief.normalizer_eq] at hnz
  have h := normalize_invariant b.belief b.lik g k hL hg hb.1 hnz
  have hbel : b.multiplyAndNormalize.getBelief
      = fun i j => b.belief i j * b.lik i j
          / Mat.total (fun i j => b.belief i j * b.lik i j) := by
    funext i j
    exact Belief.multiplyAndNormalize_belief b i j
  unfold Belief.PosteriorOk
  rw [hbel]
  exact h

theorem Belief.update_posteriorOk {n m : Nat} (exp : K → K) (hexp : ∀ x, 0 ≤ exp x)
    (b : Belief K n m) (source : UpdateSource) (noise z : K) (hb : b.PosteriorOk)
    (hnz : (b.computeLikelihoods exp
      (RNG.rnorm (b.truthOf source) noise z) noise source).normalizer ≠ 0) :
    (b.update exp source noise z).PosteriorOk := by
  unfold Belief.update
  cases source with
  | Context =>
    exact Belief.multiplyAndNormalize_posteriorOk _
      (fun i _ => exp (-(1 / 2)
        * ((RNG.rnorm (b.truthOf .Context) noise z - ((i : Nat) : K) * b.contextMeanSpacing) / noise)
        * ((RNG.rnorm (b.truthOf .Context) noise z - ((i : Nat) : K) * b.contextMeanSpacing) / noise)))
      (RNG.inv_sqrt_2pi / noise) (fun _ _ => rfl) (fun _ _ => hexp _) hb hnz
  | Target =>
    exact Belief.multiplyAndNormalize_posteriorOk _
      (fun _ j => exp (-(1 / 2)
        * ((RNG.rnorm (b.truthOf .Target) noise z - ((j : Nat) : K) * b.targetMeanSpacing) / noise)
        * ((RNG.rnorm (b.truthOf .Target) noise z - ((j : Nat) : K) * b.targetMeanSpacing) / noise)))
      (RNG.inv_sqrt_2pi / noise) (fun _ _ => rfl) (fun _ _ => hexp _) hb hnz

theorem foldl_add_eq_sum {ι : Type} (f : ι → K) (l : List ι) (a : K) :
    l.foldl (fun acc k => acc + f k) a = a + (l.map f).sum := by
  induction l generalizing a with
  | nil => simp
  | cons x xs ih => rw [List.foldl_cons, ih, List.map_cons, List.sum_cons, add_assoc]

theorem DecayBelief.noisyLik_eq_sum {n m : Nat} (exp : K → K) (b : DecayBelief K n m)
    (samp noise : K) :
    DecayBelief.noisyLik exp b samp noise
      = ∑ k, b.contextMarginals k *
          RNG.dnorm exp samp (((k : Nat) : K) * b.contextMeanSpacing) noise := by
  unfold DecayBelief.noisyLik
  rw [foldl_add_eq_sum
    (fun k => b.contextMarginals k *
      RNG.dnorm exp samp (((k : Nat) : K) * b.contextMeanSpacing) noise),
    zero_add, Fin.sum_univ_def]

theorem DecayBelief.computeLikelihoods_context_factor {n m : Nat} (exp : K → K)
    (b : DecayBelief K n m) (samp noise p : K) (i : Fin n) (j : Fin m) :
    (b.computeLikelihoods exp samp noise .Context p).lik i j
      = (RNG.inv_sqrt_2pi / noise) *
          (p * exp (-(1 / 2) * ((samp - ((i : Nat) : K) * b.contextMeanSpacing) / noise)
                * ((samp - ((i : Nat) : K) * b.contextMeanSpacing) / noise))
            + (1 - p) * ∑ k, b.contextMarginals k *
                exp (-(1 / 2) * ((samp - ((k : Nat) : K) * b.contextMeanSpacing) / noise)
                  * ((samp - ((k : Nat) : K) * b.contextMeanSpacing) / noise))) := by
  simp only [DecayBelief.computeLikelihoods, DecayBelief.noisyLik_eq_sum, RNG.dnorm_factor]
  rw [mul_add, Finset.mul_sum, Finset.mul_sum, Finset.mul_sum]
  congr 1
  · ring
  · apply Finset.sum_congr rfl
    intro k _
    ring

theorem DecayBelief.decay_posteriorOk {n m : Nat} (exp : K → K) (hexp : ∀ x, 0 ≤ exp x)
    (b : DecayBelief K n m) (samp noise p : K) (hp0 : 0 ≤ p) (hp1 : p ≤ 1)
    (hm : ∀ k, 0 ≤ b.contextMarginals k) (hb : b.toBelief.PosteriorOk)
    (hnz : (b.computeLikelihoods exp samp noise .Context p).toBelief.normalizer ≠ 0) :
    (b.computeLikelihoods exp samp noise .Context p).toBelief.multiplyAndNormalize.PosteriorOk := by
  refine Belief.multiplyAndNormalize_posteriorOk _ _ _
    (fun i j => DecayBelief.computeLikelihoods_context_factor exp b samp noise p i j)
    ?_ hb hnz
  intro i _
  have h1 : 0 ≤ 1 - p := sub_nonneg.mpr hp1
  exact add_nonneg (mul_nonneg hp0 (hexp _))
    (mul_nonneg h1 (Finset.sum_nonneg fun k _ => mul_nonneg (hm k) (hexp _)))

/-! ## Frame properties of the calls -/

theorem Belief.call_urPrior {n m : Nat} (exp : K → K) (b : Belief K n m) (c : BaseCall K) :
    (b.call exp c).urPrior = b.urPrior := by
  cases c with
  | reset => rfl
  | setTrueStim tc tt =>
    simp only [Belief.call, Belief.setTrueStim]
    split_ifs <;> rfl
  | updateFromContext noise z => rfl
  | updateFromTarget noise z => rfl

theorem Belief.run_urPrior {n m : Nat} (exp : K → K) (b : Belief K n m)
    (calls : List (BaseCall K)) : (b.run exp calls).urPrior = b.urPrior := by
  induction calls generalizing b with
  | nil => rfl
  | cons c cs ih =>
    unfold Belief.run at ih ⊢
    rw [List.foldl_cons, ih, Belief.call_urPrior]

theorem DecayBelief.sampleAndLikelihood_ok {n m : Nat} (exp : K → K) (b : DecayBelief K n m)
    (noise trialTime : K) (decayTo : PriorType) (u : K) (r : Int) (u2 z : K)
    (ret : Int) (b1 : DecayBelief K n m)
    (h : b.sampleAndLikelihood exp noise trialTime decayTo u r u2 z = .ok (ret, b1)) :
    ∃ truth : Int, b1 = b.computeLikelihoods exp (RNG.rnorm (truth : K) noise z) noise
      .Context (exp (-b.decayRate * trialTime)) := by
  unfold DecayBelief.sampleAndLikelihood at h
  simp only at h
  split at h
  · cases h
  · rename_i truth _
    refine ⟨truth, ?_⟩
    simp only [Except.ok.injEq, Prod.mk.injEq] at h
    exact h.2.symm

theorem DecayBelief.call_frame {n m : Nat} (exp : K → K) (b : DecayBelief K n m)
    (c : Call K) :
    (b.call exp c).urPrior = b.urPrior ∧
      (b.call exp c).contextMarginals = b.contextMarginals ∧
      (b.call exp c).decayRate = b.decayRate := by
  cases c with
  | base c => exact ⟨Belief.call_urPrior exp b.toBelief c, rfl, rfl⟩
  | decayUpdate noise trialTime decayTo u r u2 z =>
    simp only [DecayBelief.call, DecayBelief.updateFromContext]
    split_ifs with h0
    · exact ⟨rfl, rfl, rfl⟩
    · cases hs : b.sampleAndLikelihood exp noise trialTime decayTo u r u2 z with
      | error e => exact ⟨rfl, rfl, rfl⟩
      | ok p =>
        obtain ⟨ret, b1⟩ := p
        obtain ⟨truth, hb1⟩ := DecayBelief.sampleAndLikelihood_ok exp b _ _ _ _ _ _ _ _ _ hs
        subst hb1
        exact ⟨rfl, rfl, rfl⟩

theorem DecayBelief.call_wellFormed {n m : Nat} (exp : K → K) (b : DecayBelief K n m)
    (c : Call K) (h : b.WellFormed) : (b.call exp c).WellFormed := by
  obtain ⟨h1, h2, h3⟩ := DecayBelief.call_frame exp b c
  unfold DecayBelief.WellFormed
  rw [h1, h2, h3]
  exact h

theorem DecayBelief.run_wellFormed {n m : Nat} (exp : K → K) (b : DecayBelief K n m)
    (calls : List (Call K)) (h : b.WellFormed) : (b.run exp calls).WellFormed := by
  induction calls generalizing b with
  | nil => exact h
  | cons c cs ih =>
    unfold DecayBelief.run at ih ⊢
    rw [List.foldl_cons]
    exact ih _ (DecayBelief.call_wellFormed exp b c h)

/-! ## Constructors -/

theorem Belief.ctor_ok {n m : Nat} (c : Config K n m) (b : Belief K n m)
    (h : Belief.ctor c = .ok b) :
    Mat.total c.urPrior = 1 ∧ b.urPrior = c.urPrior ∧ b.belief = c.urPrior ∧
      b.trueContext = -1 ∧ b.trueTarget = -1 := by
  unfold Belief.ctor at h
  split_ifs at h with hsum
  simp only [Except.ok.injEq] at h
  subst h
  rw [Mat.kahanSum_elems] at hsum
  exact ⟨not_not.mp hsum, rfl, rfl, rfl, rfl⟩

theorem DecayBelief.decay_ctor_ok {n m : Nat} (c : Config K n m) (b : DecayBelief K n m)
    (h : DecayBelief.ctor c = .ok b) :
    Belief.ctor c = .ok b.toBelief ∧ b.contextMarginals = rowSums b.urPrior ∧
      b.decayRate = (match c.decayRate with
        | some d => d
        | none => 0) := by
  unfold DecayBelief.ctor at h
  split at h
  · cases h
  · rename_i b0 hb0
    simp only [Except.ok.injEq] at h
    subst h
    exact ⟨hb0, rfl, rfl⟩

/-! ## Every call preserves the posterior invariant -/

theorem Belief.call_posteriorOk {n m : Nat} (exp : K → K) (hexp : ∀ x, 0 ≤ exp x)
    (b : Belief K n m) (hprior : ∀ i j, 0 ≤ b.urPrior i j) (hsum : Mat.total b.urPrior = 1)
    (hb : b.PosteriorOk) (c : BaseCall K)
    (hnz : ∀ v, b.callNormalizer exp c = some v → v ≠ 0) :
    (b.call exp c).PosteriorOk := by
  cases c with
  | reset => exact ⟨hprior, hsum⟩
  | setTrueStim tc tt =>
    simp only [Belief.call, Belief.setTrueStim]
    split_ifs <;> exact hb
  | updateFromContext noise z =>
    exact Belief.update_posteriorOk exp hexp b .Context noise z hb (hnz _ rfl)
  | updateFromTarget noise z =>
    exact Belief.update_posteriorOk exp hexp b .Target noise z hb (hnz _ rfl)

theorem Belief.run_posteriorOk {n m : Nat} (exp : K → K) (hexp : ∀ x, 0 ≤ exp x)
    (b : Belief K n m) (hprior : ∀ i j, 0 ≤ b.urPrior i j) (hsum : Mat.total b.urPrior = 1)
    (hb : b.PosteriorOk) (calls : List (BaseCall K))
    (hnz : Belief.NormalizersNonzero exp b calls) :
    (b.run exp calls).PosteriorOk := by
  induction calls generalizing b with
  | nil => exact hb
  | cons c cs ih =>
    unfold Belief.run at ih ⊢
    rw [List.foldl_cons]
    have hu := Belief.call_urPrior exp b c
    exact ih _ (by rw [hu]; exact hprior) (by rw [hu]; exact hsum)
      (Belief.call_posteriorOk exp hexp b hprior hsum hb c hnz.1) hnz.2

theorem rowSums_nonneg {n m : Nat} (M : Mat K n m) (h : ∀ i j, 0 ≤ M i j) (i : Fin n) :
    0 ≤ rowSums M i :=
  Finset.sum_nonneg fun j _ => h i j

theorem DecayBelief.decay_call_posteriorOk {n m : Nat} (exp : K → K) (hexp : ∀ x, 0 ≤ exp x)
    (hexp1 : ∀ x, x ≤ 0 → exp x ≤ 1)
    (b : DecayBelief K n m) (hwf : b.WellFormed) (hb : b.toBelief.PosteriorOk) (c : Call K)
    (ht : c.TrialTimeNonneg)
    (hnz : ∀ v, b.callNormalizer exp c = some v → v ≠ 0) :
    (b.call exp c).toBelief.PosteriorOk := by
  obtain ⟨hprior, hsum, hmarg, hrate⟩ := hwf
  cases c with
  | base c => exact Belief.call_posteriorOk exp hexp b.toBelief hprior hsum hb c hnz
  | decayUpdate noise trialTime decayTo u r u2 z =>
    simp only [DecayBelief.callNormalizer] at hnz
    simp only [DecayBelief.call, DecayBelief.updateFromContext]
    split_ifs with h0
    · rw [if_pos h0] at hnz
      exact Belief.update_posteriorOk exp hexp b.toBelief .Context noise z hb (hnz _ rfl)
    · rw [if_neg h0] at hnz
      cases hs : b.sampleAndLikelihood exp noise trialTime decayTo u r u2 z with
      | error e => exact hb
      | ok p =>
        obtain ⟨ret, b1⟩ := p
        rw [hs] at hnz
        obtain ⟨truth, hb1⟩ := DecayBelief.sampleAndLikelihood_ok exp b _ _ _ _ _ _ _ _ _ hs
        subst hb1
        have hle : -b.decayRate * trialTime ≤ 0 := by
          have : 0 ≤ b.decayRate * trialTime := mul_nonneg hrate ht
          linarith
        exact DecayBelief.decay_posteriorOk exp hexp b _ noise _ (hexp _) (hexp1 _ hle)
          (fun k => by rw [hmarg]; exact rowSums_nonneg _ hprior k) hb (hnz _ rfl)

theorem DecayBelief.decay_run_posteriorOk {n m : Nat} (exp : K → K) (hexp : ∀ x, 0 ≤ exp x)
    (hexp1 : ∀ x, x ≤ 0 → exp x ≤ 1)
    (b : DecayBelief K n m) (hwf : b.WellFormed) (hb : b.toBelief.PosteriorOk)
    (calls : List (Call K)) (ht : ∀ c ∈ calls, c.TrialTimeNonneg)
    (hnz : DecayBelief.NormalizersNonzero exp b calls) :
    (b.run exp calls).toBelief.PosteriorOk := by
  induction calls generalizing b with
  | nil => exact hb
  | cons c cs ih =>
    unfold DecayBelief.run at ih ⊢
    rw [List.foldl_cons]
    exact ih _ (DecayBelief.call_wellFormed exp b c hwf)
      (DecayBelief.decay_call_posteriorOk exp hexp hexp1 b hwf hb c
        (ht c (List.mem_cons_self _ _)) hnz.1)
      (fun c' hc' => ht c' (List.mem_cons_of_mem _ hc')) hnz.2

/-! ## With positive noise the normalizer is positive -/

theorem RNG.inv_sqrt_2pi_pos : (0 : K) < RNG.inv_sqrt_2pi := by
  unfold RNG.inv_sqrt_2pi
  positivity

theorem RNG.dnorm_pos (exp : K → K) (hexp : ∀ x, 0 < exp x) (x mu s : K) (hs : 0 < s) :
    0 < RNG.dnorm exp x mu s := by
  rw [RNG.dnorm_factor]
  exact mul_pos (div_pos RNG.inv_sqrt_2pi_pos hs) (hexp _)

theorem Belief.normalizer_pos {n m : Nat} (b : Belief K n m) (hb : b.PosteriorOk)
    (hl : ∀ i j, 0 < b.lik i j) : 0 < b.normalizer := by
  rw [Belief.normalizer_eq]
  have hnn : ∀ i j, 0 ≤ b.belief i j * b.lik i j :=
    fun i j => mul_nonneg (hb.1 i j) (hl i j).le
  rcases (Mat.total_nonneg _ hnn).lt_or_eq with h | h
  · exact h
  · exfalso
    have hz : ∀ i j, b.belief i j = 0 := by
      intro i j
      have h1 := (Finset.sum_eq_zero_iff_of_nonneg
        (fun i _ => Finset.sum_nonneg fun j _ => hnn i j)).mp h.symm i (Finset.mem_univ i)
      have h2 := (Finset.sum_eq_zero_iff_of_nonneg (fun j _ => hnn i j)).mp h1 j
        (Finset.mem_univ j)
      rcases mul_eq_zero.mp h2 with h3 | h3
      · exact h3
      · exact absurd h3 (hl i j).ne'
    have htot : Mat.total b.getBelief = 0 := by
      unfold Mat.total Belief.getBelief
      simp [hz]
    rw [hb.2] at htot
    exact one_ne_zero htot

theorem Belief.computeLikelihoods_lik_pos {n m : Nat} (exp : K → K) (hexp : ∀ x, 0 < exp x)
    (b : Belief K n m) (samp noise : K) (hs : 0 < noise) (source : UpdateSource)
    (i : Fin n) (j : Fin m) : 0 < (b.computeLikelihoods exp samp noise source).lik i j := by
  cases source <;> exact RNG.dnorm_pos exp hexp _ _ _ hs

theorem Belief.callNormalizer_ne_zero {n m : Nat} (exp : K → K) (hexp : ∀ x, 0 < exp x)
    (b : Belief K n m) (hb : b.PosteriorOk) (c : BaseCall K) (hc : c.NoisePos) (v : K)
    (hv : b.callNormalizer exp c = some v) : v ≠ 0 := by
  cases c with
  | reset => cases hv
  | setTrueStim tc tt => cases hv
  | updateFromContext noise z =>
    simp only [Belief.callNormalizer, Option.some.injEq] at hv
    subst hv
    exact (Belief.normalizer_pos
      (b.computeLikelihoods exp (RNG.rnorm (b.truthOf .Context) noise z) noise .Context) hb
      (Belief.computeLikelihoods_lik_pos exp hexp b _ noise hc .Context)).ne'
  | updateFromTarget noise z =>
    simp only [Belief.callNormalizer, Option.some.injEq] at hv
    subst hv
    exact (Belief.normalizer_pos
      (b.computeLikelihoods exp (RNG.rnorm (b.truthOf .Target) noise z) noise .Target) hb
      (Belief.computeLikelihoods_lik_pos exp hexp b _ noise hc .Target)).ne'

theorem DecayBelief.decay_computeLikelihoods_lik_pos {n m : Nat} (exp : K → K)
    (hexp : ∀ x, 0 < exp x) (b : DecayBelief K n m) (samp noise p : K) (hs : 0 < noise)
    (hp0 : 0 < p) (hp1 : p ≤ 1) (hm : ∀ k, 0 ≤ b.contextMarginals k)
    (i : Fin n) (j : Fin m) :
    0 < (b.computeLikelihoods exp samp noise .Context p).lik i j := by
  rw [DecayBelief.computeLikelihoods_context_factor]
  have h1 : 0 ≤ 1 - p := sub_nonneg.mpr hp1
  exact mul_pos (div_pos RNG.inv_sqrt_2pi_pos hs)
    (add_pos_of_pos_of_nonneg (mul_pos hp0 (hexp _))
      (mul_nonneg h1 (Finset.sum_nonneg fun k _ => mul_nonneg (hm k) (hexp _).le)))

theorem DecayBelief.decay_callNormalizer_ne_zero {n m : Nat} (exp : K → K) (hexp : ∀ x, 0 < exp x)
    (hexp1 : ∀ x, x ≤ 0 → exp x ≤ 1)
    (b : DecayBelief K n m) (hwf : b.WellFormed) (hb : b.toBelief.PosteriorOk) (c : Call K)
    (hc : c.NoisePos) (ht : c.TrialTimeNonneg) (v : K)
    (hv : b.callNormalizer exp c = some v) : v ≠ 0 := by
  obtain ⟨hprior, hsum, hmarg, hrate⟩ := hwf
  cases c with
  | base c => exact Belief.callNormalizer_ne_zero exp hexp b.toBelief hb c hc v hv
  | decayUpdate noise trialTime decayTo u r u2 z =>
    simp only [DecayBelief.callNormalizer] at hv
    split_ifs at hv with h0
    · exact Belief.callNormalizer_ne_zero exp hexp b.toBelief hb
        (.updateFromContext noise z) hc v hv
    · cases hs : b.sampleAndLikelihood exp noise trialTime decayTo u r u2 z with
      | error e =>
        rw [hs] at hv
        cases hv
      | ok p =>
        obtain ⟨ret, b1⟩ := p
        rw [hs] at hv
        simp only [Option.some.injEq] at hv
        subst hv
        obtain ⟨truth, hb1⟩ := DecayBelief.sampleAndLikelihood_ok exp b _ _ _ _ _ _ _ _ _ hs
        subst hb1
        have hle : -b.decayRate * trialTime ≤ 0 := by
          have : 0 ≤ b.decayRate * trialTime := mul_nonneg hrate ht
          linarith
        exact (Belief.normalizer_pos
          (b.computeLikelihoods exp (RNG.rnorm (truth : K) noise z) noise .Context
            (exp (-b.decayRate * trialTime))).toBelief hb
          (DecayBelief.decay_computeLikelihoods_lik_pos exp hexp b _ noise _ hc (hexp _)
            (hexp1 _ hle) (fun k => by rw [hmarg]; exact rowSums_nonneg _ hprior k))).ne'

theorem Belief.normalizersNonzero_of_noisePos {n m : Nat} (exp : K → K)
    (hexp : ∀ x, 0 < exp x) (b : Belief K n m) (hprior : ∀ i j, 0 ≤ b.urPrior i j)
    (hsum : Mat.total b.urPrior = 1) (hb : b.PosteriorOk) (calls : List (BaseCall K))
    (hc : ∀ c ∈ calls, c.NoisePos) : Belief.NormalizersNonzero exp b calls := by
  induction calls generalizing b with
  | nil => trivial
  | cons c cs ih =>
    have h1 : ∀ v, b.callNormalizer exp c = some v → v ≠ 0 :=
      Belief.callNormalizer_ne_zero exp hexp b hb c (hc c (List.mem_cons_self _ _))
    have hu := Belief.call_urPrior exp b c
    exact ⟨h1, ih _ (by rw [hu]; exact hprior) (by rw [hu]; exact hsum)
      (Belief.call_posteriorOk exp (fun x => (hexp x).le) b hprior hsum hb c h1)
      (fun c' hc' => hc c' (List.mem_cons_of_mem _ hc'))⟩

theorem DecayBelief.decay_normalizersNonzero_of_noisePos {n m : Nat} (exp : K → K)
    (hexp : ∀ x, 0 < exp x) (hexp1 : ∀ x, x ≤ 0 → exp x ≤ 1)
    (b : DecayBelief K n m) (hwf : b.WellFormed) (hb : b.toBelief.PosteriorOk)
    (calls : List (Call K)) (hc : ∀ c ∈ calls, c.NoisePos)
    (ht : ∀ c ∈ calls, c.TrialTimeNonneg) : DecayBelief.NormalizersNonzero exp b calls := by
  induction calls generalizing b with
  | nil => trivial
  | cons c cs ih =>
    have h1 : ∀ v, b.callNormalizer exp c = some v → v ≠ 0 :=
      DecayBelief.decay_callNormalizer_ne_zero exp hexp hexp1 b hwf hb c
        (hc c (List.mem_cons_self _ _)) (ht c (List.mem_cons_self _ _))
    exact ⟨h1, ih _ (DecayBelief.call_wellFormed exp b c hwf)
      (DecayBelief.decay_call_posteriorOk exp (fun x => (hexp x).le) hexp1 b hwf hb c
        (ht c (List.mem_cons_self _ _)) h1)
      (fun c' hc' => hc c' (List.mem_cons_of_mem _ hc'))
      (fun c' hc' => ht c' (List.mem_cons_of_mem _ hc'))⟩

/-! ## C2 -/

theorem signedBelief_ctor : Belief.ctor (signedConfig : Config K 1 2) = .ok signedBelief := by
  unfold Belief.ctor
  rw [Mat.kahanSum_elems]
  have h : Mat.total (signedConfig : Config K 1 2).urPrior = 1 := by
    simp [Mat.total, signedConfig]
    norm_num
  rw [if_neg (not_not.mpr h)]
  rfl

/-- The prior `1.5 -0.5` is accepted and keeps its negative entry through an update. -/
theorem signedBelief_update_negative :
    Belief.ctor (signedConfig : Config ℝ 1 2) = .ok signedBelief ∧
    Belief.NormalizersNonzero Real.exp (signedBelief : Belief ℝ 1 2).reset
      [.updateFromContext 1 0] ∧
    ((signedBelief : Belief ℝ 1 2).reset.run Real.exp [.updateFromContext 1 0]).getBelief 0 1
      < 0 := by
  have hL : ∀ i j, ((signedBelief : Belief ℝ 1 2).reset.computeLikelihoods Real.exp
      (RNG.rnorm ((signedBelief : Belief ℝ 1 2).reset.truthOf .Context) 1 0) 1 .Context).lik i j
        = RNG.dnorm Real.exp (-1) 0 1 := by
    intro i j
    have hi : i = 0 := Subsingleton.elim _ _
    subst hi
    simp [Belief.computeLikelihoods, Belief.truthOf, Belief.reset, signedBelief, RNG.rnorm]
  have hpos : 0 < RNG.dnorm Real.exp (-1 : ℝ) 0 1 :=
    RNG.dnorm_pos Real.exp Real.exp_pos _ _ _ one_pos
  have hnorm : ((signedBelief : Belief ℝ 1 2).reset.computeLikelihoods Real.exp
      (RNG.rnorm ((signedBelief : Belief ℝ 1 2).reset.truthOf .Context) 1 0) 1
        .Context).normalizer = RNG.dnorm Real.exp (-1) 0 1 := by
    rw [Belief.normalizer_eq]
    simp only [hL]
    simp [Mat.total, Belief.computeLikelihoods, Belief.reset, signedBelief]
    ring
  refine ⟨signedBelief_ctor, ⟨?_, trivial⟩, ?_⟩
  · intro v hv
    simp only [Belief.callNormalizer, Option.some.injEq] at hv
    rw [← hv, hnorm]
    exact hpos.ne'
  · show ((signedBelief : Belief ℝ 1 2).reset.update Real.exp .Context 1 0).belief 0 1 < 0
    have key : Mat.total (fun i j => (signedBelief : Belief ℝ 1 2).reset.belief i j *
        ((signedBelief : Belief ℝ 1 2).reset.computeLikelihoods Real.exp
          (RNG.rnorm ((signedBelief : Belief ℝ 1 2).reset.truthOf .Context) 1 0) 1
            .Context).lik i j) = RNG.dnorm Real.exp (-1) 0 1 := by
      rw [← hnorm, Belief.normalizer_eq]
      rfl
    rw [Belief.update_belief, key, hL]
    have : (signedBelief : Belief ℝ 1 2).reset.belief 0 1 = -(1 / 2) := by
      simp [Belief.reset, signedBelief]
    rw [this, mul_div_assoc, div_self hpos.ne']
    norm_num

theorem testPrior_total : Mat.total (testPrior : Mat K 2 2) = 1 := by
  simp [Mat.total, testPrior, Fin.sum_univ_two]
  norm_num

theorem testPrior_nonneg (i j : Fin 2) : 0 ≤ (testPrior : Mat K 2 2) i j := by
  fin_cases i <;> fin_cases j <;> simp [testPrior]

theorem testBelief0_ctor : Belief.ctor (testConfig : Config K 2 2) = .ok testBelief0 := by
  unfold Belief.ctor
  rw [Mat.kahanSum_elems]
  have h : Mat.total (testConfig : Config K 2 2).urPrior = 1 := testPrior_total
  rw [if_neg (not_not.mpr h)]
  rfl

theorem testDecayBelief_ctor :
    DecayBelief.ctor (testDecayConfig : Config K 2 2) = .ok testDecayBelief := by
  have h : Belief.ctor (testDecayConfig : Config K 2 2) = .ok testBelief0 := testBelief0_ctor
  unfold DecayBelief.ctor
  rw [h]
  rfl

/-- C2 (amended): for every successfully constructed `Belief` or `DecayBelief` whose
`urPrior` has no negative entry (and, for a `DecayBelief`, whose decay rate and elapsed
trial times are not negative), after any calls, then `reset()`, then any finite sequence
of calls whose normalizers are non-zero, the posterior returned by `getBelief()` has
every entry `≥ 0` and its entries sum to exactly 1. -/
theorem posterior_invariant {n m : Nat} (cfg : Config ℝ n m)
    (hprior : ∀ i j, 0 ≤ cfg.urPrior i j) :
    (∀ (b0 : Belief ℝ n m) (pre calls : List (BaseCall ℝ)),
      Belief.ctor cfg = .ok b0 →
      Belief.NormalizersNonzero Real.exp (b0.run Real.exp pre).reset calls →
      (∀ i j, 0 ≤ ((b0.run Real.exp pre).reset.run Real.exp calls).getBelief i j) ∧
        ∑ i, ∑ j, ((b0.run Real.exp pre).reset.run Real.exp calls).getBelief i j = 1) ∧
    (∀ (b0 : DecayBelief ℝ n m) (pre calls : List (Call ℝ)),
      DecayBelief.ctor cfg = .ok b0 → 0 ≤ b0.decayRate →
      (∀ c ∈ calls, c.TrialTimeNonneg) →
      DecayBelief.NormalizersNonzero Real.exp
        ((b0.run Real.exp pre).call Real.exp (.base .reset)) calls →
      (∀ i j, 0 ≤ (((b0.run Real.exp pre).call Real.exp (.base .reset)).run
          Real.exp calls).getBelief i j) ∧
        ∑ i, ∑ j, (((b0.run Real.exp pre).call Real.exp (.base .reset)).run
          Real.exp calls).getBelief i j = 1) := by
  constructor
  · intro b0 pre calls hctor hnz
    obtain ⟨hsum, hur, -, -, -⟩ := Belief.ctor_ok cfg b0 hctor
    have hu : (b0.run Real.exp pre).reset.urPrior = cfg.urPrior := by
      show (b0.run Real.exp pre).urPrior = cfg.urPrior
      rw [Belief.run_urPrior, hur]
    have hu' : (b0.run Real.exp pre).urPrior = cfg.urPrior := hu
    exact Belief.run_posteriorOk Real.exp (fun x => (Real.exp_pos x).le) _
      (by rw [hu]; exact hprior) (by rw [hu]; exact hsum)
      ⟨by intro i j; show 0 ≤ (b0.run Real.exp pre).urPrior i j; rw [hu']; exact hprior i j,
       by show Mat.total (b0.run Real.exp pre).urPrior = 1; rw [hu']; exact hsum⟩
      calls hnz
  · intro b0 pre calls hctor hrate ht hnz
    obtain ⟨hbase, hmarg, -⟩ := DecayBelief.decay_ctor_ok cfg b0 hctor
    obtain ⟨hsum, hur, -, -, -⟩ := Belief.ctor_ok cfg b0.toBelief hbase
    have hwf0 : b0.WellFormed :=
      ⟨by rw [hur]; exact hprior, by rw [hur]; exact hsum, hmarg, hrate⟩
    have hwf1 := DecayBelief.run_wellFormed Real.exp b0 pre hwf0
    have hwf2 := DecayBelief.call_wellFormed Real.exp _ (.base .reset) hwf1
    exact DecayBelief.decay_run_posteriorOk Real.exp (fun x => (Real.exp_pos x).le)
      (fun x hx => Real.exp_le_one_iff.mpr hx) _ hwf2 ⟨hwf1.1, hwf1.2.1⟩ calls ht hnz

/-- The posterior invariant on the engine of the decay tests: after an update with noise 0
and `reset()`, the calls `setTrueStim(0,0)`, a decaying context update and a target update
leave a probability mass function. -/
theorem posterior_invariant_witness :
    (∀ i j, 0 ≤ (testDecayConfig : Config ℝ 2 2).urPrior i j) ∧
    DecayBelief.ctor (testDecayConfig : Config ℝ 2 2) = .ok testDecayBelief ∧
    0 ≤ (testDecayBelief : DecayBelief ℝ 2 2).decayRate ∧
    (∀ c ∈ [Call.base (.setTrueStim 0 0), Call.decayUpdate (5 : ℝ) 10 .Informative
        (1 / 2) 0 (1 / 2) 0, Call.base (.updateFromTarget 1 0)], c.TrialTimeNonneg) ∧
    DecayBelief.NormalizersNonzero Real.exp
      (((testDecayBelief : DecayBelief ℝ 2 2).run Real.exp
        [Call.base (.updateFromContext 0 0)]).call Real.exp (.base .reset))
      [Call.base (.setTrueStim 0 0), Call.decayUpdate (5 : ℝ) 10 .Informative
        (1 / 2) 0 (1 / 2) 0, Call.base (.updateFromTarget 1 0)] ∧
    ((∀ i j, 0 ≤ ((((testDecayBelief : DecayBelief ℝ 2 2).run Real.exp
        [Call.base (.updateFromContext 0 0)]).call Real.exp (.base .reset)).run Real.exp
        [Call.base (.setTrueStim 0 0), Call.decayUpdate (5 : ℝ) 10 .Informative
          (1 / 2) 0 (1 / 2) 0, Call.base (.updateFromTarget 1 0)]).getBelief i j) ∧
      ∑ i, ∑ j, ((((testDecayBelief : DecayBelief ℝ 2 2).run Real.exp
        [Call.base (.updateFromContext 0 0)]).call Real.exp (.base .reset)).run Real.exp
        [Call.base (.setTrueStim 0 0), Call.decayUpdate (5 : ℝ) 10 .Informative
          (1 / 2) 0 (1 / 2) 0, Call.base (.updateFromTarget 1 0)]).getBelief i j = 1) := by
  have hprior : ∀ i j, 0 ≤ (testDecayConfig : Config ℝ 2 2).urPrior i j := testPrior_nonneg
  have hrate : 0 ≤ (testDecayBelief : DecayBelief ℝ 2 2).decayRate := by
    simp [testDecayBelief]
  have ht : ∀ c ∈ [Call.base (.setTrueStim 0 0), Call.decayUpdate (5 : ℝ) 10 .Informative
      (1 / 2) 0 (1 / 2) 0, Call.base (.updateFromTarget 1 0)], c.TrialTimeNonneg := by
    intro c hc
    simp only [List.mem_cons, List.mem_singleton, List.not_mem_nil, or_false] at hc
    rcases hc with rfl | rfl | rfl <;> simp [Call.TrialTimeNonneg]
  have hnoise : ∀ c ∈ [Call.base (.setTrueStim 0 0), Call.decayUpdate (5 : ℝ) 10 .Informative
      (1 / 2) 0 (1 / 2) 0, Call.base (.updateFromTarget 1 0)], c.NoisePos := by
    intro c hc
    simp only [List.mem_cons, List.mem_singleton, List.not_mem_nil, or_false] at hc
    rcases hc with rfl | rfl | rfl <;> simp [Call.NoisePos, BaseCall.NoisePos]
  have hwf0 : (testDecayBelief : DecayBelief ℝ 2 2).WellFormed :=
    ⟨testPrior_nonneg, testPrior_total, rfl, hrate⟩
  have hwf1 := DecayBelief.run_wellFormed Real.exp _ [Call.base (.updateFromContext 0 0)] hwf0
  have hnz := DecayBelief.decay_normalizersNonzero_of_noisePos Real.exp Real.exp_pos
    (fun x hx => Real.exp_le_one_iff.mpr hx) _
    (DecayBelief.call_wellFormed Real.exp _ (.base .reset) hwf1) ⟨hwf1.1, hwf1.2.1⟩ _
    hnoise ht
  exact ⟨hprior, testDecayBelief_ctor, hrate, ht, hnz,
    (posterior_invariant testDecayConfig hprior).2 testDecayBelief _ _ testDecayBelief_ctor
      hrate ht hnz⟩

/-! ## C3 and C4 -/

theorem DecayBelief.run_frame {n m : Nat} (exp : K → K) (b : DecayBelief K n m)
    (calls : List (Call K)) :
    (b.run exp calls).urPrior = b.urPrior ∧
      (b.run exp calls).contextMarginals = b.contextMarginals ∧
      (b.run exp calls).decayRate = b.decayRate := by
  induction calls generalizing b with
  | nil => exact ⟨rfl, rfl, rfl⟩
  | cons c cs ih =>
    unfold DecayBelief.run at ih ⊢
    rw [List.foldl_cons]
    obtain ⟨h1, h2, h3⟩ := DecayBelief.call_frame exp b c
    obtain ⟨k1, k2, k3⟩ := ih (b.call exp c)
    exact ⟨k1.trans h1, k2.trans h2, k3.trans h3⟩

theorem Belief.ctor_of_total {n m : Nat} (c : Config K n m) (h : Mat.total c.urPrior = 1) :
    ∃ b, Belief.ctor c = .ok b := by
  unfold Belief.ctor
  rw [Mat.kahanSum_elems, if_neg (not_not.mpr h)]
  exact ⟨_, rfl⟩

theorem DecayBelief.decay_ctor_of_total {n m : Nat} (c : Config K n m)
    (h : Mat.total c.urPrior = 1) : ∃ b, DecayBelief.ctor c = .ok b := by
  obtain ⟨b0, hb0⟩ := Belief.ctor_of_total c h
  unfold DecayBelief.ctor
  rw [hb0]
  exact ⟨_, rfl⟩

/-- C3: for every valid prior `P` (nonnegative, summing to 1) an engine is constructed,
and in every state it can reach by a sequence of `reset`, `setTrueStim` and update calls,
`reset()` followed by `getBelief()` returns exactly `P`; the same for a `DecayBelief`,
whose calls include the decaying update. -/
theorem reset_returns_prior {n m : Nat} (exp : K → K) (P : Mat K n m)
    (cms tms rate : Option K)
    (hnonneg : ∀ i j, 0 ≤ P i j) (hsum : ∑ i, ∑ j, P i j = 1) :
    (∃ b0 : Belief K n m,
      Belief.ctor ⟨P, cms, tms, rate⟩ = .ok b0 ∧
      ∀ calls, ((b0.run exp calls).reset).getBelief = P) ∧
    (∃ d0 : DecayBelief K n m,
      DecayBelief.ctor ⟨P, cms, tms, rate⟩ = .ok d0 ∧
      ∀ calls, ((d0.run exp calls).call exp (.base .reset)).getBelief = P) := by
  have _h := hnonneg
  obtain ⟨b0, hb0⟩ := Belief.ctor_of_total (⟨P, cms, tms, rate⟩ : Config K n m) hsum
  obtain ⟨-, hur, -, -, -⟩ := Belief.ctor_ok _ b0 hb0
  constructor
  · refine ⟨b0, hb0, fun calls => ?_⟩
    show (b0.run exp calls).urPrior = P
    rw [Belief.run_urPrior, hur]
  · obtain ⟨d0, hd0⟩ := DecayBelief.decay_ctor_of_total (⟨P, cms, tms, rate⟩ : Config K n m) hsum
    obtain ⟨hbase, -, -⟩ := DecayBelief.decay_ctor_ok _ d0 hd0
    obtain ⟨-, hur0, -, -, -⟩ := Belief.ctor_ok _ d0.toBelief hbase
    refine ⟨d0, hd0, fun calls => ?_⟩
    show (d0.run exp calls).urPrior = P
    rw [(DecayBelief.run_frame exp _ calls).1]
    exact hur0

/-- The test prior is valid, and the engines built from it return it after `reset()`. -/
theorem reset_returns_prior_witness :
    (∀ i j, 0 ≤ (testPrior : Mat ℝ 2 2) i j) ∧ ∑ i, ∑ j, (testPrior : Mat ℝ 2 2) i j = 1 ∧
    ((∃ b0 : Belief ℝ 2 2,
      Belief.ctor ⟨testPrior, none, none, none⟩ = .ok b0 ∧
      ∀ calls, ((b0.run Real.exp calls).reset).getBelief = testPrior) ∧
    (∃ d0 : DecayBelief ℝ 2 2,
      DecayBelief.ctor ⟨testPrior, none, none, none⟩ = .ok d0 ∧
      ∀ calls, ((d0.run Real.exp calls).call Real.exp (.base .reset)).getBelief
        = testPrior)) :=
  ⟨testPrior_nonneg, testPrior_total,
    reset_returns_prior Real.exp testPrior none none none testPrior_nonneg testPrior_total⟩

omit [LinearOrderedField K] in
/-- C4: `setTrueStim(context, target)` succeeds if and only if `0 ≤ context < nContexts`
and `0 ≤ target < nTargets`; otherwise it fails with a fatal error. On success the stored
truth equals `(context, target)`. -/
theorem setTrueStim_succeeds_iff {n m : Nat} (b : Belief K n m) (context target : Int) :
    ((∃ b1, b.setTrueStim context target = .ok b1) ↔
      (0 ≤ context ∧ context < b.nContexts ∧ 0 ≤ target ∧ target < b.nTargets)) ∧
    ((∃ e, b.setTrueStim context target = .error e) ↔
      ¬(0 ≤ context ∧ context < b.nContexts ∧ 0 ≤ target ∧ target < b.nTargets)) ∧
    (∀ b1, b.setTrueStim context target = .ok b1 →
      b1.trueContext = context ∧ b1.trueTarget = target) ∧
    b.nContexts = (n : Int) ∧ b.nTargets = (m : Int) := by
  unfold Belief.setTrueStim
  refine ⟨?_, ?_, ?_, rfl, rfl⟩
  · split_ifs with h1 h2 h3 h4
    · simp; omega
    · simp; omega
    · simp; omega
    · simp; omega
    · simp; omega
  · split_ifs with h1 h2 h3 h4
    · simp; omega
    · simp; omega
    · simp; omega
    · simp; omega
    · simp; omega
  · intro b1 hb1
    split_ifs at hb1
    simp only [Except.ok.injEq] at hb1
    subst hb1
    exact ⟨rfl, rfl⟩

/-! ## Repeated updates: closed form -/

theorem Belief.computeLikelihoods_lik {n m : Nat} (exp : K → K) (b : Belief K n m)
    (samp noise : K) (source : UpdateSource) (i : Fin n) (j : Fin m) :
    (b.computeLikelihoods exp samp noise source).lik i j
      = RNG.inv_sqrt_2pi / noise *
          exp (-(1 / 2 * ((samp - b.hypMean source i j) / noise)
            * ((samp - b.hypMean source i j) / noise))) := by
  cases source <;>
    simp only [Belief.computeLikelihoods, Belief.hypMean, RNG.dnorm_factor, neg_mul]

theorem Belief.update_frame {n m : Nat} (exp : K → K) (b : Belief K n m)
    (source : UpdateSource) (noise z : K) :
    (b.update exp source noise z).trueContext = b.trueContext ∧
    (b.update exp source noise z).trueTarget = b.trueTarget ∧
    (b.update exp source noise z).urPrior = b.urPrior ∧
    (b.update exp source noise z).contextMeanSpacing = b.contextMeanSpacing ∧
    (b.update exp source noise z).targetMeanSpacing = b.targetMeanSpacing :=
  ⟨rfl, rfl, rfl, rfl, rfl⟩

theorem Belief.repeatUpdate_frame {n m : Nat} (exp : K → K) (b : Belief K n m)
    (source : UpdateSource) (noise : K) (z : Nat → K) (N : Nat) :
    (b.repeatUpdate exp source noise z N).trueContext = b.trueContext ∧
    (b.repeatUpdate exp source noise z N).trueTarget = b.trueTarget ∧
    (b.repeatUpdate exp source noise z N).urPrior = b.urPrior ∧
    (b.repeatUpdate exp source noise z N).contextMeanSpacing = b.contextMeanSpacing ∧
    (b.repeatUpdate exp source noise z N).targetMeanSpacing = b.targetMeanSpacing := by
  induction N with
  | zero => exact ⟨rfl, rfl, rfl, rfl, rfl⟩
  | succ N ih => exact ih

theorem Belief.repeatUpdate_truthOf {n m : Nat} (exp : K → K) (b : Belief K n m)
    (source src : UpdateSource) (noise : K) (z : Nat → K) (N : Nat) :
    (b.repeatUpdate exp source noise z N).truthOf src = b.truthOf src := by
  obtain ⟨h1, h2, -⟩ := Belief.repeatUpdate_frame exp b source noise z N
  cases src
  · simp only [Belief.truthOf, h1]
  · simp only [Belief.truthOf, h2]

theorem Belief.repeatUpdate_hypMean {n m : Nat} (exp : K → K) (b : Belief K n m)
    (source src : UpdateSource) (noise : K) (z : Nat → K) (N : Nat) (i : Fin n) (j : Fin m) :
    (b.repeatUpdate exp source noise z N).hypMean src i j = b.hypMean src i j := by
  obtain ⟨-, -, -, h1, h2⟩ := Belief.repeatUpdate_frame exp b source noise z N
  cases src
  · simp only [Belief.hypMean, h1]
  · simp only [Belief.hypMean, h2]

theorem Mat.total_mul_pos {n m : Nat} (B g : Mat K n m) (hB : ∀ i j, 0 ≤ B i j)
    (htot : Mat.total B = 1) (hg : ∀ i j, 0 < g i j) :
    0 < Mat.total (fun i j => B i j * g i j) := by
  have hnn : ∀ i j, 0 ≤ B i j * g i j := fun i j => mul_nonneg (hB i j) (hg i j).le
  rcases (Mat.total_nonneg _ hnn).lt_or_eq with h | h
  · exact h
  · exfalso
    have hz : ∀ i j, B i j = 0 := by
      intro i j
      have h1 := (Finset.sum_eq_zero_iff_of_nonneg
        (fun i _ => Finset.sum_nonneg fun j _ => hnn i j)).mp h.symm i (Finset.mem_univ i)
      have h2 := (Finset.sum_eq_zero_iff_of_nonneg (fun j _ => hnn i j)).mp h1 j
        (Finset.mem_univ j)
      rcases mul_eq_zero.mp h2 with h3 | h3
      · exact h3
      · exact absurd h3 (hg i j).ne'
    have : Mat.total B = 0 := by
      unfold Mat.total
      simp [hz]
    rw [htot] at this
    exact one_ne_zero this

theorem energy_succ (s : K) (x : Nat → K) (mu : K) (N : Nat) :
    energy s x mu (N + 1)
      = energy s x mu N + 1 / 2 * ((x N - mu) / s) * ((x N - mu) / s) := by
  unfold energy
  rw [Finset.sum_range_succ]

/-- Closed form of the posterior after `N` updates from one source: the prior weighted by
the exponential of the accumulated exponents, renormalised. -/
theorem Belief.repeatUpdate_belief {n m : Nat} (b : Belief ℝ n m) (source : UpdateSource)
    (s : ℝ) (hs : 0 < s) (z : Nat → ℝ) (hB : ∀ i j, 0 ≤ b.belief i j)
    (htot : Mat.total b.belief = 1) (N : Nat) (i : Fin n) (j : Fin m) :
    (b.repeatUpdate Real.exp source s z N).belief i j
      = b.belief i j * Real.exp (-energy s (b.sampleOf source s z) (b.hypMean source i j) N)
        / Mat.total (fun i' j' => b.belief i' j' *
            Real.exp (-energy s (b.sampleOf source s z) (b.hypMean source i' j') N)) := by
  induction N generalizing i j with
  | zero =>
    simp only [Belief.repeatUpdate, energy, Finset.range_zero, Finset.sum_empty, neg_zero,
      Real.exp_zero, mul_one]
    rw [htot, div_one]
  | succ N ih =>
    have hZ : 0 < Mat.total (fun i' j' => b.belief i' j' *
        Real.exp (-energy s (b.sampleOf source s z) (b.hypMean source i' j') N)) :=
      Mat.total_mul_pos _ _ hB htot fun _ _ => Real.exp_pos _
    have hk : (RNG.inv_sqrt_2pi / s : ℝ) ≠ 0 := (div_pos RNG.inv_sqrt_2pi_pos hs).ne'
    set Z := Mat.total (fun i' j' => b.belief i' j' *
        Real.exp (-energy s (b.sampleOf source s z) (b.hypMean source i' j') N)) with hZdef
    have hcell : ∀ i' j', (b.repeatUpdate Real.exp source s z N).belief i' j' *
        ((b.repeatUpdate Real.exp source s z N).computeLikelihoods Real.exp
          (RNG.rnorm ((b.repeatUpdate Real.exp source s z N).truthOf source) s (z N)) s
            source).lik i' j'
        = (RNG.inv_sqrt_2pi / s / Z) * (b.belief i' j' *
            Real.exp (-energy s (b.sampleOf source s z) (b.hypMean source i' j') (N + 1))) := by
      intro i' j'
      rw [ih, Belief.computeLikelihoods_lik, Belief.repeatUpdate_truthOf,
        Belief.repeatUpdate_hypMean, energy_succ, neg_add, Real.exp_add]
      simp only [Belief.sampleOf]
      field_simp
      ring
    show ((b.repeatUpdate Real.exp source s z N).update Real.exp source s (z N)).belief i j = _
    rw [Belief.update_belief]
    simp only [hcell]
    rw [Mat.total_const_mul, mul_div_mul_left _ _ (div_ne_zero hk hZ.ne')]

/-! ## Repeated updates: the limit -/

theorem sum_eq_mul_runningMean (x : Nat → K) (N : Nat) :
    ∑ k in Finset.range N, x k = (N : K) * runningMean x N := by
  unfold runningMean
  rcases Nat.eq_zero_or_pos N with h | h
  · subst h
    simp
  · have hN : (N : K) ≠ 0 := Nat.cast_ne_zero.mpr h.ne'
    field_simp

theorem energy_sub (s : K) (x : Nat → K) (a astar : K) (N : Nat) :
    energy s x a N - energy s x astar N
      = (N : K) * ((astar - a) / (2 * s ^ 2) * (2 * runningMean x N - a - astar)) := by
  have h : energy s x a N - energy s x astar N
      = (astar - a) / (2 * s ^ 2) * (2 * (∑ k in Finset.range N, x k) - N * (a + astar)) := by
    induction N with
    | zero => simp [energy]
    | succ N ih =>
      rw [energy_succ, energy_succ, Finset.sum_range_succ, Nat.cast_succ]
      have e : energy s x a N + 1 / 2 * ((x N - a) / s) * ((x N - a) / s)
          - (energy s x astar N + 1 / 2 * ((x N - astar) / s) * ((x N - astar) / s))
          = (energy s x a N - energy s x astar N)
            + (1 / 2 * ((x N - a) / s) * ((x N - a) / s)
              - 1 / 2 * ((x N - astar) / s) * ((x N - astar) / s)) := by ring
      rw [e, ih]
      ring
  rw [h, sum_eq_mul_runningMean]
  ring

theorem tendsto_energy_sub (s : ℝ) (hs : 0 < s) (x : Nat → ℝ) (a astar : ℝ) (ha : a ≠ astar)
    (hmean : Filter.Tendsto (runningMean x) Filter.atTop (nhds astar)) :
    Filter.Tendsto (fun N => energy s x a N - energy s x astar N) Filter.atTop
      Filter.atTop := by
  have hC : 0 < (astar - a) / (2 * s ^ 2) * (astar - a) := by
    have h1 : astar - a ≠ 0 := sub_ne_zero.mpr (Ne.symm ha)
    have h2 : 0 < (astar - a) * (astar - a) := mul_self_pos.mpr h1
    have h3 : (astar - a) / (2 * s ^ 2) * (astar - a)
        = (astar - a) * (astar - a) / (2 * s ^ 2) := by ring
    rw [h3]
    positivity
  have hg : Filter.Tendsto
      (fun N => (astar - a) / (2 * s ^ 2) * (2 * runningMean x N - a - astar))
      Filter.atTop (nhds ((astar - a) / (2 * s ^ 2) * (astar - a))) := by
    have h1 : Filter.Tendsto (fun N => 2 * runningMean x N - a - astar) Filter.atTop
        (nhds (2 * astar - a - astar)) :=
      ((hmean.const_mul 2).sub_const a).sub_const astar
    have h2 : 2 * astar - a - astar = astar - a := by ring
    rw [h2] at h1
    exact h1.const_mul _
  have hN : Filter.Tendsto (fun N : Nat => (N : ℝ)) Filter.atTop Filter.atTop :=
    tendsto_natCast_atTop_atTop
  have := Filter.Tendsto.atTop_mul hC hN hg
  refine this.congr fun N => ?_
  rw [energy_sub]

theorem tendsto_exp_neg_energy_sub (s : ℝ) (hs : 0 < s) (x : Nat → ℝ) (a astar : ℝ)
    (hmean : Filter.Tendsto (runningMean x) Filter.atTop (nhds astar)) :
    Filter.Tendsto (fun N => Real.exp (-(energy s x a N - energy s x astar N))) Filter.atTop
      (nhds (if a = astar then 1 else 0)) := by
  by_cases ha : a = astar
  · subst ha
    simp
  · rw [if_neg ha]
    exact Real.tendsto_exp_neg_atTop_nhds_zero.comp
      (tendsto_energy_sub s hs x a astar ha hmean)

theorem tendsto_weighted {n m : Nat} (P : Mat ℝ n m) (w : Nat → Mat ℝ n m) (winf : Mat ℝ n m)
    (hw : ∀ i j, Filter.Tendsto (fun N => w N i j) Filter.atTop (nhds (winf i j)))
    (hden : Mat.total (fun i j => P i j * winf i j) ≠ 0) (i : Fin n) (j : Fin m) :
    Filter.Tendsto
      (fun N => P i j * w N i j / Mat.total (fun i' j' => P i' j' * w N i' j'))
      Filter.atTop
      (nhds (P i j * winf i j / Mat.total (fun i' j' => P i' j' * winf i' j'))) := by
  refine Filter.Tendsto.div ((hw i j).const_mul _) ?_ hden
  unfold Mat.total
  exact tendsto_finset_sum _ fun i' _ => tendsto_finset_sum _ fun j' _ => (hw i' j').const_mul _

/-- Limit of the posterior under repeated updates from one source, for samples whose
running mean converges to `astar`. -/
theorem Belief.tendsto_repeatUpdate {n m : Nat} (b : Belief ℝ n m) (source : UpdateSource)
    (s : ℝ) (hs : 0 < s) (z : Nat → ℝ) (hB : ∀ i j, 0 ≤ b.belief i j)
    (htot : Mat.total b.belief = 1) (astar : ℝ)
    (hmean : Filter.Tendsto (runningMean (b.sampleOf source s z)) Filter.atTop (nhds astar))
    (hden : Mat.total (fun i j => b.belief i j *
      (if b.hypMean source i j = astar then 1 else 0)) ≠ 0)
    (i : Fin n) (j : Fin m) :
    Filter.Tendsto (fun N => (b.repeatUpdate Real.exp source s z N).getBelief i j) Filter.atTop
      (nhds (b.belief i j * (if b.hypMean source i j = astar then 1 else 0)
        / Mat.total (fun i' j' => b.belief i' j' *
            (if b.hypMean source i' j' = astar then 1 else 0)))) := by
  have key := tendsto_weighted b.belief
    (fun N i' j' => Real.exp (-(energy s (b.sampleOf source s z) (b.hypMean source i' j') N
      - energy s (b.sampleOf source s z) astar N)))
    (fun i' j' => if b.hypMean source i' j' = astar then 1 else 0)
    (fun i' j' => tendsto_exp_neg_energy_sub s hs _ _ astar hmean) hden i j
  refine key.congr fun N => ?_
  show _ = (b.repeatUpdate Real.exp source s z N).belief i j
  rw [Belief.repeatUpdate_belief b source s hs z hB htot N i j]
  have hsplit : ∀ i' j', b.belief i' j' *
      Real.exp (-energy s (b.sampleOf source s z) (b.hypMean source i' j') N)
      = Real.exp (-energy s (b.sampleOf source s z) astar N) * (b.belief i' j' *
          Real.exp (-(energy s (b.sampleOf source s z) (b.hypMean source i' j') N
            - energy s (b.sampleOf source s z) astar N))) := by
    intro i' j'
    rw [mul_left_comm, ← Real.exp_add]
    congr 2
    ring
  simp only [hsplit]
  rw [Mat.total_const_mul, mul_div_mul_left _ _ (Real.exp_pos _).ne']

/-! ## C6 -/

theorem Mat.total_mul_row_indicator {n m : Nat} (P : Mat K n m) (cstar : Fin n) :
    Mat.total (fun i j => P i j * (if i = cstar then 1 else 0)) = ∑ t, P cstar t := by
  unfold Mat.total
  simp only [mul_ite, mul_one, mul_zero]
  rw [Finset.sum_eq_single cstar]
  · simp
  · intro i _ hi
    simp [hi]
  · intro h
    exact absurd (Finset.mem_univ cstar) h

theorem Mat.total_mul_col_indicator {n m : Nat} (P : Mat K n m) (tstar : Fin m) :
    Mat.total (fun i j => P i j * (if j = tstar then 1 else 0)) = ∑ c, P c tstar := by
  unfold Mat.total
  simp only [mul_ite, mul_one, mul_zero]
  apply Finset.sum_congr rfl
  intro i _
  simp

/-- C6: with spacing 1, noise `s > 0`, a prior `P` with positive mass in the true context
row `c*` and the true stimulus fixed, along every sequence of evidence samples whose
running mean converges to `c*` the posterior after `N` calls of `updateFromContext`
satisfies `belief[c*,t] → P[c*,t] / Σ_t' P[c*,t']` and `belief[c,t] → 0` for `c ≠ c*`;
symmetrically for `updateFromTarget` with columns. -/
theorem posterior_converges {n m : Nat} (b : Belief ℝ n m) (s : ℝ) (z : Nat → ℝ)
    (hs : 0 < s) (hP : ∀ i j, 0 ≤ b.urPrior i j) (hsum : ∑ i, ∑ j, b.urPrior i j = 1) :
    (∀ cstar : Fin n, b.trueContext = ((cstar : Nat) : Int) → b.contextMeanSpacing = 1 →
      0 < ∑ t, b.urPrior cstar t →
      Filter.Tendsto (runningMean (b.reset.sampleOf .Context s z)) Filter.atTop
        (nhds (((cstar : Nat) : ℝ))) →
      ∀ c t, Filter.Tendsto
        (fun N => (b.reset.repeatUpdate Real.exp .Context s z N).getBelief c t) Filter.atTop
        (nhds (if c = cstar then b.urPrior cstar t / ∑ t', b.urPrior cstar t' else 0))) ∧
    (∀ tstar : Fin m, b.trueTarget = ((tstar : Nat) : Int) → b.targetMeanSpacing = 1 →
      0 < ∑ c, b.urPrior c tstar →
      Filter.Tendsto (runningMean (b.reset.sampleOf .Target s z)) Filter.atTop
        (nhds (((tstar : Nat) : ℝ))) →
      ∀ c t, Filter.Tendsto
        (fun N => (b.reset.repeatUpdate Real.exp .Target s z N).getBelief c t) Filter.atTop
        (nhds (if t = tstar then b.urPrior c tstar / ∑ c', b.urPrior c' tstar else 0))) := by
  constructor
  · intro cstar _ hspacing hrow hmean c t
    have hmu : ∀ i j, (b.reset.hypMean .Context i j = ((cstar : Nat) : ℝ)) ↔ i = cstar := by
      intro i j
      show ((i : Nat) : ℝ) * b.contextMeanSpacing = ((cstar : Nat) : ℝ) ↔ i = cstar
      rw [hspacing, mul_one, Nat.cast_inj, Fin.val_inj]
    have hden : Mat.total (fun i j => b.reset.belief i j *
        (if b.reset.hypMean .Context i j = ((cstar : Nat) : ℝ) then 1 else 0))
        = ∑ t', b.urPrior cstar t' := by
      simp only [hmu]
      exact Mat.total_mul_row_indicator b.urPrior cstar
    have key := Belief.tendsto_repeatUpdate b.reset .Context s hs z hP hsum
      (((cstar : Nat) : ℝ)) hmean (by rw [hden]; exact hrow.ne') c t
    rw [hden] at key
    simp only [hmu] at key
    by_cases hc : c = cstar
    · subst hc
      simpa using key
    · simpa [hc] using key
  · intro tstar _ hspacing hcol hmean c t
    have hmu : ∀ i j, (b.reset.hypMean .Target i j = ((tstar : Nat) : ℝ)) ↔ j = tstar := by
      intro i j
      show ((j : Nat) : ℝ) * b.targetMeanSpacing = ((tstar : Nat) : ℝ) ↔ j = tstar
      rw [hspacing, mul_one, Nat.cast_inj, Fin.val_inj]
    have hden : Mat.total (fun i j => b.reset.belief i j *
        (if b.reset.hypMean .Target i j = ((tstar : Nat) : ℝ) then 1 else 0))
        = ∑ c', b.urPrior c' tstar := by
      simp only [hmu]
      exact Mat.total_mul_col_indicator b.urPrior tstar
    have key := Belief.tendsto_repeatUpdate b.reset .Target s hs z hP hsum
      (((tstar : Nat) : ℝ)) hmean (by rw [hden]; exact hcol.ne') c t
    rw [hden] at key
    simp only [hmu] at key
    by_cases ht : t = tstar
    · subst ht
      simpa using key
    · simpa [ht] using key

theorem testBelief_runningMean_context :
    runningMean ((testBelief : Belief ℝ 2 2).reset.sampleOf .Context 1 fun _ => 0)
      = fun _ => 0 := by
  funext N
  simp [runningMean, Belief.sampleOf, Belief.truthOf, Belief.reset, testBelief, RNG.rnorm]

/-- The test of asymptotic convergence: prior `0.5 0.2; 0.2 0.1`, true stimulus `(0,0)`,
noise 1, samples all equal to 0; the limits are `0.5/0.7`, `0.2/0.7`, `0`, `0`. -/
theorem posterior_converges_witness :
    (0 : ℝ) < 1 ∧
    (∀ i j, 0 ≤ (testBelief : Belief ℝ 2 2).urPrior i j) ∧
    ∑ i, ∑ j, (testBelief : Belief ℝ 2 2).urPrior i j = 1 ∧
    (testBelief : Belief ℝ 2 2).trueContext = (((0 : Fin 2) : Nat) : Int) ∧
    (testBelief : Belief ℝ 2 2).contextMeanSpacing = 1 ∧
    0 < ∑ t, (testBelief : Belief ℝ 2 2).urPrior 0 t ∧
    Filter.Tendsto
      (runningMean ((testBelief : Belief ℝ 2 2).reset.sampleOf .Context 1 fun _ => 0))
      Filter.atTop (nhds ((((0 : Fin 2) : Nat) : ℝ))) ∧
    Filter.Tendsto (fun N => ((testBelief : Belief ℝ 2 2).reset.repeatUpdate Real.exp
      .Context 1 (fun _ => 0) N).getBelief 0 0) Filter.atTop (nhds ((1 / 2) / (7 / 10))) ∧
    Filter.Tendsto (fun N => ((testBelief : Belief ℝ 2 2).reset.repeatUpdate Real.exp
      .Context 1 (fun _ => 0) N).getBelief 0 1) Filter.atTop (nhds ((1 / 5) / (7 / 10))) ∧
    Filter.Tendsto (fun N => ((testBelief : Belief ℝ 2 2).reset.repeatUpdate Real.exp
      .Context 1 (fun _ => 0) N).getBelief 1 0) Filter.atTop (nhds 0) ∧
    Filter.Tendsto (fun N => ((testBelief : Belief ℝ 2 2).reset.repeatUpdate Real.exp
      .Context 1 (fun _ => 0) N).getBelief 1 1) Filter.atTop (nhds 0) := by
  have hrow : ∑ t, (testBelief : Belief ℝ 2 2).urPrior 0 t = 7 / 10 := by
    simp [testBelief, testPrior, Fin.sum_univ_two]
    norm_num
  have hrow_pos : 0 < ∑ t, (testBelief : Belief ℝ 2 2).urPrior 0 t := by
    rw [hrow]
    norm_num
  have hmean : Filter.Tendsto
      (runningMean ((testBelief : Belief ℝ 2 2).reset.sampleOf .Context 1 fun _ => 0))
      Filter.atTop (nhds ((((0 : Fin 2) : Nat) : ℝ))) := by
    rw [testBelief_runningMean_context]
    simp
  have key := (posterior_converges (testBelief : Belief ℝ 2 2) 1 (fun _ => 0) one_pos
    testPrior_nonneg testPrior_total).1 0 rfl rfl hrow_pos hmean
  refine ⟨one_pos, testPrior_nonneg, testPrior_total, rfl, rfl, hrow_pos, hmean, ?_, ?_, ?_, ?_⟩
  · have h := key 0 0
    rw [hrow] at h
    simpa [testBelief, testPrior] using h
  · have h := key 0 1
    rw [hrow] at h
    simpa [testBelief, testPrior] using h
  · simpa using key 1 0
  · simpa using key 1 1

/-! ## The categorical scan -/

theorem cumsumFrom_getElem? (acc : K) (l : List K) (k : Nat) :
    (cumsumFrom acc l)[k]?
      = if k < l.length then some (acc + (l.take (k + 1)).sum) else none := by
  induction l generalizing acc k with
  | nil => simp [cumsumFrom]
  | cons x xs ih =>
    cases k with
    | zero => simp [cumsumFrom]
    | succ k =>
      have ht : List.take (k + 1 + 1) (x :: xs) = x :: List.take (k + 1) xs := rfl
      simp only [cumsumFrom, List.getElem?_cons_succ, ih, List.length_cons,
        Nat.add_lt_add_iff_right]
      rw [ht, List.sum_cons, add_assoc]

theorem cumsum_getElem? {n : Nat} (v : Fin n → K) (k : Nat) :
    (cumsum v)[k]? = if k < n then some (cumulative v k) else none := by
  unfold cumsum cumulative
  rw [cumsumFrom_getElem?, List.length_ofFn, zero_add]

theorem scanFrom_eq_some_iff (p : K) (cum : List K) (k0 j : Nat) :
    scanFrom p cum k0 = some j ↔
      k0 ≤ j ∧ (∃ c, cum[j - k0]? = some c ∧ p < c) ∧
        ∀ i, i < j - k0 → ∃ c, cum[i]? = some c ∧ c ≤ p := by
  induction cum generalizing k0 with
  | nil => simp [scanFrom]
  | cons c cs ih =>
    unfold scanFrom
    split_ifs with hp
    · rw [ih]
      constructor
      · rintro ⟨hle, ⟨c', hc', hlt⟩, hall⟩
        have hj : j - k0 = (j - (k0 + 1)) + 1 := by omega
        refine ⟨by omega, ⟨c', ?_, hlt⟩, ?_⟩
        · rw [hj, List.getElem?_cons_succ]
          exact hc'
        · intro i hi
          cases i with
          | zero => exact ⟨c, by simp, hp⟩
          | succ i =>
            rw [List.getElem?_cons_succ]
            exact hall i (by omega)
      · rintro ⟨hle, ⟨c', hc', hlt⟩, hall⟩
        have hne : j ≠ k0 := by
          rintro rfl
          simp only [Nat.sub_self, List.getElem?_cons_zero, Option.some.injEq] at hc'
          subst hc'
          exact absurd hlt (not_lt.mpr hp)
        have hj : j - k0 = (j - (k0 + 1)) + 1 := by omega
        refine ⟨by omega, ⟨c', ?_, hlt⟩, ?_⟩
        · rw [hj, List.getElem?_cons_succ] at hc'
          exact hc'
        · intro i hi
          have := hall (i + 1) (by omega)
          rw [List.getElem?_cons_succ] at this
          exact this
    · have hp' : p < c := not_le.mp hp
      constructor
      · intro h
        simp only [Option.some.injEq] at h
        subst h
        exact ⟨le_refl _, ⟨c, by simp, hp'⟩, by intro i hi; omega⟩
      · rintro ⟨hle, -, hall⟩
        by_contra hne
        have hne' : k0 ≠ j := fun h => hne (by rw [h])
        obtain ⟨c', hc', hle'⟩ := hall 0 (by omega)
        simp only [List.getElem?_cons_zero, Option.some.injEq] at hc'
        subst hc'
        exact absurd hp' (not_lt.mpr hle')

/-- The `Informative` draw selects `k` exactly when `k` is the first index whose
cumulative row-marginal probability is strictly greater than the uniform draw. -/
theorem DecayBelief.drawSubstitute_informative_iff {n m : Nat} (urPrior : Mat K n m)
    (r : Int) (u2 : K) (k : Nat) :
    DecayBelief.drawSubstitute urPrior .Informative r u2 = some (k : Int) ↔
      k < n ∧ RNG.runif 1 u2 < cumulative (rowSums urPrior) k ∧
        ∀ i, i < k → cumulative (rowSums urPrior) i ≤ RNG.runif 1 u2 := by
  have hscan := scanFrom_eq_some_iff (RNG.runif 1 u2) (cumsum (rowSums urPrior)) 0 k
  simp only [Nat.sub_zero, Nat.zero_le, true_and, cumsum_getElem?] at hscan
  have hdraw : DecayBelief.drawSubstitute urPrior .Informative r u2 = some (k : Int) ↔
      scanFrom (RNG.runif 1 u2) (cumsum (rowSums urPrior)) 0 = some k := by
    simp only [DecayBelief.drawSubstitute, categoricalScan]
    cases scanFrom (RNG.runif 1 u2) (cumsum (rowSums urPrior)) 0 with
    | none => simp
    | some j => simp
  rw [hdraw, hscan]
  constructor
  · rintro ⟨⟨c, hc, hlt⟩, hall⟩
    split_ifs at hc with hk
    simp only [Option.some.injEq] at hc
    subst hc
    refine ⟨hk, hlt, fun i hi => ?_⟩
    obtain ⟨c', hc', hle⟩ := hall i hi
    rw [if_pos (by omega)] at hc'
    simp only [Option.some.injEq] at hc'
    subst hc'
    exact hle
  · rintro ⟨hk, hlt, hall⟩
    refine ⟨⟨_, by rw [if_pos hk], hlt⟩, fun i hi => ⟨_, by rw [if_pos (by omega)], hall i hi⟩⟩

/-! ## The two branches of the decaying update -/

theorem DecayBelief.updateFromContext_noDecay {n m : Nat} (exp : K → K)
    (b : DecayBelief K n m) (noise trialTime : K) (decayTo : PriorType) (u : K) (r : Int)
    (u2 z : K) (h : b.decayRate = 0 ∨ trialTime = 0) :
    b.updateFromContext exp noise trialTime decayTo u r u2 z
      = .ok (-1, { b with toBelief := b.toBelief.updateFromContext exp noise z }) := by
  unfold DecayBelief.updateFromContext
  rw [if_pos h]

theorem DecayBelief.updateFromContext_good {n m : Nat} (exp : K → K)
    (b : DecayBelief K n m) (noise trialTime : K) (decayTo : PriorType) (u : K) (r : Int)
    (u2 z : K) (h0 : ¬(b.decayRate = 0 ∨ trialTime = 0))
    (hgood : u < exp (-b.decayRate * trialTime)) :
    b.updateFromContext exp noise trialTime decayTo u r u2 z
      = .ok (-1, b.sampledFrom exp noise (exp (-b.decayRate * trialTime)) b.trueContext z) := by
  have hb : RNG.rbernoulli (exp (-b.decayRate * trialTime)) u = 1 := by
    unfold RNG.rbernoulli
    rw [if_pos hgood]
  unfold DecayBelief.updateFromContext
  rw [if_neg h0]
  simp only [DecayBelief.sampleAndLikelihood, hb, one_ne_zero, if_false, if_true]
  rfl

theorem DecayBelief.updateFromContext_bad {n m : Nat} (exp : K → K)
    (b : DecayBelief K n m) (noise trialTime : K) (decayTo : PriorType) (u : K) (r : Int)
    (u2 z : K) (h0 : ¬(b.decayRate = 0 ∨ trialTime = 0))
    (hbad : ¬ u < exp (-b.decayRate * trialTime)) :
    b.updateFromContext exp noise trialTime decayTo u r u2 z
      = match DecayBelief.checkSubstitute b.nContexts
          (DecayBelief.drawSubstitute b.urPrior decayTo r u2) with
        | .error e => .error e
        | .ok truth =>
          .ok (truth, b.sampledFrom exp noise (exp (-b.decayRate * trialTime)) truth z) := by
  have hb : RNG.rbernoulli (exp (-b.decayRate * trialTime)) u = 0 := by
    unfold RNG.rbernoulli
    rw [if_neg hbad]
  unfold DecayBelief.updateFromContext
  rw [if_neg h0]
  simp only [DecayBelief.sampleAndLikelihood, hb, zero_ne_one, if_false, if_true]
  cases DecayBelief.checkSubstitute b.nContexts
      (DecayBelief.drawSubstitute b.urPrior decayTo r u2) with
  | error e => rfl
  | ok truth => rfl

omit [LinearOrderedField K] in
theorem DecayBelief.checkSubstitute_eq_ok_iff (nContexts : Int) (drawn : Option Int)
    (t : Int) :
    DecayBelief.checkSubstitute nContexts drawn = .ok t ↔
      drawn = some t ∧ 0 ≤ t ∧ t < nContexts := by
  unfold DecayBelief.checkSubstitute
  cases drawn with
  | none => simp
  | some d =>
    simp only [Option.some.injEq]
    split_ifs with h
    · simp only [reduceCtorEq, false_iff, not_and, not_lt]
      rintro rfl h0
      omega
    · simp only [Except.ok.injEq]
      constructor
      · rintro rfl
        exact ⟨rfl, by omega, by omega⟩
      · rintro ⟨h1, -, -⟩
        exact h1

/-- C7: if `decayRate = 0` or `trialTime = 0`, `DecayBelief::updateFromContext(noise,
trialTime, decayTo)` returns `-1` and leaves the engine in exactly the state that the base
`Belief::updateFromContext(noise)` produces from the same state with the same normal
variate; the marginals and the decay rate are unchanged. -/
theorem decay_zero_is_base_update {n m : Nat} (exp : K → K) (b : DecayBelief K n m)
    (noise trialTime : K) (decayTo : PriorType) (u : K) (r : Int) (u2 z : K)
    (h : b.decayRate = 0 ∨ trialTime = 0) :
    ∃ b1, b.updateFromContext exp noise trialTime decayTo u r u2 z = .ok (-1, b1) ∧
      b1.toBelief = b.toBelief.updateFromContext exp noise z ∧
      b1.contextMarginals = b.contextMarginals ∧ b1.decayRate = b.decayRate :=
  ⟨_, DecayBelief.updateFromContext_noDecay exp b noise trialTime decayTo u r u2 z h,
    rfl, rfl, rfl⟩

/-- At `trialTime = 0` the decaying update of the test engine is the base update. -/
theorem decay_zero_is_base_update_witness :
    ((testDecayBelief : DecayBelief ℝ 2 2).decayRate = 0 ∨ (0 : ℝ) = 0) ∧
    ∃ b1, (testDecayBelief : DecayBelief ℝ 2 2).updateFromContext Real.exp 5 0 .Informative
        (1 / 2) 0 (1 / 2) 0 = .ok (-1, b1) ∧
      b1.toBelief = (testDecayBelief : DecayBelief ℝ 2 2).toBelief.updateFromContext
        Real.exp 5 0 ∧
      b1.contextMarginals = (testDecayBelief : DecayBelief ℝ 2 2).contextMarginals ∧
      b1.decayRate = (testDecayBelief : DecayBelief ℝ 2 2).decayRate :=
  ⟨Or.inr rfl, decay_zero_is_base_update Real.exp testDecayBelief 5 0 .Informative
    (1 / 2) 0 (1 / 2) 0 (Or.inr rfl)⟩

/-! ## C8 -/

theorem cumulative_last {n : Nat} (v : Fin n → K) (hn : 0 < n) :
    cumulative v (n - 1) = ∑ i, v i := by
  unfold cumulative
  have h : n - 1 + 1 = (List.ofFn v).length := by
    rw [List.length_ofFn]
    omega
  rw [h, List.take_length, List.sum_ofFn]

theorem sum_rowSums {n m : Nat} (M : Mat K n m) : ∑ i, rowSums M i = Mat.total M := rfl

theorem exists_first_exceeding {n : Nat} (v : Fin n → K) (p : K) (hsum : ∑ i, v i = 1)
    (hp : p < 1) :
    ∃ k, k < n ∧ p < cumulative v k ∧ ∀ i, i < k → cumulative v i ≤ p := by
  classical
  have hn : 0 < n := by
    rcases Nat.eq_zero_or_pos n with h | h
    · subst h
      simp at hsum
    · exact h
  have hex : ∃ k, p < cumulative v k := ⟨n - 1, by rw [cumulative_last v hn, hsum]; exact hp⟩
  refine ⟨Nat.find hex, ?_, Nat.find_spec hex, fun i hi => not_lt.mp (Nat.find_min hex hi)⟩
  have : Nat.find hex ≤ n - 1 :=
    Nat.find_min' hex (by rw [cumulative_last v hn, hsum]; exact hp)
  omega

theorem DecayBelief.drawSubstitute_informative_some {n m : Nat} (urPrior : Mat K n m)
    (r : Int) (u2 : K) (hsum : Mat.total urPrior = 1) (hu2 : u2 < 1) :
    ∃ k : Nat, k < n ∧ DecayBelief.drawSubstitute urPrior .Informative r u2 = some (k : Int) := by
  have hp : RNG.runif 1 u2 < 1 := by
    unfold RNG.runif
    rw [mul_one]
    exact hu2
  obtain ⟨k, hk, h1, h2⟩ := exists_first_exceeding (rowSums urPrior) (RNG.runif 1 u2)
    (by rw [sum_rowSums]; exact hsum) hp
  exact ⟨k, hk, (DecayBelief.drawSubstitute_informative_iff urPrior r u2 k).mpr ⟨hk, h1, h2⟩⟩

/-- C8: for `decayRate > 0` and `trialTime > 0`, `DecayBelief::updateFromContext` returns
`-1` if and only if the uniform draw `u` of the Bernoulli step satisfies
`u < exp(-decayRate * trialTime)`, and then the evidence is sampled from the true
context; otherwise the value it returns is the index of the
substituted context, the one the evidence is sampled from, which lies in `[0, nContexts)`;
it does return one when the prior sums to 1 and the variates are in the ranges of the
random source; and the substitute may equal the true context. -/
theorem decay_return_value {n m : Nat} (b : DecayBelief ℝ n m) (noise trialTime : ℝ)
    (decayTo : PriorType) (u : ℝ) (r : Int) (u2 z : ℝ)
    (hrate : 0 < b.decayRate) (htime : 0 < trialTime) :
    ((∃ b1, b.updateFromContext Real.exp noise trialTime decayTo u r u2 z = .ok (-1, b1)) ↔
      u < Real.exp (-b.decayRate * trialTime)) ∧
    (u < Real.exp (-b.decayRate * trialTime) →
      b.updateFromContext Real.exp noise trialTime decayTo u r u2 z
        = .ok (-1, b.sampledFrom Real.exp noise (Real.exp (-b.decayRate * trialTime))
            b.trueContext z)) ∧
    (¬ u < Real.exp (-b.decayRate * trialTime) →
      ∀ ret b1, b.updateFromContext Real.exp noise trialTime decayTo u r u2 z = .ok (ret, b1) →
        0 ≤ ret ∧ ret < (n : Int) ∧
        DecayBelief.drawSubstitute b.urPrior decayTo r u2 = some ret ∧
        b1 = b.sampledFrom Real.exp noise (Real.exp (-b.decayRate * trialTime)) ret z) ∧
    (¬ u < Real.exp (-b.decayRate * trialTime) → Mat.total b.urPrior = 1 →
      (decayTo = .Uniform → 0 ≤ r ∧ r ≤ (n : Int) - 1) →
      (decayTo = .Informative → 0 ≤ u2 ∧ u2 < 1) →
      ∃ ret b1, b.updateFromContext Real.exp noise trialTime decayTo u r u2 z
        = .ok (ret, b1)) ∧
    (¬ u < Real.exp (-b.decayRate * trialTime) → decayTo = .Uniform → r = b.trueContext →
      0 ≤ r → r < (n : Int) →
      ∃ b1, b.updateFromContext Real.exp noise trialTime decayTo u r u2 z
        = .ok (b.trueContext, b1)) := by
  have h0 : ¬(b.decayRate = 0 ∨ trialTime = 0) := by
    rintro (h | h)
    · exact hrate.ne' h
    · exact htime.ne' h
  have hbadEq := DecayBelief.updateFromContext_bad Real.exp b noise trialTime decayTo u r u2 z h0
  refine ⟨?_, DecayBelief.updateFromContext_good Real.exp b noise trialTime decayTo u r u2 z h0,
    ?_, ?_, ?_⟩
  · constructor
    · rintro ⟨b1, hb1⟩
      by_contra hbad
      rw [hbadEq hbad] at hb1
      cases hc : DecayBelief.checkSubstitute b.nContexts
          (DecayBelief.drawSubstitute b.urPrior decayTo r u2) with
      | error e =>
        rw [hc] at hb1
        cases hb1
      | ok truth =>
        rw [hc] at hb1
        simp only [Except.ok.injEq, Prod.mk.injEq] at hb1
        have := ((DecayBelief.checkSubstitute_eq_ok_iff _ _ _).mp hc).2.1
        omega
    · intro hgood
      exact ⟨_, DecayBelief.updateFromContext_good Real.exp b noise trialTime decayTo u r u2 z
        h0 hgood⟩
  · intro hbad ret b1 hb1
    rw [hbadEq hbad] at hb1
    cases hc : DecayBelief.checkSubstitute b.nContexts
        (DecayBelief.drawSubstitute b.urPrior decayTo r u2) with
    | error e =>
      rw [hc] at hb1
      cases hb1
    | ok truth =>
      rw [hc] at hb1
      simp only [Except.ok.injEq, Prod.mk.injEq] at hb1
      obtain ⟨h1, h2, h3⟩ := (DecayBelief.checkSubstitute_eq_ok_iff _ _ _).mp hc
      obtain ⟨rfl, rfl⟩ := hb1
      exact ⟨h2, h3, h1, rfl⟩
  · intro hbad hsum hU hI
    rw [hbadEq hbad]
    cases decayTo with
    | Uniform =>
      obtain ⟨hr0, hr1⟩ := hU rfl
      have hc : DecayBelief.checkSubstitute b.nContexts
          (DecayBelief.drawSubstitute b.urPrior .Uniform r u2) = .ok r :=
        (DecayBelief.checkSubstitute_eq_ok_iff _ _ _).mpr
          ⟨rfl, hr0, by show r < (n : Int); omega⟩
      rw [hc]
      exact ⟨_, _, rfl⟩
    | Informative =>
      obtain ⟨k, hk, hdraw⟩ := DecayBelief.drawSubstitute_informative_some b.urPrior r u2
        hsum (hI rfl).2
      have hc : DecayBelief.checkSubstitute b.nContexts
          (DecayBelief.drawSubstitute b.urPrior .Informative r u2) = .ok (k : Int) :=
        (DecayBelief.checkSubstitute_eq_ok_iff _ _ _).mpr
          ⟨hdraw, by omega, by show (k : Int) < (n : Int); omega⟩
      rw [hc]
      exact ⟨_, _, rfl⟩
  · intro hbad hU hr hr0 hr1
    subst hU
    rw [hbadEq hbad]
    have hc : DecayBelief.checkSubstitute b.nContexts
        (DecayBelief.drawSubstitute b.urPrior .Uniform r u2) = .ok b.trueContext :=
      (DecayBelief.checkSubstitute_eq_ok_iff _ _ _).mpr
        ⟨by rw [← hr]; rfl, by omega, by show b.trueContext < (n : Int); omega⟩
    rw [hc]
    exact ⟨_, rfl⟩

/-- With `decayRate = 0.01` and `trialTime = 10` the test engine returns `-1` exactly
when the uniform draw `0` is below `exp(-0.1)`. -/
theorem decay_return_value_witness :
    (0 : ℝ) < (testDecayBelief : DecayBelief ℝ 2 2).decayRate ∧ (0 : ℝ) < 10 ∧
    ((∃ b1, (testDecayBelief : DecayBelief ℝ 2 2).updateFromContext Real.exp 5 10 .Informative
        0 0 (1 / 2) 0 = .ok (-1, b1)) ↔
      (0 : ℝ) < Real.exp (-(testDecayBelief : DecayBelief ℝ 2 2).decayRate * 10)) :=
  have hrate : (0 : ℝ) < (testDecayBelief : DecayBelief ℝ 2 2).decayRate := by
    simp [testDecayBelief]
  ⟨hrate, by norm_num,
    (decay_return_value testDecayBelief 5 10 .Informative 0 0 (1 / 2) 0 hrate
      (by norm_num)).1⟩

/-! ## C9 -/

/-- C9: for a constructed `DecayBelief`, in every state it reaches,
`DecayBelief::_computeLikelihoods(x, s, Context, p)` sets the likelihood of every cell
`(c,t)` to `p·N(x; c·contextMeanSpacing, s) + (1−p)·Σ_k m(k)·N(x; k·contextMeanSpacing, s)`
with `m(k)` the `k`-th row sum of `UrPrior` and `N` the density `RNG::dnorm`; the value
does not depend on the target column `t`. -/
theorem decay_likelihood_is_mixture {n m : Nat} (exp : K → K) (cfg : Config K n m)
    (b0 : DecayBelief K n m) (calls : List (Call K)) (x s p : K)
    (hctor : DecayBelief.ctor cfg = .ok b0) (hs : 0 < s) :
    (∀ c t, ((b0.run exp calls).computeLikelihoods exp x s .Context p).getLik c t
      = p * RNG.dnorm exp x (((c : Nat) : K) * (b0.run exp calls).contextMeanSpacing) s
        + (1 - p) * ∑ k, (∑ t', cfg.urPrior k t') *
            RNG.dnorm exp x (((k : Nat) : K) * (b0.run exp calls).contextMeanSpacing) s) ∧
    (∀ c t1 t2, ((b0.run exp calls).computeLikelihoods exp x s .Context p).getLik c t1
      = ((b0.run exp calls).computeLikelihoods exp x s .Context p).getLik c t2) := by
  have _hs := hs
  obtain ⟨hbase, hmarg, -⟩ := DecayBelief.decay_ctor_ok cfg b0 hctor
  obtain ⟨-, hur, -, -, -⟩ := Belief.ctor_ok cfg b0.toBelief hbase
  obtain ⟨-, hm, -⟩ := DecayBelief.run_frame exp b0 calls
  have hmk : ∀ k, (b0.run exp calls).contextMarginals k = ∑ t', cfg.urPrior k t' := by
    intro k
    rw [hm, hmarg, hur]
    rfl
  refine ⟨fun c t => ?_, fun c t1 t2 => rfl⟩
  show ((b0.run exp calls).computeLikelihoods exp x s .Context p).lik c t = _
  simp only [DecayBelief.computeLikelihoods, DecayBelief.noisyLik_eq_sum, hmk]

/-- The likelihood test: marginals `0.7, 0.3` and `pCorrect = 0.7` at noise 1. -/
theorem decay_likelihood_is_mixture_witness :
    DecayBelief.ctor (testDecayConfig : Config ℝ 2 2) = .ok testDecayBelief ∧ (0 : ℝ) < 1 ∧
    ∀ (x : ℝ) (c t : Fin 2),
      ((testDecayBelief : DecayBelief ℝ 2 2).computeLikelihoods Real.exp x 1 .Context
          (7 / 10)).getLik c t
        = 7 / 10 * RNG.dnorm Real.exp x ((c : Nat) : ℝ) 1
          + 3 / 10 * (7 / 10 * RNG.dnorm Real.exp x 0 1 + 3 / 10 * RNG.dnorm Real.exp x 1 1) := by
  refine ⟨testDecayBelief_ctor, one_pos, fun x c t => ?_⟩
  have h := (decay_likelihood_is_mixture Real.exp testDecayConfig testDecayBelief [] x 1
    (7 / 10) testDecayBelief_ctor one_pos).1 c t
  have hrun : (testDecayBelief : DecayBelief ℝ 2 2).run Real.exp [] = testDecayBelief := rfl
  rw [hrun] at h
  rw [h]
  simp only [testDecayBelief, testDecayConfig, testPrior, Fin.sum_univ_two,
    Matrix.cons_val_zero, Matrix.cons_val_one, Matrix.head_cons, Fin.val_zero, Fin.val_one,
    Nat.cast_zero, Nat.cast_one, mul_one, zero_mul]
  norm_num

/-! ## C10 -/

theorem ForgetBelief.contextForgetUpdate_forgets {n m : Nat} (exp : K → K)
    (b : ForgetBelief K n m) (noise : K) (forgetTo : PriorType) (u : K) (r : Int) (u2 z : K)
    (h0 : ¬(b.forgetProb = 0 ∨ b.forgot = true)) (hu : u < b.forgetProb) :
    b.contextForgetUpdate exp noise forgetTo u r u2 z
      = match DecayBelief.checkSubstitute b.nContexts
          (DecayBelief.drawSubstitute b.urPrior forgetTo r u2) with
        | .error e => .error e
        | .ok drawFrom => .ok (drawFrom, b.forgottenTo exp noise drawFrom z) := by
  have hb : RNG.rbernoulli b.forgetProb u = 1 := by
    unfold RNG.rbernoulli
    rw [if_pos hu]
  unfold ForgetBelief.contextForgetUpdate
  rw [if_neg h0, if_pos hb]
  cases DecayBelief.checkSubstitute b.nContexts
      (DecayBelief.drawSubstitute b.urPrior forgetTo r u2) with
  | error e => rfl
  | ok d => rfl

theorem DecayBelief.checkSubstitute_informative_iff {n m : Nat} (urPrior : Mat K n m)
    (r : Int) (u2 : K) (k : Nat) :
    DecayBelief.checkSubstitute (n : Int)
        (DecayBelief.drawSubstitute urPrior .Informative r u2) = .ok (k : Int) ↔
      k < n ∧ RNG.runif 1 u2 < cumulative (rowSums urPrior) k ∧
        ∀ i, i < k → cumulative (rowSums urPrior) i ≤ RNG.runif 1 u2 := by
  rw [DecayBelief.checkSubstitute_eq_ok_iff, DecayBelief.drawSubstitute_informative_iff]
  constructor
  · rintro ⟨h, -, -⟩
    exact h
  · intro h
    exact ⟨h, by omega, by have := h.1; omega⟩

/-- C10 (amended): in the `Informative` substitution policy of
`DecayBelief::updateFromContext` and `ForgetBelief::contextForgetUpdate`, for every
uniform draw `p` the substituted context is the first index `k` whose cumulative
row-marginal probability `Σ_{j≤k} m(j)` is strictly greater than `p` (exclusive
threshold: a draw equal to a cumulative value does not select that index). -/
theorem informative_substitute_is_first_exceeding {n m : Nat} (exp : K → K)
    (noise u : K) (r : Int) (u2 z : K) (k : Nat) :
    (∀ (b : DecayBelief K n m) (trialTime : K),
      ¬(b.decayRate = 0 ∨ trialTime = 0) → ¬ u < exp (-b.decayRate * trialTime) →
      ((∃ b1, b.updateFromContext exp noise trialTime .Informative u r u2 z
          = .ok ((k : Int), b1)) ↔
        k < n ∧ RNG.runif 1 u2 < cumulative (rowSums b.urPrior) k ∧
          ∀ i, i < k → cumulative (rowSums b.urPrior) i ≤ RNG.runif 1 u2)) ∧
    (∀ (b : ForgetBelief K n m),
      ¬(b.forgetProb = 0 ∨ b.forgot = true) → u < b.forgetProb →
      ((∃ b1, b.contextForgetUpdate exp noise .Informative u r u2 z = .ok ((k : Int), b1)) ↔
        k < n ∧ RNG.runif 1 u2 < cumulative (rowSums b.urPrior) k ∧
          ∀ i, i < k → cumulative (rowSums b.urPrior) i ≤ RNG.runif 1 u2)) := by
  constructor
  · intro b trialTime h0 hbad
    rw [DecayBelief.updateFromContext_bad exp b noise trialTime .Informative u r u2 z h0 hbad,
      ← DecayBelief.checkSubstitute_informative_iff b.urPrior r u2 k]
    show _ ↔ DecayBelief.checkSubstitute b.nContexts _ = _
    cases DecayBelief.checkSubstitute b.nContexts
        (DecayBelief.drawSubstitute b.urPrior .Informative r u2) with
    | error e => simp
    | ok d => simp
  · intro b h0 hu
    rw [ForgetBelief.contextForgetUpdate_forgets exp b noise .Informative u r u2 z h0 hu,
      ← DecayBelief.checkSubstitute_informative_iff b.urPrior r u2 k]
    show _ ↔ DecayBelief.checkSubstitute b.nContexts _ = _
    cases DecayBelief.checkSubstitute b.nContexts
        (DecayBelief.drawSubstitute b.urPrior .Informative r u2) with
    | error e => simp
    | ok d => simp

theorem testPrior_cumulative :
    cumulative (rowSums (testPrior : Mat K 2 2)) 0 = 7 / 10 ∧
      cumulative (rowSums (testPrior : Mat K 2 2)) 1 = 1 := by
  constructor
  · simp [cumulative, rowSums, testPrior, Fin.sum_univ_two, List.ofFn_succ]
    norm_num
  · simp [cumulative, rowSums, testPrior, Fin.sum_univ_two, List.ofFn_succ]
    norm_num

theorem testPrior_check_informative :
    DecayBelief.checkSubstitute ((2 : Nat) : Int)
      (DecayBelief.drawSubstitute (testPrior : Mat K 2 2) .Informative 0 (7 / 10))
      = .ok ((1 : Nat) : Int) := by
  rw [DecayBelief.checkSubstitute_informative_iff]
  have hp : RNG.runif 1 (7 / 10 : K) = 7 / 10 := by simp [RNG.runif]
  refine ⟨by norm_num, ?_, ?_⟩
  · rw [hp, testPrior_cumulative.2]
    norm_num
  · intro i hi
    have hi0 : i = 0 := by omega
    subst hi0
    rw [hp, testPrior_cumulative.1]

/-- With marginals `0.7, 0.3` and uniform draw `0.7`, equal to the cumulative value at
index 0, both methods substitute context 1. -/
theorem informative_scan_counterexample :
    cumulative (rowSums (testPrior : Mat ℝ 2 2)) 0 = RNG.runif 1 (7 / 10) ∧
    (∃ b1, (testDecayBelief : DecayBelief ℝ 2 2).updateFromContext Real.exp 5 1000
      .Informative (1 / 2) 0 (7 / 10) 0 = .ok (1, b1)) ∧
    (∃ b1, (testForgetBelief : ForgetBelief ℝ 2 2).contextForgetUpdate Real.exp 5
      .Informative 0 0 (7 / 10) 0 = .ok (1, b1)) := by
  refine ⟨?_, ?_, ?_⟩
  · rw [testPrior_cumulative.1]
    simp [RNG.runif]
  · have h0 : ¬((testDecayBelief : DecayBelief ℝ 2 2).decayRate = 0 ∨ (1000 : ℝ) = 0) := by
      simp [testDecayBelief]
    have hbad : ¬ (1 / 2 : ℝ)
        < Real.exp (-(testDecayBelief : DecayBelief ℝ 2 2).decayRate * 1000) := by
      have h1 : -(testDecayBelief : DecayBelief ℝ 2 2).decayRate * 1000 = -10 := by
        simp [testDecayBelief]
        norm_num
      rw [h1, Real.exp_neg, not_lt]
      have h2 : (10 : ℝ) + 1 ≤ Real.exp 10 := Real.add_one_le_exp 10
      have h3 : (Real.exp 10)⁻¹ ≤ (11 : ℝ)⁻¹ :=
        inv_anti₀ (by norm_num) (by linarith)
      linarith [show (11 : ℝ)⁻¹ ≤ 1 / 2 by norm_num]
    rw [DecayBelief.updateFromContext_bad Real.exp _ 5 1000 .Informative (1 / 2) 0 (7 / 10) 0
      h0 hbad]
    have hc := @testPrior_check_informative ℝ _
    have hc' : DecayBelief.checkSubstitute (testDecayBelief : DecayBelief ℝ 2 2).nContexts
        (DecayBelief.drawSubstitute (testDecayBelief : DecayBelief ℝ 2 2).urPrior
          .Informative 0 (7 / 10)) = .ok 1 := hc
    rw [hc']
    exact ⟨_, rfl⟩
  · have h0 : ¬((testForgetBelief : ForgetBelief ℝ 2 2).forgetProb = 0 ∨
        (testForgetBelief : ForgetBelief ℝ 2 2).forgot = true) := by
      simp [testForgetBelief]
    have hu : (0 : ℝ) < (testForgetBelief : ForgetBelief ℝ 2 2).forgetProb := by
      simp [testForgetBelief]
    rw [ForgetBelief.contextForgetUpdate_forgets Real.exp _ 5 .Informative 0 0 (7 / 10) 0
      h0 hu]
    have hc := @testPrior_check_informative ℝ _
    have hc' : DecayBelief.checkSubstitute (testForgetBelief : ForgetBelief ℝ 2 2).nContexts
        (DecayBelief.drawSubstitute (testForgetBelief : ForgetBelief ℝ 2 2).urPrior
          .Informative 0 (7 / 10)) = .ok 1 := hc
    rw [hc']
    exact ⟨_, rfl⟩

/-! ## C5 -/

/-- C5 (the code at the failing input): with `contextMeanSpacing = 2` and true context 1,
`updateFromContext(1)` with normal variate 0 evaluates the likelihoods at the sample
`1 = truth + noise·z`, not at `2 = truth·contextMeanSpacing + noise·z`, although the
likelihood of the true hypothesis is centred on `2`; the same sample is used by the
decaying update. -/
theorem evidence_sample_ignores_spacing :
    (spacedBelief : Belief ℝ 2 2).updateFromContext Real.exp 1 0
      = ((spacedBelief : Belief ℝ 2 2).computeLikelihoods Real.exp 1 1
          .Context).multiplyAndNormalize ∧
    (((spacedBelief : Belief ℝ 2 2).trueContext : Int) : ℝ)
      * (spacedBelief : Belief ℝ 2 2).contextMeanSpacing + 1 * 0 = 2 ∧
    ((spacedBelief : Belief ℝ 2 2).computeLikelihoods Real.exp 1 1 .Context).getLik 1 0
      = RNG.dnorm Real.exp 1 2 1 ∧
    RNG.dnorm Real.exp (1 : ℝ) 2 1 ≠ RNG.dnorm Real.exp 2 2 1 ∧
    (∀ (b : DecayBelief ℝ 2 2) (noise trialTime u u2 z : ℝ) (r : Int) (decayTo : PriorType),
      ¬(b.decayRate = 0 ∨ trialTime = 0) → u < Real.exp (-b.decayRate * trialTime) →
      b.updateFromContext Real.exp noise trialTime decayTo u r u2 z
        = .ok (-1, { b.computeLikelihoods Real.exp ((b.trueContext : ℝ) + noise * z) noise
              .Context (Real.exp (-b.decayRate * trialTime)) with
            toBelief := (b.computeLikelihoods Real.exp ((b.trueContext : ℝ) + noise * z) noise
              .Context (Real.exp (-b.decayRate * trialTime))).toBelief.multiplyAndNormalize })) := by
  refine ⟨?_, ?_, ?_, ?_, ?_⟩
  · have hs : RNG.rnorm ((spacedBelief : Belief ℝ 2 2).truthOf .Context) 1 0 = 1 := by
      simp [RNG.rnorm, Belief.truthOf, spacedBelief]
    unfold Belief.updateFromContext Belief.update
    simp only [hs]
  · simp [spacedBelief]
  · simp [Belief.getLik, Belief.computeLikelihoods, spacedBelief]
  · have h1 : RNG.dnorm Real.exp (1 : ℝ) 2 1 = RNG.inv_sqrt_2pi * Real.exp (-(1 / 2)) := by
      rw [RNG.dnorm_factor]
      norm_num
    have h2 : RNG.dnorm Real.exp (2 : ℝ) 2 1 = RNG.inv_sqrt_2pi := by
      rw [RNG.dnorm_factor]
      norm_num
    rw [h1, h2]
    intro h
    have hk : (RNG.inv_sqrt_2pi : ℝ) ≠ 0 := RNG.inv_sqrt_2pi_pos.ne'
    have h3 : Real.exp (-(1 / 2)) = 1 := by
      have := mul_left_cancel₀ hk (h.trans (mul_one _).symm)
      exact this
    have h4 : Real.exp (-(1 / 2) : ℝ) < 1 := Real.exp_lt_one_iff.mpr (by norm_num)
    linarith
  · intro b noise trialTime u u2 z r decayTo h0 hgood
    exact DecayBelief.updateFromContext_good Real.exp b noise trialTime decayTo u r u2 z h0 hgood

/-! ## C2: a negative decay rate breaks nonnegativity -/

theorem negDecayBelief_ctor :
    DecayBelief.ctor (negDecayConfig : Config K 2 2) = .ok negDecayBelief := by
  have h : Belief.ctor (negDecayConfig : Config K 2 2) = .ok testBelief0 := testBelief0_ctor
  unfold DecayBelief.ctor
  rw [h]
  rfl

theorem DecayBelief.sampleAndLikelihood_good {n m : Nat} (exp : K → K)
    (b : DecayBelief K n m) (noise trialTime : K) (decayTo : PriorType) (u : K) (r : Int)
    (u2 z : K) (hgood : u < exp (-b.decayRate * trialTime)) :
    b.sampleAndLikelihood exp noise trialTime decayTo u r u2 z
      = .ok (-1, b.computeLikelihoods exp (RNG.rnorm (b.trueContext : K) noise z) noise
          .Context (exp (-b.decayRate * trialTime))) := by
  have hb : RNG.rbernoulli (exp (-b.decayRate * trialTime)) u = 1 := by
    unfold RNG.rbernoulli
    rw [if_pos hgood]
  simp only [DecayBelief.sampleAndLikelihood, hb, one_ne_zero, if_false, if_true]

/-- The likelihoods and the normalizer of the decaying update of `negDecayBelief` with
noise 1, trial time 1 and all variates 0. -/
theorem negDecay_values :
    let b1 := (negDecayBelief : DecayBelief ℝ 2 2).computeLikelihoods Real.exp
      (RNG.rnorm (((negDecayBelief : DecayBelief ℝ 2 2).trueContext : Int) : ℝ) 1 0) 1
      .Context (Real.exp (-(negDecayBelief : DecayBelief ℝ 2 2).decayRate * 1))
    b1.lik 1 0 < 0 ∧ 0 < b1.toBelief.normalizer ∧ b1.belief 1 0 = 1 / 5 := by
  intro b1
  have hp : Real.exp (-(negDecayBelief : DecayBelief ℝ 2 2).decayRate * 1) = Real.exp 1 := by
    simp [negDecayBelief]
  have hx : RNG.rnorm (((negDecayBelief : DecayBelief ℝ 2 2).trueContext : Int) : ℝ) 1 0
      = -1 := by
    simp [RNG.rnorm, negDecayBelief]
  have hp2 : (2 : ℝ) ≤ Real.exp 1 := by
    have := Real.add_one_le_exp (1 : ℝ)
    linarith
  have hq : Real.exp (-(3 / 2) : ℝ) ≤ 2 / 5 := by
    rw [Real.exp_neg]
    have h1 : (3 / 2 : ℝ) + 1 ≤ Real.exp (3 / 2) := Real.add_one_le_exp _
    have h2 : (Real.exp (3 / 2))⁻¹ ≤ ((5 / 2 : ℝ))⁻¹ := inv_anti₀ (by norm_num) (by linarith)
    linarith [show ((5 / 2 : ℝ))⁻¹ = 2 / 5 by norm_num]
  have hq0 : 0 < Real.exp (-(3 / 2) : ℝ) := Real.exp_pos _
  have hE0 : 0 < Real.exp (-(1 / 2) : ℝ) := Real.exp_pos _
  have hE1 : Real.exp (-2 : ℝ) = Real.exp (-(1 / 2)) * Real.exp (-(3 / 2)) := by
    rw [← Real.exp_add]
    norm_num
  have hk : (0 : ℝ) < RNG.inv_sqrt_2pi / 1 := div_pos RNG.inv_sqrt_2pi_pos one_pos
  have hlik : ∀ i j, b1.lik i j = RNG.inv_sqrt_2pi / 1 *
      (Real.exp 1 * Real.exp (-(1 / 2) * ((-1 - ((i : Nat) : ℝ) * 1) / 1)
          * ((-1 - ((i : Nat) : ℝ) * 1) / 1))
        + (1 - Real.exp 1) * (7 / 10 * Real.exp (-(1 / 2)) + 3 / 10 * Real.exp (-2))) := by
    intro i j
    show ((negDecayBelief : DecayBelief ℝ 2 2).computeLikelihoods Real.exp _ 1 .Context _).lik
      i j = _
    rw [DecayBelief.computeLikelihoods_context_factor, hp, hx]
    simp only [negDecayBelief, rowSums, testPrior, Fin.sum_univ_two, Matrix.cons_val_zero,
      Matrix.cons_val_one, Matrix.head_cons, Fin.val_zero, Fin.val_one, Nat.cast_zero,
      Nat.cast_one]
    norm_num
  have hinner : Real.exp 1 * Real.exp (-2)
      + (1 - Real.exp 1) * (7 / 10 * Real.exp (-(1 / 2)) + 3 / 10 * Real.exp (-2)) < 0 := by
    rw [hE1]
    have hfac : Real.exp 1 * (Real.exp (-(1 / 2)) * Real.exp (-(3 / 2)))
        + (1 - Real.exp 1) * (7 / 10 * Real.exp (-(1 / 2))
          + 3 / 10 * (Real.exp (-(1 / 2)) * Real.exp (-(3 / 2))))
        = Real.exp (-(1 / 2)) * (Real.exp 1 * Real.exp (-(3 / 2))
          + (1 - Real.exp 1) * (7 / 10 + 3 / 10 * Real.exp (-(3 / 2)))) := by ring
    rw [hfac]
    apply mul_neg_of_pos_of_neg hE0
    nlinarith [mul_nonneg (sub_nonneg.mpr hp2) (sub_nonneg.mpr hq)]
  refine ⟨?_, ?_, ?_⟩
  · rw [hlik]
    apply mul_neg_of_pos_of_neg hk
    have : (-(1 / 2) * ((-1 - (((1 : Fin 2) : Nat) : ℝ) * 1) / 1)
        * ((-1 - (((1 : Fin 2) : Nat) : ℝ) * 1) / 1) : ℝ) = -2 := by
      norm_num
    rw [this]
    exact hinner
  · rw [Belief.normalizer_eq]
    have hsum : Mat.total (fun i j => b1.belief i j * b1.lik i j)
        = RNG.inv_sqrt_2pi / 1 * (7 / 10 * Real.exp (-(1 / 2)) + 3 / 10 * Real.exp (-2)) := by
      simp only [hlik]
      have hb : ∀ i j, b1.belief i j = (testPrior : Mat ℝ 2 2) i j := fun _ _ => rfl
      simp only [hb, Mat.total, testPrior, Fin.sum_univ_two, Matrix.cons_val_zero,
        Matrix.cons_val_one, Matrix.head_cons, Fin.val_zero, Fin.val_one, Nat.cast_zero,
        Nat.cast_one]
      have e0 : (-(1 / 2) * ((-1 - (0 : ℝ) * 1) / 1) * ((-1 - (0 : ℝ) * 1) / 1) : ℝ)
          = -(1 / 2) := by norm_num
      have e1 : (-(1 / 2) * ((-1 - (1 : ℝ) * 1) / 1) * ((-1 - (1 : ℝ) * 1) / 1) : ℝ)
          = -2 := by norm_num
      rw [e0, e1]
      ring
    rw [hsum]
    have hE2 : 0 < Real.exp (-2 : ℝ) := Real.exp_pos _
    positivity
  · show (testPrior : Mat ℝ 2 2) 1 0 = 1 / 5
    simp [testPrior]

/-- With `decayRate = -1` the decaying update makes the entry `(1,0)` negative. -/
theorem negDecay_update_negative :
    DecayBelief.NormalizersNonzero Real.exp
      ((negDecayBelief : DecayBelief ℝ 2 2).call Real.exp (.base .reset))
      [.decayUpdate 1 1 .Informative 0 0 0 0] ∧
    (((negDecayBelief : DecayBelief ℝ 2 2).call Real.exp (.base .reset)).run Real.exp
      [.decayUpdate 1 1 .Informative 0 0 0 0]).getBelief 1 0 < 0 := by
  have hreset : (negDecayBelief : DecayBelief ℝ 2 2).call Real.exp (.base .reset)
      = negDecayBelief := rfl
  rw [hreset]
  have h0 : ¬((negDecayBelief : DecayBelief ℝ 2 2).decayRate = 0 ∨ (1 : ℝ) = 0) := by
    simp [negDecayBelief]
  have hgood : (0 : ℝ) < Real.exp (-(negDecayBelief : DecayBelief ℝ 2 2).decayRate * 1) :=
    Real.exp_pos _
  obtain ⟨hlik, hnorm, hbel⟩ := negDecay_values
  constructor
  · refine ⟨?_, trivial⟩
    intro v hv
    simp only [DecayBelief.callNormalizer, if_neg h0,
      DecayBelief.sampleAndLikelihood_good Real.exp _ 1 1 .Informative 0 0 0 0 hgood,
      Option.some.injEq] at hv
    rw [← hv]
    exact hnorm.ne'
  · have hrun : (negDecayBelief : DecayBelief ℝ 2 2).run Real.exp
        [.decayUpdate 1 1 .Informative 0 0 0 0]
        = (negDecayBelief : DecayBelief ℝ 2 2).sampledFrom Real.exp 1
            (Real.exp (-(negDecayBelief : DecayBelief ℝ 2 2).decayRate * 1))
            (negDecayBelief : DecayBelief ℝ 2 2).trueContext 0 := by
      simp only [DecayBelief.run, List.foldl_cons, List.foldl_nil, DecayBelief.call,
        DecayBelief.updateFromContext_good Real.exp _ 1 1 .Informative 0 0 0 0 h0 hgood]
    rw [hrun]
    show (Belief.multiplyAndNormalize _).belief 1 0 < 0
    rw [Belief.multiplyAndNormalize_belief, ← Belief.normalizer_eq]
    apply div_neg_of_neg_of_pos _ hnorm
    rw [hbel]
    exact mul_neg_of_pos_of_neg (by norm_num) hlik

/-- Two accepted configurations whose posterior gets a negative entry: a prior
`1.5 -0.5`, and the test prior with `decayRate = -1` at `trialTime = 1`. -/
theorem posterior_nonneg_counterexample :
    (Belief.ctor (signedConfig : Config ℝ 1 2) = .ok signedBelief ∧
      Belief.NormalizersNonzero Real.exp (signedBelief : Belief ℝ 1 2).reset
        [.updateFromContext 1 0] ∧
      ((signedBelief : Belief ℝ 1 2).reset.run Real.exp [.updateFromContext 1 0]).getBelief 0 1
        < 0) ∧
    (DecayBelief.ctor (negDecayConfig : Config ℝ 2 2) = .ok negDecayBelief ∧
      (∀ i j, 0 ≤ (negDecayConfig : Config ℝ 2 2).urPrior i j) ∧
      DecayBelief.NormalizersNonzero Real.exp
        ((negDecayBelief : DecayBelief ℝ 2 2).call Real.exp (.base .reset))
        [.decayUpdate 1 1 .Informative 0 0 0 0] ∧
      (((negDecayBelief : DecayBelief ℝ 2 2).call Real.exp (.base .reset)).run Real.exp
        [.decayUpdate 1 1 .Informative 0 0 0 0]).getBelief 1 0 < 0) :=
  ⟨signedBelief_update_negative,
    negDecayBelief_ctor, testPrior_nonneg, negDecay_update_negative.1,
    negDecay_update_negative.2⟩

/-! ## Rounding and the timing draws (C12 to C16) -/

theorem utils.roundToIncrement_bounds [FloorRing K] (x step : K) (hstep : 0 < step) :
    x - step / 2 < utils.roundToIncrement x step ∧
      utils.roundToIncrement x step ≤ x + step / 2 := by
  unfold utils.roundToIncrement
  have h1 : ((⌊x / step + 1 / 2⌋ : Int) : K) ≤ x / step + 1 / 2 := Int.floor_le _
  have h2 : x / step + 1 / 2 < ((⌊x / step + 1 / 2⌋ : Int) : K) + 1 := Int.lt_floor_add_one _
  have hx : x / step * step = x := div_mul_cancel₀ x hstep.ne'
  constructor
  · have := mul_lt_mul_of_pos_right h2 hstep
    have e : (x / step + 1 / 2) * step = x + step / 2 := by rw [add_mul, hx]; ring
    rw [e] at this
    linarith
  · have := mul_le_mul_of_nonneg_right h1 hstep.le
    have e : (x / step + 1 / 2) * step = x + step / 2 := by rw [add_mul, hx]; ring
    rw [e] at this
    exact this

/-- C14: for every `x` and every `step > 0`, `utils::roundToIncrement(x, step)` equals
`floor(x/step + 0.5)·step`; the result `r` is `k·step` for an integer `k` and satisfies
`x − step/2 < r ≤ x + step/2`. -/
theorem roundToIncrement_is_nearest_multiple [FloorRing K] (x step : K) (hstep : 0 < step) :
    utils.roundToIncrement x step = ((⌊x / step + 1 / 2⌋ : Int) : K) * step ∧
    (∃ k : Int, utils.roundToIncrement x step = (k : K) * step) ∧
    x - step / 2 < utils.roundToIncrement x step ∧
    utils.roundToIncrement x step ≤ x + step / 2 :=
  ⟨rfl, ⟨_, rfl⟩, utils.roundToIncrement_bounds x step hstep⟩

theorem utils.roundToIncrement_eq [FloorRing K] (x step : K) (k : Int)
    (h1 : (k : K) ≤ x / step + 1 / 2) (h2 : x / step + 1 / 2 < (k : K) + 1) :
    utils.roundToIncrement x step = (k : K) * step := by
  unfold utils.roundToIncrement
  rw [Int.floor_eq_iff.mpr ⟨h1, h2⟩]

/-- The tests of `roundToIncrement`: `(3.3,1) → 3`, `(73.59,10) → 70`, `(75.59,10) → 80`,
`(3.3,1.5) → 3`, `(4.3,1.5) → 4.5`. -/
theorem roundToIncrement_is_nearest_multiple_witness :
    (0 : ℚ) < 1 ∧
    (utils.roundToIncrement (33 / 10 : ℚ) 1 = ((⌊(33 / 10 : ℚ) / 1 + 1 / 2⌋ : Int) : ℚ) * 1 ∧
      (∃ k : Int, utils.roundToIncrement (33 / 10 : ℚ) 1 = (k : ℚ) * 1) ∧
      (33 / 10 : ℚ) - 1 / 2 < utils.roundToIncrement (33 / 10 : ℚ) 1 ∧
      utils.roundToIncrement (33 / 10 : ℚ) 1 ≤ 33 / 10 + 1 / 2) ∧
    utils.roundToIncrement (33 / 10 : ℚ) 1 = 3 ∧
    utils.roundToIncrement (7359 / 100 : ℚ) 10 = 70 ∧
    utils.roundToIncrement (7559 / 100 : ℚ) 10 = 80 ∧
    utils.roundToIncrement (33 / 10 : ℚ) (3 / 2) = 3 ∧
    utils.roundToIncrement (43 / 10 : ℚ) (3 / 2) = 9 / 2 := by
  refine ⟨by norm_num, roundToIncrement_is_nearest_multiple (33 / 10 : ℚ) 1 (by norm_num),
    ?_, ?_, ?_, ?_, ?_⟩
  · rw [utils.roundToIncrement_eq _ _ 3 (by norm_num) (by norm_num)]; norm_num
  · rw [utils.roundToIncrement_eq _ _ 7 (by norm_num) (by norm_num)]; norm_num
  · rw [utils.roundToIncrement_eq _ _ 8 (by norm_num) (by norm_num)]; norm_num
  · rw [utils.roundToIncrement_eq _ _ 2 (by norm_num) (by norm_num)]; norm_num
  · rw [utils.roundToIncrement_eq _ _ 3 (by norm_num) (by norm_num)]; norm_num

/-- C16: for every mean `m ≠ 0` and standard deviation `s ≠ 0`, `RNG::rgamma(m, s)` calls
the shape/scale sampler with shape `k = m²/s²` and scale `θ = s²/m`, which satisfy
`k·θ = m` and `k·θ² = s²`. -/
theorem rgamma_shape_scale {S : Type} (src : RandomSource K S) (m s : K) (g : S)
    (hm : m ≠ 0) (hs : s ≠ 0) :
    src.rgamma m s g = src.rgammaRaw (m ^ 2 / s ^ 2) (s ^ 2 / m) g ∧
    (m ^ 2 / s ^ 2) * (s ^ 2 / m) = m ∧
    (m ^ 2 / s ^ 2) * (s ^ 2 / m) ^ 2 = s ^ 2 := by
  refine ⟨?_, ?_, ?_⟩
  · unfold RandomSource.rgamma
    rw [if_neg hm]
    simp only [pow_two]
  · field_simp
    ring
  · field_simp
    ring

/-- The gamma draw of the architecture test, mean 50 and standard deviation 20: shape
`6.25`, scale `8`. -/
theorem rgamma_shape_scale_witness :
    (50 : ℚ) ≠ 0 ∧ (20 : ℚ) ≠ 0 ∧
    (countingSource (0 : ℚ) 0 0 7).rgamma 50 20 0
      = (countingSource (0 : ℚ) 0 0 7).rgammaRaw (50 ^ 2 / 20 ^ 2) (20 ^ 2 / 50) 0 ∧
    ((50 : ℚ) ^ 2 / 20 ^ 2) * (20 ^ 2 / 50) = 50 ∧
    ((50 : ℚ) ^ 2 / 20 ^ 2) * (20 ^ 2 / 50) ^ 2 = 20 ^ 2 :=
  ⟨by norm_num, by norm_num,
    rgamma_shape_scale (countingSource (0 : ℚ) 0 0 7) 50 20 0 (by norm_num) (by norm_num)⟩

theorem not_int_three_halves : ¬ ∃ k : Int, (3 / 2 : ℚ) = (k : ℚ) * 1 := by
  rintro ⟨k, hk⟩
  have h : ((3 : Int) : ℚ) = ((2 * k : Int) : ℚ) := by
    push_cast
    linarith
  have h' : (3 : Int) = 2 * k := by exact_mod_cast h
  omega

/-- C12 (the code at the failing input): with `timePerStep = 1`, `motorSd = 1.5` and gamma
variate 2, `drawMotorExec` and `drawMotorPlanning` return `1.5`, which is not an integer
multiple of `timePerStep`: they round to `_motorSd`. `drawEBL` rounds to `_timePerStep`
and returns 2. -/
theorem motor_draws_round_to_motorSd :
    (fractionalSdArchitecture : Architecture ℚ).timePerStep = 1 ∧
    ((fractionalSdArchitecture : Architecture ℚ).drawMotorExec (countingSource 0 0 0 2) 0).1
      = 3 / 2 ∧
    ((fractionalSdArchitecture : Architecture ℚ).drawMotorPlanning (countingSource 0 0 0 2) 0).1
      = 3 / 2 ∧
    (¬ ∃ k : Int, (3 / 2 : ℚ) = (k : ℚ) * 1) ∧
    ((fractionalSdArchitecture : Architecture ℚ).drawEBL (countingSource 0 0 0 2) 0).1 = 2 := by
  have hr : utils.roundToIncrement (2 : ℚ) (3 / 2) = 3 / 2 := by
    rw [utils.roundToIncrement_eq _ _ 1 (by norm_num) (by norm_num)]
    norm_num
  have hr1 : utils.roundToIncrement (2 : ℚ) 1 = 2 := by
    rw [utils.roundToIncrement_eq _ _ 2 (by norm_num) (by norm_num)]
    norm_num
  refine ⟨rfl, ?_, ?_, not_int_three_halves, ?_⟩
  · simp [Architecture.drawMotorExec, RandomSource.rgamma, fractionalSdArchitecture,
      countingSource, hr]
  · simp [Architecture.drawMotorPlanning, RandomSource.rgamma, fractionalSdArchitecture,
      countingSource, hr]
  · simp [Architecture.drawEBL, RandomSource.rgamma, fractionalSdArchitecture,
      countingSource, hr1]

/-- C13 (the code at the failing input): with `motorPlanMean = 0` and `motorExecMean =
125`, `drawMotorPlanning` consumes a gamma variate (here 100) and returns it rounded,
not 0: it reads `_motorExecuteMean`. It is `drawMotorExec` that returns 0 without
drawing. -/
theorem zero_plan_mean_still_draws :
    (zeroPlanMeanArchitecture : Architecture ℚ).motorPlanMean = 0 ∧
    (zeroPlanMeanArchitecture : Architecture ℚ).drawMotorPlanning (countingSource 0 0 0 100) 0
      = (100, 1) ∧
    (zeroPlanMeanArchitecture : Architecture ℚ).drawMotorExec (countingSource 0 0 0 100) 0
      = (0, 0) := by
  have hr : utils.roundToIncrement (100 : ℚ) 50 = 100 := by
    rw [utils.roundToIncrement_eq _ _ 2 (by norm_num) (by norm_num)]
    norm_num
  have hr0 : utils.roundToIncrement (0 : ℚ) 50 = 0 := by
    rw [utils.roundToIncrement_eq _ _ 0 (by norm_num) (by norm_num)]
    norm_num
  refine ⟨rfl, ?_, ?_⟩
  · simp [Architecture.drawMotorPlanning, RandomSource.rgamma, zeroPlanMeanArchitecture,
      countingSource, hr]
  · simp [Architecture.drawMotorExec, RandomSource.rgamma, zeroPlanMeanArchitecture,
      countingSource, hr0]

/-- C15 (the code, and the failing input): `drawMotorPlanning` draws with mean
`motorExecMean` and `drawMotorExec` with mean `motorPlanMean`, and both round to
`motorSd`; only `drawEBL` is `roundToIncrement(rgamma(eblMean, eblSd), timePerStep)`.
With means 150 (plan) and 125 (exec), `motorSd = 1.5`, `timePerStep = 1` and a sampler
that returns the requested mean, planning returns `124.5` and execution `150`, where the
claim gives `150` and `125`. -/
theorem motor_draws_swap_means :
    (∀ (S : Type) (src : RandomSource ℚ S) (a : Architecture ℚ) (g : S),
      a.drawMotorPlanning src g
        = (utils.roundToIncrement (src.rgamma a.motorExecuteMean a.motorSd g).1 a.motorSd,
            (src.rgamma a.motorExecuteMean a.motorSd g).2) ∧
      a.drawMotorExec src g
        = (utils.roundToIncrement (src.rgamma a.motorPlanMean a.motorSd g).1 a.motorSd,
            (src.rgamma a.motorPlanMean a.motorSd g).2) ∧
      a.drawEBL src g
        = (utils.roundToIncrement (src.rgamma a.eblMean a.eblSd g).1 a.timePerStep,
            (src.rgamma a.eblMean a.eblSd g).2)) ∧
    ((fractionalSdArchitecture : Architecture ℚ).drawMotorPlanning meanSource 0).1 = 249 / 2 ∧
    utils.roundToIncrement ((meanSource : RandomSource ℚ Nat).rgamma 150 (3 / 2) 0).1 1 = 150 ∧
    ((fractionalSdArchitecture : Architecture ℚ).drawMotorExec meanSource 0).1 = 150 ∧
    utils.roundToIncrement ((meanSource : RandomSource ℚ Nat).rgamma 125 (3 / 2) 0).1 1
      = 125 := by
  have g125 : ((meanSource : RandomSource ℚ Nat).rgamma 125 (3 / 2) 0).1 = 125 := by
    simp [RandomSource.rgamma, meanSource]
    norm_num
  have g150 : ((meanSource : RandomSource ℚ Nat).rgamma 150 (3 / 2) 0).1 = 150 := by
    simp [RandomSource.rgamma, meanSource]
    norm_num
  refine ⟨fun S src a g => ⟨rfl, rfl, rfl⟩, ?_, ?_, ?_, ?_⟩
  · show utils.roundToIncrement ((meanSource : RandomSource ℚ Nat).rgamma 125 (3 / 2) 0).1
      (3 / 2) = 249 / 2
    rw [g125, utils.roundToIncrement_eq _ _ 83 (by norm_num) (by norm_num)]
    norm_num
  · rw [g150, utils.roundToIncrement_eq _ _ 150 (by norm_num) (by norm_num)]
    norm_num
  · show utils.roundToIncrement ((meanSource : RandomSource ℚ Nat).rgamma 150 (3 / 2) 0).1
      (3 / 2) = 150
    rw [g150, utils.roundToIncrement_eq _ _ 100 (by norm_num) (by norm_num)]
    norm_num
  · rw [g125, utils.roundToIncrement_eq _ _ 125 (by norm_num) (by norm_num)]
    norm_num

/-! ## `Task::drawTrialType` (C11) -/

theorem rowMajorCells_nodup (nd md : Nat) : (rowMajorCells nd md).Nodup :=
  List.Nodup.product (List.nodup_finRange nd) (List.nodup_finRange md)

theorem mem_rowMajorCells {nd md : Nat} (cell : Fin nd × Fin md) :
    cell ∈ rowMajorCells nd md := by
  simp only [rowMajorCells, List.mem_flatMap, List.mem_map, List.mem_finRange, true_and]
  exact ⟨cell.1, cell.2, rfl⟩

theorem sum_rowMajorCells {nd md : Nat} (M : Mat K nd md) :
    ((rowMajorCells nd md).map fun cell => M cell.1 cell.2).sum = Mat.total M := by
  unfold rowMajorCells Mat.total
  have h : ∀ (l : List (Fin nd)),
      ((l.flatMap fun c => (List.finRange md).map fun t => (c, t)).map
        fun cell => M cell.1 cell.2).sum = (l.map fun c => ∑ t, M c t).sum := by
    intro l
    induction l with
    | nil => simp
    | cons a l ih =>
      simp only [List.flatMap_cons, List.map_append, List.sum_append, List.map_cons,
        List.sum_cons, ih, List.map_map]
      rw [Fin.sum_univ_def]
      rfl
  rw [h, Fin.sum_univ_def]

theorem drawScan_mem {nd md : Nat} (p : K) (M : Mat K nd md) (l : List (Fin nd × Fin md))
    (acc : K) (cell : Fin nd × Fin md) (h : drawScan p M l acc = some cell) : cell ∈ l := by
  induction l generalizing acc with
  | nil => simp [drawScan] at h
  | cons x xs ih =>
    unfold drawScan at h
    split_ifs at h
    · simp only [Option.some.injEq] at h
      subst h
      exact List.mem_cons_self _ _
    · exact List.mem_cons_of_mem _ (ih _ h)

theorem drawScan_eq_none {nd md : Nat} (p : K) (M : Mat K nd md)
    (l : List (Fin nd × Fin md)) (acc : K) (hacc : acc < p)
    (h : drawScan p M l acc = none) :
    acc + (l.map fun cell => M cell.1 cell.2).sum < p := by
  induction l generalizing acc with
  | nil => simpa using hacc
  | cons x xs ih =>
    unfold drawScan at h
    split_ifs at h with hx
    have := ih (acc + M x.1 x.2) (by linarith [not_le.mp hx]) h
    simp only [List.map_cons, List.sum_cons]
    linarith

/-- The scan selects the cell after the prefix `pre` exactly when the draw lies in the
half-open interval that follows the mass of `pre`. -/
theorem drawScan_append_iff {nd md : Nat} (p : K) (M : Mat K nd md)
    (hM : ∀ c t, 0 ≤ M c t) (pre post : List (Fin nd × Fin md)) (cell : Fin nd × Fin md)
    (acc : K) (hacc : acc < p) (hpre : cell ∉ pre) (hpost : cell ∉ post) :
    drawScan p M (pre ++ cell :: post) acc = some cell ↔
      acc + (pre.map fun x => M x.1 x.2).sum < p ∧
        p ≤ acc + (pre.map fun x => M x.1 x.2).sum + M cell.1 cell.2 := by
  induction pre generalizing acc with
  | nil =>
    simp only [List.nil_append, List.map_nil, List.sum_nil, add_zero]
    unfold drawScan
    split_ifs with hx
    · constructor
      · intro _
        exact ⟨hacc, by rw [add_comm]; exact hx⟩
      · intro _
        rfl
    · constructor
      · intro h
        exact absurd (drawScan_mem p M post _ cell h) hpost
      · rintro ⟨-, h⟩
        rw [add_comm] at h
        exact absurd h hx
  | cons y ys ih =>
    have hy : cell ≠ y := fun h => hpre (by rw [h]; exact List.mem_cons_self _ _)
    have hys : cell ∉ ys := fun h => hpre (List.mem_cons_of_mem _ h)
    have hsum : 0 ≤ (ys.map fun x => M x.1 x.2).sum :=
      List.sum_nonneg (by
        intro v hv
        obtain ⟨x, -, rfl⟩ := List.mem_map.mp hv
        exact hM _ _)
    simp only [List.cons_append, List.map_cons, List.sum_cons]
    unfold drawScan
    split_ifs with hx
    · constructor
      · intro h
        simp only [Option.some.injEq] at h
        exact absurd h.symm hy
      · rintro ⟨h1, -⟩
        linarith
    · rw [ih (acc + M y.1 y.2) (by linarith [not_le.mp hx]) hys]
      constructor
      · rintro ⟨h1, h2⟩
        exact ⟨by linarith, by linarith⟩
      · rintro ⟨h1, h2⟩
        exact ⟨by linarith, by linarith⟩

theorem rowMajorCells_split {nd md : Nat} (cell : Fin nd × Fin md) :
    ∃ post, rowMajorCells nd md
        = ((rowMajorCells nd md).takeWhile fun x => decide (x ≠ cell)) ++ cell :: post ∧
      cell ∉ ((rowMajorCells nd md).takeWhile fun x => decide (x ≠ cell)) ∧ cell ∉ post := by
  have hmem := mem_rowMajorCells cell
  have hnd := rowMajorCells_nodup nd md
  generalize rowMajorCells nd md = l at hmem hnd
  induction l with
  | nil => simp at hmem
  | cons x xs ih =>
    by_cases hx : x = cell
    · subst hx
      refine ⟨xs, by simp, by simp, (List.nodup_cons.mp hnd).1⟩
    · have hmem' : cell ∈ xs := by
        rcases List.mem_cons.mp hmem with h | h
        · exact absurd h.symm hx
        · exact h
      obtain ⟨post, h1, h2, h3⟩ := ih hmem' (List.nodup_cons.mp hnd).2
      refine ⟨post, ?_, ?_, h3⟩
      · simp only [List.takeWhile_cons, hx, ne_eq, not_false_eq_true, decide_True, ite_true,
          List.cons_append]
        rw [← h1]
      · simp only [List.takeWhile_cons, hx, ne_eq, not_false_eq_true, decide_True, ite_true,
          List.mem_cons, not_or]
        exact ⟨fun h => hx h.symm, h2⟩

theorem Task.drawTrialType_of_some {S : Type} {nd md : Nat} (src : RandomSource K S)
    (t : Task K nd md) (g : S) (cell : Fin nd × Fin md)
    (hd : drawScan (src.runif 1 g).1 t.trialDist (rowMajorCells nd md) 0 = some cell) :
    t.drawTrialType src g
      = .ok (⟨t.trialDist, ((cell.1 : Nat) : Int), ((cell.2 : Nat) : Int),
          Task.labelOf cell.1 cell.2, t.recorder⟩, (src.runif 1 g).2) := by
  simp only [Task.drawTrialType, hd]

/-- C11: for every `trialDist` with nonnegative entries summing to 1 and every uniform
draw `p` in `(0, 1]`, `Task::drawTrialType` returns, and it selects cell `(c,t)` if and
only if `S(c,t) < p ≤ S(c,t) + trialDist(c,t)`, where `S(c,t)` is the sum of the entries
preceding `(c,t)` in row-major order; exactly one cell satisfies this condition, and the
fall-through error is unreachable. -/
theorem drawTrialType_selects_iff {S : Type} {nd md : Nat} (src : RandomSource K S)
    (t : Task K nd md) (g : S)
    (hnonneg : ∀ c tt, 0 ≤ t.trialDist c tt) (hsum : ∑ c, ∑ tt, t.trialDist c tt = 1)
    (hp0 : 0 < (src.runif 1 g).1) (hp1 : (src.runif 1 g).1 ≤ 1) :
    (∃ t1, t.drawTrialType src g = .ok (t1, (src.runif 1 g).2)) ∧
    (∀ (c : Fin nd) (tt : Fin md),
      (∃ t1 g1, t.drawTrialType src g = .ok (t1, g1) ∧
          t1.getCurrentContext = ((c : Nat) : Int) ∧ t1.getCurrentTarget = ((tt : Nat) : Int)) ↔
        precedingSum t.trialDist c tt < (src.runif 1 g).1 ∧
          (src.runif 1 g).1 ≤ precedingSum t.trialDist c tt + t.trialDist c tt) ∧
    (∃! cell : Fin nd × Fin md,
      precedingSum t.trialDist cell.1 cell.2 < (src.runif 1 g).1 ∧
        (src.runif 1 g).1 ≤ precedingSum t.trialDist cell.1 cell.2
          + t.trialDist cell.1 cell.2) := by
  have hscan : ∀ cell : Fin nd × Fin md,
      drawScan (src.runif 1 g).1 t.trialDist (rowMajorCells nd md) 0 = some cell ↔
        precedingSum t.trialDist cell.1 cell.2 < (src.runif 1 g).1 ∧
          (src.runif 1 g).1 ≤ precedingSum t.trialDist cell.1 cell.2
            + t.trialDist cell.1 cell.2 := by
    intro cell
    obtain ⟨post, h1, h2, h3⟩ := rowMajorCells_split cell
    have := drawScan_append_iff (src.runif 1 g).1 t.trialDist hnonneg _ post cell 0 hp0 h2 h3
    rw [← h1] at this
    rw [this]
    unfold precedingSum
    simp only [zero_add]
  cases hd : drawScan (src.runif 1 g).1 t.trialDist (rowMajorCells nd md) 0 with
  | none =>
    have := drawScan_eq_none _ _ _ 0 hp0 hd
    rw [sum_rowMajorCells, zero_add] at this
    have htot : Mat.total t.trialDist = 1 := hsum
    rw [htot] at this
    exact absurd hp1 (not_le.mpr this)
  | some cell =>
    have hrun := Task.drawTrialType_of_some src t g cell hd
    refine ⟨⟨_, hrun⟩, ?_, ⟨cell, (hscan cell).mp hd, fun cell1 h1 =>
      Option.some.inj (((hscan cell1).mpr h1).symm.trans hd)⟩⟩
    intro c tt
    rw [← hscan (c, tt), hd, hrun]
    simp only [Except.ok.injEq, Prod.mk.injEq, Option.some.injEq, Task.getCurrentContext,
      Task.getCurrentTarget]
    constructor
    · rintro ⟨t1, g1, ⟨h1, -⟩, hc, ht⟩
      subst h1
      simp only [Nat.cast_inj, Fin.val_inj] at hc ht
      exact Prod.ext hc ht
    · rintro rfl
      exact ⟨_, _, ⟨rfl, rfl⟩, rfl, rfl⟩

theorem rowMajorCells_two_two :
    rowMajorCells 2 2 = [(0, 0), (0, 1), (1, 0), (1, 1)] := by
  decide

/-- The task test: with `trialDist = 0.25 0.25; 0.25 0.25` and draw `0.5`, the cell
`(0,1)` is selected, whose interval is `(0.25, 0.5]`. -/
theorem drawTrialType_selects_iff_witness :
    (∀ c tt, 0 ≤ (testTask : Task ℚ 2 2).trialDist c tt) ∧
    ∑ c, ∑ tt, (testTask : Task ℚ 2 2).trialDist c tt = 1 ∧
    0 < ((countingSource (1 / 2 : ℚ) 0 0 0).runif 1 0).1 ∧
    ((countingSource (1 / 2 : ℚ) 0 0 0).runif 1 0).1 ≤ 1 ∧
    precedingSum (testTask : Task ℚ 2 2).trialDist 0 1 = 1 / 4 ∧
    ((∃ t1 g1, (testTask : Task ℚ 2 2).drawTrialType (countingSource (1 / 2 : ℚ) 0 0 0) 0
          = .ok (t1, g1) ∧
        t1.getCurrentContext = (((0 : Fin 2) : Nat) : Int) ∧
        t1.getCurrentTarget = (((1 : Fin 2) : Nat) : Int)) ↔
      precedingSum (testTask : Task ℚ 2 2).trialDist 0 1
          < ((countingSource (1 / 2 : ℚ) 0 0 0).runif 1 0).1 ∧
        ((countingSource (1 / 2 : ℚ) 0 0 0).runif 1 0).1
          ≤ precedingSum (testTask : Task ℚ 2 2).trialDist 0 1
            + (testTask : Task ℚ 2 2).trialDist 0 1) := by
  have hnonneg : ∀ c tt, 0 ≤ (testTask : Task ℚ 2 2).trialDist c tt := by
    intro c tt
    fin_cases c <;> fin_cases tt <;> simp [testTask, testTrialDist]
  have hsum : ∑ c, ∑ tt, (testTask : Task ℚ 2 2).trialDist c tt = 1 := by
    simp [testTask, testTrialDist, Fin.sum_univ_two]
    norm_num
  have hp : ((countingSource (1 / 2 : ℚ) 0 0 0).runif 1 0).1 = 1 / 2 := by
    simp [RandomSource.runif, RNG.runif, countingSource]
  have hpre : precedingSum (testTask : Task ℚ 2 2).trialDist 0 1 = 1 / 4 := by
    unfold precedingSum
    rw [rowMajorCells_two_two]
    have htw : ([(0, 0), (0, 1), (1, 0), (1, 1)] : List (Fin 2 × Fin 2)).takeWhile
        (fun cell => decide (cell ≠ (0, 1))) = [(0, 0)] := by decide
    rw [htw]
    simp [testTask, testTrialDist]
  exact ⟨hnonneg, hsum, by rw [hp]; norm_num, by rw [hp]; norm_num, hpre,
    (drawTrialType_selects_iff (countingSource (1 / 2 : ℚ) 0 0 0) testTask 0 hnonneg hsum
      (by rw [hp]; norm_num) (by rw [hp]; norm_num)).2.1 0 1⟩

/-! ## Construction of the tasks (C20) -/

theorem Task.task_ctor_of_total {nd md n m : Nat} (c : TaskConfig K nd md n m) (r : Recorder K)
    (h : Mat.total c.trialDist = 1) :
    Task.ctor c r = .ok ⟨c.trialDist, -1, -1, "", r⟩ := by
  unfold Task.ctor
  rw [Mat.kahanSum_elems, if_neg (not_not.mpr h)]

theorem FlankerTask.flanker_ctor_eq {nd md n m : Nat} (c : TaskConfig K nd md n m) (r : Recorder K)
    (cn tn : K) (htrial : Mat.total c.trialDist = 1) (hprior : Mat.total c.urPrior = 1)
    (hcn : c.contextNoise = some cn) (htn : c.targetNoise = some tn) :
    ∃ task belief, FlankerTask.ctor c r =
      if cn < 0 then .error "ERROR: contextNoise < 0, did you set it?"
      else if tn < 0 then .error "ERROR: targetNoise < 0, did you set it?"
      else if c.decisionThresh < 0 then
        .error "ERROR: decisionThresh < 0, did you set it (FlankerTask is implemented in prob space, not log space)?"
      else if c.decisionThresh ≥ 1 then
        .error "ERROR: decisionThresh >=1 (FlankerTask is implemented in prob space, not log space) "
      else
        .ok ⟨task, belief, Architecture.ctor c, -1, c.timePerStep, cn, tn, c.decisionThresh,
          c.pPrematureResp, c.maxTrials, c.maxSamps⟩ := by
  obtain ⟨b, hb⟩ := Belief.ctor_of_total c.toConfig hprior
  refine ⟨⟨c.trialDist, -1, -1, "", r⟩, b, ?_⟩
  unfold FlankerTask.ctor
  rw [Task.task_ctor_of_total c r htrial, hb, hcn, htn]
  rfl

theorem AxcptTask.axcpt_ctor_eq {nd md n m : Nat} (sqrt : K → K) (c : TaskConfig K nd md n m)
    (r : Recorder K) (cn tn : K) (htrial : Mat.total c.trialDist = 1)
    (hprior : Mat.total c.urPrior = 1) (hnoise : AxcptTask.noises sqrt c = .ok (cn, tn)) :
    ∃ t : AxcptTask K nd md n m, t.decisionThresh = c.decisionThresh ∧
      AxcptTask.ctor sqrt c r =
        if cn < 0 then .error "ERROR: contextNoise < 0, did you set it?"
        else if tn < 0 then .error "ERROR: targetNoise < 0, did you set it?"
        else if c.decisionThresh < 0 then
          .error "ERROR: decisionThresh < 0, did you set it (MinimalArchAxcptTask is implemented in prob space, not log space)?"
        else if c.decisionThresh ≥ 1 then
          .error "ERROR: decisionThresh >=1 (MinimalArchAxcptTask is implemented in prob space, not log space) "
        else .ok t := by
  obtain ⟨b, hb⟩ := DecayBelief.decay_ctor_of_total c.toConfig hprior
  refine ⟨⟨⟨c.trialDist, -1, -1, "", r⟩, b, Architecture.ctor c, -1, c.timePerStep,
    c.retentionIntervalDur, -1,
    (match c.retentionNoise with
      | some v => v
      | none => cn), cn, tn, c.decisionThresh,
    c.pPrematureResp, c.maxTrials, c.maxSamps,
    (match c.decayTo with
      | none => .Informative
      | some v => if v = 0 then .Informative else .Uniform)⟩, rfl, ?_⟩
  unfold AxcptTask.ctor
  rw [Task.task_ctor_of_total c r htrial, hb, hnoise]
  simp only [bind, Except.bind, ne_eq, not_true_eq_false, if_false]

/-- C20: with all other required parameters valid (`trialDist` and `urPrior` sum to 1,
the noise keys are set and the resulting noises are not negative), constructing a
`FlankerTask` or an `AxcptTask` fails if and only if `decisionThresh < 0` or
`decisionThresh ≥ 1`; every threshold in `[0, 1)` is accepted and stored. -/
theorem ctor_fails_iff_thresh_out_of_range {nd md n m : Nat} (sqrt : K → K)
    (c : TaskConfig K nd md n m) (r : Recorder K)
    (htrial : Mat.total c.trialDist = 1) (hprior : Mat.total c.urPrior = 1) :
    (∀ cn tn : K, c.contextNoise = some cn → c.targetNoise = some tn → 0 ≤ cn → 0 ≤ tn →
      ((∃ e, FlankerTask.ctor c r = .error e) ↔ c.decisionThresh < 0 ∨ c.decisionThresh ≥ 1) ∧
      (0 ≤ c.decisionThresh → c.decisionThresh < 1 →
        ∃ t, FlankerTask.ctor c r = .ok t ∧ t.decisionThresh = c.decisionThresh)) ∧
    (∀ cn tn : K, AxcptTask.noises sqrt c = .ok (cn, tn) → 0 ≤ cn → 0 ≤ tn →
      ((∃ e, AxcptTask.ctor sqrt c r = .error e) ↔
        c.decisionThresh < 0 ∨ c.decisionThresh ≥ 1) ∧
      (0 ≤ c.decisionThresh → c.decisionThresh < 1 →
        ∃ t, AxcptTask.ctor sqrt c r = .ok t ∧ t.decisionThresh = c.decisionThresh)) := by
  constructor
  · intro cn tn hcn htn hcn0 htn0
    obtain ⟨task, belief, h⟩ := FlankerTask.flanker_ctor_eq c r cn tn htrial hprior hcn htn
    rw [h, if_neg (not_lt.mpr hcn0), if_neg (not_lt.mpr htn0)]
    constructor
    · constructor
      · rintro ⟨e, he⟩
        by_contra hc
        push_neg at hc
        rw [if_neg (not_lt.mpr hc.1), if_neg (not_le.mpr hc.2)] at he
        exact absurd he (by simp)
      · rintro (h0 | h1)
        · rw [if_pos h0]
          exact ⟨_, rfl⟩
        · by_cases h0 : c.decisionThresh < 0
          · rw [if_pos h0]
            exact ⟨_, rfl⟩
          · rw [if_neg h0, if_pos h1]
            exact ⟨_, rfl⟩
    · intro h0 h1
      rw [if_neg (not_lt.mpr h0), if_neg (not_le.mpr h1)]
      exact ⟨_, rfl, rfl⟩
  · intro cn tn hnoise hcn0 htn0
    obtain ⟨t, ht, h⟩ := AxcptTask.axcpt_ctor_eq sqrt c r cn tn htrial hprior hnoise
    rw [h, if_neg (not_lt.mpr hcn0), if_neg (not_lt.mpr htn0)]
    constructor
    · constructor
      · rintro ⟨e, he⟩
        by_contra hc
        push_neg at hc
        rw [if_neg (not_lt.mpr hc.1), if_neg (not_le.mpr hc.2)] at he
        exact absurd he (by simp)
      · rintro (h0 | h1)
        · rw [if_pos h0]
          exact ⟨_, rfl⟩
        · by_cases h0 : c.decisionThresh < 0
          · rw [if_pos h0]
            exact ⟨_, rfl⟩
          · rw [if_neg h0, if_pos h1]
            exact ⟨_, rfl⟩
    · intro h0 h1
      rw [if_neg (not_lt.mpr h0), if_neg (not_le.mpr h1)]
      exact ⟨_, rfl, ht⟩

theorem defaultTaskConfig_total :
    Mat.total (defaultTaskConfig : TaskConfig K 2 2 2 2).trialDist = 1 ∧
    Mat.total (defaultTaskConfig : TaskConfig K 2 2 2 2).urPrior = 1 := by
  constructor <;>
  · simp [Mat.total, defaultTaskConfig, Fin.sum_univ_two]
    norm_num

/-- The default configuration of the runners (`decisionThresh = 0.95`) is accepted by
both constructors. -/
theorem ctor_fails_iff_thresh_out_of_range_witness :
    Mat.total (defaultTaskConfig : TaskConfig ℚ 2 2 2 2).trialDist = 1 ∧
    Mat.total (defaultTaskConfig : TaskConfig ℚ 2 2 2 2).urPrior = 1 ∧
    (∃ t, FlankerTask.ctor (defaultTaskConfig : TaskConfig ℚ 2 2 2 2) emptyRecorder = .ok t ∧
      t.decisionThresh = 19 / 20) ∧
    (∃ t, AxcptTask.ctor (fun x => x) (defaultTaskConfig : TaskConfig ℚ 2 2 2 2) emptyRecorder
        = .ok t ∧ t.decisionThresh = 19 / 20) := by
  have h := ctor_fails_iff_thresh_out_of_range (fun x => x)
    (defaultTaskConfig : TaskConfig ℚ 2 2 2 2) emptyRecorder
    defaultTaskConfig_total.1 defaultTaskConfig_total.2
  have hth0 : (0 : ℚ) ≤ (defaultTaskConfig : TaskConfig ℚ 2 2 2 2).decisionThresh := by
    simp [defaultTaskConfig]; norm_num
  have hth1 : (defaultTaskConfig : TaskConfig ℚ 2 2 2 2).decisionThresh < 1 := by
    simp [defaultTaskConfig]; norm_num
  refine ⟨defaultTaskConfig_total.1, defaultTaskConfig_total.2, ?_, ?_⟩
  · exact (h.1 3 3 rfl rfl (by norm_num) (by norm_num)).2 hth0 hth1
  · exact (h.2 3 3 rfl (by norm_num) (by norm_num)).2 hth0 hth1

/-! ## Recording and the timing draws -/

theorem utils.roundToIncrement_nonneg [FloorRing K] (val prec : K) (h : 0 ≤ val) :
    0 ≤ utils.roundToIncrement val prec := by
  unfold utils.roundToIncrement
  rcases lt_trichotomy prec 0 with hp | hp | hp
  · have h1 : val / prec ≤ 0 := div_nonpos_of_nonneg_of_nonpos h hp.le
    have h2 : ⌊val / prec + 1 / 2⌋ ≤ 0 := by
      have : ⌊val / prec + 1 / 2⌋ < 1 := by
        rw [Int.floor_lt]
        push_cast
        linarith
      omega
    have h3 : ((⌊val / prec + 1 / 2⌋ : Int) : K) ≤ 0 := by exact_mod_cast h2
    exact mul_nonneg_of_nonpos_of_nonpos h3 hp.le
  · rw [hp, mul_zero]
  · have h1 : 0 ≤ val / prec := div_nonneg h hp.le
    have h2 : 0 ≤ ⌊val / prec + 1 / 2⌋ := by
      rw [Int.le_floor]
      push_cast
      linarith
    have h3 : (0 : K) ≤ ((⌊val / prec + 1 / 2⌋ : Int) : K) := by exact_mod_cast h2
    exact mul_nonneg h3 hp.le

theorem RandomSource.rgamma_nonneg {S : Type} (src : RandomSource K S)
    (hgam : ∀ k theta g, 0 ≤ (src.rgammaRaw k theta g).1) (m s : K) (g : S) :
    0 ≤ (src.rgamma m s g).1 := by
  unfold RandomSource.rgamma
  split_ifs
  · exact le_refl _
  · exact hgam _ _ _

theorem Architecture.drawMotorPlanning_nonneg [FloorRing K] {S : Type}
    (src : RandomSource K S) (hgam : ∀ k theta g, 0 ≤ (src.rgammaRaw k theta g).1)
    (a : Architecture K) (g : S) : 0 ≤ (a.drawMotorPlanning src g).1 :=
  utils.roundToIncrement_nonneg _ _ (src.rgamma_nonneg hgam _ _ _)

theorem Architecture.drawMotorExec_nonneg [FloorRing K] {S : Type}
    (src : RandomSource K S) (hgam : ∀ k theta g, 0 ≤ (src.rgammaRaw k theta g).1)
    (a : Architecture K) (g : S) : 0 ≤ (a.drawMotorExec src g).1 :=
  utils.roundToIncrement_nonneg _ _ (src.rgamma_nonneg hgam _ _ _)

theorem Architecture.drawEBL_nonneg [FloorRing K] {S : Type}
    (src : RandomSource K S) (hgam : ∀ k theta g, 0 ≤ (src.rgammaRaw k theta g).1)
    (a : Architecture K) (g : S) : 0 ≤ (a.drawEBL src g).1 :=
  utils.roundToIncrement_nonneg _ _ (src.rgamma_nonneg hgam _ _ _)

omit [LinearOrderedField K] in
theorem FlankerRun.flanker_update_ok {S : Type} {nd md n m : Nat}
    (s : FlankerRun K S nd md n m) (key : String) (val : Obs K)
    (h : s.task.trialLabel ++ key ∈ s.task.recorder.keys) :
    s.update key val = .ok (s.logged key val) := by
  unfold FlankerRun.update Recorder.updateDatum
  rw [if_neg (not_not.mpr h)]
  rfl

theorem FlankerRun.flanker_updateEvent_ok {S : Type} {nd md n m : Nat}
    (s : FlankerRun K S nd md n m) (key : String) (start stop : K) (hle : start ≤ stop)
    (h : s.task.trialLabel ++ key ∈ s.task.recorder.keys) :
    s.updateEvent key start stop = .ok (s.logged key (.event start stop)) := by
  unfold FlankerRun.updateEvent Event.ctor
  rw [if_neg (not_lt.mpr hle)]
  exact s.flanker_update_ok key _ h

omit [LinearOrderedField K] in
@[simp] theorem FlankerRun.flanker_logged_keys {S : Type} {nd md n m : Nat}
    (s : FlankerRun K S nd md n m) (key : String) (val : Obs K) :
    (s.logged key val).task.recorder.keys = s.task.recorder.keys := rfl

omit [LinearOrderedField K] in
@[simp] theorem FlankerRun.flanker_logged_trialLabel {S : Type} {nd md n m : Nat}
    (s : FlankerRun K S nd md n m) (key : String) (val : Obs K) :
    (s.logged key val).task.trialLabel = s.task.trialLabel := rfl

theorem FlankerRun.flanker_prematureBranch_ok [FloorRing K] {S : Type} {nd md n m : Nat}
    (src : RandomSource K S) (hgam : ∀ k theta g, 0 ≤ (src.rgammaRaw k theta g).1)
    (s : FlankerRun K S nd md n m) (hkeys : s.KeysRegistered) :
    s.prematureBranch src = .ok (s.prematureResult src) := by
  have hmp := Architecture.drawMotorPlanning_nonneg src hgam s.task.arch s.rng
  have hme := Architecture.drawMotorExec_nonneg src hgam s.task.arch
    (s.task.arch.drawMotorPlanning src s.rng).2
  have k1 := hkeys "motorPlanEvent" (by simp [FlankerTask.datumNames])
  have k2 := hkeys "Resp" (by simp [FlankerTask.datumNames])
  have k3 := hkeys "Acc" (by simp [FlankerTask.datumNames])
  have k4 := hkeys "motorExecEvent" (by simp [FlankerTask.datumNames])
  have k5 := hkeys "RT" (by simp [FlankerTask.datumNames])
  unfold FlankerRun.prematureBranch FlankerRun.prematureResult
  simp only [bind, Except.bind]
  simp only [FlankerRun.flanker_updateEvent_ok, FlankerRun.flanker_update_ok, hmp, hme, k1,
    k2, k3, k4, k5, FlankerRun.flanker_logged_keys, FlankerRun.flanker_logged_trialLabel]

theorem FlankerRun.prematureResult_log [FloorRing K] {S : Type} {nd md n m : Nat}
    (src : RandomSource K S) (s : FlankerRun K S nd md n m) :
    (s.prematureResult src).task.recorder.log = s.task.recorder.log ++
        prematureLog s.task.trialLabel s.cresp
          (s.task.arch.drawMotorPlanning src s.rng).1
          (s.task.arch.drawMotorExec src (s.task.arch.drawMotorPlanning src s.rng).2).1
          (src.randu (s.task.arch.drawMotorExec src
            (s.task.arch.drawMotorPlanning src s.rng).2).2).1 := by
  simp [FlankerRun.prematureResult, FlankerRun.logged, prematureLog, RandomSource.rbernoulli,
    RNG.rbernoulli]

/-! ## The part of `FlankerTask::run` before the sampling loop -/

omit [LinearOrderedField K] in
theorem FlankerRun.flanker_update_inv {S : Type} {nd md n m : Nat}
    (s s1 : FlankerRun K S nd md n m) (key : String) (val : Obs K)
    (h : s.update key val = .ok s1) :
    s1 = s.logged key val ∧ s.task.trialLabel ++ key ∈ s.task.recorder.keys := by
  unfold FlankerRun.update Recorder.updateDatum at h
  by_cases hk : s.task.trialLabel ++ key ∈ s.task.recorder.keys
  · rw [if_neg (not_not.mpr hk)] at h
    simp only [Except.ok.injEq] at h
    exact ⟨h.symm, hk⟩
  · rw [if_pos hk] at h
    cases h

theorem FlankerRun.flanker_updateEvent_inv {S : Type} {nd md n m : Nat}
    (s s1 : FlankerRun K S nd md n m) (key : String) (start stop : K)
    (h : s.updateEvent key start stop = .ok s1) :
    s1 = s.logged key (.event start stop) ∧ start ≤ stop ∧
      s.task.trialLabel ++ key ∈ s.task.recorder.keys := by
  unfold FlankerRun.updateEvent Event.ctor at h
  by_cases hle : start > stop
  · rw [if_pos hle] at h
    cases h
  · rw [if_neg hle] at h
    obtain ⟨h1, h2⟩ := s.flanker_update_inv s1 key _ h
    exact ⟨h1, not_lt.mp hle, h2⟩

theorem Task.drawTrialType_frame {S : Type} {nd md : Nat} (src : RandomSource K S)
    (t : Task K nd md) (g : S) (drawn : Task K nd md × S)
    (h : t.drawTrialType src g = .ok drawn) :
    drawn.1.recorder = t.recorder ∧ drawn.1.trialDist = t.trialDist ∧
      drawn.2 = (src.runif 1 g).2 := by
  unfold Task.drawTrialType at h
  simp only at h
  split at h
  · simp only [Except.ok.injEq] at h
    subst h
    exact ⟨rfl, rfl, rfl⟩
  · cases h

theorem FlankerTask.flanker_prelude_spec [FloorRing K] {S : Type} {nd md n m : Nat}
    (src : RandomSource K S) (t : FlankerTask K nd md n m) (g : S)
    (s0 : FlankerRun K S nd md n m) (h : t.prelude src g = .ok s0) :
    s0.calls = [.setTrueStim s0.task.context s0.task.target, .reset] ∧
    s0.cresp = (if s0.task.belief.trueTarget = 0 then 0 else 1) ∧
    s0.task.belief.trueContext = s0.task.context ∧
    s0.task.belief.trueTarget = s0.task.target ∧
    s0.sampStart = 0 ∧ s0.task.trialTime = 0 ∧
    s0.task.maxSamps = t.maxSamps ∧ s0.task.timePerStep = t.timePerStep ∧
    s0.task.recorder.keys = t.recorder.keys ∧ s0.task.arch = t.arch ∧
    s0.task.pPrematureResponse = t.pPrematureResponse ∧
    s0.task.decisionThresh = t.decisionThresh := by
  unfold FlankerTask.prelude at h
  simp only [bind, Except.bind] at h
  cases hd : t.toTask.drawTrialType src (t.arch.drawEBL src g).2 with
  | error e => simp [hd] at h
  | ok drawn =>
    simp only [hd] at h
    cases hs : t.belief.setTrueStim drawn.1.context drawn.1.target with
    | error e => simp [hs] at h
    | ok b1 =>
      simp only [hs] at h
      have hb1 : b1.trueContext = drawn.1.context ∧ b1.trueTarget = drawn.1.target := by
        unfold Belief.setTrueStim at hs
        split_ifs at hs
        simp only [Except.ok.injEq] at hs
        subst hs
        exact ⟨rfl, rfl⟩
      have hkeys := (Task.drawTrialType_frame src _ _ _ hd).1
      obtain ⟨h1, -, -⟩ := FlankerRun.flanker_updateEvent_inv _ _ _ _ _ h
      subst h1
      refine ⟨rfl, ?_, hb1.1, hb1.2, rfl, rfl, rfl, rfl,
        (show drawn.1.recorder.keys = t.recorder.keys from congrArg Recorder.keys hkeys),
        rfl, rfl, rfl⟩
      show (if drawn.1.target = 0 then (0 : Int) else 1) = if b1.trueTarget = 0 then 0 else 1
      rw [hb1.2]

/-! ## Loops and frames of the AX-CPT run -/

theorem iterate_succ {σ : Type} (body : σ → Except String σ) (k : Nat) (s : σ) :
    iterate body (k + 1) s =
      match body s with
      | .error e => .error e
      | .ok s1 => iterate body k s1 := rfl

theorem iterate_invariant {σ : Type} (body : σ → Except String σ) (R : σ → σ → Prop)
    (hrefl : ∀ s, R s s) (htrans : ∀ a b c, R a b → R b c → R a c)
    (hstep : ∀ s s1, body s = .ok s1 → R s s1) :
    ∀ (k : Nat) (s s1 : σ), iterate body k s = .ok s1 → R s s1 := by
  intro k
  induction k with
  | zero =>
    intro s s1 h
    simp only [iterate, Except.ok.injEq] at h
    subst h
    exact hrefl s
  | succ k ih =>
    intro s s1 h
    rw [iterate_succ] at h
    cases hb : body s with
    | error e => simp [hb] at h
    | ok s2 =>
      simp only [hb] at h
      exact htrans _ _ _ (hstep _ _ hb) (ih _ _ h)

theorem DecayBelief.updateFromContext_trueStim {n m : Nat} (exp : K → K)
    (b : DecayBelief K n m) (noise trialTime : K) (decayTo : PriorType) (u : K) (r : Int)
    (u2 z : K) (res : Int × DecayBelief K n m)
    (h : b.updateFromContext exp noise trialTime decayTo u r u2 z = .ok res) :
    res.2.trueContext = b.trueContext ∧ res.2.trueTarget = b.trueTarget ∧
      res.2.decayRate = b.decayRate := by
  unfold DecayBelief.updateFromContext at h
  split_ifs at h with h0
  · simp only [Except.ok.injEq] at h
    subst h
    exact ⟨rfl, rfl, rfl⟩
  · cases hs : b.sampleAndLikelihood exp noise trialTime decayTo u r u2 z with
    | error e => simp [hs] at h
    | ok p =>
      obtain ⟨ret, b1⟩ := p
      obtain ⟨truth, hb1⟩ := DecayBelief.sampleAndLikelihood_ok exp b noise trialTime decayTo
        u r u2 z ret b1 hs
      simp only [hs, Except.ok.injEq] at h
      subst h
      subst hb1
      exact ⟨rfl, rfl, rfl⟩

omit [LinearOrderedField K] in
theorem AxcptRun.sameTrial_refl {S : Type} {nd md n m : Nat} (s : AxcptRun K S nd md n m) :
    s.SameTrial s :=
  ⟨rfl, rfl, rfl, rfl, rfl, rfl, rfl, rfl, rfl, rfl, rfl, rfl, rfl, rfl, rfl, rfl, rfl, rfl,
    rfl, rfl, rfl⟩

omit [LinearOrderedField K] in
theorem AxcptRun.sameTrial_trans {S : Type} {nd md n m : Nat}
    (a b c : AxcptRun K S nd md n m) (h1 : a.SameTrial b) (h2 : b.SameTrial c) :
    a.SameTrial c :=
  ⟨h2.trialLabel.trans h1.trialLabel, h2.context.trans h1.context,
    h2.target.trans h1.target, h2.keys.trans h1.keys, h2.arch.trans h1.arch,
    h2.timePerStep.trans h1.timePerStep,
    h2.retentionIntervalDur.trans h1.retentionIntervalDur,
    h2.nPrecomputeSamps.trans h1.nPrecomputeSamps,
    h2.retentionNoise.trans h1.retentionNoise, h2.contextNoise.trans h1.contextNoise,
    h2.targetNoise.trans h1.targetNoise, h2.decisionThresh.trans h1.decisionThresh,
    h2.pPrematureResponse.trans h1.pPrematureResponse, h2.maxSamps.trans h1.maxSamps,
    h2.decayTo.trans h1.decayTo, h2.trueContext.trans h1.trueContext,
    h2.trueTarget.trans h1.trueTarget, h2.decayRate.trans h1.decayRate,
    h2.eblDur.trans h1.eblDur,
    h2.sampStart.trans h1.sampStart, h2.cresp.trans h1.cresp⟩

omit [LinearOrderedField K] in
theorem AxcptRun.axcpt_update_ok {S : Type} {nd md n m : Nat}
    (s : AxcptRun K S nd md n m) (key : String) (val : Obs K)
    (h : s.task.trialLabel ++ key ∈ s.task.recorder.keys) :
    s.update key val = .ok (s.logged key val) := by
  unfold AxcptRun.update Recorder.updateDatum
  rw [if_neg (not_not.mpr h)]
  rfl

theorem AxcptRun.axcpt_updateEvent_ok {S : Type} {nd md n m : Nat}
    (s : AxcptRun K S nd md n m) (key : String) (start stop : K) (hle : start ≤ stop)
    (h : s.task.trialLabel ++ key ∈ s.task.recorder.keys) :
    s.updateEvent key start stop = .ok (s.logged key (.event start stop)) := by
  unfold AxcptRun.updateEvent Event.ctor
  rw [if_neg (not_lt.mpr hle)]
  exact s.axcpt_update_ok key _ h

omit [LinearOrderedField K] in
theorem AxcptRun.axcpt_update_inv {S : Type} {nd md n m : Nat}
    (s s1 : AxcptRun K S nd md n m) (key : String) (val : Obs K)
    (h : s.update key val = .ok s1) :
    s1 = s.logged key val ∧ s.task.trialLabel ++ key ∈ s.task.recorder.keys := by
  unfold AxcptRun.update Recorder.updateDatum at h
  by_cases hk : s.task.trialLabel ++ key ∈ s.task.recorder.keys
  · rw [if_neg (not_not.mpr hk)] at h
    simp only [Except.ok.injEq] at h
    exact ⟨h.symm, hk⟩
  · rw [if_pos hk] at h
    cases h

theorem AxcptRun.axcpt_updateEvent_inv {S : Type} {nd md n m : Nat}
    (s s1 : AxcptRun K S nd md n m) (key : String) (start stop : K)
    (h : s.updateEvent key start stop = .ok s1) :
    s1 = s.logged key (.event start stop) ∧ start ≤ stop ∧
      s.task.trialLabel ++ key ∈ s.task.recorder.keys := by
  unfold AxcptRun.updateEvent Event.ctor at h
  by_cases hle : start > stop
  · rw [if_pos hle] at h
    cases h
  · rw [if_neg hle] at h
    obtain ⟨h1, h2⟩ := s.axcpt_update_inv s1 key _ h
    exact ⟨h1, not_lt.mp hle, h2⟩

omit [LinearOrderedField K] in
@[simp] theorem AxcptRun.axcpt_logged_keys {S : Type} {nd md n m : Nat}
    (s : AxcptRun K S nd md n m) (key : String) (val : Obs K) :
    (s.logged key val).task.recorder.keys = s.task.recorder.keys := rfl

omit [LinearOrderedField K] in
@[simp] theorem AxcptRun.axcpt_logged_trialLabel {S : Type} {nd md n m : Nat}
    (s : AxcptRun K S nd md n m) (key : String) (val : Obs K) :
    (s.logged key val).task.trialLabel = s.task.trialLabel := rfl

omit [LinearOrderedField K] in
theorem AxcptRun.axcpt_logged_sameTrial {S : Type} {nd md n m : Nat}
    (s : AxcptRun K S nd md n m) (key : String) (val : Obs K) :
    s.SameTrial (s.logged key val) :=
  ⟨rfl, rfl, rfl, rfl, rfl, rfl, rfl, rfl, rfl, rfl, rfl, rfl, rfl, rfl, rfl, rfl, rfl, rfl,
    rfl, rfl, rfl⟩

theorem AxcptRun.axcpt_prematureBranch_ok [FloorRing K] {S : Type} {nd md n m : Nat}
    (src : RandomSource K S) (hgam : ∀ k theta g, 0 ≤ (src.rgammaRaw k theta g).1)
    (s : AxcptRun K S nd md n m) (hkeys : s.KeysRegistered) :
    s.prematureBranch src = .ok (s.prematureResult src) := by
  have hmp := Architecture.drawMotorPlanning_nonneg src hgam s.task.arch s.rng
  have hme := Architecture.drawMotorExec_nonneg src hgam s.task.arch
    (s.task.arch.drawMotorPlanning src s.rng).2
  have k1 := hkeys "motorPlanEvent" (by simp [AxcptTask.datumNames])
  have k2 := hkeys "Resp" (by simp [AxcptTask.datumNames])
  have k3 := hkeys "Acc" (by simp [AxcptTask.datumNames])
  have k4 := hkeys "motorExecEvent" (by simp [AxcptTask.datumNames])
  have k5 := hkeys "RT" (by simp [AxcptTask.datumNames])
  unfold AxcptRun.prematureBranch AxcptRun.prematureResult
  simp only [bind, Except.bind]
  simp only [AxcptRun.axcpt_updateEvent_ok, AxcptRun.axcpt_update_ok, hmp, hme, k1,
    k2, k3, k4, k5, AxcptRun.axcpt_logged_keys, AxcptRun.axcpt_logged_trialLabel]

theorem AxcptRun.axcpt_prematureResult_log [FloorRing K] {S : Type} {nd md n m : Nat}
    (src : RandomSource K S) (s : AxcptRun K S nd md n m) :
    (s.prematureResult src).task.recorder.log = s.task.recorder.log ++
        prematureLog s.task.trialLabel s.cresp
          (s.task.arch.drawMotorPlanning src s.rng).1
          (s.task.arch.drawMotorExec src (s.task.arch.drawMotorPlanning src s.rng).2).1
          (src.randu (s.task.arch.drawMotorExec src
            (s.task.arch.drawMotorPlanning src s.rng).2).2).1 := by
  simp [AxcptRun.prematureResult, AxcptRun.logged, prematureLog, RandomSource.rbernoulli,
    RNG.rbernoulli]

theorem AxcptRun.decayingUpdate_spec {S : Type} {nd md n m : Nat} (exp : K → K)
    (src : RandomSource K S) (s s1 : AxcptRun K S nd md n m) (noise : K)
    (h : s.decayingUpdate exp src noise = .ok s1) :
    s.SameTrial s1 ∧ s1.task.trialTime = s.task.trialTime ∧
      ∃ c, Call.IsDecayUpdateWith noise c ∧ s1.calls = s.calls ++ [c] := by
  unfold AxcptRun.decayingUpdate at h
  simp only at h
  split at h
  · cases h
  · rename_i res hres
    obtain ⟨h1, h2, h3⟩ := DecayBelief.updateFromContext_trueStim _ _ _ _ _ _ _ _ _ _ hres
    simp only [Except.ok.injEq] at h
    subst h
    exact ⟨⟨rfl, rfl, rfl, rfl, rfl, rfl, rfl, rfl, rfl, rfl, rfl, rfl, rfl, rfl, rfl, h1, h2,
      h3, rfl, rfl, rfl⟩, rfl, _, And.symm ⟨rfl, rfl⟩⟩

theorem AxcptRun.precomputeStep_spec {S : Type} {nd md n m : Nat} (exp : K → K)
    (src : RandomSource K S) (s s1 : AxcptRun K S nd md n m)
    (h : s.precomputeStep exp src = .ok s1) :
    s.SameTrial s1 ∧ s1.task.trialTime = s.task.trialTime + s.task.timePerStep ∧
      ∃ c, Call.IsDecayUpdateWith s.task.retentionNoise c ∧ s1.calls = s.calls ++ [c] := by
  unfold AxcptRun.precomputeStep at h
  cases hr : s.recordBelief with
  | error e => simp [hr] at h
  | ok s2 =>
    simp only [hr] at h
    obtain ⟨hs2, -⟩ := s.axcpt_update_inv s2 _ _ hr
    subst hs2
    obtain ⟨f, ht, c, hc, hcalls⟩ := AxcptRun.decayingUpdate_spec exp src _ _ _ h
    exact ⟨AxcptRun.sameTrial_trans _ _ _
      (⟨rfl, rfl, rfl, rfl, rfl, rfl, rfl, rfl, rfl, rfl, rfl, rfl, rfl, rfl, rfl, rfl, rfl, rfl,
        rfl, rfl, rfl⟩ : s.SameTrial (s.logged "post" _).tick) f, ht, c, hc, hcalls⟩

theorem AxcptRun.iterate_precomputeStep_spec {S : Type} {nd md n m : Nat} (exp : K → K)
    (src : RandomSource K S) :
    ∀ (k : Nat) (s s1 : AxcptRun K S nd md n m),
      iterate (AxcptRun.precomputeStep exp src) k s = .ok s1 →
      s.SameTrial s1 ∧ s1.task.trialTime = s.task.trialTime + (k : K) * s.task.timePerStep ∧
        ∃ L : List (Call K), s1.calls = s.calls ++ L ∧ L.length = k ∧
          ∀ c ∈ L, Call.IsDecayUpdateWith s.task.retentionNoise c := by
  intro k
  induction k with
  | zero =>
    intro s s1 h
    simp only [iterate, Except.ok.injEq] at h
    subst h
    exact ⟨s.sameTrial_refl, by simp, [], by simp, rfl, by simp⟩
  | succ k ih =>
    intro s s1 h
    rw [iterate_succ] at h
    cases hb : s.precomputeStep exp src with
    | error e => simp [hb] at h
    | ok s2 =>
      simp only [hb] at h
      obtain ⟨f1, t1, c, hc, hcalls⟩ := AxcptRun.precomputeStep_spec exp src s s2 hb
      obtain ⟨f2, t2, L, hL, hlen, hall⟩ := ih s2 s1 h
      refine ⟨AxcptRun.sameTrial_trans _ _ _ f1 f2, ?_, c :: L, ?_, by simp [hlen], ?_⟩
      · rw [t2, t1, f1.timePerStep]
        push_cast
        ring
      · rw [hL, hcalls]
        simp
      · intro c1 hc1
        rcases List.mem_cons.mp hc1 with rfl | hc1
        · exact hc
        · have := hall c1 hc1
          rwa [f1.retentionNoise] at this

/-! ## The part of `AxcptTask::run` before the sampling loop -/

theorem AxcptTask.axcpt_start_spec [FloorRing K] {S : Type} {nd md n m : Nat}
    (src : RandomSource K S) (t : AxcptTask K nd md n m) (g : S)
    (s : AxcptRun K S nd md n m) (h : t.start src g = .ok s) :
    s.calls = [.base (.setTrueStim s.task.context s.task.target), .base .reset] ∧
    s.cresp = (if s.task.belief.trueContext = s.task.belief.trueTarget then 1 else 0) ∧
    s.task.belief.trueContext = s.task.context ∧
    s.task.belief.trueTarget = s.task.target ∧
    s.task.trialTime = 0 ∧
    s.task.nPrecomputeSamps = truncToInt (t.retentionIntervalDur / t.timePerStep) ∧
    s.task.maxSamps = t.maxSamps ∧ s.task.timePerStep = t.timePerStep ∧
    s.task.recorder.keys = t.recorder.keys ∧ s.task.arch = t.arch ∧
    s.task.pPrematureResponse = t.pPrematureResponse ∧
    s.task.decisionThresh = t.decisionThresh ∧
    s.task.retentionNoise = t.retentionNoise ∧
    s.task.retentionIntervalDur = t.retentionIntervalDur := by
  unfold AxcptTask.start at h
  simp only [bind, Except.bind] at h
  cases hd : t.toTask.drawTrialType src g with
  | error e => simp [hd] at h
  | ok drawn =>
    simp only [hd] at h
    cases hs : t.belief.toBelief.setTrueStim drawn.1.context drawn.1.target with
    | error e => simp [hs] at h
    | ok b1 =>
      simp only [hs] at h
      have hb1 : b1.trueContext = drawn.1.context ∧ b1.trueTarget = drawn.1.target := by
        unfold Belief.setTrueStim at hs
        split_ifs at hs
        simp only [Except.ok.injEq] at hs
        subst hs
        exact ⟨rfl, rfl⟩
      have hkeys := (Task.drawTrialType_frame src _ _ _ hd).1
      obtain ⟨h1, -, -⟩ := AxcptRun.axcpt_updateEvent_inv _ _ _ _ _ h
      subst h1
      refine ⟨rfl, ?_, hb1.1, hb1.2, rfl, rfl, rfl, rfl,
        (show drawn.1.recorder.keys = t.recorder.keys from congrArg Recorder.keys hkeys),
        rfl, rfl, rfl, rfl, rfl⟩
      show (if drawn.1.context = drawn.1.target then (1 : Int) else 0)
        = if b1.trueContext = b1.trueTarget then 1 else 0
      rw [hb1.1, hb1.2]

theorem AxcptRun.precomputeSamples_spec {S : Type} {nd md n m : Nat} (exp : K → K)
    (src : RandomSource K S) (s s1 : AxcptRun K S nd md n m)
    (h : s.precomputeSamples exp src = .ok s1) :
    s.SameTrial s1 ∧
      s1.task.trialTime = s.task.trialTime
        + (((s.task.nPrecomputeSamps % 2 ^ 32).toNat : Nat) : K) * s.task.timePerStep ∧
      ∃ L : List (Call K), s1.calls = s.calls ++ L ∧
        L.length = (s.task.nPrecomputeSamps % 2 ^ 32).toNat ∧
        ∀ c ∈ L, Call.IsDecayUpdateWith s.task.retentionNoise c := by
  rw [AxcptRun.precomputeSamples] at h
  cases hi : iterate (AxcptRun.precomputeStep exp src)
      (s.task.nPrecomputeSamps % 2 ^ 32).toNat s with
  | error e =>
    rw [hi] at h
    cases h
  | ok s2 =>
    rw [hi] at h
    simp only [] at h
    obtain ⟨f, ht, L, hL, hlen, hall⟩ :=
      AxcptRun.iterate_precomputeStep_spec exp src _ _ _ hi
    obtain ⟨h1, -, -⟩ := AxcptRun.axcpt_updateEvent_inv _ _ _ _ _ h
    subst h1
    exact ⟨AxcptRun.sameTrial_trans _ _ _ f (s2.axcpt_logged_sameTrial _ _), ht, L, hL, hlen,
      hall⟩

theorem AxcptTask.axcpt_prelude_spec [FloorRing K] {S : Type} {nd md n m : Nat}
    (exp : K → K) (src : RandomSource K S) (t : AxcptTask K nd md n m) (g : S)
    (s0 : AxcptRun K S nd md n m) (h : t.prelude exp src g = .ok s0) :
    (∃ L : List (Call K),
      s0.calls = [.base (.setTrueStim s0.task.context s0.task.target), .base .reset] ++ L ∧
      L.length = (truncToInt (t.retentionIntervalDur / t.timePerStep) % 2 ^ 32).toNat ∧
      ∀ c ∈ L, Call.IsDecayUpdateWith t.retentionNoise c) ∧
    s0.cresp = (if s0.task.belief.trueContext = s0.task.belief.trueTarget then 1 else 0) ∧
    s0.task.belief.trueContext = s0.task.context ∧
    s0.task.belief.trueTarget = s0.task.target ∧
    s0.sampStart = s0.task.trialTime ∧
    s0.task.trialTime =
      (((truncToInt (t.retentionIntervalDur / t.timePerStep) % 2 ^ 32).toNat : Nat) : K)
        * t.timePerStep ∧
    s0.task.maxSamps = t.maxSamps ∧ s0.task.timePerStep = t.timePerStep ∧
    s0.task.recorder.keys = t.recorder.keys ∧ s0.task.arch = t.arch ∧
    s0.task.pPrematureResponse = t.pPrematureResponse ∧
    s0.task.decisionThresh = t.decisionThresh ∧
    s0.task.retentionIntervalDur = t.retentionIntervalDur := by
  unfold AxcptTask.prelude at h
  simp only [bind, Except.bind] at h
  cases hst : t.start src g with
  | error e => simp [hst] at h
  | ok s =>
    simp only [hst] at h
    cases hp : s.precomputeSamples exp src with
    | error e => simp [hp] at h
    | ok s1 =>
      simp only [hp, Except.ok.injEq] at h
      subst h
      obtain ⟨c1, c2, c3, c4, c5, c6, c7, c8, c9, c10, c11, c12, c13, c14⟩ :=
        AxcptTask.axcpt_start_spec src t g s hst
      obtain ⟨f, ht, L, hL, hlen, hall⟩ := AxcptRun.precomputeSamples_spec exp src s s1 hp
      refine ⟨⟨L, ?_, ?_, ?_⟩, ?_, ?_, ?_, rfl, ?_, ?_, ?_, ?_, ?_, ?_, ?_, ?_⟩
      · show s1.calls = _
        rw [hL, c1]
        show _ = [Call.base (.setTrueStim s1.task.context s1.task.target), .base .reset] ++ L
        rw [f.context, f.target]
      · rw [hlen, c6]
      · intro c hc
        have := hall c hc
        rwa [c13] at this
      · show s1.cresp = if s1.task.belief.trueContext = s1.task.belief.trueTarget then 1 else 0
        rw [f.cresp, f.trueContext, f.trueTarget, c2]
      · show s1.task.belief.trueContext = s1.task.context
        rw [f.trueContext, f.context, c3]
      · show s1.task.belief.trueTarget = s1.task.target
        rw [f.trueTarget, f.target, c4]
      · show s1.task.trialTime = _
        rw [ht, c5, c6, c8, zero_add]
      · exact f.maxSamps.trans c7
      · exact f.timePerStep.trans c8
      · exact f.keys.trans c9
      · exact f.arch.trans c10
      · exact f.pPrematureResponse.trans c11
      · exact f.decisionThresh.trans c12
      · exact f.retentionIntervalDur.trans c14

/-! ## The premature-response block -/

theorem FlankerRun.flanker_prematureDraw_spec [FloorRing K] {S : Type} {nd md n m : Nat}
    (src : RandomSource K S) (s : FlankerRun K S nd md n m) :
    (s.prematureDraw src).2.task = s.task ∧ (s.prematureDraw src).2.calls = s.calls ∧
    (s.prematureDraw src).2.cresp = s.cresp ∧
    (s.prematureDraw src).2.sampStart = s.sampStart ∧
    (s.prematureDraw src).2.eblDur = s.eblDur ∧
    ((s.prematureDraw src).1 = true ↔
      0 < s.task.pPrematureResponse ∧ (src.randu s.rng).1 < s.task.pPrematureResponse) := by
  unfold FlankerRun.prematureDraw
  by_cases hp : s.task.pPrematureResponse > 0
  · rw [if_pos hp]
    refine ⟨rfl, rfl, rfl, rfl, rfl, ?_⟩
    simp only [RandomSource.rbernoulli, RNG.rbernoulli, decide_eq_true_eq]
    constructor
    · intro h
      refine ⟨hp, ?_⟩
      by_contra hc
      rw [if_neg hc] at h
      exact absurd h (by decide)
    · rintro ⟨-, h⟩
      rw [if_pos h]
  · rw [if_neg hp]
    refine ⟨rfl, rfl, rfl, rfl, rfl, ?_⟩
    constructor
    · intro h
      cases h
    · rintro ⟨h, -⟩
      exact absurd h hp

theorem AxcptRun.axcpt_prematureDraw_spec [FloorRing K] {S : Type} {nd md n m : Nat}
    (src : RandomSource K S) (s : AxcptRun K S nd md n m) :
    (s.prematureDraw src).2.task = s.task ∧ (s.prematureDraw src).2.calls = s.calls ∧
    (s.prematureDraw src).2.cresp = s.cresp ∧
    (s.prematureDraw src).2.sampStart = s.sampStart ∧
    (s.prematureDraw src).2.eblDur = s.eblDur ∧
    ((s.prematureDraw src).1 = true ↔
      0 < s.task.pPrematureResponse ∧ (src.randu s.rng).1 < s.task.pPrematureResponse) := by
  unfold AxcptRun.prematureDraw
  by_cases hp : s.task.pPrematureResponse > 0
  · rw [if_pos hp]
    refine ⟨rfl, rfl, rfl, rfl, rfl, ?_⟩
    simp only [RandomSource.rbernoulli, RNG.rbernoulli, decide_eq_true_eq]
    constructor
    · intro h
      refine ⟨hp, ?_⟩
      by_contra hc
      rw [if_neg hc] at h
      exact absurd h (by decide)
    · rintro ⟨-, h⟩
      rw [if_pos h]
  · rw [if_neg hp]
    refine ⟨rfl, rfl, rfl, rfl, rfl, ?_⟩
    constructor
    · intro h
      cases h
    · rintro ⟨h, -⟩
      exact absurd h hp

theorem FlankerTask.flanker_run_eq [FloorRing K] {S : Type} {nd md n m : Nat}
    (exp : K → K) (src : RandomSource K S) (t : FlankerTask K nd md n m) (g : S)
    (s0 : FlankerRun K S nd md n m) (h : t.prelude src g = .ok s0) :
    t.run exp src g =
      if (s0.prematureDraw src).1 = true then (s0.prematureDraw src).2.prematureBranch src
      else (s0.prematureDraw src).2.accumulate exp src := by
  unfold FlankerTask.run
  rw [h]
  rfl

theorem AxcptTask.axcpt_run_eq [FloorRing K] {S : Type} {nd md n m : Nat}
    (exp : K → K) (src : RandomSource K S) (t : AxcptTask K nd md n m) (g : S)
    (s0 : AxcptRun K S nd md n m) (h : t.prelude exp src g = .ok s0) :
    t.run exp src g =
      if (s0.prematureDraw src).1 = true then (s0.prematureDraw src).2.prematureBranch src
      else (s0.prematureDraw src).2.accumulate exp src := by
  unfold AxcptTask.run
  rw [h]
  rfl

/-! ## Conditions under which the part before the sampling loop returns -/

theorem iterate_ok {σ : Type} (body : σ → Except String σ) (P : σ → Prop)
    (hstep : ∀ s, P s → ∃ s1, body s = .ok s1 ∧ P s1) :
    ∀ (k : Nat) (s : σ), P s → ∃ s1, iterate body k s = .ok s1 ∧ P s1 := by
  intro k
  induction k with
  | zero =>
    intro s hs
    exact ⟨s, rfl, hs⟩
  | succ k ih =>
    intro s hs
    obtain ⟨s1, h1, hP1⟩ := hstep s hs
    obtain ⟨s2, h2, hP2⟩ := ih s1 hP1
    refine ⟨s2, ?_, hP2⟩
    rw [iterate_succ, h1]
    exact h2

theorem mem_registeredKeys (nContexts nTargets : Nat) (names : List String) (name : String)
    (c t : Nat) (hname : name ∈ names) (hc : c < nContexts) (ht : t < nTargets) :
    Task.labelOf c t ++ name ∈ registeredKeys nContexts nTargets names := by
  unfold registeredKeys
  simp only [List.mem_flatMap, List.mem_map, List.mem_range]
  exact ⟨name, hname, c, hc, t, ht, rfl⟩

theorem Task.drawTrialType_ok {S : Type} {nd md : Nat} (src : RandomSource K S)
    (t : Task K nd md) (g : S) (htot : Mat.total t.trialDist = 1)
    (hp0 : 0 < (src.runif 1 g).1) (hp1 : (src.runif 1 g).1 ≤ 1) :
    ∃ (cell : Fin nd × Fin md) (drawn : Task K nd md × S),
      t.drawTrialType src g = .ok drawn ∧
      drawn.1.trialLabel = Task.labelOf cell.1 cell.2 ∧
      drawn.1.context = ((cell.1 : Nat) : Int) ∧ drawn.1.target = ((cell.2 : Nat) : Int) ∧
      drawn.1.recorder = t.recorder := by
  cases hd : drawScan (src.runif 1 g).1 t.trialDist (rowMajorCells nd md) 0 with
  | none =>
    have := drawScan_eq_none _ _ _ 0 hp0 hd
    rw [sum_rowMajorCells, zero_add, htot] at this
    exact absurd hp1 (not_le.mpr this)
  | some cell =>
    exact ⟨cell, _, Task.drawTrialType_of_some src t g cell hd, rfl, rfl, rfl, rfl⟩

omit [LinearOrderedField K] in
theorem Belief.setTrueStim_ok {n m : Nat} (b : Belief K n m) (c t : Nat) (hc : c < n)
    (ht : t < m) :
    b.setTrueStim (c : Int) (t : Int)
      = .ok { b with trueContext := (c : Int), trueTarget := (t : Int) } := by
  unfold Belief.setTrueStim Belief.nContexts Belief.nTargets
  have h1 : ¬ ((c : Int) ≥ (n : Int)) := by omega
  have h2 : ¬ ((c : Int) < 0) := by omega
  have h3 : ¬ ((t : Int) ≥ (m : Int)) := by omega
  have h4 : ¬ ((t : Int) < 0) := by omega
  rw [if_neg h1, if_neg h2, if_neg h3, if_neg h4]

theorem FlankerTask.flanker_prelude_ok [FloorRing K] {S : Type} {nd md n m : Nat}
    (src : RandomSource K S) (hgam : ∀ k theta g, 0 ≤ (src.rgammaRaw k theta g).1)
    (t : FlankerTask K nd md n m) (g : S) (htot : Mat.total t.trialDist = 1)
    (hp0 : 0 < (src.runif 1 (t.arch.drawEBL src g).2).1)
    (hp1 : (src.runif 1 (t.arch.drawEBL src g).2).1 ≤ 1)
    (hn : nd ≤ n) (hm : md ≤ m)
    (hreg : ∀ name ∈ FlankerTask.datumNames, ∀ c < nd, ∀ tt < md,
      Task.labelOf c tt ++ name ∈ t.recorder.keys) :
    ∃ s0, t.prelude src g = .ok s0 ∧ s0.KeysRegistered := by
  obtain ⟨cell, drawn, hd, hlabel, hctx, htgt, hrec⟩ :=
    Task.drawTrialType_ok src t.toTask (t.arch.drawEBL src g).2 htot hp0 hp1
  have hs := Belief.setTrueStim_ok t.belief cell.1 cell.2
    (lt_of_lt_of_le cell.1.isLt hn) (lt_of_lt_of_le cell.2.isLt hm)
  have hebl := Architecture.drawEBL_nonneg src hgam t.arch g
  have hk : ∀ name ∈ FlankerTask.datumNames,
      drawn.1.trialLabel ++ name ∈ drawn.1.recorder.keys := by
    intro name hname
    rw [hlabel, hrec]
    exact hreg name hname _ cell.1.isLt _ cell.2.isLt
  unfold FlankerTask.prelude
  simp only [bind, Except.bind, hd, hctx, htgt, hs]
  rw [FlankerRun.flanker_updateEvent_ok _ _ _ _ hebl
    (hk "eblEvent" (by simp [FlankerTask.datumNames]))]
  exact ⟨_, rfl, hk⟩

theorem AxcptRun.decayingUpdate_ok {S : Type} {nd md n m : Nat} (exp : K → K)
    (src : RandomSource K S) (s : AxcptRun K S nd md n m) (noise : K)
    (h : s.task.belief.decayRate = 0) :
    ∃ s1, s.decayingUpdate exp src noise = .ok s1 := by
  unfold AxcptRun.decayingUpdate
  simp only
  rw [DecayBelief.updateFromContext_noDecay exp _ _ _ _ _ _ _ _ (Or.inl h)]
  exact ⟨_, rfl⟩

theorem AxcptRun.precomputeStep_ok {S : Type} {nd md n m : Nat} (exp : K → K)
    (src : RandomSource K S) (s : AxcptRun K S nd md n m)
    (h : s.KeysRegistered ∧ s.task.belief.decayRate = 0) :
    ∃ s1, s.precomputeStep exp src = .ok s1 ∧
      (s1.KeysRegistered ∧ s1.task.belief.decayRate = 0) := by
  have hr : s.recordBelief = .ok (s.logged "post" _) :=
    s.axcpt_update_ok "post" _ (h.1 "post" (by simp [AxcptTask.datumNames]))
  obtain ⟨s1, h1⟩ := AxcptRun.decayingUpdate_ok exp src (s.logged "post"
    (.timepoint s.task.trialTime (Mat.vectorise s.task.belief.getBelief))).tick
    (s.logged "post" (.timepoint s.task.trialTime
      (Mat.vectorise s.task.belief.getBelief))).task.retentionNoise h.2
  have hstep : s.precomputeStep exp src = .ok s1 := by
    unfold AxcptRun.precomputeStep
    rw [hr]
    exact h1
  obtain ⟨f, -, -⟩ := AxcptRun.precomputeStep_spec exp src s s1 hstep
  refine ⟨s1, hstep, ?_, f.decayRate.trans h.2⟩
  intro name hname
  rw [f.trialLabel, f.keys]
  exact h.1 name hname

theorem AxcptTask.axcpt_prelude_ok [FloorRing K] {S : Type} {nd md n m : Nat}
    (exp : K → K) (src : RandomSource K S)
    (hgam : ∀ k theta g, 0 ≤ (src.rgammaRaw k theta g).1)
    (t : AxcptTask K nd md n m) (g : S) (htot : Mat.total t.trialDist = 1)
    (hp0 : 0 < (src.runif 1 g).1) (hp1 : (src.runif 1 g).1 ≤ 1)
    (hn : nd ≤ n) (hm : md ≤ m)
    (hreg : ∀ name ∈ AxcptTask.datumNames, ∀ c < nd, ∀ tt < md,
      Task.labelOf c tt ++ name ∈ t.recorder.keys)
    (hdecay : t.belief.decayRate = 0)
    (hret : 0 ≤ t.retentionIntervalDur) (htps : 0 < t.timePerStep) :
    ∃ s0, t.prelude exp src g = .ok s0 ∧ s0.KeysRegistered := by
  obtain ⟨cell, drawn, hd, hlabel, hctx, htgt, hrec⟩ :=
    Task.drawTrialType_ok src t.toTask g htot hp0 hp1
  have hs := Belief.setTrueStim_ok t.belief.toBelief cell.1 cell.2
    (lt_of_lt_of_le cell.1.isLt hn) (lt_of_lt_of_le cell.2.isLt hm)
  have hebl := Architecture.drawEBL_nonneg src hgam t.arch drawn.2
  have hk : ∀ name ∈ AxcptTask.datumNames,
      drawn.1.trialLabel ++ name ∈ drawn.1.recorder.keys := by
    intro name hname
    rw [hlabel, hrec]
    exact hreg name hname _ cell.1.isLt _ cell.2.isLt
  obtain ⟨s, hstart, hsk, hsd, hsn, hst⟩ : ∃ s, t.start src g = .ok s ∧ s.KeysRegistered ∧
      s.task.belief.decayRate = 0 ∧
      s.task.nPrecomputeSamps = truncToInt (t.retentionIntervalDur / t.timePerStep) ∧
      s.task.timePerStep = t.timePerStep := by
    unfold AxcptTask.start
    simp only [bind, Except.bind, hd, hctx, htgt, hs]
    rw [AxcptRun.axcpt_updateEvent_ok _ _ _ _ (le_add_of_nonneg_right hebl)
      (hk "eblEvent" (by simp [AxcptTask.datumNames]))]
    exact ⟨_, rfl, hk, hdecay, rfl, rfl⟩
  obtain ⟨s1, hit, hk1, -⟩ := iterate_ok (AxcptRun.precomputeStep exp src)
    (fun s => s.KeysRegistered ∧ s.task.belief.decayRate = 0)
    (AxcptRun.precomputeStep_ok exp src) (s.task.nPrecomputeSamps % 2 ^ 32).toNat s ⟨hsk, hsd⟩
  obtain ⟨f, -, -⟩ := AxcptRun.iterate_precomputeStep_spec exp src _ _ _ hit
  have hn0 : (0 : K) ≤ (s1.task.nPrecomputeSamps : K) * s1.task.timePerStep := by
    rw [f.nPrecomputeSamps, f.timePerStep, hsn, hst]
    have hq : 0 ≤ t.retentionIntervalDur / t.timePerStep := div_nonneg hret htps.le
    have hfl : (0 : Int) ≤ truncToInt (t.retentionIntervalDur / t.timePerStep) := by
      unfold truncToInt
      rw [if_pos hq]
      exact Int.floor_nonneg.mpr hq
    exact mul_nonneg (by exact_mod_cast hfl) htps.le
  have hpre : s.precomputeSamples exp src
      = .ok (s1.logged "samplingContextEvent"
          (.event 0 ((s1.task.nPrecomputeSamps : K) * s1.task.timePerStep))) := by
    rw [AxcptRun.precomputeSamples, hit]
    exact AxcptRun.axcpt_updateEvent_ok _ _ _ _ hn0
      (hk1 "samplingContextEvent" (by simp [AxcptTask.datumNames]))
  unfold AxcptTask.prelude
  simp only [bind, Except.bind, hstart, hpre]
  exact ⟨_, rfl, hk1⟩

/-! ## The premature-response path (C17, C18) -/

theorem testTrialDist_total : Mat.total (testTrialDist : Mat K 2 2) = 1 := by
  simp [Mat.total, testTrialDist, Fin.sum_univ_two]
  norm_num

theorem prematureFlankerTask_ctor :
    FlankerTask.ctor (prematureConfig : TaskConfig K 2 2 2 2)
      (registeredRecorder FlankerTask.datumNames) = .ok prematureFlankerTask := by
  have hb : Belief.ctor (prematureConfig : TaskConfig K 2 2 2 2).toConfig = .ok testBelief0 :=
    testBelief0_ctor
  have ht := Task.task_ctor_of_total (prematureConfig : TaskConfig K 2 2 2 2)
    (registeredRecorder FlankerTask.datumNames) testTrialDist_total
  unfold FlankerTask.ctor
  rw [ht, hb]
  simp only [bind, Except.bind, Config.get, prematureConfig, defaultTaskConfig]
  norm_num
  rfl

theorem prematureAxcptTask_ctor (sqrt : K → K) :
    AxcptTask.ctor sqrt (prematureConfig : TaskConfig K 2 2 2 2)
      (registeredRecorder AxcptTask.datumNames) = .ok prematureAxcptTask := by
  have hb : DecayBelief.ctor (prematureConfig : TaskConfig K 2 2 2 2).toConfig
      = .ok ⟨testBelief0, rowSums testPrior, 0⟩ := by
    have h : Belief.ctor (prematureConfig : TaskConfig K 2 2 2 2).toConfig = .ok testBelief0 :=
      testBelief0_ctor
    unfold DecayBelief.ctor
    rw [h]
    rfl
  have ht := Task.task_ctor_of_total (prematureConfig : TaskConfig K 2 2 2 2)
    (registeredRecorder AxcptTask.datumNames) testTrialDist_total
  have hn : AxcptTask.noises sqrt (prematureConfig : TaskConfig K 2 2 2 2) = .ok (3, 3) := by
    simp [AxcptTask.noises, prematureConfig, defaultTaskConfig, Config.get, bind, Except.bind]
  unfold AxcptTask.ctor
  rw [ht, hb, hn]
  simp only [bind, Except.bind, prematureConfig, defaultTaskConfig]
  norm_num
  rfl

/-- C18: in both tasks, a trial that takes the premature-response path returns and
appends to the log, after the motor planning event, exactly one `Resp`, one `Acc`, the
motor execution event and one `RT`: `Resp` is the coin flip (1 iff the uniform variate
is `< 0.5`), `Acc` is 1 iff `Resp` equals the correct response of the true stimulus (for
`FlankerTask` 0 if the true target is 0, else 1; for `AxcptTask` 1 if the true context
equals the true target, else 0), and `RT` is the motor-execution draw. The gamma
variates of the source are not negative and the keys of the task are registered. -/
theorem premature_path_records [FloorRing K] {S : Type} {nd md n m : Nat} (exp : K → K)
    (src : RandomSource K S) (hgam : ∀ k theta g, 0 ≤ (src.rgammaRaw k theta g).1) :
    (∀ (t : FlankerTask K nd md n m) (g : S) (s0 : FlankerRun K S nd md n m),
      t.prelude src g = .ok s0 → (s0.prematureDraw src).1 = true → s0.KeysRegistered →
      ∃ sf, t.run exp src g = .ok sf ∧
        sf.task.recorder.log = s0.task.recorder.log ++
          prematureLog s0.task.trialLabel (if s0.task.belief.trueTarget = 0 then 0 else 1)
            (t.arch.drawMotorPlanning src (s0.prematureDraw src).2.rng).1
            (t.arch.drawMotorExec src
              (t.arch.drawMotorPlanning src (s0.prematureDraw src).2.rng).2).1
            (src.randu (t.arch.drawMotorExec src
              (t.arch.drawMotorPlanning src (s0.prematureDraw src).2.rng).2).2).1) ∧
    (∀ (t : AxcptTask K nd md n m) (g : S) (s0 : AxcptRun K S nd md n m),
      t.prelude exp src g = .ok s0 → (s0.prematureDraw src).1 = true → s0.KeysRegistered →
      ∃ sf, t.run exp src g = .ok sf ∧
        sf.task.recorder.log = s0.task.recorder.log ++
          prematureLog s0.task.trialLabel
            (if s0.task.belief.trueContext = s0.task.belief.trueTarget then 1 else 0)
            (t.arch.drawMotorPlanning src (s0.prematureDraw src).2.rng).1
            (t.arch.drawMotorExec src
              (t.arch.drawMotorPlanning src (s0.prematureDraw src).2.rng).2).1
            (src.randu (t.arch.drawMotorExec src
              (t.arch.drawMotorPlanning src (s0.prematureDraw src).2.rng).2).2).1) := by
  constructor
  · intro t g s0 hprel hprem hkeys
    obtain ⟨-, hcresp, -, -, -, -, -, -, -, harch, -, -⟩ :=
      FlankerTask.flanker_prelude_spec src t g s0 hprel
    obtain ⟨htask, -, hc, -, -, -⟩ := FlankerRun.flanker_prematureDraw_spec src s0
    have hk : (s0.prematureDraw src).2.KeysRegistered := by
      intro name hname
      rw [htask]
      exact hkeys name hname
    rw [FlankerTask.flanker_run_eq exp src t g s0 hprel, if_pos hprem,
      FlankerRun.flanker_prematureBranch_ok src hgam _ hk]
    refine ⟨_, rfl, ?_⟩
    rw [FlankerRun.prematureResult_log, htask, hc, hcresp, harch]
  · intro t g s0 hprel hprem hkeys
    obtain ⟨-, hcresp, -, -, -, -, -, -, -, harch, -, -, -⟩ :=
      AxcptTask.axcpt_prelude_spec exp src t g s0 hprel
    obtain ⟨htask, -, hc, -, -, -⟩ := AxcptRun.axcpt_prematureDraw_spec src s0
    have hk : (s0.prematureDraw src).2.KeysRegistered := by
      intro name hname
      rw [htask]
      exact hkeys name hname
    rw [AxcptTask.axcpt_run_eq exp src t g s0 hprel, if_pos hprem,
      AxcptRun.axcpt_prematureBranch_ok src hgam _ hk]
    refine ⟨_, rfl, ?_⟩
    rw [AxcptRun.axcpt_prematureResult_log, htask, hc, hcresp, harch]

theorem FlankerRun.flanker_prematureResult_frame [FloorRing K] {S : Type} {nd md n m : Nat}
    (src : RandomSource K S) (s : FlankerRun K S nd md n m) :
    (s.prematureResult src).calls = s.calls ∧
    (s.prematureResult src).task.context = s.task.context ∧
    (s.prematureResult src).task.target = s.task.target :=
  ⟨rfl, rfl, rfl⟩

theorem AxcptRun.axcpt_prematureResult_frame [FloorRing K] {S : Type} {nd md n m : Nat}
    (src : RandomSource K S) (s : AxcptRun K S nd md n m) :
    (s.prematureResult src).calls = s.calls ∧
    (s.prematureResult src).task.context = s.task.context ∧
    (s.prematureResult src).task.target = s.task.target :=
  ⟨rfl, rfl, rfl⟩

theorem countingSource_gamma_nonneg (u z : K) (r : Int) (gam : K) (h : 0 ≤ gam) :
    ∀ (k theta : K) (g : Nat), 0 ≤ ((countingSource u z r gam).rgammaRaw k theta g).1 :=
  fun _ _ _ => h

theorem countingSource_runif (u z : K) (r : Int) (gam : K) (g : Nat) :
    ((countingSource u z r gam).runif 1 g).1 = u := by
  simp [RandomSource.runif, RNG.runif, countingSource]

theorem prematureFlankerTask_prelude [FloorRing K] (g : Nat) :
    ∃ s0, (prematureFlankerTask : FlankerTask K 2 2 2 2).prelude
        (countingSource (1 / 4) 0 0 50) g = .ok s0 ∧
      s0.KeysRegistered ∧ (s0.prematureDraw (countingSource (1 / 4) 0 0 50)).1 = true := by
  obtain ⟨s0, h, hk⟩ := FlankerTask.flanker_prelude_ok (countingSource (1 / 4 : K) 0 0 50)
    (countingSource_gamma_nonneg _ _ _ _ (by norm_num)) prematureFlankerTask g
    testTrialDist_total (by rw [countingSource_runif]; norm_num)
    (by rw [countingSource_runif]; norm_num) le_rfl le_rfl
    (fun name hname c hc tt htt => mem_registeredKeys 2 2 _ name c tt hname hc htt)
  refine ⟨s0, h, hk, ?_⟩
  obtain ⟨-, -, -, -, -, -, -, -, -, -, hp, -⟩ :=
    FlankerTask.flanker_prelude_spec _ _ _ _ h
  rw [(FlankerRun.flanker_prematureDraw_spec _ s0).2.2.2.2.2, hp]
  constructor
  · show (0 : K) < 1
    norm_num
  · show (1 / 4 : K) < 1
    norm_num

theorem prematureAxcptTask_prelude [FloorRing K] (exp : K → K) (g : Nat) :
    ∃ s0, (prematureAxcptTask : AxcptTask K 2 2 2 2).prelude exp
        (countingSource (1 / 4) 0 0 50) g = .ok s0 ∧
      s0.KeysRegistered ∧ (s0.prematureDraw (countingSource (1 / 4) 0 0 50)).1 = true := by
  obtain ⟨s0, h, hk⟩ := AxcptTask.axcpt_prelude_ok exp (countingSource (1 / 4 : K) 0 0 50)
    (countingSource_gamma_nonneg _ _ _ _ (by norm_num)) prematureAxcptTask g
    testTrialDist_total (by rw [countingSource_runif]; norm_num)
    (by rw [countingSource_runif]; norm_num) le_rfl le_rfl
    (fun name hname c hc tt htt => mem_registeredKeys 2 2 _ name c tt hname hc htt)
    rfl (by show (0 : K) ≤ 10; norm_num) (by show (0 : K) < 10; norm_num)
  refine ⟨s0, h, hk, ?_⟩
  obtain ⟨-, -, -, -, -, -, -, -, -, -, hp, -, -⟩ :=
    AxcptTask.axcpt_prelude_spec _ _ _ _ _ h
  rw [(AxcptRun.axcpt_prematureDraw_spec _ s0).2.2.2.2.2, hp]
  constructor
  · show (0 : K) < 1
    norm_num
  · show (1 / 4 : K) < 1
    norm_num

/-- Both fixture tasks with `pPrematureResp = 1` and uniform variate `0.25` take the
premature path, return, and record the five observations of the block. -/
theorem premature_path_records_witness :
    (∀ (k theta : ℝ) (g : Nat),
      0 ≤ ((countingSource (1 / 4 : ℝ) 0 0 50).rgammaRaw k theta g).1) ∧
    (∃ s0 sf, (prematureFlankerTask : FlankerTask ℝ 2 2 2 2).prelude
        (countingSource (1 / 4) 0 0 50) 0 = .ok s0 ∧
      (s0.prematureDraw (countingSource (1 / 4) 0 0 50)).1 = true ∧
      (prematureFlankerTask : FlankerTask ℝ 2 2 2 2).run Real.exp
        (countingSource (1 / 4) 0 0 50) 0 = .ok sf ∧
      sf.task.recorder.log.length = s0.task.recorder.log.length + 5) ∧
    (∃ s0 sf, (prematureAxcptTask : AxcptTask ℝ 2 2 2 2).prelude Real.exp
        (countingSource (1 / 4) 0 0 50) 0 = .ok s0 ∧
      (s0.prematureDraw (countingSource (1 / 4) 0 0 50)).1 = true ∧
      (prematureAxcptTask : AxcptTask ℝ 2 2 2 2).run Real.exp
        (countingSource (1 / 4) 0 0 50) 0 = .ok sf ∧
      sf.task.recorder.log.length = s0.task.recorder.log.length + 5) := by
  have hgam := countingSource_gamma_nonneg (1 / 4 : ℝ) 0 0 50 (by norm_num)
  have h := @premature_path_records ℝ _ _ Nat 2 2 2 2 Real.exp
    (countingSource (1 / 4) 0 0 50) hgam
  refine ⟨hgam, ?_, ?_⟩
  · obtain ⟨s0, hp, hk, hd⟩ := @prematureFlankerTask_prelude ℝ _ _ 0
    obtain ⟨sf, hrun, hlog⟩ := h.1 prematureFlankerTask 0 s0 hp hd hk
    exact ⟨s0, sf, hp, hd, hrun, by rw [hlog]; simp [prematureLog]⟩
  · obtain ⟨s0, hp, hk, hd⟩ := @prematureAxcptTask_prelude ℝ _ _ Real.exp 0
    obtain ⟨sf, hrun, hlog⟩ := h.2 prematureAxcptTask 0 s0 hp hd hk
    exact ⟨s0, sf, hp, hd, hrun, by rw [hlog]; simp [prematureLog]⟩

/-- C17 (amended): whenever the premature-response draw succeeds (which it does when
`pPrematureResp = 1` and the uniform variate is `< 1`), `FlankerTask::run` returns
without any call of an update of the belief engine: the calls made on it are
`setTrueStim` and `reset` only. `AxcptTask::run` returns without any update after the
draw: the calls made between `reset()` and the end of the trial are exactly the decaying
context updates of `_precomputeSamples`, with `retentionNoise`, as many as
`_nPrecomputeSamps` converted to `unsigned`, which the method performs before it tests
for a premature response. -/
theorem premature_path_updates [FloorRing K] {S : Type} {nd md n m : Nat} (exp : K → K)
    (src : RandomSource K S) (hgam : ∀ k theta g, 0 ≤ (src.rgammaRaw k theta g).1) :
    (∀ (t : FlankerTask K nd md n m) (g : S) (s0 : FlankerRun K S nd md n m),
      t.prelude src g = .ok s0 → s0.KeysRegistered →
      (t.pPrematureResponse = 1 → (src.randu s0.rng).1 < 1 →
        (s0.prematureDraw src).1 = true) ∧
      ((s0.prematureDraw src).1 = true →
        ∃ sf, t.run exp src g = .ok sf ∧
          sf.calls = [.setTrueStim sf.task.context sf.task.target, .reset])) ∧
    (∀ (t : AxcptTask K nd md n m) (g : S) (s0 : AxcptRun K S nd md n m),
      t.prelude exp src g = .ok s0 → s0.KeysRegistered →
      (t.pPrematureResponse = 1 → (src.randu s0.rng).1 < 1 →
        (s0.prematureDraw src).1 = true) ∧
      ((s0.prematureDraw src).1 = true →
        ∃ sf L, t.run exp src g = .ok sf ∧
          sf.calls = [.base (.setTrueStim sf.task.context sf.task.target), .base .reset] ++ L ∧
          L.length = (truncToInt (t.retentionIntervalDur / t.timePerStep) % 2 ^ 32).toNat ∧
          ∀ c ∈ L, Call.IsDecayUpdateWith t.retentionNoise c)) := by
  constructor
  · intro t g s0 hprel hkeys
    obtain ⟨hcalls, -, -, -, -, -, -, -, -, -, hp, -⟩ :=
      FlankerTask.flanker_prelude_spec src t g s0 hprel
    obtain ⟨htask, hc, -, -, -, hiff⟩ := FlankerRun.flanker_prematureDraw_spec src s0
    constructor
    · intro h1 hu
      rw [hiff, hp, h1]
      exact ⟨one_pos, hu⟩
    · intro hprem
      have hk : (s0.prematureDraw src).2.KeysRegistered := by
        intro name hname
        rw [htask]
        exact hkeys name hname
      rw [FlankerTask.flanker_run_eq exp src t g s0 hprel, if_pos hprem,
        FlankerRun.flanker_prematureBranch_ok src hgam _ hk]
      refine ⟨_, rfl, ?_⟩
      obtain ⟨r1, r2, r3⟩ := FlankerRun.flanker_prematureResult_frame src (s0.prematureDraw src).2
      rw [r1, r2, r3, hc, htask, hcalls]
  · intro t g s0 hprel hkeys
    obtain ⟨⟨L, hcalls, hlen, hall⟩, -, -, -, -, -, -, -, -, -, hp, -, -⟩ :=
      AxcptTask.axcpt_prelude_spec exp src t g s0 hprel
    obtain ⟨htask, hc, -, -, -, hiff⟩ := AxcptRun.axcpt_prematureDraw_spec src s0
    constructor
    · intro h1 hu
      rw [hiff, hp, h1]
      exact ⟨one_pos, hu⟩
    · intro hprem
      have hk : (s0.prematureDraw src).2.KeysRegistered := by
        intro name hname
        rw [htask]
        exact hkeys name hname
      rw [AxcptTask.axcpt_run_eq exp src t g s0 hprel, if_pos hprem,
        AxcptRun.axcpt_prematureBranch_ok src hgam _ hk]
      refine ⟨_, L, rfl, ?_, hlen, hall⟩
      obtain ⟨r1, r2, r3⟩ := AxcptRun.axcpt_prematureResult_frame src (s0.prematureDraw src).2
      rw [r1, r2, r3, hc, htask, hcalls]

/-- Both fixture tasks take the premature path; the Flanker run makes no update, the
AX-CPT run makes the single decaying update of its memory-only phase. -/
theorem premature_path_updates_witness :
    (∀ (k theta : ℝ) (g : Nat),
      0 ≤ ((countingSource (1 / 4 : ℝ) 0 0 50).rgammaRaw k theta g).1) ∧
    (∃ sf, (prematureFlankerTask : FlankerTask ℝ 2 2 2 2).run Real.exp
        (countingSource (1 / 4) 0 0 50) 0 = .ok sf ∧
      sf.calls = [.setTrueStim sf.task.context sf.task.target, .reset]) ∧
    (∃ sf L, (prematureAxcptTask : AxcptTask ℝ 2 2 2 2).run Real.exp
        (countingSource (1 / 4) 0 0 50) 0 = .ok sf ∧
      sf.calls = [.base (.setTrueStim sf.task.context sf.task.target), .base .reset] ++ L ∧
      L.length = 1) := by
  have hgam := countingSource_gamma_nonneg (1 / 4 : ℝ) 0 0 50 (by norm_num)
  have h := @premature_path_updates ℝ _ _ Nat 2 2 2 2 Real.exp
    (countingSource (1 / 4) 0 0 50) hgam
  refine ⟨hgam, ?_, ?_⟩
  · obtain ⟨s0, hp, hk, hd⟩ := @prematureFlankerTask_prelude ℝ _ _ 0
    exact (h.1 prematureFlankerTask 0 s0 hp hk).2 hd
  · obtain ⟨s0, hp, hk, hd⟩ := @prematureAxcptTask_prelude ℝ _ _ Real.exp 0
    obtain ⟨sf, L, hrun, hcalls, hlen, -⟩ := (h.2 prematureAxcptTask 0 s0 hp hk).2 hd
    refine ⟨sf, L, hrun, hcalls, ?_⟩
    rw [hlen]
    have h1 : truncToInt ((prematureAxcptTask : AxcptTask ℝ 2 2 2 2).retentionIntervalDur
        / (prematureAxcptTask : AxcptTask ℝ 2 2 2 2).timePerStep) = 1 := by
      show truncToInt ((10 : ℝ) / 10) = 1
      rw [div_self (by norm_num)]
      simp [truncToInt]
    rw [h1]
    rfl

/-- C17 (the claim as stated fails for `AxcptTask`): in the fixture task with a
retention interval of one time step and `pPrematureResp = 1`, the premature-response
draw succeeds and the trial returns, and yet a decaying `updateFromContext` has been
called on the belief engine after `reset()`. -/
theorem premature_path_update_counterexample :
    ∃ s0 sf c, (prematureAxcptTask : AxcptTask ℝ 2 2 2 2).prelude Real.exp
        (countingSource (1 / 4) 0 0 50) 0 = .ok s0 ∧
      (s0.prematureDraw (countingSource (1 / 4) 0 0 50)).1 = true ∧
      (prematureAxcptTask : AxcptTask ℝ 2 2 2 2).run Real.exp
        (countingSource (1 / 4) 0 0 50) 0 = .ok sf ∧
      sf.calls = [.base (.setTrueStim sf.task.context sf.task.target), .base .reset, c] ∧
      Call.IsDecayUpdateWith 3 c := by
  have hgam := countingSource_gamma_nonneg (1 / 4 : ℝ) 0 0 50 (by norm_num)
  obtain ⟨s0, hp, hk, hd⟩ := @prematureAxcptTask_prelude ℝ _ _ Real.exp 0
  obtain ⟨⟨L, hcalls, hlen, hall⟩, -⟩ := AxcptTask.axcpt_prelude_spec _ _ _ _ _ hp
  obtain ⟨htask, hc, -, -, -, -⟩ :=
    AxcptRun.axcpt_prematureDraw_spec (countingSource (1 / 4 : ℝ) 0 0 50) s0
  have hk1 : (s0.prematureDraw (countingSource (1 / 4 : ℝ) 0 0 50)).2.KeysRegistered := by
    intro name hname
    rw [htask]
    exact hk name hname
  have h1 : truncToInt ((prematureAxcptTask : AxcptTask ℝ 2 2 2 2).retentionIntervalDur
      / (prematureAxcptTask : AxcptTask ℝ 2 2 2 2).timePerStep) = 1 := by
    show truncToInt ((10 : ℝ) / 10) = 1
    rw [div_self (by norm_num)]
    simp [truncToInt]
  rw [h1] at hlen
  have hlen1 : L.length = 1 := hlen
  obtain ⟨c, rfl⟩ := List.length_eq_one.mp hlen1
  obtain ⟨r1, r2, r3⟩ := AxcptRun.axcpt_prematureResult_frame
    (countingSource (1 / 4 : ℝ) 0 0 50) (s0.prematureDraw (countingSource (1 / 4) 0 0 50)).2
  refine ⟨s0, (s0.prematureDraw (countingSource (1 / 4) 0 0 50)).2.prematureResult
    (countingSource (1 / 4) 0 0 50), c, hp, hd, ?_, ?_, hall c (by simp)⟩
  · rw [AxcptTask.axcpt_run_eq Real.exp _ _ _ s0 hp, if_pos hd,
      AxcptRun.axcpt_prematureBranch_ok _ hgam _ hk1]
  · rw [r1, r2, r3, hc, htask, hcalls]
    rfl

/-! ## The loop over `samp` -/

theorem errorsIn_ok {α : Type} (P : String → Prop) (a : α) : ErrorsIn P (Except.ok a) := by
  intro e h
  cases h

theorem errorsIn_bind {α β : Type} (P : String → Prop) (x : Except String α)
    (f : α → Except String β) (hx : ErrorsIn P x) (hf : ∀ a, ErrorsIn P (f a)) :
    ErrorsIn P (x >>= f) := by
  intro e h
  cases x with
  | error e1 =>
    have : e1 = e := by
      simpa [bind, Except.bind] using h
    exact this ▸ hx e1 rfl
  | ok a => exact hf a e h

theorem errorsIn_iterate {σ : Type} (P : String → Prop) (body : σ → Except String σ)
    (hb : ∀ s, ErrorsIn P (body s)) : ∀ (k : Nat) (s : σ), ErrorsIn P (iterate body k s) := by
  intro k
  induction k with
  | zero =>
    intro s
    exact errorsIn_ok P s
  | succ k ih =>
    intro s e h
    rw [iterate_succ] at h
    cases hs : body s with
    | error e1 =>
      rw [hs] at h
      simp only [Except.error.injEq] at h
      exact h ▸ hb s e1 hs
    | ok s1 =>
      rw [hs] at h
      exact ih s1 e h

theorem sampBody_ok_false {σ : Type} (step : σ → Except String σ) (stop : σ → Bool)
    (commit : σ → Except String σ) (s s1 : σ) :
    sampBody step stop commit s = .ok (s1, false) ↔ step s = .ok s1 ∧ stop s1 = false := by
  unfold sampBody
  cases hs : step s with
  | error e => simp
  | ok s2 =>
    simp only
    by_cases hst : stop s2 = true
    · rw [if_pos hst]
      constructor
      · intro h
        cases hc : commit s2 with
        | error e =>
          rw [hc] at h
          cases h
        | ok s3 =>
          rw [hc] at h
          simp at h
      · rintro ⟨h1, h2⟩
        simp only [Except.ok.injEq] at h1
        subst h1
        rw [hst] at h2
        cases h2
    · rw [if_neg hst]
      simp only [Except.ok.injEq, Prod.mk.injEq, and_true]
      constructor
      · rintro rfl
        exact ⟨rfl, by simpa using hst⟩
      · rintro ⟨h, -⟩
        exact h

theorem errorsIn_sampBody {σ : Type} (P : String → Prop) (step : σ → Except String σ)
    (stop : σ → Bool) (commit : σ → Except String σ) (hs : ∀ s, ErrorsIn P (step s))
    (hc : ∀ s, ErrorsIn P (commit s)) (s : σ) : ErrorsIn P (sampBody step stop commit s) := by
  intro e h
  unfold sampBody at h
  cases h1 : step s with
  | error e1 =>
    rw [h1] at h
    simp only [Except.error.injEq] at h
    exact h ▸ hs s e1 h1
  | ok s1 =>
    rw [h1] at h
    simp only at h
    split_ifs at h
    cases h2 : commit s1 with
    | error e2 =>
      rw [h2] at h
      simp only [Except.error.injEq] at h
      exact h ▸ hc s1 e2 h2
    | ok s2 =>
      rw [h2] at h
      cases h

theorem forSamp_succ {σ : Type} (maxSamps : Int) (body : σ → Except String (σ × Bool))
    (fuel : Nat) (samp : Int) (s : σ) :
    forSamp maxSamps body (fuel + 1) samp s =
      if samp < maxSamps then
        match body s with
        | .error e => .error e
        | .ok (s1, true) => .ok (samp, s1)
        | .ok (s1, false) => forSamp maxSamps body fuel (samp + 1) s1
      else .ok (samp, s) := rfl

theorem errorsIn_forSamp {σ : Type} (P : String → Prop) (maxSamps : Int)
    (body : σ → Except String (σ × Bool)) (hb : ∀ s, ErrorsIn P (body s)) :
    ∀ (fuel : Nat) (samp : Int) (s : σ), ErrorsIn P (forSamp maxSamps body fuel samp s) := by
  intro fuel
  induction fuel with
  | zero =>
    intro samp s
    exact errorsIn_ok P _
  | succ fuel ih =>
    intro samp s e h
    rw [forSamp_succ] at h
    split_ifs at h
    cases hs : body s with
    | error e1 =>
      rw [hs] at h
      simp only [Except.error.injEq] at h
      exact h ▸ hb s e1 hs
    | ok r =>
      obtain ⟨s1, b⟩ := r
      rw [hs] at h
      cases b with
      | true => cases h
      | false => exact ih _ _ e h

/-- If none of the first `k` passes stops and the loop can make `k` passes, the loop
makes exactly `k` passes and leaves `samp` increased by `k`. -/
theorem forSamp_of_noStop {σ : Type} (maxSamps : Int) (step : σ → Except String σ)
    (stop : σ → Bool) (commit : σ → Except String σ) :
    ∀ (k : Nat) (samp : Int) (s : σ), samp + k ≤ maxSamps → NoStopFor step stop k s →
      ∃ s1, forSamp maxSamps (sampBody step stop commit) k samp s = .ok (samp + k, s1) ∧
        iterate step k s = .ok s1 := by
  intro k
  induction k with
  | zero =>
    intro samp s _ _
    exact ⟨s, by simp [forSamp], rfl⟩
  | succ k ih =>
    intro samp s hle hno
    obtain ⟨s1, h1, h2, h3⟩ := hno
    have hlt : samp < maxSamps := by push_cast at hle; omega
    obtain ⟨s2, h4, h5⟩ := ih (samp + 1) s1 (by push_cast at hle ⊢; omega) h3
    refine ⟨s2, ?_, ?_⟩
    · rw [forSamp_succ, if_pos hlt,
        (sampBody_ok_false step stop commit s s1).mpr ⟨h1, h2⟩]
      simp only
      rw [h4]
      push_cast
      ring_nf
    · rw [iterate_succ, h1]
      exact h5

/-- If the loop returns, `samp` has increased by at most the number of passes it could
make, and by exactly that number only if none of the passes stopped. -/
theorem forSamp_samp {σ : Type} (maxSamps : Int) (step : σ → Except String σ)
    (stop : σ → Bool) (commit : σ → Except String σ) :
    ∀ (k : Nat) (samp : Int) (s : σ) (r : Int × σ), samp + k ≤ maxSamps →
      forSamp maxSamps (sampBody step stop commit) k samp s = .ok r →
      r.1 ≤ samp + k ∧ (r.1 = samp + k → NoStopFor step stop k s) := by
  intro k
  induction k with
  | zero =>
    intro samp s r _ h
    simp only [forSamp, Except.ok.injEq] at h
    subst h
    exact ⟨by simp, fun _ => trivial⟩
  | succ k ih =>
    intro samp s r hle h
    have hlt : samp < maxSamps := by push_cast at hle; omega
    rw [forSamp_succ, if_pos hlt] at h
    cases hb : sampBody step stop commit s with
    | error e =>
      rw [hb] at h
      cases h
    | ok p =>
      obtain ⟨s1, b⟩ := p
      rw [hb] at h
      cases b with
      | true =>
        simp only [Except.ok.injEq] at h
        subst h
        constructor
        · push_cast
          omega
        · intro h0
          push_cast at h0
          omega
      | false =>
        simp only at h
        obtain ⟨h1, h2⟩ := ih (samp + 1) s1 r (by push_cast at hle ⊢; omega) h
        obtain ⟨h3, h4⟩ := (sampBody_ok_false step stop commit s s1).mp hb
        constructor
        · push_cast at h1 ⊢
          omega
        · intro h0
          exact ⟨s1, h3, h4, h2 (by push_cast at h0 ⊢; omega)⟩

/-- A loop that crosses on pass `j + 1` stops within any larger number of passes. -/
theorem noStopFor_not_crosses {σ : Type} (step : σ → Except String σ) (stop : σ → Bool) :
    ∀ (j k : Nat) (s : σ), j < k → CrossesAfter step stop j s → ¬ NoStopFor step stop k s := by
  intro j
  induction j with
  | zero =>
    intro k s hjk hcross hno
    obtain ⟨s1, h1, h2⟩ := hcross
    obtain ⟨k1, rfl⟩ : ∃ k1, k = k1 + 1 := ⟨k - 1, by omega⟩
    obtain ⟨s2, h3, h4, -⟩ := hno
    rw [h1] at h3
    simp only [Except.ok.injEq] at h3
    subst h3
    rw [h2] at h4
    cases h4
  | succ j ih =>
    intro k s hjk hcross hno
    obtain ⟨s1, h1, h2, h3⟩ := hcross
    obtain ⟨k1, rfl⟩ : ∃ k1, k = k1 + 1 := ⟨k - 1, by omega⟩
    obtain ⟨s2, h4, h5, h6⟩ := hno
    rw [h1] at h4
    simp only [Except.ok.injEq] at h4
    subst h4
    exact ih k1 s1 (by omega) h3 h6

theorem notMaxSamps_updateDatum (key : String) :
    NotMaxSamps ("ERROR: attempting to update datum " ++ key
      ++ " which was not registered to the recorder!") := by
  intro M h
  have := congrArg String.data h
  simp [maxSampsMessage] at this

theorem notMaxSamps_event : NotMaxSamps "Start time is later than end time!" := by
  intro M h
  have := congrArg String.data h
  simp [maxSampsMessage] at this

theorem notMaxSamps_bounds : NotMaxSamps "Mat::operator(): index out of bounds" := by
  intro M h
  have := congrArg String.data h
  simp [maxSampsMessage] at this

theorem forSamp_invariant {σ : Type} (maxSamps : Int) (step : σ → Except String σ)
    (stop : σ → Bool) (commit : σ → Except String σ) (R : σ → σ → Prop)
    (hrefl : ∀ s, R s s) (htrans : ∀ a b c, R a b → R b c → R a c)
    (hstep : ∀ s s1, step s = .ok s1 → R s s1)
    (hcommit : ∀ s s1, commit s = .ok s1 → R s s1) :
    ∀ (k : Nat) (samp : Int) (s : σ) (r : Int × σ),
      forSamp maxSamps (sampBody step stop commit) k samp s = .ok r → R s r.2 := by
  intro k
  induction k with
  | zero =>
    intro samp s r h
    simp only [forSamp, Except.ok.injEq] at h
    subst h
    exact hrefl s
  | succ k ih =>
    intro samp s r h
    rw [forSamp_succ] at h
    split_ifs at h
    · cases hb : sampBody step stop commit s with
      | error e =>
        rw [hb] at h
        cases h
      | ok p =>
        obtain ⟨s1, b⟩ := p
        rw [hb] at h
        cases b with
        | true =>
          simp only [Except.ok.injEq] at h
          subst h
          unfold sampBody at hb
          cases h1 : step s with
          | error e =>
            rw [h1] at hb
            cases hb
          | ok s2 =>
            rw [h1] at hb
            simp only at hb
            split_ifs at hb
            · cases h2 : commit s2 with
              | error e =>
                rw [h2] at hb
                cases hb
              | ok s3 =>
                rw [h2] at hb
                simp only [Except.ok.injEq, Prod.mk.injEq, and_true] at hb
                subst hb
                exact htrans _ _ _ (hstep _ _ h1) (hcommit _ _ h2)
            · simp at hb
        | false =>
          simp only at h
          obtain ⟨h3, -⟩ := (sampBody_ok_false step stop commit s s1).mp hb
          exact htrans _ _ _ (hstep _ _ h3) (ih _ _ _ h)
    · simp only [Except.ok.injEq] at h
      subst h
      exact hrefl s

/-! ## Frames of the Flanker run -/

omit [LinearOrderedField K] in
theorem FlankerRun.flanker_sameTrial_refl {S : Type} {nd md n m : Nat}
    (s : FlankerRun K S nd md n m) : s.SameTrial s :=
  ⟨rfl, rfl, rfl, rfl, rfl, rfl, rfl, rfl, rfl, rfl, rfl, rfl, rfl, rfl, rfl, rfl⟩

omit [LinearOrderedField K] in
theorem FlankerRun.flanker_sameTrial_trans {S : Type} {nd md n m : Nat}
    (a b c : FlankerRun K S nd md n m) (h1 : a.SameTrial b) (h2 : b.SameTrial c) :
    a.SameTrial c :=
  ⟨h2.trialLabel.trans h1.trialLabel, h2.context.trans h1.context,
    h2.target.trans h1.target, h2.keys.trans h1.keys, h2.arch.trans h1.arch,
    h2.timePerStep.trans h1.timePerStep, h2.contextNoise.trans h1.contextNoise,
    h2.targetNoise.trans h1.targetNoise, h2.decisionThresh.trans h1.decisionThresh,
    h2.pPrematureResponse.trans h1.pPrematureResponse, h2.maxSamps.trans h1.maxSamps,
    h2.trueContext.trans h1.trueContext, h2.trueTarget.trans h1.trueTarget,
    h2.eblDur.trans h1.eblDur, h2.sampStart.trans h1.sampStart, h2.cresp.trans h1.cresp⟩

omit [LinearOrderedField K] in
theorem FlankerRun.flanker_logged_sameTrial {S : Type} {nd md n m : Nat}
    (s : FlankerRun K S nd md n m) (key : String) (val : Obs K) :
    s.SameTrial (s.logged key val) :=
  ⟨rfl, rfl, rfl, rfl, rfl, rfl, rfl, rfl, rfl, rfl, rfl, rfl, rfl, rfl, rfl, rfl⟩

omit [LinearOrderedField K] in
theorem FlankerRun.flanker_update_spec {S : Type} {nd md n m : Nat}
    (s s1 : FlankerRun K S nd md n m) (key : String) (val : Obs K)
    (h : s.update key val = .ok s1) :
    s.SameTrial s1 ∧ s1.task.trialTime = s.task.trialTime := by
  obtain ⟨h1, -⟩ := s.flanker_update_inv s1 key val h
  subst h1
  exact ⟨s.flanker_logged_sameTrial key val, rfl⟩

theorem FlankerRun.flanker_updateEvent_spec {S : Type} {nd md n m : Nat}
    (s s1 : FlankerRun K S nd md n m) (key : String) (start stop : K)
    (h : s.updateEvent key start stop = .ok s1) :
    s.SameTrial s1 ∧ s1.task.trialTime = s.task.trialTime := by
  obtain ⟨h1, -, -⟩ := s.flanker_updateEvent_inv s1 key start stop h
  subst h1
  exact ⟨s.flanker_logged_sameTrial key _, rfl⟩

theorem FlankerRun.flanker_updateFromContext_spec {S : Type} {nd md n m : Nat}
    (exp : K → K) (src : RandomSource K S) (s : FlankerRun K S nd md n m) :
    s.SameTrial (s.updateFromContext exp src) ∧
      (s.updateFromContext exp src).task.trialTime = s.task.trialTime :=
  ⟨⟨rfl, rfl, rfl, rfl, rfl, rfl, rfl, rfl, rfl, rfl, rfl, rfl, rfl, rfl, rfl, rfl⟩, rfl⟩

theorem FlankerRun.flanker_updateFromTarget_spec {S : Type} {nd md n m : Nat}
    (exp : K → K) (src : RandomSource K S) (s : FlankerRun K S nd md n m) :
    s.SameTrial (s.updateFromTarget exp src) ∧
      (s.updateFromTarget exp src).task.trialTime = s.task.trialTime :=
  ⟨⟨rfl, rfl, rfl, rfl, rfl, rfl, rfl, rfl, rfl, rfl, rfl, rfl, rfl, rfl, rfl, rfl⟩, rfl⟩

theorem FlankerRun.flanker_tick_spec {S : Type} {nd md n m : Nat}
    (s : FlankerRun K S nd md n m) :
    s.SameTrial s.tick ∧ s.tick.task.trialTime = s.task.trialTime + s.task.timePerStep :=
  ⟨⟨rfl, rfl, rfl, rfl, rfl, rfl, rfl, rfl, rfl, rfl, rfl, rfl, rfl, rfl, rfl, rfl⟩, rfl⟩

theorem FlankerRun.flanker_accStep_spec [FloorRing K] {S : Type} {nd md n m : Nat}
    (exp : K → K) (src : RandomSource K S) (s s1 : FlankerRun K S nd md n m)
    (h : s.accStep exp src = .ok s1) :
    s.SameTrial s1 ∧ s1.task.trialTime = s.task.trialTime + s.task.timePerStep := by
  unfold FlankerRun.accStep at h
  simp only [bind, Except.bind] at h
  obtain ⟨f1, t1⟩ := FlankerRun.flanker_updateFromContext_spec exp src s
  obtain ⟨f2, t2⟩ := FlankerRun.flanker_updateFromContext_spec exp src
    (s.updateFromContext exp src)
  obtain ⟨f3, t3⟩ := FlankerRun.flanker_updateFromTarget_spec exp src
    ((s.updateFromContext exp src).updateFromContext exp src)
  obtain ⟨f4, t4⟩ := FlankerRun.flanker_tick_spec
    (((s.updateFromContext exp src).updateFromContext exp src).updateFromTarget exp src)
  cases hr : (((s.updateFromContext exp src).updateFromContext exp src).updateFromTarget
      exp src).tick.recordBelief with
  | error e =>
    rw [hr] at h
    cases h
  | ok s5 =>
    rw [hr] at h
    simp only at h
    obtain ⟨f5, t5⟩ := FlankerRun.flanker_update_spec _ _ _ _ hr
    split at h
    · cases h
    · split at h
      · cases h
      · simp only [Except.ok.injEq] at h
        subst h
        have f : s.SameTrial s5 :=
          FlankerRun.flanker_sameTrial_trans _ _ _ f1
            (FlankerRun.flanker_sameTrial_trans _ _ _ f2
              (FlankerRun.flanker_sameTrial_trans _ _ _ f3
                (FlankerRun.flanker_sameTrial_trans _ _ _ f4 f5)))
        refine ⟨⟨f.trialLabel, f.context, f.target, f.keys, f.arch, f.timePerStep,
          f.contextNoise, f.targetNoise, f.decisionThresh, f.pPrematureResponse, f.maxSamps,
          f.trueContext, f.trueTarget, f.eblDur, f.sampStart, f.cresp⟩, ?_⟩
        show s5.task.trialTime = _
        rw [t5, t4, t3, t2, t1, f3.timePerStep, f2.timePerStep, f1.timePerStep]

theorem FlankerRun.flanker_planStep_spec {S : Type} {nd md n m : Nat}
    (exp : K → K) (src : RandomSource K S) (s s1 : FlankerRun K S nd md n m)
    (h : s.planStep exp src = .ok s1) : s.SameTrial s1 := by
  unfold FlankerRun.planStep at h
  obtain ⟨f1, -⟩ := FlankerRun.flanker_updateFromContext_spec exp src s
  obtain ⟨f2, -⟩ := FlankerRun.flanker_updateFromTarget_spec exp src
    (s.updateFromContext exp src)
  obtain ⟨f3, -⟩ := FlankerRun.flanker_tick_spec
    ((s.updateFromContext exp src).updateFromTarget exp src)
  obtain ⟨f4, -⟩ := FlankerRun.flanker_update_spec _ _ _ _ h
  exact FlankerRun.flanker_sameTrial_trans _ _ _ f1
    (FlankerRun.flanker_sameTrial_trans _ _ _ f2
      (FlankerRun.flanker_sameTrial_trans _ _ _ f3 f4))

theorem FlankerRun.flanker_commit_spec [FloorRing K] {S : Type} {nd md n m : Nat}
    (exp : K → K) (src : RandomSource K S) (s s1 : FlankerRun K S nd md n m)
    (h : s.commit exp src = .ok s1) : s.SameTrial s1 := by
  unfold FlankerRun.commit at h
  simp only [bind, Except.bind] at h
  split at h
  · cases h
  · rename_i s2 h2
    obtain ⟨f2, -⟩ := FlankerRun.flanker_updateEvent_spec _ _ _ _ _ h2
    split at h
    · cases h
    · rename_i s3 h3
      obtain ⟨f3, -⟩ := FlankerRun.flanker_update_spec _ _ _ _ h3
      split at h
      · cases h
      · rename_i s4 h4
        obtain ⟨f4, -⟩ := FlankerRun.flanker_update_spec _ _ _ _ h4
        split at h
        · cases h
        · rename_i s5 h5
          have f5 := iterate_invariant (FlankerRun.planStep exp src) FlankerRun.SameTrial
            FlankerRun.flanker_sameTrial_refl FlankerRun.flanker_sameTrial_trans
            (FlankerRun.flanker_planStep_spec exp src) _ _ _ h5
          split at h
          · cases h
          · rename_i s7 h7
            obtain ⟨f7, -⟩ := FlankerRun.flanker_updateEvent_spec _ _ _ _ _ h7
            obtain ⟨f8, -⟩ := FlankerRun.flanker_update_spec _ _ _ _ h
            have f1 : s.SameTrial
                { s with rng := (s.task.arch.drawMotorPlanning src s.rng).2 } :=
              ⟨rfl, rfl, rfl, rfl, rfl, rfl, rfl, rfl, rfl, rfl, rfl, rfl, rfl, rfl, rfl, rfl⟩
            have f6 : s5.SameTrial
                { s5 with rng := (s5.task.arch.drawMotorExec src s5.rng).2 } :=
              ⟨rfl, rfl, rfl, rfl, rfl, rfl, rfl, rfl, rfl, rfl, rfl, rfl, rfl, rfl, rfl, rfl⟩
            exact FlankerRun.flanker_sameTrial_trans _ _ _ f1
              (FlankerRun.flanker_sameTrial_trans _ _ _ f2
                (FlankerRun.flanker_sameTrial_trans _ _ _ f3
                  (FlankerRun.flanker_sameTrial_trans _ _ _ f4
                    (FlankerRun.flanker_sameTrial_trans _ _ _ f5
                      (FlankerRun.flanker_sameTrial_trans _ _ _ f6
                        (FlankerRun.flanker_sameTrial_trans _ _ _ f7 f8))))))

/-! ## Errors of the Flanker run other than the max-samples error -/

omit [LinearOrderedField K] in
theorem FlankerRun.flanker_errorsIn_update {S : Type} {nd md n m : Nat}
    (s : FlankerRun K S nd md n m) (key : String) (val : Obs K) :
    ErrorsIn NotMaxSamps (s.update key val) := by
  intro e h
  unfold FlankerRun.update Recorder.updateDatum at h
  split_ifs at h
  simp only [Except.error.injEq] at h
  subst h
  exact notMaxSamps_updateDatum _

theorem FlankerRun.flanker_errorsIn_updateEvent {S : Type} {nd md n m : Nat}
    (s : FlankerRun K S nd md n m) (key : String) (start stop : K) :
    ErrorsIn NotMaxSamps (s.updateEvent key start stop) := by
  intro e h
  unfold FlankerRun.updateEvent Event.ctor at h
  split_ifs at h
  · simp only [Except.error.injEq] at h
    subst h
    exact notMaxSamps_event
  · exact s.flanker_errorsIn_update key _ e h

omit [LinearOrderedField K] in
theorem errorsIn_at {n m : Nat} (M : Mat K n m) (i j : Nat) :
    ErrorsIn NotMaxSamps (Mat.at M i j) := by
  intro e h
  unfold Mat.at at h
  split_ifs at h
  simp only [Except.error.injEq] at h
  subst h
  exact notMaxSamps_bounds

theorem FlankerRun.flanker_errorsIn_accStep [FloorRing K] {S : Type} {nd md n m : Nat}
    (exp : K → K) (src : RandomSource K S) (s : FlankerRun K S nd md n m) :
    ErrorsIn NotMaxSamps (s.accStep exp src) := by
  unfold FlankerRun.accStep
  apply errorsIn_bind
  · exact FlankerRun.flanker_errorsIn_update _ _ _
  · intro s4
    apply errorsIn_bind
    · exact errorsIn_at _ _ _
    · intro p00
      apply errorsIn_bind
      · exact errorsIn_at _ _ _
      · intro p10
        exact errorsIn_ok _ _

theorem FlankerRun.flanker_errorsIn_planStep {S : Type} {nd md n m : Nat}
    (exp : K → K) (src : RandomSource K S) (s : FlankerRun K S nd md n m) :
    ErrorsIn NotMaxSamps (s.planStep exp src) :=
  FlankerRun.flanker_errorsIn_update _ _ _

theorem FlankerRun.flanker_errorsIn_commit [FloorRing K] {S : Type} {nd md n m : Nat}
    (exp : K → K) (src : RandomSource K S) (s : FlankerRun K S nd md n m) :
    ErrorsIn NotMaxSamps (s.commit exp src) := by
  unfold FlankerRun.commit
  apply errorsIn_bind
  · exact FlankerRun.flanker_errorsIn_updateEvent _ _ _ _
  · intro s2
    apply errorsIn_bind
    · exact FlankerRun.flanker_errorsIn_update _ _ _
    · intro s3
      apply errorsIn_bind
      · exact FlankerRun.flanker_errorsIn_update _ _ _
      · intro s4
        apply errorsIn_bind
        · exact errorsIn_iterate _ _ (FlankerRun.flanker_errorsIn_planStep exp src) _ _
        · intro s5
          apply errorsIn_bind
          · exact FlankerRun.flanker_errorsIn_updateEvent _ _ _ _
          · intro s7
            exact FlankerRun.flanker_errorsIn_update _ _ _

/-! ## The max-samples error of `FlankerTask::run` -/

theorem FlankerRun.flanker_iterate_accStep_spec [FloorRing K] {S : Type} {nd md n m : Nat}
    (exp : K → K) (src : RandomSource K S) (k : Nat) (s s1 : FlankerRun K S nd md n m)
    (h : iterate (FlankerRun.accStep exp src) k s = .ok s1) :
    s.SameTrial s1 ∧ (0 ≤ s.task.timePerStep → s.task.trialTime ≤ s1.task.trialTime) := by
  refine iterate_invariant (FlankerRun.accStep exp src)
    (fun a b => a.SameTrial b ∧ (0 ≤ a.task.timePerStep → a.task.trialTime ≤ b.task.trialTime))
    (fun a => ⟨a.flanker_sameTrial_refl, fun _ => le_refl _⟩) ?_ ?_ k s s1 h
  · rintro a b c ⟨f1, t1⟩ ⟨f2, t2⟩
    refine ⟨FlankerRun.flanker_sameTrial_trans _ _ _ f1 f2, fun h0 => ?_⟩
    exact le_trans (t1 h0) (t2 (by rw [f1.timePerStep]; exact h0))
  · intro a b hab
    obtain ⟨f, t⟩ := FlankerRun.flanker_accStep_spec exp src a b hab
    refine ⟨f, fun h0 => ?_⟩
    rw [t]
    linarith

theorem FlankerRun.flanker_accumulate_maxSamps_iff [FloorRing K] {S : Type}
    {nd md n m : Nat} (exp : K → K) (src : RandomSource K S) (s : FlankerRun K S nd md n m)
    (hmax : 0 ≤ s.task.maxSamps)
    (hkey : s.task.trialLabel ++ "samplingEvent" ∈ s.task.recorder.keys)
    (htps : 0 ≤ s.task.timePerStep) (hstart : s.sampStart ≤ s.task.trialTime) :
    s.accumulate exp src = .error (maxSampsMessage s.task.maxSamps) ↔
      NoStopFor (FlankerRun.accStep exp src) FlankerRun.stop s.task.maxSamps.toNat s := by
  have hM : (0 : Int) + (s.task.maxSamps.toNat : Nat) = s.task.maxSamps := by
    rw [zero_add]
    exact Int.toNat_of_nonneg hmax
  unfold FlankerRun.accumulate
  simp only [bind, Except.bind]
  constructor
  · intro h
    cases hf : forSamp s.task.maxSamps (sampBody (FlankerRun.accStep exp src) FlankerRun.stop
        (FlankerRun.commit exp src)) s.task.maxSamps.toNat 0 s with
    | error e =>
      rw [hf] at h
      simp only [Except.error.injEq] at h
      exact absurd h (errorsIn_forSamp NotMaxSamps _ _
        (errorsIn_sampBody NotMaxSamps _ _ _ (FlankerRun.flanker_errorsIn_accStep exp src)
          (FlankerRun.flanker_errorsIn_commit exp src)) _ _ _ e hf _)
    | ok r =>
      rw [hf] at h
      simp only at h
      have fr : s.SameTrial r.2 := forSamp_invariant _ _ _ _ FlankerRun.SameTrial
        FlankerRun.flanker_sameTrial_refl FlankerRun.flanker_sameTrial_trans
        (fun a b hab => (FlankerRun.flanker_accStep_spec exp src a b hab).1)
        (FlankerRun.flanker_commit_spec exp src) _ _ _ _ hf
      cases hu : r.2.updateEvent "samplingEvent" r.2.sampStart r.2.task.trialTime with
      | error e =>
        rw [hu] at h
        simp only [Except.error.injEq] at h
        exact absurd h (FlankerRun.flanker_errorsIn_updateEvent _ _ _ _ e hu _)
      | ok s1 =>
        rw [hu] at h
        simp only at h
        obtain ⟨fu, -⟩ := FlankerRun.flanker_updateEvent_spec _ _ _ _ _ hu
        split_ifs at h with heq
        rw [fu.maxSamps, fr.maxSamps] at heq
        exact (forSamp_samp _ _ _ _ _ _ _ _ (le_of_eq hM) hf).2 (heq.trans hM.symm)
  · intro hno
    obtain ⟨s1, hf, hit⟩ := forSamp_of_noStop s.task.maxSamps (FlankerRun.accStep exp src)
      FlankerRun.stop (FlankerRun.commit exp src) _ 0 s (le_of_eq hM) hno
    obtain ⟨f, ht⟩ := FlankerRun.flanker_iterate_accStep_spec exp src _ _ _ hit
    rw [hf]
    simp only
    rw [FlankerRun.flanker_updateEvent_ok _ _ _ _
      (by rw [f.sampStart]; exact le_trans hstart (ht htps))
      (by rw [f.trialLabel, f.keys]; exact hkey)]
    simp only
    rw [if_pos (by
      show (0 : Int) + _ = s1.task.maxSamps
      rw [hM, f.maxSamps])]
    show Except.error (maxSampsMessage s1.task.maxSamps) = _
    rw [f.maxSamps]

/-! ## Frames and errors of the AX-CPT run -/

omit [LinearOrderedField K] in
theorem AxcptRun.axcpt_update_spec {S : Type} {nd md n m : Nat}
    (s s1 : AxcptRun K S nd md n m) (key : String) (val : Obs K)
    (h : s.update key val = .ok s1) :
    s.SameTrial s1 ∧ s1.task.trialTime = s.task.trialTime := by
  obtain ⟨h1, -⟩ := s.axcpt_update_inv s1 key val h
  subst h1
  exact ⟨s.axcpt_logged_sameTrial key val, rfl⟩

theorem AxcptRun.axcpt_updateEvent_spec {S : Type} {nd md n m : Nat}
    (s s1 : AxcptRun K S nd md n m) (key : String) (start stop : K)
    (h : s.updateEvent key start stop = .ok s1) :
    s.SameTrial s1 ∧ s1.task.trialTime = s.task.trialTime := by
  obtain ⟨h1, -, -⟩ := s.axcpt_updateEvent_inv s1 key start stop h
  subst h1
  exact ⟨s.axcpt_logged_sameTrial key _, rfl⟩

theorem AxcptRun.axcpt_updateFromContext_spec {S : Type} {nd md n m : Nat}
    (exp : K → K) (src : RandomSource K S) (s : AxcptRun K S nd md n m) :
    s.SameTrial (s.updateFromContext exp src) ∧
      (s.updateFromContext exp src).task.trialTime = s.task.trialTime :=
  ⟨⟨rfl, rfl, rfl, rfl, rfl, rfl, rfl, rfl, rfl, rfl, rfl, rfl, rfl, rfl, rfl, rfl, rfl, rfl,
    rfl, rfl, rfl⟩, rfl⟩

theorem AxcptRun.axcpt_updateFromTarget_spec {S : Type} {nd md n m : Nat}
    (exp : K → K) (src : RandomSource K S) (s : AxcptRun K S nd md n m) :
    s.SameTrial (s.updateFromTarget exp src) ∧
      (s.updateFromTarget exp src).task.trialTime = s.task.trialTime :=
  ⟨⟨rfl, rfl, rfl, rfl, rfl, rfl, rfl, rfl, rfl, rfl, rfl, rfl, rfl, rfl, rfl, rfl, rfl, rfl,
    rfl, rfl, rfl⟩, rfl⟩

theorem AxcptRun.axcpt_tick_spec {S : Type} {nd md n m : Nat}
    (s : AxcptRun K S nd md n m) :
    s.SameTrial s.tick ∧ s.tick.task.trialTime = s.task.trialTime + s.task.timePerStep :=
  ⟨⟨rfl, rfl, rfl, rfl, rfl, rfl, rfl, rfl, rfl, rfl, rfl, rfl, rfl, rfl, rfl, rfl, rfl, rfl,
    rfl, rfl, rfl⟩, rfl⟩

theorem AxcptRun.axcpt_accStep_spec [FloorRing K] {S : Type} {nd md n m : Nat}
    (exp : K → K) (src : RandomSource K S) (s s1 : AxcptRun K S nd md n m)
    (h : s.accStep exp src = .ok s1) :
    s.SameTrial s1 ∧ s1.task.trialTime = s.task.trialTime + s.task.timePerStep := by
  unfold AxcptRun.accStep at h
  simp only [bind, Except.bind] at h
  cases hd : s.decayingUpdate exp src s.task.contextNoise with
  | error e =>
    rw [hd] at h
    cases h
  | ok s2 =>
    rw [hd] at h
    simp only at h
    obtain ⟨f1, t1, -⟩ := AxcptRun.decayingUpdate_spec exp src _ _ _ hd
    obtain ⟨f2, t2⟩ := AxcptRun.axcpt_updateFromTarget_spec exp src s2
    obtain ⟨f3, t3⟩ := AxcptRun.axcpt_tick_spec (s2.updateFromTarget exp src)
    cases hr : (s2.updateFromTarget exp src).tick.recordBelief with
    | error e =>
      rw [hr] at h
      cases h
    | ok s4 =>
      rw [hr] at h
      simp only [Except.ok.injEq] at h
      subst h
      obtain ⟨f4, t4⟩ := AxcptRun.axcpt_update_spec _ _ _ _ hr
      have f : s.SameTrial s4 :=
        AxcptRun.sameTrial_trans _ _ _ f1
          (AxcptRun.sameTrial_trans _ _ _ f2 (AxcptRun.sameTrial_trans _ _ _ f3 f4))
      refine ⟨⟨f.trialLabel, f.context, f.target, f.keys, f.arch, f.timePerStep,
        f.retentionIntervalDur, f.nPrecomputeSamps, f.retentionNoise, f.contextNoise,
        f.targetNoise, f.decisionThresh, f.pPrematureResponse, f.maxSamps, f.decayTo,
        f.trueContext, f.trueTarget, f.decayRate, f.eblDur, f.sampStart, f.cresp⟩, ?_⟩
      show s4.task.trialTime = _
      rw [t4, t3, t2, t1, f2.timePerStep, f1.timePerStep]

theorem AxcptRun.axcpt_planStep_spec {S : Type} {nd md n m : Nat}
    (exp : K → K) (src : RandomSource K S) (s s1 : AxcptRun K S nd md n m)
    (h : s.planStep exp src = .ok s1) : s.SameTrial s1 := by
  unfold AxcptRun.planStep at h
  obtain ⟨f1, -⟩ := AxcptRun.axcpt_updateFromContext_spec exp src s
  obtain ⟨f2, -⟩ := AxcptRun.axcpt_updateFromTarget_spec exp src
    (s.updateFromContext exp src)
  obtain ⟨f3, -⟩ := AxcptRun.axcpt_tick_spec
    ((s.updateFromContext exp src).updateFromTarget exp src)
  obtain ⟨f4, -⟩ := AxcptRun.axcpt_update_spec _ _ _ _ h
  exact AxcptRun.sameTrial_trans _ _ _ f1
    (AxcptRun.sameTrial_trans _ _ _ f2 (AxcptRun.sameTrial_trans _ _ _ f3 f4))

theorem AxcptRun.axcpt_commit_spec [FloorRing K] {S : Type} {nd md n m : Nat}
    (exp : K → K) (src : RandomSource K S) (s s1 : AxcptRun K S nd md n m)
    (h : s.commit exp src = .ok s1) : s.SameTrial s1 := by
  unfold AxcptRun.commit at h
  simp only [bind, Except.bind] at h
  split at h
  · cases h
  · rename_i s2 h2
    obtain ⟨f2, -⟩ := AxcptRun.axcpt_updateEvent_spec _ _ _ _ _ h2
    split at h
    · cases h
    · rename_i s3 h3
      obtain ⟨f3, -⟩ := AxcptRun.axcpt_update_spec _ _ _ _ h3
      split at h
      · cases h
      · rename_i s4 h4
        obtain ⟨f4, -⟩ := AxcptRun.axcpt_update_spec _ _ _ _ h4
        split at h
        · cases h
        · rename_i s5 h5
          have f5 := iterate_invariant (AxcptRun.planStep exp src) AxcptRun.SameTrial
            AxcptRun.sameTrial_refl AxcptRun.sameTrial_trans
            (AxcptRun.axcpt_planStep_spec exp src) _ _ _ h5
          split at h
          · cases h
          · rename_i s7 h7
            obtain ⟨f7, -⟩ := AxcptRun.axcpt_updateEvent_spec _ _ _ _ _ h7
            split at h
            · cases h
            · rename_i s8 h8
              obtain ⟨f8, -⟩ := AxcptRun.axcpt_update_spec _ _ _ _ h8
              have f9 : s8.SameTrial s1 := by
                split_ifs at h <;> exact (AxcptRun.axcpt_update_spec _ _ _ _ h).1
              have f1 : s.SameTrial
                  { s with rng := (s.task.arch.drawMotorPlanning src s.rng).2 } :=
                ⟨rfl, rfl, rfl, rfl, rfl, rfl, rfl, rfl, rfl, rfl, rfl, rfl, rfl, rfl, rfl, rfl,
                  rfl, rfl, rfl, rfl, rfl⟩
              have f6 : s5.SameTrial
                  { s5 with rng := (s5.task.arch.drawMotorExec src s5.rng).2 } :=
                ⟨rfl, rfl, rfl, rfl, rfl, rfl, rfl, rfl, rfl, rfl, rfl, rfl, rfl, rfl, rfl, rfl,
                  rfl, rfl, rfl, rfl, rfl⟩
              exact AxcptRun.sameTrial_trans _ _ _ f1
                (AxcptRun.sameTrial_trans _ _ _ f2
                  (AxcptRun.sameTrial_trans _ _ _ f3
                    (AxcptRun.sameTrial_trans _ _ _ f4
                      (AxcptRun.sameTrial_trans _ _ _ f5
                        (AxcptRun.sameTrial_trans _ _ _ f6
                          (AxcptRun.sameTrial_trans _ _ _ f7
                            (AxcptRun.sameTrial_trans _ _ _ f8 f9)))))))

omit [LinearOrderedField K] in
theorem AxcptRun.axcpt_errorsIn_update {S : Type} {nd md n m : Nat}
    (s : AxcptRun K S nd md n m) (key : String) (val : Obs K) :
    ErrorsIn NotMaxSamps (s.update key val) := by
  intro e h
  unfold AxcptRun.update Recorder.updateDatum at h
  split_ifs at h
  simp only [Except.error.injEq] at h
  subst h
  exact notMaxSamps_updateDatum _

theorem AxcptRun.axcpt_errorsIn_updateEvent {S : Type} {nd md n m : Nat}
    (s : AxcptRun K S nd md n m) (key : String) (start stop : K) :
    ErrorsIn NotMaxSamps (s.updateEvent key start stop) := by
  intro e h
  unfold AxcptRun.updateEvent Event.ctor at h
  split_ifs at h
  · simp only [Except.error.injEq] at h
    subst h
    exact notMaxSamps_event
  · exact s.axcpt_errorsIn_update key _ e h

theorem DecayBelief.errorsIn_checkSubstitute (nContexts : Int) (drawn : Option Int) :
    ErrorsIn NotMaxSamps (DecayBelief.checkSubstitute nContexts drawn) := by
  intro e h
  unfold DecayBelief.checkSubstitute at h
  split at h
  · simp only [Except.error.injEq] at h
    subst h
    intro M h1
    have := congrArg String.data h1
    simp [maxSampsMessage] at this
  · split_ifs at h
    simp only [Except.error.injEq] at h
    subst h
    intro M h1
    have := congrArg String.data h1
    simp [maxSampsMessage] at this

theorem DecayBelief.errorsIn_updateFromContext {n m : Nat} (exp : K → K)
    (b : DecayBelief K n m) (noise trialTime : K) (decayTo : PriorType) (u : K) (r : Int)
    (u2 z : K) :
    ErrorsIn NotMaxSamps (b.updateFromContext exp noise trialTime decayTo u r u2 z) := by
  intro e h
  unfold DecayBelief.updateFromContext at h
  split_ifs at h
  cases hs : b.sampleAndLikelihood exp noise trialTime decayTo u r u2 z with
  | ok p =>
    rw [hs] at h
    cases h
  | error e1 =>
    rw [hs] at h
    simp only [Except.error.injEq] at h
    subst h
    unfold DecayBelief.sampleAndLikelihood at hs
    simp only at hs
    split at hs
    · rename_i e2 he2
      simp only [Except.error.injEq] at hs
      subst hs
      split_ifs at he2
      exact DecayBelief.errorsIn_checkSubstitute _ _ _ he2
    · cases hs

theorem AxcptRun.axcpt_errorsIn_decayingUpdate {S : Type} {nd md n m : Nat}
    (exp : K → K) (src : RandomSource K S) (s : AxcptRun K S nd md n m) (noise : K) :
    ErrorsIn NotMaxSamps (s.decayingUpdate exp src noise) := by
  intro e h
  unfold AxcptRun.decayingUpdate at h
  simp only at h
  split at h
  · rename_i e1 he1
    simp only [Except.error.injEq] at h
    subst h
    exact DecayBelief.errorsIn_updateFromContext _ _ _ _ _ _ _ _ _ _ he1
  · cases h

theorem AxcptRun.axcpt_errorsIn_accStep [FloorRing K] {S : Type} {nd md n m : Nat}
    (exp : K → K) (src : RandomSource K S) (s : AxcptRun K S nd md n m) :
    ErrorsIn NotMaxSamps (s.accStep exp src) := by
  unfold AxcptRun.accStep
  apply errorsIn_bind
  · exact AxcptRun.axcpt_errorsIn_decayingUpdate _ _ _ _
  · intro s1
    apply errorsIn_bind
    · exact AxcptRun.axcpt_errorsIn_update _ _ _
    · intro s3
      exact errorsIn_ok _ _

theorem AxcptRun.axcpt_errorsIn_planStep {S : Type} {nd md n m : Nat}
    (exp : K → K) (src : RandomSource K S) (s : AxcptRun K S nd md n m) :
    ErrorsIn NotMaxSamps (s.planStep exp src) :=
  AxcptRun.axcpt_errorsIn_update _ _ _

theorem AxcptRun.axcpt_errorsIn_commit [FloorRing K] {S : Type} {nd md n m : Nat}
    (exp : K → K) (src : RandomSource K S) (s : AxcptRun K S nd md n m) :
    ErrorsIn NotMaxSamps (s.commit exp src) := by
  unfold AxcptRun.commit
  apply errorsIn_bind
  · exact AxcptRun.axcpt_errorsIn_updateEvent _ _ _ _
  · intro s2
    apply errorsIn_bind
    · exact AxcptRun.axcpt_errorsIn_update _ _ _
    · intro s3
      apply errorsIn_bind
      · exact AxcptRun.axcpt_errorsIn_update _ _ _
      · intro s4
        apply errorsIn_bind
        · exact errorsIn_iterate _ _ (AxcptRun.axcpt_errorsIn_planStep exp src) _ _
        · intro s5
          apply errorsIn_bind
          · exact AxcptRun.axcpt_errorsIn_updateEvent _ _ _ _
          · intro s7
            apply errorsIn_bind
            · exact AxcptRun.axcpt_errorsIn_update _ _ _
            · intro s8
              show ErrorsIn NotMaxSamps (if _ then _ else _)
              split_ifs <;> exact AxcptRun.axcpt_errorsIn_update _ _ _

/-! ## The max-samples error of `AxcptTask::run` -/

theorem AxcptRun.axcpt_iterate_accStep_spec [FloorRing K] {S : Type} {nd md n m : Nat}
    (exp : K → K) (src : RandomSource K S) (k : Nat) (s s1 : AxcptRun K S nd md n m)
    (h : iterate (AxcptRun.accStep exp src) k s = .ok s1) :
    s.SameTrial s1 ∧ (0 ≤ s.task.timePerStep → s.task.trialTime ≤ s1.task.trialTime) := by
  refine iterate_invariant (AxcptRun.accStep exp src)
    (fun a b => a.SameTrial b ∧ (0 ≤ a.task.timePerStep → a.task.trialTime ≤ b.task.trialTime))
    (fun a => ⟨a.sameTrial_refl, fun _ => le_refl _⟩) ?_ ?_ k s s1 h
  · rintro a b c ⟨f1, t1⟩ ⟨f2, t2⟩
    refine ⟨AxcptRun.sameTrial_trans _ _ _ f1 f2, fun h0 => ?_⟩
    exact le_trans (t1 h0) (t2 (by rw [f1.timePerStep]; exact h0))
  · intro a b hab
    obtain ⟨f, t⟩ := AxcptRun.axcpt_accStep_spec exp src a b hab
    refine ⟨f, fun h0 => ?_⟩
    rw [t]
    linarith

theorem AxcptRun.axcpt_accumulate_maxSamps_iff [FloorRing K] {S : Type}
    {nd md n m : Nat} (exp : K → K) (src : RandomSource K S) (s : AxcptRun K S nd md n m)
    (hmax : 0 ≤ s.task.maxSamps)
    (hkey : s.task.trialLabel ++ "samplingBothEvent" ∈ s.task.recorder.keys)
    (htps : 0 ≤ s.task.timePerStep) (hstart : s.sampStart ≤ s.task.trialTime) :
    s.accumulate exp src = .error (maxSampsMessage s.task.maxSamps) ↔
      NoStopFor (AxcptRun.accStep exp src) AxcptRun.stop s.task.maxSamps.toNat s := by
  have hM : (0 : Int) + (s.task.maxSamps.toNat : Nat) = s.task.maxSamps := by
    rw [zero_add]
    exact Int.toNat_of_nonneg hmax
  unfold AxcptRun.accumulate
  simp only [bind, Except.bind]
  constructor
  · intro h
    cases hf : forSamp s.task.maxSamps (sampBody (AxcptRun.accStep exp src) AxcptRun.stop
        (AxcptRun.commit exp src)) s.task.maxSamps.toNat 0 s with
    | error e =>
      rw [hf] at h
      simp only [Except.error.injEq] at h
      exact absurd h (errorsIn_forSamp NotMaxSamps _ _
        (errorsIn_sampBody NotMaxSamps _ _ _ (AxcptRun.axcpt_errorsIn_accStep exp src)
          (AxcptRun.axcpt_errorsIn_commit exp src)) _ _ _ e hf _)
    | ok r =>
      rw [hf] at h
      simp only at h
      have fr : s.SameTrial r.2 := forSamp_invariant _ _ _ _ AxcptRun.SameTrial
        AxcptRun.sameTrial_refl AxcptRun.sameTrial_trans
        (fun a b hab => (AxcptRun.axcpt_accStep_spec exp src a b hab).1)
        (AxcptRun.axcpt_commit_spec exp src) _ _ _ _ hf
      cases hu : r.2.updateEvent "samplingBothEvent" r.2.sampStart r.2.task.trialTime with
      | error e =>
        rw [hu] at h
        simp only [Except.error.injEq] at h
        exact absurd h (AxcptRun.axcpt_errorsIn_updateEvent _ _ _ _ e hu _)
      | ok s1 =>
        rw [hu] at h
        simp only at h
        obtain ⟨fu, -⟩ := AxcptRun.axcpt_updateEvent_spec _ _ _ _ _ hu
        split_ifs at h with heq
        rw [fu.maxSamps, fr.maxSamps] at heq
        exact (forSamp_samp _ _ _ _ _ _ _ _ (le_of_eq hM) hf).2 (heq.trans hM.symm)
  · intro hno
    obtain ⟨s1, hf, hit⟩ := forSamp_of_noStop s.task.maxSamps (AxcptRun.accStep exp src)
      AxcptRun.stop (AxcptRun.commit exp src) _ 0 s (le_of_eq hM) hno
    obtain ⟨f, ht⟩ := AxcptRun.axcpt_iterate_accStep_spec exp src _ _ _ hit
    rw [hf]
    simp only
    rw [AxcptRun.axcpt_updateEvent_ok _ _ _ _
      (by rw [f.sampStart]; exact le_trans hstart (ht htps))
      (by rw [f.trialLabel, f.keys]; exact hkey)]
    simp only
    rw [if_pos (by
      show (0 : Int) + _ = s1.task.maxSamps
      rw [hM, f.maxSamps])]
    show Except.error (maxSampsMessage s1.task.maxSamps) = _
    rw [f.maxSamps]

/-! ## The max-samples guard (C19) -/

/-- C19: for every `maxSamps ≥ 0` and every non-premature trial of a task whose time
step is not negative and whose keys are registered, `run()` raises the max-samples error
if and only if none of the first `maxSamps` passes of the sampling loop satisfies the
stop condition; a trial that crosses on pass `k ≤ maxSamps` (`k = maxSamps` included)
does not raise it. -/
theorem maxSamps_error_iff_no_stop [FloorRing K] {S : Type} {nd md n m : Nat}
    (exp : K → K) (src : RandomSource K S) :
    (∀ (t : FlankerTask K nd md n m) (g : S) (s0 : FlankerRun K S nd md n m),
      t.prelude src g = .ok s0 → (s0.prematureDraw src).1 = false → s0.KeysRegistered →
      0 ≤ t.maxSamps → 0 ≤ t.timePerStep →
      (t.run exp src g = .error (maxSampsMessage t.maxSamps) ↔
        NoStopFor (FlankerRun.accStep exp src) FlankerRun.stop t.maxSamps.toNat
          (s0.prematureDraw src).2) ∧
      (∀ k : Nat, 1 ≤ k → k ≤ t.maxSamps.toNat →
        CrossesAfter (FlankerRun.accStep exp src) FlankerRun.stop (k - 1)
          (s0.prematureDraw src).2 →
        t.run exp src g ≠ .error (maxSampsMessage t.maxSamps))) ∧
    (∀ (t : AxcptTask K nd md n m) (g : S) (s0 : AxcptRun K S nd md n m),
      t.prelude exp src g = .ok s0 → (s0.prematureDraw src).1 = false → s0.KeysRegistered →
      0 ≤ t.maxSamps → 0 ≤ t.timePerStep →
      (t.run exp src g = .error (maxSampsMessage t.maxSamps) ↔
        NoStopFor (AxcptRun.accStep exp src) AxcptRun.stop t.maxSamps.toNat
          (s0.prematureDraw src).2) ∧
      (∀ k : Nat, 1 ≤ k → k ≤ t.maxSamps.toNat →
        CrossesAfter (AxcptRun.accStep exp src) AxcptRun.stop (k - 1)
          (s0.prematureDraw src).2 →
        t.run exp src g ≠ .error (maxSampsMessage t.maxSamps))) := by
  constructor
  · intro t g s0 hprel hprem hkeys hmax htps
    obtain ⟨-, -, -, -, hstart, htime, hms, htp, -, -, -, -⟩ :=
      FlankerTask.flanker_prelude_spec src t g s0 hprel
    obtain ⟨htask, -, -, hss, -, -⟩ := FlankerRun.flanker_prematureDraw_spec src s0
    have hiff := FlankerRun.flanker_accumulate_maxSamps_iff exp src (s0.prematureDraw src).2
      (by rw [htask, hms]; exact hmax)
      (by rw [htask]; exact hkeys "samplingEvent" (by simp [FlankerTask.datumNames]))
      (by rw [htask, htp]; exact htps)
      (by rw [htask, hss, hstart, htime])
    rw [htask, hms] at hiff
    have hrun : t.run exp src g = (s0.prematureDraw src).2.accumulate exp src := by
      rw [FlankerTask.flanker_run_eq exp src t g s0 hprel, hprem]
      rfl
    rw [hrun]
    refine ⟨hiff, fun k hk1 hk hcross herr => ?_⟩
    exact noStopFor_not_crosses _ _ (k - 1) _ _ (by omega) hcross (hiff.mp herr)
  · intro t g s0 hprel hprem hkeys hmax htps
    obtain ⟨-, -, -, -, hstart, -, hms, htp, -, -, -, -, -⟩ :=
      AxcptTask.axcpt_prelude_spec exp src t g s0 hprel
    obtain ⟨htask, -, -, hss, -, -⟩ := AxcptRun.axcpt_prematureDraw_spec src s0
    have hiff := AxcptRun.axcpt_accumulate_maxSamps_iff exp src (s0.prematureDraw src).2
      (by rw [htask, hms]; exact hmax)
      (by rw [htask]; exact hkeys "samplingBothEvent" (by simp [AxcptTask.datumNames]))
      (by rw [htask, htp]; exact htps)
      (by rw [htask, hss, hstart])
    rw [htask, hms] at hiff
    have hrun : t.run exp src g = (s0.prematureDraw src).2.accumulate exp src := by
      rw [AxcptTask.axcpt_run_eq exp src t g s0 hprel, hprem]
      rfl
    rw [hrun]
    refine ⟨hiff, fun k hk1 hk hcross herr => ?_⟩
    exact noStopFor_not_crosses _ _ (k - 1) _ _ (by omega) hcross (hiff.mp herr)

omit [LinearOrderedField K] in
theorem Mat.at_ok {n m : Nat} (M : Mat K n m) (i j : Nat) (hi : i < n) (hj : j < m) :
    Mat.at M i j = .ok (M ⟨i, hi⟩ ⟨j, hj⟩) := by
  unfold Mat.at
  rw [dif_pos ⟨hi, hj⟩]

theorem FlankerRun.flanker_accStep_ok [FloorRing K] {S : Type} {nd md n m : Nat}
    (exp : K → K) (src : RandomSource K S) (s : FlankerRun K S nd md n m)
    (hkeys : s.KeysRegistered) (hn : 2 ≤ n) (hm : 1 ≤ m) :
    ∃ s1, s.accStep exp src = .ok s1 := by
  have hk : (((s.updateFromContext exp src).updateFromContext exp src).updateFromTarget
      exp src).tick.task.trialLabel ++ "post" ∈ (((s.updateFromContext exp src).updateFromContext
      exp src).updateFromTarget exp src).tick.task.recorder.keys :=
    hkeys "post" (by simp [FlankerTask.datumNames])
  unfold FlankerRun.accStep
  simp only [bind, Except.bind]
  unfold FlankerRun.recordBelief
  rw [FlankerRun.flanker_update_ok _ _ _ hk]
  simp only
  rw [Mat.at_ok _ 0 0 (by omega) (by omega), Mat.at_ok _ 1 0 (by omega) (by omega)]
  exact ⟨_, rfl⟩

theorem AxcptRun.axcpt_accStep_ok [FloorRing K] {S : Type} {nd md n m : Nat}
    (exp : K → K) (src : RandomSource K S) (s : AxcptRun K S nd md n m)
    (hkeys : s.KeysRegistered) (hdecay : s.task.belief.decayRate = 0) :
    ∃ s1, s.accStep exp src = .ok s1 := by
  obtain ⟨s1, h1⟩ := AxcptRun.decayingUpdate_ok exp src s s.task.contextNoise hdecay
  obtain ⟨f1, -, -⟩ := AxcptRun.decayingUpdate_spec exp src _ _ _ h1
  have hk : (s1.updateFromTarget exp src).tick.task.trialLabel ++ "post"
      ∈ (s1.updateFromTarget exp src).tick.task.recorder.keys := by
    show s1.task.trialLabel ++ "post" ∈ s1.task.recorder.keys
    rw [f1.trialLabel, f1.keys]
    exact hkeys "post" (by simp [AxcptTask.datumNames])
  unfold AxcptRun.accStep
  simp only [bind, Except.bind]
  rw [h1]
  simp only
  unfold AxcptRun.recordBelief
  rw [AxcptRun.axcpt_update_ok _ _ _ hk]
  exact ⟨_, rfl⟩

theorem FlankerRun.flanker_stop_of_thresh_zero {S : Type} {nd md n m : Nat}
    (s : FlankerRun K S nd md n m) (h : s.task.decisionThresh = 0) : s.stop = true := by
  unfold FlankerRun.stop
  rw [h, decide_eq_true_eq, sub_zero]
  rcases lt_or_le 0 s.dv with h0 | h0
  · exact Or.inl h0
  · exact Or.inr (lt_of_le_of_lt h0 one_pos)

theorem AxcptRun.axcpt_stop_of_thresh_zero {S : Type} {nd md n m : Nat}
    (s : AxcptRun K S nd md n m) (h : s.task.decisionThresh = 0) : s.stop = true := by
  unfold AxcptRun.stop
  rw [h, decide_eq_true_eq, sub_zero]
  rcases lt_or_le 0 s.dv with h0 | h0
  · exact Or.inl h0
  · exact Or.inr (Or.inl (lt_of_le_of_lt h0 one_pos))

theorem AxcptTask.axcpt_prelude_decayRate [FloorRing K] {S : Type} {nd md n m : Nat}
    (exp : K → K) (src : RandomSource K S) (t : AxcptTask K nd md n m) (g : S)
    (s0 : AxcptRun K S nd md n m) (h : t.prelude exp src g = .ok s0) :
    s0.task.belief.decayRate = t.belief.decayRate := by
  unfold AxcptTask.prelude at h
  simp only [bind, Except.bind] at h
  cases hst : t.start src g with
  | error e => simp [hst] at h
  | ok s =>
    simp only [hst] at h
    cases hp : s.precomputeSamples exp src with
    | error e => simp [hp] at h
    | ok s1 =>
      simp only [hp, Except.ok.injEq] at h
      subst h
      obtain ⟨f, -, -⟩ := AxcptRun.precomputeSamples_spec exp src s s1 hp
      show s1.task.belief.decayRate = _
      rw [f.decayRate]
      unfold AxcptTask.start at hst
      simp only [bind, Except.bind] at hst
      cases hd : t.toTask.drawTrialType src g with
      | error e => simp [hd] at hst
      | ok drawn =>
        simp only [hd] at hst
        cases hs : t.belief.toBelief.setTrueStim drawn.1.context drawn.1.target with
        | error e => simp [hs] at hst
        | ok b1 =>
          simp only [hs] at hst
          obtain ⟨h1, -, -⟩ := AxcptRun.axcpt_updateEvent_inv _ _ _ _ _ hst
          subst h1
          rfl

theorem guardFlankerTask_prelude [FloorRing K] (maxSamps : Int) (g : Nat) :
    ∃ s0, (guardFlankerTask maxSamps : FlankerTask K 2 2 2 2).prelude
        (countingSource (1 / 4) 0 0 50) g = .ok s0 ∧
      s0.KeysRegistered ∧ (s0.prematureDraw (countingSource (1 / 4) 0 0 50)).1 = false ∧
      (s0.prematureDraw (countingSource (1 / 4) 0 0 50)).2.KeysRegistered ∧
      (s0.prematureDraw (countingSource (1 / 4) 0 0 50)).2.task.decisionThresh = 0 := by
  obtain ⟨s0, h, hk⟩ := FlankerTask.flanker_prelude_ok (countingSource (1 / 4 : K) 0 0 50)
    (countingSource_gamma_nonneg _ _ _ _ (by norm_num)) (guardFlankerTask maxSamps) g
    testTrialDist_total (by rw [countingSource_runif]; norm_num)
    (by rw [countingSource_runif]; norm_num) le_rfl le_rfl
    (fun name hname c hc tt htt => mem_registeredKeys 2 2 _ name c tt hname hc htt)
  obtain ⟨-, -, -, -, -, -, -, -, -, -, hp, hth⟩ :=
    FlankerTask.flanker_prelude_spec _ _ _ _ h
  obtain ⟨htask, -, -, -, -, hiff⟩ :=
    FlankerRun.flanker_prematureDraw_spec (countingSource (1 / 4 : K) 0 0 50) s0
  refine ⟨s0, h, hk, ?_, ?_, ?_⟩
  · rw [← Bool.not_eq_true, hiff, hp]
    rintro ⟨h0, -⟩
    exact absurd h0 (lt_irrefl _)
  · intro name hname
    rw [htask]
    exact hk name hname
  · rw [htask, hth]
    rfl

theorem guardAxcptTask_prelude [FloorRing K] (exp : K → K) (maxSamps : Int) (g : Nat) :
    ∃ s0, (guardAxcptTask maxSamps : AxcptTask K 2 2 2 2).prelude exp
        (countingSource (1 / 4) 0 0 50) g = .ok s0 ∧
      s0.KeysRegistered ∧ (s0.prematureDraw (countingSource (1 / 4) 0 0 50)).1 = false ∧
      (s0.prematureDraw (countingSource (1 / 4) 0 0 50)).2.KeysRegistered ∧
      (s0.prematureDraw (countingSource (1 / 4) 0 0 50)).2.task.decisionThresh = 0 ∧
      (s0.prematureDraw (countingSource (1 / 4) 0 0 50)).2.task.belief.decayRate = 0 := by
  obtain ⟨s0, h, hk⟩ := AxcptTask.axcpt_prelude_ok exp (countingSource (1 / 4 : K) 0 0 50)
    (countingSource_gamma_nonneg _ _ _ _ (by norm_num)) (guardAxcptTask maxSamps) g
    testTrialDist_total (by rw [countingSource_runif]; norm_num)
    (by rw [countingSource_runif]; norm_num) le_rfl le_rfl
    (fun name hname c hc tt htt => mem_registeredKeys 2 2 _ name c tt hname hc htt)
    rfl (by show (0 : K) ≤ 10; norm_num) (by show (0 : K) < 10; norm_num)
  obtain ⟨-, -, -, -, -, -, -, -, -, -, hp, hth, -⟩ :=
    AxcptTask.axcpt_prelude_spec _ _ _ _ _ h
  obtain ⟨htask, -, -, -, -, hiff⟩ :=
    AxcptRun.axcpt_prematureDraw_spec (countingSource (1 / 4 : K) 0 0 50) s0
  refine ⟨s0, h, hk, ?_, ?_, ?_, ?_⟩
  · rw [← Bool.not_eq_true, hiff, hp]
    rintro ⟨h0, -⟩
    exact absurd h0 (lt_irrefl _)
  · intro name hname
    rw [htask]
    exact hk name hname
  · rw [htask, hth]
    rfl
  · rw [htask, AxcptTask.axcpt_prelude_decayRate _ _ _ _ _ h]
    rfl

/-- With `maxSamps = 0` the fixture tasks raise the max-samples error; with
`maxSamps = 1` and `decisionThresh = 0` they cross on pass 1 and do not raise it. -/
theorem maxSamps_error_iff_no_stop_witness :
    (guardFlankerTask 0 : FlankerTask ℝ 2 2 2 2).run Real.exp (countingSource (1 / 4) 0 0 50) 0
      = .error (maxSampsMessage 0) ∧
    (guardFlankerTask 1 : FlankerTask ℝ 2 2 2 2).run Real.exp (countingSource (1 / 4) 0 0 50) 0
      ≠ .error (maxSampsMessage 1) ∧
    (guardAxcptTask 0 : AxcptTask ℝ 2 2 2 2).run Real.exp (countingSource (1 / 4) 0 0 50) 0
      = .error (maxSampsMessage 0) ∧
    (guardAxcptTask 1 : AxcptTask ℝ 2 2 2 2).run Real.exp (countingSource (1 / 4) 0 0 50) 0
      ≠ .error (maxSampsMessage 1) := by
  have h := @maxSamps_error_iff_no_stop ℝ _ _ Nat 2 2 2 2 Real.exp
    (countingSource (1 / 4) 0 0 50)
  refine ⟨?_, ?_, ?_, ?_⟩
  · obtain ⟨s0, hp, hk, hd, -, -⟩ := @guardFlankerTask_prelude ℝ _ _ 0 0
    exact (h.1 (guardFlankerTask 0) 0 s0 hp hd hk le_rfl
      (by show (0 : ℝ) ≤ 10; norm_num)).1.mpr trivial
  · obtain ⟨s0, hp, hk, hd, hk1, hth⟩ := @guardFlankerTask_prelude ℝ _ _ 1 0
    obtain ⟨s1, hs1⟩ := FlankerRun.flanker_accStep_ok Real.exp
      (countingSource (1 / 4 : ℝ) 0 0 50) _ hk1 le_rfl (by norm_num)
    have hth1 : s1.task.decisionThresh = 0 :=
      (FlankerRun.flanker_accStep_spec _ _ _ _ hs1).1.decisionThresh.trans hth
    exact (h.1 (guardFlankerTask 1) 0 s0 hp hd hk (by decide)
      (by show (0 : ℝ) ≤ 10; norm_num)).2 1 le_rfl (by decide)
      ⟨s1, hs1, s1.flanker_stop_of_thresh_zero hth1⟩
  · obtain ⟨s0, hp, hk, hd, -, -, -⟩ := @guardAxcptTask_prelude ℝ _ _ Real.exp 0 0
    exact (h.2 (guardAxcptTask 0) 0 s0 hp hd hk le_rfl
      (by show (0 : ℝ) ≤ 10; norm_num)).1.mpr trivial
  · obtain ⟨s0, hp, hk, hd, hk1, hth, hdec⟩ := @guardAxcptTask_prelude ℝ _ _ Real.exp 1 0
    obtain ⟨s1, hs1⟩ := AxcptRun.axcpt_accStep_ok Real.exp
      (countingSource (1 / 4 : ℝ) 0 0 50) _ hk1 hdec
    have hth1 : s1.task.decisionThresh = 0 :=
      (AxcptRun.axcpt_accStep_spec _ _ _ _ hs1).1.decisionThresh.trans hth
    exact (h.2 (guardAxcptTask 1) 0 s0 hp hd hk (by decide)
      (by show (0 : ℝ) ≤ 10; norm_num)).2 1 le_rfl (by decide)
      ⟨s1, hs1, s1.axcpt_stop_of_thresh_zero hth1⟩

/-! ## The fuel of the loop over `samp` -/

/-- The fuel `(maxSamps - samp).toNat` is all the loop over `samp` can use: with more
fuel it returns the same result, so the fuel never ends the loop early. -/
theorem forSamp_more_fuel {σ : Type} (maxSamps : Int)
    (body : σ → Except String (σ × Bool)) :
    ∀ (k : Nat) (samp : Int) (s : σ), (maxSamps - samp).toNat ≤ k →
      forSamp maxSamps body k samp s
        = forSamp maxSamps body (maxSamps - samp).toNat samp s := by
  intro k
  induction k with
  | zero =>
    intro samp s h
    rw [Nat.le_zero.mp h]
  | succ k ih =>
    intro samp s h
    by_cases hlt : samp < maxSamps
    · obtain ⟨j, hj⟩ : ∃ j, (maxSamps - samp).toNat = j + 1 :=
        ⟨(maxSamps - samp).toNat - 1, by omega⟩
      have hj1 : (maxSamps - (samp + 1)).toNat = j := by omega
      rw [hj, forSamp_succ, forSamp_succ, if_pos hlt, if_pos hlt]
      cases hb : body s with
      | error e => rfl
      | ok p =>
        obtain ⟨s1, b⟩ := p
        cases b with
        | true => rfl
        | false =>
          simp only
          rw [ih (samp + 1) s1 (by omega), hj1]
    · have h0 : (maxSamps - samp).toNat = 0 := by omega
      rw [h0, forSamp_succ, if_neg hlt]
      rfl

/-! ## The pass on which the loop over `samp` commits -/

theorem crossesAfter_iterate {σ : Type} (step : σ → Except String σ) (stop : σ → Bool) :
    ∀ (j : Nat) (s : σ), CrossesAfter step stop j s →
      NoStopFor step stop j s ∧ ∃ sj, iterate step (j + 1) s = .ok sj ∧ stop sj = true := by
  intro j
  induction j with
  | zero =>
    rintro s ⟨s1, h1, h2⟩
    refine ⟨trivial, s1, ?_, h2⟩
    rw [iterate_succ, h1]
    rfl
  | succ j ih =>
    rintro s ⟨s1, h1, h2, h3⟩
    obtain ⟨hno, sj, hit, hst⟩ := ih s1 h3
    refine ⟨⟨s1, h1, h2, hno⟩, sj, ?_, hst⟩
    rw [iterate_succ, h1]
    exact hit

/-- If the loop crosses on pass `j + 1` and can make more than `j` passes, it makes
`j + 1` sampling steps, executes the commit block in the state they leave, and ends with
`samp` increased by `j`. -/
theorem forSamp_of_crosses {σ : Type} (maxSamps : Int) (step : σ → Except String σ)
    (stop : σ → Bool) (commit : σ → Except String σ) :
    ∀ (j k : Nat) (samp : Int) (s sj : σ), j < k → samp + j < maxSamps →
      CrossesAfter step stop j s → iterate step (j + 1) s = .ok sj →
      forSamp maxSamps (sampBody step stop commit) k samp s =
        match commit sj with
        | .error e => .error e
        | .ok sc => .ok (samp + j, sc) := by
  intro j
  induction j with
  | zero =>
    rintro k samp s sj hjk hlt ⟨s1, h1, h2⟩ hit
    obtain ⟨k1, rfl⟩ : ∃ k1, k = k1 + 1 := ⟨k - 1, by omega⟩
    rw [iterate_succ, h1] at hit
    simp only [iterate, Except.ok.injEq] at hit
    subst hit
    have hs : samp < maxSamps := by push_cast at hlt; omega
    rw [forSamp_succ, if_pos hs]
    unfold sampBody
    rw [h1]
    simp only [h2, if_true]
    cases commit s1 with
    | error e => rfl
    | ok sc => simp
  | succ j ih =>
    rintro k samp s sj hjk hlt ⟨s1, h1, h2, h3⟩ hit
    obtain ⟨k1, rfl⟩ : ∃ k1, k = k1 + 1 := ⟨k - 1, by omega⟩
    rw [iterate_succ, h1] at hit
    simp only at hit
    have hs : samp < maxSamps := by push_cast at hlt; omega
    rw [forSamp_succ, if_pos hs, (sampBody_ok_false step stop commit s s1).mpr ⟨h1, h2⟩]
    simp only
    rw [ih k1 (samp + 1) s1 sj (by omega) (by push_cast at hlt ⊢; omega) h3 hit]
    cases commit sj with
    | error e => rfl
    | ok sc =>
      simp only [Except.ok.injEq, Prod.mk.injEq, and_true]
      push_cast
      ring

/-- If the loop returns, either no pass stopped, or it crossed on some pass `j + 1` and
returns the state left by the commit block executed after that pass. -/
theorem forSamp_ok_cases {σ : Type} (maxSamps : Int) (step : σ → Except String σ)
    (stop : σ → Bool) (commit : σ → Except String σ) :
    ∀ (k : Nat) (samp : Int) (s : σ) (r : Int × σ), samp + k ≤ maxSamps →
      forSamp maxSamps (sampBody step stop commit) k samp s = .ok r →
      (r.1 = samp + k ∧ NoStopFor step stop k s) ∨
      (∃ (j : Nat) (sj : σ), j < k ∧ r.1 = samp + j ∧ CrossesAfter step stop j s ∧
        iterate step (j + 1) s = .ok sj ∧ stop sj = true ∧ commit sj = .ok r.2) := by
  intro k
  induction k with
  | zero =>
    intro samp s r _ h
    simp only [forSamp, Except.ok.injEq] at h
    subst h
    exact Or.inl ⟨by simp, trivial⟩
  | succ k ih =>
    intro samp s r hle h
    have hlt : samp < maxSamps := by push_cast at hle; omega
    rw [forSamp_succ, if_pos hlt] at h
    unfold sampBody at h
    cases h1 : step s with
    | error e =>
      rw [h1] at h
      cases h
    | ok s1 =>
      rw [h1] at h
      simp only at h
      by_cases hst : stop s1 = true
      · rw [if_pos hst] at h
        cases h2 : commit s1 with
        | error e =>
          rw [h2] at h
          cases h
        | ok sc =>
          rw [h2] at h
          simp only [Except.ok.injEq] at h
          subst h
          refine Or.inr ⟨0, s1, by omega, by simp, ⟨s1, h1, hst⟩, ?_, hst, h2⟩
          rw [iterate_succ, h1]
          rfl
      · rw [if_neg hst] at h
        simp only at h
        have hst0 : stop s1 = false := by simpa using hst
        rcases ih (samp + 1) s1 r (by push_cast at hle ⊢; omega) h with ⟨h3, h4⟩ | ⟨j, sj, h3, h4, h5, h6, h7, h8⟩
        · exact Or.inl ⟨by push_cast at h3 ⊢; omega, s1, h1, hst0, h4⟩
        · refine Or.inr ⟨j + 1, sj, by omega, by push_cast at h4 ⊢; omega, ⟨s1, h1, hst0, h5⟩,
            ?_, h7, h8⟩
          rw [iterate_succ, h1]
          exact h6

/-! ## The commit block of `FlankerTask::run` -/

theorem FlankerRun.flanker_commit_inv [FloorRing K] {S : Type} {nd md n m : Nat}
    (exp : K → K) (src : RandomSource K S) (s sf : FlankerRun K S nd md n m)
    (h : s.commit exp src = .ok sf) :
    0 ≤ (s.task.arch.drawMotorPlanning src s.rng).1 ∧
    ∃ s5, iterate (FlankerRun.planStep exp src) (s.planSamps src) (s.committed src) = .ok s5 ∧
      0 ≤ (s5.task.arch.drawMotorExec src s5.rng).1 ∧ sf = s5.executed src := by
  unfold FlankerRun.commit at h
  simp only [bind, Except.bind] at h
  split at h
  · cases h
  · rename_i s2 h2
    obtain ⟨e2, l2, -⟩ := FlankerRun.flanker_updateEvent_inv _ _ _ _ _ h2
    subst e2
    split at h
    · cases h
    · rename_i s3 h3
      obtain ⟨e3, -⟩ := FlankerRun.flanker_update_inv _ _ _ _ h3
      subst e3
      split at h
      · cases h
      · rename_i s4 h4
        obtain ⟨e4, -⟩ := FlankerRun.flanker_update_inv _ _ _ _ h4
        subst e4
        split at h
        · cases h
        · rename_i s5 h5
          split at h
          · cases h
          · rename_i s7 h7
            obtain ⟨e7, l7, -⟩ := FlankerRun.flanker_updateEvent_inv _ _ _ _ _ h7
            subst e7
            obtain ⟨e8, -⟩ := FlankerRun.flanker_update_inv _ _ _ _ h
            subst e8
            refine ⟨?_, s5, h5, ?_, rfl⟩
            · exact (le_add_iff_nonneg_right _).mp l2
            · exact (le_add_iff_nonneg_right _).mp l7

theorem FlankerRun.flanker_planStep_inv {S : Type} {nd md n m : Nat}
    (exp : K → K) (src : RandomSource K S) (s s1 : FlankerRun K S nd md n m)
    (h : s.planStep exp src = .ok s1) :
    s1 = ((s.updateFromContext exp src).updateFromTarget exp src).tick.logged "post"
      (.timepoint (s.task.trialTime + s.task.timePerStep)
        (Mat.vectorise ((s.updateFromContext exp src).updateFromTarget exp src).task.belief.getBelief)) :=
  (FlankerRun.flanker_update_inv _ _ _ _ h).1

/-- The loop over `i` of the commit block: `k` passes advance the clock by `k` time
steps, append `k` records of the posterior to the log and make `2k` updates of the
belief engine; the decision variable is not assigned. -/
theorem FlankerRun.flanker_iterate_planStep_spec {S : Type} {nd md n m : Nat}
    (exp : K → K) (src : RandomSource K S) :
    ∀ (k : Nat) (s s1 : FlankerRun K S nd md n m),
      iterate (FlankerRun.planStep exp src) k s = .ok s1 →
      s.SameTrial s1 ∧ s1.dv = s.dv ∧
      s1.task.trialTime = s.task.trialTime + (k : K) * s.task.timePerStep ∧
      (∃ P : List (String × Obs K), s1.task.recorder.log = s.task.recorder.log ++ P ∧
        P.length = k ∧ ∀ e ∈ P, e.1 = s.task.trialLabel ++ "post") ∧
      (∃ C : List (BaseCall K), s1.calls = s.calls ++ C ∧ C.length = 2 * k) := by
  intro k
  induction k with
  | zero =>
    intro s s1 h
    simp only [iterate, Except.ok.injEq] at h
    subst h
    exact ⟨s.flanker_sameTrial_refl, rfl, by simp, ⟨[], by simp, rfl, by simp⟩,
      ⟨[], by simp, rfl⟩⟩
  | succ k ih =>
    intro s s1 h
    rw [iterate_succ] at h
    cases hb : s.planStep exp src with
    | error e => simp [hb] at h
    | ok s2 =>
      simp only [hb] at h
      have f1 := FlankerRun.flanker_planStep_spec exp src s s2 hb
      have e2 := FlankerRun.flanker_planStep_inv exp src s s2 hb
      obtain ⟨f2, hdv, ht, ⟨P, hP, hlen, hall⟩, ⟨C, hC, hClen⟩⟩ := ih s2 s1 h
      obtain ⟨entry, hentry, hkey⟩ : ∃ entry, s2.task.recorder.log
          = s.task.recorder.log ++ [entry] ∧ entry.1 = s.task.trialLabel ++ "post" := by
        rw [e2]
        exact ⟨_, rfl, rfl⟩
      obtain ⟨c1, c2, hcalls⟩ : ∃ c1 c2, s2.calls = s.calls ++ [c1, c2] := by
        rw [e2]
        exact ⟨.updateFromContext s.task.contextNoise (src.randn s.rng).1,
          .updateFromTarget s.task.targetNoise (src.randn (src.randn s.rng).2).1,
          by simp [FlankerRun.logged, FlankerRun.tick, FlankerRun.updateFromTarget,
            FlankerRun.updateFromContext]⟩
      have hdv2 : s2.dv = s.dv := by
        rw [e2]
        rfl
      have ht2 : s2.task.trialTime = s.task.trialTime + s.task.timePerStep := by
        rw [e2]
        rfl
      refine ⟨FlankerRun.flanker_sameTrial_trans _ _ _ f1 f2, hdv.trans hdv2, ?_,
        ⟨entry :: P, ?_, by simp [hlen], ?_⟩, ⟨c1 :: c2 :: C, ?_, ?_⟩⟩
      · rw [ht, f1.timePerStep, ht2]
        push_cast
        ring
      · rw [hP, hentry]
        simp
      · intro e he
        rcases List.mem_cons.mp he with rfl | he
        · exact hkey
        · rw [hall e he, f1.trialLabel]
      · rw [hC, hcalls]
        simp
      · simp only [List.length_cons, hClen]
        omega

theorem FlankerRun.flanker_planStep_ok {S : Type} {nd md n m : Nat}
    (exp : K → K) (src : RandomSource K S) (s : FlankerRun K S nd md n m)
    (hkeys : s.KeysRegistered) :
    ∃ s1, s.planStep exp src = .ok s1 ∧ s1.KeysRegistered := by
  have hk : ((s.updateFromContext exp src).updateFromTarget exp src).tick.task.trialLabel
      ++ "post" ∈ ((s.updateFromContext exp src).updateFromTarget exp
        src).tick.task.recorder.keys :=
    hkeys "post" (by simp [FlankerTask.datumNames])
  refine ⟨_, FlankerRun.flanker_update_ok _ _ _ hk, ?_⟩
  intro name hname
  exact hkeys name hname

omit [LinearOrderedField K] in
theorem FlankerRun.flanker_logged_timePerStep {S : Type} {nd md n m : Nat}
    (s : FlankerRun K S nd md n m) (key : String) (val : Obs K) :
    (s.logged key val).task.timePerStep = s.task.timePerStep := rfl

theorem FlankerRun.flanker_commit_ok [FloorRing K] {S : Type} {nd md n m : Nat}
    (exp : K → K) (src : RandomSource K S)
    (hgam : ∀ k theta g, 0 ≤ (src.rgammaRaw k theta g).1)
    (s : FlankerRun K S nd md n m) (hkeys : s.KeysRegistered) :
    ∃ s5, iterate (FlankerRun.planStep exp src) (s.planSamps src) (s.committed src) = .ok s5 ∧
      s.commit exp src = .ok (s5.executed src) := by
  have hmp := Architecture.drawMotorPlanning_nonneg src hgam s.task.arch s.rng
  have k1 := hkeys "motorPlanEvent" (by simp [FlankerTask.datumNames])
  have k2 := hkeys "Resp" (by simp [FlankerTask.datumNames])
  have k3 := hkeys "Acc" (by simp [FlankerTask.datumNames])
  have k4 := hkeys "motorExecEvent" (by simp [FlankerTask.datumNames])
  have k5 := hkeys "RT" (by simp [FlankerTask.datumNames])
  have hkc : (s.committed src).KeysRegistered := fun name hname => hkeys name hname
  obtain ⟨s5, hit, -⟩ := iterate_ok (FlankerRun.planStep exp src) FlankerRun.KeysRegistered
    (FlankerRun.flanker_planStep_ok exp src) (s.planSamps src) _ hkc
  obtain ⟨f, -⟩ := FlankerRun.flanker_iterate_planStep_spec exp src _ _ _ hit
  have hme := Architecture.drawMotorExec_nonneg src hgam s5.task.arch s5.rng
  have k4a : s5.task.trialLabel ++ "motorExecEvent" ∈ s5.task.recorder.keys := by
    rw [f.trialLabel, f.keys]
    exact k4
  have k5a : s5.task.trialLabel ++ "RT" ∈ s5.task.recorder.keys := by
    rw [f.trialLabel, f.keys]
    exact k5
  refine ⟨s5, hit, ?_⟩
  unfold FlankerRun.commit
  simp only [bind, Except.bind]
  simp only [FlankerRun.flanker_updateEvent_ok, FlankerRun.flanker_update_ok, hmp, k1,
    k2, k3, FlankerRun.flanker_logged_keys, FlankerRun.flanker_logged_trialLabel,
    FlankerRun.flanker_logged_timePerStep, le_add_iff_nonneg_right]
  have hit1 : iterate (FlankerRun.planStep exp src)
      (truncToInt ((s.task.arch.drawMotorPlanning src s.rng).1 / s.task.timePerStep)).toNat
      (s.committed src) = .ok s5 := hit
  unfold FlankerRun.committed at hit1
  simp only at hit1
  rw [hit1]
  simp only [FlankerRun.flanker_updateEvent_ok, FlankerRun.flanker_update_ok, hme, k4a,
    k5a, FlankerRun.flanker_logged_keys, FlankerRun.flanker_logged_trialLabel,
    le_add_iff_nonneg_right]
  rfl

/-! ## A committed trial of `FlankerTask::run` -/

theorem FlankerRun.flanker_accStep_inv [FloorRing K] {S : Type} {nd md n m : Nat}
    (exp : K → K) (src : RandomSource K S) (s s1 : FlankerRun K S nd md n m)
    (h : s.accStep exp src = .ok s1) :
    (∃ p00 p10, Mat.at s1.task.belief.getBelief 0 0 = .ok p00 ∧
      Mat.at s1.task.belief.getBelief 1 0 = .ok p10 ∧ s1.dv = p00 + p10) ∧
    s1.task.recorder.log = s.task.recorder.log ++
      [(s.task.trialLabel ++ "post", .timepoint (s.task.trialTime + s.task.timePerStep)
        (Mat.vectorise s1.task.belief.getBelief))] ∧
    (∃ c1 c2 c3, s1.calls = s.calls ++ [c1, c2, c3]) := by
  unfold FlankerRun.accStep at h
  simp only [bind, Except.bind] at h
  cases hr : (((s.updateFromContext exp src).updateFromContext exp src).updateFromTarget
      exp src).tick.recordBelief with
  | error e =>
    rw [hr] at h
    cases h
  | ok s5 =>
    rw [hr] at h
    simp only at h
    obtain ⟨e5, -⟩ := FlankerRun.flanker_update_inv _ _ _ _ hr
    subst e5
    cases ha : Mat.at (((s.updateFromContext exp src).updateFromContext exp src).updateFromTarget
        exp src).task.belief.getBelief 0 0 with
    | error e =>
      rw [ha] at h
      cases h
    | ok p00 =>
      rw [ha] at h
      simp only at h
      cases hb : Mat.at (((s.updateFromContext exp src).updateFromContext exp
          src).updateFromTarget exp src).task.belief.getBelief 1 0 with
      | error e =>
        rw [hb] at h
        cases h
      | ok p10 =>
        rw [hb] at h
        simp only [Except.ok.injEq] at h
        subst h
        refine ⟨⟨p00, p10, ha, hb, rfl⟩, rfl,
          ⟨.updateFromContext s.task.contextNoise (src.randn s.rng).1,
           .updateFromContext s.task.contextNoise (src.randn (src.randn s.rng).2).1,
           .updateFromTarget s.task.targetNoise
             (src.randn (src.randn (src.randn s.rng).2).2).1, ?_⟩⟩
        simp [FlankerRun.logged, FlankerRun.tick, FlankerRun.updateFromTarget,
          FlankerRun.updateFromContext]

theorem FlankerRun.flanker_iterate_accStep_time [FloorRing K] {S : Type} {nd md n m : Nat}
    (exp : K → K) (src : RandomSource K S) :
    ∀ (k : Nat) (s s1 : FlankerRun K S nd md n m),
      iterate (FlankerRun.accStep exp src) k s = .ok s1 →
      s1.task.trialTime = s.task.trialTime + (k : K) * s.task.timePerStep := by
  intro k
  induction k with
  | zero =>
    intro s s1 h
    simp only [iterate, Except.ok.injEq] at h
    subst h
    simp
  | succ k ih =>
    intro s s1 h
    rw [iterate_succ] at h
    cases hb : s.accStep exp src with
    | error e => simp [hb] at h
    | ok s2 =>
      simp only [hb] at h
      obtain ⟨f, t⟩ := FlankerRun.flanker_accStep_spec exp src s s2 hb
      rw [ih s2 s1 h, t, f.timePerStep]
      push_cast
      ring

theorem iterate_succ_last {σ : Type} (body : σ → Except String σ) :
    ∀ (k : Nat) (s s1 : σ), iterate body (k + 1) s = .ok s1 →
      ∃ s2, iterate body k s = .ok s2 ∧ body s2 = .ok s1 := by
  intro k
  induction k with
  | zero =>
    intro s s1 h
    rw [iterate_succ] at h
    cases hb : body s with
    | error e => simp [hb] at h
    | ok s2 =>
      simp only [hb, iterate, Except.ok.injEq] at h
      subst h
      exact ⟨s, rfl, hb⟩
  | succ k ih =>
    intro s s1 h
    rw [iterate_succ] at h
    cases hb : body s with
    | error e => simp [hb] at h
    | ok s2 =>
      simp only [hb] at h
      obtain ⟨s3, h3, h4⟩ := ih s2 s1 h
      refine ⟨s3, ?_, h4⟩
      rw [iterate_succ, hb]
      exact h3

/-- A non-premature trial of `FlankerTask::run` that crosses on pass `j + 1 ≤ maxSamps`
executes the commit block in the state left by that pass and then records the sampling
event; the max-samples error is not raised. -/
theorem FlankerRun.flanker_accumulate_of_crosses [FloorRing K] {S : Type}
    {nd md n m : Nat} (exp : K → K) (src : RandomSource K S)
    (s sk : FlankerRun K S nd md n m) (j : Nat) (hj : j < s.task.maxSamps.toNat)
    (hcross : CrossesAfter (FlankerRun.accStep exp src) FlankerRun.stop j s)
    (hit : iterate (FlankerRun.accStep exp src) (j + 1) s = .ok sk) :
    s.accumulate exp src =
      match sk.commit exp src with
      | .error e => .error e
      | .ok sc => sc.updateEvent "samplingEvent" sc.sampStart sc.task.trialTime := by
  have hlt : (0 : Int) + (j : Nat) < s.task.maxSamps := by omega
  unfold FlankerRun.accumulate
  simp only [bind, Except.bind]
  rw [forSamp_of_crosses s.task.maxSamps _ _ _ j _ 0 s sk hj hlt hcross hit]
  cases hc : sk.commit exp src with
  | error e => rfl
  | ok sc =>
    simp only
    cases hu : sc.updateEvent "samplingEvent" sc.sampStart sc.task.trialTime with
    | error e => rfl
    | ok s1 =>
      simp only
      obtain ⟨f1, -⟩ := FlankerRun.flanker_iterate_accStep_spec exp src _ _ _ hit
      have f2 := FlankerRun.flanker_commit_spec exp src _ _ hc
      obtain ⟨f3, -⟩ := FlankerRun.flanker_updateEvent_spec _ _ _ _ _ hu
      rw [if_neg]
      rw [f3.maxSamps, f2.maxSamps, f1.maxSamps]
      omega

/-- A non-premature trial of `FlankerTask::run` with `maxSamps ≥ 0` that returns has
crossed on some pass `j + 1 ≤ maxSamps`, executed the commit block in the state left by
that pass, and recorded the sampling event. -/
theorem FlankerRun.flanker_accumulate_ok_inv [FloorRing K] {S : Type}
    {nd md n m : Nat} (exp : K → K) (src : RandomSource K S)
    (s sf : FlankerRun K S nd md n m) (hmax : 0 ≤ s.task.maxSamps)
    (h : s.accumulate exp src = .ok sf) :
    ∃ (j : Nat) (sk sc : FlankerRun K S nd md n m), j < s.task.maxSamps.toNat ∧
      CrossesAfter (FlankerRun.accStep exp src) FlankerRun.stop j s ∧
      iterate (FlankerRun.accStep exp src) (j + 1) s = .ok sk ∧ sk.stop = true ∧
      sk.commit exp src = .ok sc ∧
      sf = sc.logged "samplingEvent" (.event sc.sampStart sc.task.trialTime) := by
  have hM : (0 : Int) + (s.task.maxSamps.toNat : Nat) = s.task.maxSamps := by
    rw [zero_add]
    exact Int.toNat_of_nonneg hmax
  unfold FlankerRun.accumulate at h
  simp only [bind, Except.bind] at h
  cases hf : forSamp s.task.maxSamps (sampBody (FlankerRun.accStep exp src) FlankerRun.stop
      (FlankerRun.commit exp src)) s.task.maxSamps.toNat 0 s with
  | error e =>
    rw [hf] at h
    cases h
  | ok r =>
    rw [hf] at h
    simp only at h
    have fr : s.SameTrial r.2 := forSamp_invariant _ _ _ _ FlankerRun.SameTrial
      FlankerRun.flanker_sameTrial_refl FlankerRun.flanker_sameTrial_trans
      (fun a b hab => (FlankerRun.flanker_accStep_spec exp src a b hab).1)
      (FlankerRun.flanker_commit_spec exp src) _ _ _ _ hf
    cases hu : r.2.updateEvent "samplingEvent" r.2.sampStart r.2.task.trialTime with
    | error e =>
      rw [hu] at h
      cases h
    | ok s1 =>
      rw [hu] at h
      simp only at h
      obtain ⟨e1, -, -⟩ := FlankerRun.flanker_updateEvent_inv _ _ _ _ _ hu
      obtain ⟨fu, -⟩ := FlankerRun.flanker_updateEvent_spec _ _ _ _ _ hu
      split_ifs at h with heq
      simp only [Except.ok.injEq] at h
      subst h
      rcases forSamp_ok_cases _ _ _ _ _ _ _ _ (le_of_eq hM) hf with ⟨h1, -⟩ | ⟨j, sk, h1, h2, h3, h4, h5, h6⟩
      · exfalso
        apply heq
        rw [fu.maxSamps, fr.maxSamps, h1, hM]
      · exact ⟨j, sk, r.2, h1, h3, h4, h5, h6, e1⟩

/-! ## The commit block of `AxcptTask::run` -/

omit [LinearOrderedField K] in
theorem AxcptRun.axcpt_logged_timePerStep {S : Type} {nd md n m : Nat}
    (s : AxcptRun K S nd md n m) (key : String) (val : Obs K) :
    (s.logged key val).task.timePerStep = s.task.timePerStep := rfl

theorem AxcptRun.axcpt_commit_inv [FloorRing K] {S : Type} {nd md n m : Nat}
    (exp : K → K) (src : RandomSource K S) (s sf : AxcptRun K S nd md n m)
    (h : s.commit exp src = .ok sf) :
    0 ≤ (s.task.arch.drawMotorPlanning src s.rng).1 ∧
    ∃ s5, iterate (AxcptRun.planStep exp src) (s.planSamps src) (s.committed src) = .ok s5 ∧
      0 ≤ (s5.task.arch.drawMotorExec src s5.rng).1 ∧ sf = s5.executed src s.acc := by
  unfold AxcptRun.commit at h
  simp only [bind, Except.bind] at h
  split at h
  · cases h
  · rename_i s2 h2
    obtain ⟨e2, l2, -⟩ := AxcptRun.axcpt_updateEvent_inv _ _ _ _ _ h2
    subst e2
    split at h
    · cases h
    · rename_i s3 h3
      obtain ⟨e3, -⟩ := AxcptRun.axcpt_update_inv _ _ _ _ h3
      subst e3
      split at h
      · cases h
      · rename_i s4 h4
        obtain ⟨e4, -⟩ := AxcptRun.axcpt_update_inv _ _ _ _ h4
        subst e4
        split at h
        · cases h
        · rename_i s5 h5
          split at h
          · cases h
          · rename_i s7 h7
            obtain ⟨e7, l7, -⟩ := AxcptRun.axcpt_updateEvent_inv _ _ _ _ _ h7
            subst e7
            split at h
            · cases h
            · rename_i s8 h8
              obtain ⟨e8, -⟩ := AxcptRun.axcpt_update_inv _ _ _ _ h8
              subst e8
              refine ⟨(le_add_iff_nonneg_right _).mp l2, s5, h5,
                (le_add_iff_nonneg_right _).mp l7, ?_⟩
              by_cases hacc : s.acc = 1
              · have hacc1 : (if (if s.dv > 1 / 2 then (1 : Int) else 0) = s.cresp
                    then (1 : Int) else 0) = 1 := hacc
                rw [if_pos hacc1] at h
                obtain ⟨e9, -⟩ := AxcptRun.axcpt_update_inv _ _ _ _ h
                subst e9
                unfold AxcptRun.executed
                rw [if_pos hacc]
                rfl
              · have hacc1 : ¬ (if (if s.dv > 1 / 2 then (1 : Int) else 0) = s.cresp
                    then (1 : Int) else 0) = 1 := hacc
                rw [if_neg hacc1] at h
                obtain ⟨e9, -⟩ := AxcptRun.axcpt_update_inv _ _ _ _ h
                subst e9
                unfold AxcptRun.executed
                rw [if_neg hacc]
                rfl

theorem AxcptRun.axcpt_planStep_inv {S : Type} {nd md n m : Nat}
    (exp : K → K) (src : RandomSource K S) (s s1 : AxcptRun K S nd md n m)
    (h : s.planStep exp src = .ok s1) :
    s1 = ((s.updateFromContext exp src).updateFromTarget exp src).tick.logged "post"
      (.timepoint (s.task.trialTime + s.task.timePerStep)
        (Mat.vectorise ((s.updateFromContext exp src).updateFromTarget exp src).task.belief.getBelief)) :=
  (AxcptRun.axcpt_update_inv _ _ _ _ h).1

/-- The loop over `i` of the commit block: `k` passes advance the clock by `k` time
steps, append `k` records of the posterior to the log and make `2k` updates of the
belief engine; the decision variable is not assigned. -/
theorem AxcptRun.axcpt_iterate_planStep_spec {S : Type} {nd md n m : Nat}
    (exp : K → K) (src : RandomSource K S) :
    ∀ (k : Nat) (s s1 : AxcptRun K S nd md n m),
      iterate (AxcptRun.planStep exp src) k s = .ok s1 →
      s.SameTrial s1 ∧ s1.dv = s.dv ∧
      s1.task.trialTime = s.task.trialTime + (k : K) * s.task.timePerStep ∧
      (∃ P : List (String × Obs K), s1.task.recorder.log = s.task.recorder.log ++ P ∧
        P.length = k ∧ ∀ e ∈ P, e.1 = s.task.trialLabel ++ "post") ∧
      (∃ C : List (Call K), s1.calls = s.calls ++ C ∧ C.length = 2 * k) := by
  intro k
  induction k with
  | zero =>
    intro s s1 h
    simp only [iterate, Except.ok.injEq] at h
    subst h
    exact ⟨s.sameTrial_refl, rfl, by simp, ⟨[], by simp, rfl, by simp⟩,
      ⟨[], by simp, rfl⟩⟩
  | succ k ih =>
    intro s s1 h
    rw [iterate_succ] at h
    cases hb : s.planStep exp src with
    | error e => simp [hb] at h
    | ok s2 =>
      simp only [hb] at h
      have f1 := AxcptRun.axcpt_planStep_spec exp src s s2 hb
      have e2 := AxcptRun.axcpt_planStep_inv exp src s s2 hb
      obtain ⟨f2, hdv, ht, ⟨P, hP, hlen, hall⟩, ⟨C, hC, hClen⟩⟩ := ih s2 s1 h
      obtain ⟨entry, hentry, hkey⟩ : ∃ entry, s2.task.recorder.log
          = s.task.recorder.log ++ [entry] ∧ entry.1 = s.task.trialLabel ++ "post" := by
        rw [e2]
        exact ⟨_, rfl, rfl⟩
      obtain ⟨c1, c2, hcalls⟩ : ∃ c1 c2, s2.calls = s.calls ++ [c1, c2] := by
        rw [e2]
        exact ⟨.base (.updateFromContext s.task.contextNoise (src.randn s.rng).1),
          .base (.updateFromTarget s.task.targetNoise (src.randn (src.randn s.rng).2).1),
          by simp [AxcptRun.logged, AxcptRun.tick, AxcptRun.updateFromTarget,
            AxcptRun.updateFromContext]⟩
      have hdv2 : s2.dv = s.dv := by
        rw [e2]
        rfl
      have ht2 : s2.task.trialTime = s.task.trialTime + s.task.timePerStep := by
        rw [e2]
        rfl
      refine ⟨AxcptRun.sameTrial_trans _ _ _ f1 f2, hdv.trans hdv2, ?_,
        ⟨entry :: P, ?_, by simp [hlen], ?_⟩, ⟨c1 :: c2 :: C, ?_, ?_⟩⟩
      · rw [ht, f1.timePerStep, ht2]
        push_cast
        ring
      · rw [hP, hentry]
        simp
      · intro e he
        rcases List.mem_cons.mp he with rfl | he
        · exact hkey
        · rw [hall e he, f1.trialLabel]
      · rw [hC, hcalls]
        simp
      · simp only [List.length_cons, hClen]
        omega

theorem AxcptRun.axcpt_planStep_ok {S : Type} {nd md n m : Nat}
    (exp : K → K) (src : RandomSource K S) (s : AxcptRun K S nd md n m)
    (hkeys : s.KeysRegistered) :
    ∃ s1, s.planStep exp src = .ok s1 ∧ s1.KeysRegistered := by
  have hk : ((s.updateFromContext exp src).updateFromTarget exp src).tick.task.trialLabel
      ++ "post" ∈ ((s.updateFromContext exp src).updateFromTarget exp
        src).tick.task.recorder.keys :=
    hkeys "post" (by simp [AxcptTask.datumNames])
  refine ⟨_, AxcptRun.axcpt_update_ok _ _ _ hk, ?_⟩
  intro name hname
  exact hkeys name hname

theorem AxcptRun.axcpt_commit_ok [FloorRing K] {S : Type} {nd md n m : Nat}
    (exp : K → K) (src : RandomSource K S)
    (hgam : ∀ k theta g, 0 ≤ (src.rgammaRaw k theta g).1)
    (s : AxcptRun K S nd md n m) (hkeys : s.KeysRegistered) :
    ∃ sc, s.commit exp src = .ok sc := by
  have hmp := Architecture.drawMotorPlanning_nonneg src hgam s.task.arch s.rng
  have k1 := hkeys "motorPlanEvent" (by simp [AxcptTask.datumNames])
  have k2 := hkeys "Resp" (by simp [AxcptTask.datumNames])
  have k3 := hkeys "Acc" (by simp [AxcptTask.datumNames])
  have k4 := hkeys "motorExecEvent" (by simp [AxcptTask.datumNames])
  have k5 := hkeys "RT" (by simp [AxcptTask.datumNames])
  have k6 := hkeys "CorrectRT" (by simp [AxcptTask.datumNames])
  have k7 := hkeys "IncorrectRT" (by simp [AxcptTask.datumNames])
  have hkc : (s.committed src).KeysRegistered := fun name hname => hkeys name hname
  obtain ⟨s5, hit, -⟩ := iterate_ok (AxcptRun.planStep exp src) AxcptRun.KeysRegistered
    (AxcptRun.axcpt_planStep_ok exp src) (s.planSamps src) _ hkc
  obtain ⟨f, -⟩ := AxcptRun.axcpt_iterate_planStep_spec exp src _ _ _ hit
  have hme := Architecture.drawMotorExec_nonneg src hgam s5.task.arch s5.rng
  have ka : ∀ name, s.task.trialLabel ++ name ∈ s.task.recorder.keys →
      s5.task.trialLabel ++ name ∈ s5.task.recorder.keys := by
    intro name hn
    rw [f.trialLabel, f.keys]
    exact hn
  have k4a := ka _ k4
  have k5a := ka _ k5
  have k6a := ka _ k6
  have k7a := ka _ k7
  unfold AxcptRun.commit
  simp only [bind, Except.bind]
  simp only [AxcptRun.axcpt_updateEvent_ok, AxcptRun.axcpt_update_ok, hmp, k1,
    k2, k3, AxcptRun.axcpt_logged_keys, AxcptRun.axcpt_logged_trialLabel,
    AxcptRun.axcpt_logged_timePerStep, le_add_iff_nonneg_right]
  have hit1 : iterate (AxcptRun.planStep exp src)
      (truncToInt ((s.task.arch.drawMotorPlanning src s.rng).1 / s.task.timePerStep)).toNat
      (s.committed src) = .ok s5 := hit
  unfold AxcptRun.committed at hit1
  simp only at hit1
  rw [hit1]
  simp only [AxcptRun.axcpt_updateEvent_ok, AxcptRun.axcpt_update_ok, hme, k4a,
    k5a, AxcptRun.axcpt_logged_keys, AxcptRun.axcpt_logged_trialLabel,
    le_add_iff_nonneg_right]
  by_cases hacc : (if (if s.dv > 1 / 2 then (1 : Int) else 0) = s.cresp
      then (1 : Int) else 0) = 1
  · rw [if_pos hacc]
    exact ⟨_, AxcptRun.axcpt_update_ok _ _ _ k6a⟩
  · rw [if_neg hacc]
    exact ⟨_, AxcptRun.axcpt_update_ok _ _ _ k7a⟩

/-! ## A committed trial of `AxcptTask::run` -/

theorem AxcptRun.decayingUpdate_locals {S : Type} {nd md n m : Nat} (exp : K → K)
    (src : RandomSource K S) (s s1 : AxcptRun K S nd md n m) (noise : K)
    (h : s.decayingUpdate exp src noise = .ok s1) :
    s1.dv = s.dv ∧ s1.oldDv = s.oldDv ∧ s1.task.recorder = s.task.recorder ∧
      ∃ u r u2 z, s1.calls = s.calls
        ++ [.decayUpdate noise s.task.trialTime s.task.decayTo u r u2 z] := by
  unfold AxcptRun.decayingUpdate at h
  simp only at h
  split at h
  · cases h
  · simp only [Except.ok.injEq] at h
    subst h
    exact ⟨rfl, rfl, rfl, _, _, _, _, rfl⟩

theorem AxcptRun.axcpt_accStep_inv [FloorRing K] {S : Type} {nd md n m : Nat}
    (exp : K → K) (src : RandomSource K S) (s s1 : AxcptRun K S nd md n m)
    (h : s.accStep exp src = .ok s1) :
    s1.dv = Mat.trace s1.task.belief.getBelief ∧ s1.oldDv = s.dv ∧
    s1.task.recorder.log = s.task.recorder.log ++
      [(s.task.trialLabel ++ "post", .timepoint (s.task.trialTime + s.task.timePerStep)
        (Mat.vectorise s1.task.belief.getBelief))] ∧
    (∃ u r u2 z c2, s1.calls = s.calls
      ++ [.decayUpdate s.task.contextNoise s.task.trialTime s.task.decayTo u r u2 z, c2]) := by
  unfold AxcptRun.accStep at h
  simp only [bind, Except.bind] at h
  cases hd : s.decayingUpdate exp src s.task.contextNoise with
  | error e =>
    rw [hd] at h
    cases h
  | ok s2 =>
    rw [hd] at h
    simp only at h
    obtain ⟨f1, t1, -⟩ := AxcptRun.decayingUpdate_spec exp src _ _ _ hd
    obtain ⟨d1, d2, d3, u, r, u2, z, d4⟩ := AxcptRun.decayingUpdate_locals exp src _ _ _ hd
    cases hr : (s2.updateFromTarget exp src).tick.recordBelief with
    | error e =>
      rw [hr] at h
      cases h
    | ok s4 =>
      rw [hr] at h
      simp only [Except.ok.injEq] at h
      subst h
      obtain ⟨e4, -⟩ := AxcptRun.axcpt_update_inv _ _ _ _ hr
      subst e4
      refine ⟨rfl, d1, ?_, u, r, u2, z,
        .base (.updateFromTarget s2.task.targetNoise (src.randn s2.rng).1), ?_⟩
      · show s2.task.recorder.log ++ [(s2.task.trialLabel ++ "post",
          Obs.timepoint (s2.task.trialTime + s2.task.timePerStep) _)] = _
        rw [d3, f1.trialLabel, t1, f1.timePerStep]
        rfl
      · show s2.calls ++ [_] = _
        rw [d4]
        simp

theorem AxcptRun.axcpt_iterate_accStep_time [FloorRing K] {S : Type} {nd md n m : Nat}
    (exp : K → K) (src : RandomSource K S) :
    ∀ (k : Nat) (s s1 : AxcptRun K S nd md n m),
      iterate (AxcptRun.accStep exp src) k s = .ok s1 →
      s1.task.trialTime = s.task.trialTime + (k : K) * s.task.timePerStep := by
  intro k
  induction k with
  | zero =>
    intro s s1 h
    simp only [iterate, Except.ok.injEq] at h
    subst h
    simp
  | succ k ih =>
    intro s s1 h
    rw [iterate_succ] at h
    cases hb : s.accStep exp src with
    | error e => simp [hb] at h
    | ok s2 =>
      simp only [hb] at h
      obtain ⟨f, t⟩ := AxcptRun.axcpt_accStep_spec exp src s s2 hb
      rw [ih s2 s1 h, t, f.timePerStep]
      push_cast
      ring

/-- A non-premature trial of `AxcptTask::run` that crosses on pass `j + 1 ≤ maxSamps`
executes the commit block in the state left by that pass and then records the sampling
event; the max-samples error is not raised. -/
theorem AxcptRun.axcpt_accumulate_of_crosses [FloorRing K] {S : Type}
    {nd md n m : Nat} (exp : K → K) (src : RandomSource K S)
    (s sk : AxcptRun K S nd md n m) (j : Nat) (hj : j < s.task.maxSamps.toNat)
    (hcross : CrossesAfter (AxcptRun.accStep exp src) AxcptRun.stop j s)
    (hit : iterate (AxcptRun.accStep exp src) (j + 1) s = .ok sk) :
    s.accumulate exp src =
      match sk.commit exp src with
      | .error e => .error e
      | .ok sc => sc.updateEvent "samplingBothEvent" sc.sampStart sc.task.trialTime := by
  have hlt : (0 : Int) + (j : Nat) < s.task.maxSamps := by omega
  unfold AxcptRun.accumulate
  simp only [bind, Except.bind]
  rw [forSamp_of_crosses s.task.maxSamps _ _ _ j _ 0 s sk hj hlt hcross hit]
  cases hc : sk.commit exp src with
  | error e => rfl
  | ok sc =>
    simp only
    cases hu : sc.updateEvent "samplingBothEvent" sc.sampStart sc.task.trialTime with
    | error e => rfl
    | ok s1 =>
      simp only
      obtain ⟨f1, -⟩ := AxcptRun.axcpt_iterate_accStep_spec exp src _ _ _ hit
      have f2 := AxcptRun.axcpt_commit_spec exp src _ _ hc
      obtain ⟨f3, -⟩ := AxcptRun.axcpt_updateEvent_spec _ _ _ _ _ hu
      rw [if_neg]
      rw [f3.maxSamps, f2.maxSamps, f1.maxSamps]
      omega

/-- A non-premature trial of `AxcptTask::run` with `maxSamps ≥ 0` that returns has
crossed on some pass `j + 1 ≤ maxSamps`, executed the commit block in the state left by
that pass, and recorded the sampling event. -/
theorem AxcptRun.axcpt_accumulate_ok_inv [FloorRing K] {S : Type}
    {nd md n m : Nat} (exp : K → K) (src : RandomSource K S)
    (s sf : AxcptRun K S nd md n m) (hmax : 0 ≤ s.task.maxSamps)
    (h : s.accumulate exp src = .ok sf) :
    ∃ (j : Nat) (sk sc : AxcptRun K S nd md n m), j < s.task.maxSamps.toNat ∧
      CrossesAfter (AxcptRun.accStep exp src) AxcptRun.stop j s ∧
      iterate (AxcptRun.accStep exp src) (j + 1) s = .ok sk ∧ sk.stop = true ∧
      sk.commit exp src = .ok sc ∧
      sf = sc.logged "samplingBothEvent" (.event sc.sampStart sc.task.trialTime) := by
  have hM : (0 : Int) + (s.task.maxSamps.toNat : Nat) = s.task.maxSamps := by
    rw [zero_add]
    exact Int.toNat_of_nonneg hmax
  unfold AxcptRun.accumulate at h
  simp only [bind, Except.bind] at h
  cases hf : forSamp s.task.maxSamps (sampBody (AxcptRun.accStep exp src) AxcptRun.stop
      (AxcptRun.commit exp src)) s.task.maxSamps.toNat 0 s with
  | error e =>
    rw [hf] at h
    cases h
  | ok r =>
    rw [hf] at h
    simp only at h
    have fr : s.SameTrial r.2 := forSamp_invariant _ _ _ _ AxcptRun.SameTrial
      AxcptRun.sameTrial_refl AxcptRun.sameTrial_trans
      (fun a b hab => (AxcptRun.axcpt_accStep_spec exp src a b hab).1)
      (AxcptRun.axcpt_commit_spec exp src) _ _ _ _ hf
    cases hu : r.2.updateEvent "samplingBothEvent" r.2.sampStart r.2.task.trialTime with
    | error e =>
      rw [hu] at h
      cases h
    | ok s1 =>
      rw [hu] at h
      simp only at h
      obtain ⟨e1, -, -⟩ := AxcptRun.axcpt_updateEvent_inv _ _ _ _ _ hu
      obtain ⟨fu, -⟩ := AxcptRun.axcpt_updateEvent_spec _ _ _ _ _ hu
      split_ifs at h with heq
      simp only [Except.ok.injEq] at h
      subst h
      rcases forSamp_ok_cases _ _ _ _ _ _ _ _ (le_of_eq hM) hf with ⟨h1, -⟩ | ⟨j, sk, h1, h2, h3, h4, h5, h6⟩
      · exfalso
        apply heq
        rw [fu.maxSamps, fr.maxSamps, h1, hM]
      · exact ⟨j, sk, r.2, h1, h3, h4, h5, h6, e1⟩

/-! ## Trials of `ForgetBelief` (C27, C28) -/

theorem ForgetBelief.contextForgetUpdate_skip {n m : Nat} (exp : K → K)
    (b : ForgetBelief K n m) (noise : K) (forgetTo : PriorType) (u : K) (r : Int) (u2 z : K)
    (h : b.forgetProb = 0 ∨ b.forgot = true) :
    b.contextForgetUpdate exp noise forgetTo u r u2 z = .ok (-1, b.plainUpdate exp noise z) := by
  unfold ForgetBelief.contextForgetUpdate
  rw [if_pos h]
  rfl

theorem ForgetBelief.contextForgetUpdate_keep {n m : Nat} (exp : K → K)
    (b : ForgetBelief K n m) (noise : K) (forgetTo : PriorType) (u : K) (r : Int) (u2 z : K)
    (h : ¬ u < b.forgetProb) :
    b.contextForgetUpdate exp noise forgetTo u r u2 z = .ok (-1, b.plainUpdate exp noise z) := by
  have hb : ¬ RNG.rbernoulli b.forgetProb u = 1 := by
    unfold RNG.rbernoulli
    rw [if_neg h]
    decide
  unfold ForgetBelief.contextForgetUpdate
  split_ifs <;> rfl

theorem ForgetBelief.contextForgetUpdate_forget {n m : Nat} (exp : K → K)
    (b : ForgetBelief K n m) (noise : K) (forgetTo : PriorType) (u : K) (r : Int) (u2 z : K)
    (h0 : b.forgetProb ≠ 0) (hf : b.forgot = false) (h : u < b.forgetProb) :
    b.contextForgetUpdate exp noise forgetTo u r u2 z =
      match DecayBelief.checkSubstitute b.nContexts
          (DecayBelief.drawSubstitute b.urPrior forgetTo r u2) with
      | .error e => .error e
      | .ok k => .ok (k, { b with
          forgot := true
          toBelief := ({ b.toBelief with trueContext := k }).updateFromContext exp noise z }) := by
  have hb : RNG.rbernoulli b.forgetProb u = 1 := by
    unfold RNG.rbernoulli
    rw [if_pos h]
  unfold ForgetBelief.contextForgetUpdate
  rw [if_neg (by simp [h0, hf]), if_pos hb]

/-- A call of `contextForgetUpdate` that returns either made a plain update and returned
`-1` with the flag and the true context as they were, or forgot: the draw succeeded in a
state that had not forgotten, the value returned is the substitute, in range, and it is
the new true context. -/
theorem ForgetBelief.contextForgetUpdate_inv {n m : Nat} (exp : K → K)
    (b b1 : ForgetBelief K n m) (noise : K) (forgetTo : PriorType) (u : K) (r : Int)
    (u2 z : K) (ret : Int)
    (h : b.contextForgetUpdate exp noise forgetTo u r u2 z = .ok (ret, b1)) :
    b1.forgetProb = b.forgetProb ∧ b1.urPrior = b.urPrior ∧
    ((ret = -1 ∧ b1 = b.plainUpdate exp noise z) ∨
     (0 ≤ ret ∧ ret < n ∧ b.forgot = false ∧ b.forgetProb ≠ 0 ∧ u < b.forgetProb ∧
       b1.forgot = true ∧ b1.trueContext = ret)) := by
  by_cases hskip : b.forgetProb = 0 ∨ b.forgot = true
  · rw [ForgetBelief.contextForgetUpdate_skip exp b noise forgetTo u r u2 z hskip] at h
    simp only [Except.ok.injEq, Prod.mk.injEq] at h
    obtain ⟨h1, h2⟩ := h
    subst h1 h2
    exact ⟨rfl, rfl, Or.inl ⟨rfl, rfl⟩⟩
  · by_cases hu : u < b.forgetProb
    · have h0 : b.forgetProb ≠ 0 := fun e => hskip (Or.inl e)
      have hf : b.forgot = false := by
        cases hfb : b.forgot
        · rfl
        · exact absurd (Or.inr hfb) hskip
      rw [ForgetBelief.contextForgetUpdate_forget exp b noise forgetTo u r u2 z h0 hf hu] at h
      cases hc : DecayBelief.checkSubstitute b.nContexts
          (DecayBelief.drawSubstitute b.urPrior forgetTo r u2) with
      | error e =>
        rw [hc] at h
        cases h
      | ok k =>
        rw [hc] at h
        simp only [Except.ok.injEq, Prod.mk.injEq] at h
        obtain ⟨h1, h2⟩ := h
        subst h1 h2
        obtain ⟨-, k0, k1⟩ := (DecayBelief.checkSubstitute_eq_ok_iff _ _ _).mp hc
        exact ⟨rfl, rfl, Or.inr ⟨k0, k1, hf, h0, hu, rfl, rfl⟩⟩
    · rw [ForgetBelief.contextForgetUpdate_keep exp b noise forgetTo u r u2 z hu] at h
      simp only [Except.ok.injEq, Prod.mk.injEq] at h
      obtain ⟨h1, h2⟩ := h
      subst h1 h2
      exact ⟨rfl, rfl, Or.inl ⟨rfl, rfl⟩⟩

theorem ForgetBelief.calls_cons {n m : Nat} (exp : K → K) (b : ForgetBelief K n m)
    (c : ForgetCall K) (cs : List (ForgetCall K)) :
    b.calls exp (c :: cs) =
      match b.forgetCall exp c with
      | .error e => .error e
      | .ok (ret, b1) =>
        match b1.calls exp cs with
        | .error e => .error e
        | .ok (rets, b2) => .ok (ret :: rets, b2) := rfl

/-- Over a sequence of `contextForgetUpdate` calls that returns, `_forgetProb` and
`_urPrior` are unchanged and the flag `_forgot` is set at the end exactly when it was set
at the start or some call returned a value other than `-1`. -/
theorem ForgetBelief.calls_forgot {n m : Nat} (exp : K → K) :
    ∀ (cs : List (ForgetCall K)) (b b1 : ForgetBelief K n m) (rets : List Int),
      b.calls exp cs = .ok (rets, b1) →
      b1.forgetProb = b.forgetProb ∧ b1.urPrior = b.urPrior ∧ rets.length = cs.length ∧
      (b1.forgot = true ↔ b.forgot = true ∨ ∃ k ∈ rets, k ≠ -1) := by
  intro cs
  induction cs with
  | nil =>
    intro b b1 rets h
    simp only [ForgetBelief.calls, Except.ok.injEq, Prod.mk.injEq] at h
    obtain ⟨h1, h2⟩ := h
    subst h1 h2
    simp
  | cons c cs ih =>
    intro b b1 rets h
    rw [ForgetBelief.calls_cons] at h
    cases hc : b.forgetCall exp c with
    | error e =>
      rw [hc] at h
      cases h
    | ok p =>
      obtain ⟨ret, b2⟩ := p
      rw [hc] at h
      simp only at h
      cases hr : b2.calls exp cs with
      | error e =>
        rw [hr] at h
        cases h
      | ok q =>
        obtain ⟨rs, b3⟩ := q
        rw [hr] at h
        simp only [Except.ok.injEq, Prod.mk.injEq] at h
        obtain ⟨h1, h2⟩ := h
        subst h1 h2
        obtain ⟨i1, i2, i3, i4⟩ := ih b2 b3 rs hr
        obtain ⟨j1, j2, j3⟩ := ForgetBelief.contextForgetUpdate_inv exp b b2 _ _ _ _ _ _ ret hc
        refine ⟨i1.trans j1, i2.trans j2, by simp [i3], ?_⟩
        rw [i4]
        rcases j3 with ⟨r1, r2⟩ | ⟨r0, -, r3, -, -, r6, -⟩
        · subst r1 r2
          simp [ForgetBelief.plainUpdate]
        · have hne : ret ≠ -1 := by omega
          simp [r6, r3, hne]

/-- Once `_forgot` is set, every sequence of `contextForgetUpdate` calls returns, each
call returns `-1`, and the state is the one left by the plain context updates with the
calls' noise and evidence variate: the flag stays set and the true context is unchanged. -/
theorem ForgetBelief.calls_of_forgot {n m : Nat} (exp : K → K) :
    ∀ (cs : List (ForgetCall K)) (b : ForgetBelief K n m), b.forgot = true →
      ∃ b1, b.calls exp cs = .ok (List.replicate cs.length (-1), b1) ∧
        b1.forgot = true ∧ b1.trueContext = b.trueContext ∧
        b1.toBelief = Belief.run exp b.toBelief
          (cs.map (fun c => BaseCall.updateFromContext c.noise c.z)) := by
  intro cs
  induction cs with
  | nil =>
    intro b hb
    exact ⟨b, rfl, hb, rfl, rfl⟩
  | cons c cs ih =>
    intro b hb
    obtain ⟨b1, h1, h2, h3, h4⟩ := ih (b.plainUpdate exp c.noise c.z) hb
    refine ⟨b1, ?_, h2, h3, ?_⟩
    · rw [ForgetBelief.calls_cons, ForgetBelief.forgetCall,
        ForgetBelief.contextForgetUpdate_skip exp b _ _ _ _ _ _ (Or.inr hb)]
      simp only [h1]
      rfl
    · rw [h4]
      rfl

theorem testForgetBelief_forgets (exp : K → K) (noise z u2 : K) :
    (testForgetBelief : ForgetBelief K 2 2).contextForgetUpdate exp noise .Uniform (1 / 10) 1 u2 z
      = .ok (1, { (testForgetBelief : ForgetBelief K 2 2) with
          forgot := true
          toBelief := ({ (testForgetBelief : ForgetBelief K 2 2).toBelief with
            trueContext := 1 }).updateFromContext exp noise z }) := by
  have h0 : (testForgetBelief : ForgetBelief K 2 2).forgetProb ≠ 0 := by
    simp [testForgetBelief]
  have hu : (1 / 10 : K) < (testForgetBelief : ForgetBelief K 2 2).forgetProb := by
    simp only [testForgetBelief]
    norm_num
  rw [ForgetBelief.contextForgetUpdate_forget exp _ noise .Uniform _ 1 u2 z h0 rfl hu]
  have hc : DecayBelief.checkSubstitute (testForgetBelief : ForgetBelief K 2 2).nContexts
      (DecayBelief.drawSubstitute (testForgetBelief : ForgetBelief K 2 2).urPrior .Uniform 1 u2)
      = .ok 1 := by
    rw [DecayBelief.checkSubstitute_eq_ok_iff]
    simp [DecayBelief.drawSubstitute, RNG.runif_int, Belief.nContexts]
  rw [hc]

theorem testForgetBelief_keeps (exp : K → K) (noise z u2 : K) (r : Int) :
    (testForgetBelief : ForgetBelief K 2 2).contextForgetUpdate exp noise .Uniform (9 / 10) r u2 z
      = .ok (-1, (testForgetBelief : ForgetBelief K 2 2).plainUpdate exp noise z) := by
  apply ForgetBelief.contextForgetUpdate_keep
  simp only [testForgetBelief]
  norm_num

/-! ## C27 -/

/-- C27 (as the code has it): within one trial, which starts with the flag `_forgot`
unset by `reset()`, `ForgetBelief::contextForgetUpdate` performs the Bernoulli forget draw
on every call until one call forgets, not on the first call only. After calls that
returned `rets`, the flag is set exactly when some call returned a value other than `-1`.
The next call skips the draw and makes a plain context update returning `-1` when
`_forgetProb = 0` or an earlier call of the trial forgot; when `_forgetProb ≠ 0` and no
earlier call forgot, it tests the uniform variate `u` against `_forgetProb`: above, a plain
update returning `-1` that leaves the flag unset; below, it forgets, draws the substitute
`k`, and updates from `k`. -/
theorem forget_draw_until_forgotten {n m : Nat} (exp : K → K) (b b1 : ForgetBelief K n m)
    (cs : List (ForgetCall K)) (rets : List Int) (c : ForgetCall K)
    (hreset : b.forgot = false) (hrun : b.calls exp cs = .ok (rets, b1)) :
    (b1.forgot = true ↔ ∃ k ∈ rets, k ≠ -1) ∧
    (b.forgetProb = 0 ∨ (∃ k ∈ rets, k ≠ -1) →
      b1.forgetCall exp c = .ok (-1, b1.plainUpdate exp c.noise c.z)) ∧
    (b.forgetProb ≠ 0 → (∀ k ∈ rets, k = -1) →
      (¬ c.u < b.forgetProb →
        b1.forgetCall exp c = .ok (-1, b1.plainUpdate exp c.noise c.z) ∧
          (b1.plainUpdate exp c.noise c.z).forgot = false) ∧
      (c.u < b.forgetProb →
        b1.forgetCall exp c =
          match DecayBelief.checkSubstitute b1.nContexts
              (DecayBelief.drawSubstitute b1.urPrior c.forgetTo c.r c.u2) with
          | .error e => .error e
          | .ok k => .ok (k, { b1 with
              forgot := true
              toBelief :=
                ({ b1.toBelief with trueContext := k }).updateFromContext exp c.noise c.z }))) := by
  obtain ⟨h1, -, -, h4⟩ := ForgetBelief.calls_forgot exp cs b b1 rets hrun
  have hiff : b1.forgot = true ↔ ∃ k ∈ rets, k ≠ -1 := by
    rw [h4, hreset]
    simp
  refine ⟨hiff, ?_, ?_⟩
  · intro h
    apply ForgetBelief.contextForgetUpdate_skip
    rcases h with h | h
    · exact Or.inl (h1.trans h)
    · exact Or.inr (hiff.mpr h)
  · intro h0 hall
    have hf : b1.forgot = false := by
      cases hfb : b1.forgot
      · rfl
      · obtain ⟨k, hk, hne⟩ := hiff.mp hfb
        exact absurd (hall k hk) hne
    refine ⟨fun hu => ⟨?_, hf⟩, fun hu => ?_⟩
    · apply ForgetBelief.contextForgetUpdate_keep
      rw [h1]
      exact hu
    · apply ForgetBelief.contextForgetUpdate_forget
      · rw [h1]
        exact h0
      · exact hf
      · rw [h1]
        exact hu

/-- On the test engine with `_forgetProb = 0.5`, after a first call that did not forget
(uniform variate 0.9), the statement of C27 holds for a second call. -/
theorem forget_draw_until_forgotten_witness :
    (testForgetBelief : ForgetBelief ℝ 2 2).forgot = false ∧
    (testForgetBelief : ForgetBelief ℝ 2 2).calls Real.exp [⟨5, .Uniform, 9 / 10, 1, 0, 0⟩]
      = .ok ([-1], (testForgetBelief : ForgetBelief ℝ 2 2).plainUpdate Real.exp 5 0) ∧
    (((testForgetBelief : ForgetBelief ℝ 2 2).plainUpdate Real.exp 5 0).forgot = true ↔
      ∃ k ∈ [(-1 : Int)], k ≠ -1) :=
  have hrun : (testForgetBelief : ForgetBelief ℝ 2 2).calls Real.exp
      [⟨5, .Uniform, 9 / 10, 1, 0, 0⟩]
      = .ok ([-1], (testForgetBelief : ForgetBelief ℝ 2 2).plainUpdate Real.exp 5 0) := by
    rw [ForgetBelief.calls_cons, ForgetBelief.forgetCall, testForgetBelief_keeps]
    rfl
  ⟨rfl, hrun,
    (forget_draw_until_forgotten Real.exp testForgetBelief _ _ _ ⟨5, .Uniform, 1 / 10, 1, 0, 0⟩
      rfl hrun).1⟩

/-- With `_forgetProb = 0.5`, in one trial: the first call (uniform variate 0.9) does not
forget and returns `-1`; the second call (uniform variate 0.1, `Uniform` substitute 1)
performs the forget draw, forgets, returns 1 and stores 1 as the true context, where a
call that skipped the draw would have returned `-1`. -/
theorem forget_draw_counterexample :
    (testForgetBelief : ForgetBelief ℝ 2 2).reset.forgot = false ∧
    ∃ b2, (testForgetBelief : ForgetBelief ℝ 2 2).reset.calls Real.exp
        [⟨5, .Uniform, 9 / 10, 1, 0, 0⟩, ⟨5, .Uniform, 1 / 10, 1, 0, 0⟩] = .ok ([-1, 1], b2) ∧
      b2.forgot = true ∧ b2.trueContext = 1 := by
  refine ⟨rfl, ?_⟩
  have hreset : (testForgetBelief : ForgetBelief ℝ 2 2).reset = testForgetBelief := rfl
  have hplain : ((testForgetBelief : ForgetBelief ℝ 2 2).plainUpdate Real.exp 5 0).forgetProb
      = 1 / 2 := rfl
  have h0 : ((testForgetBelief : ForgetBelief ℝ 2 2).plainUpdate Real.exp 5 0).forgetProb ≠ 0 := by
    rw [hplain]
    norm_num
  have hu : (1 / 10 : ℝ)
      < ((testForgetBelief : ForgetBelief ℝ 2 2).plainUpdate Real.exp 5 0).forgetProb := by
    rw [hplain]
    norm_num
  have hc : DecayBelief.checkSubstitute
      ((testForgetBelief : ForgetBelief ℝ 2 2).plainUpdate Real.exp 5 0).nContexts
      (DecayBelief.drawSubstitute
        ((testForgetBelief : ForgetBelief ℝ 2 2).plainUpdate Real.exp 5 0).urPrior .Uniform 1 0)
      = .ok 1 := by
    rw [DecayBelief.checkSubstitute_eq_ok_iff]
    simp [DecayBelief.drawSubstitute, RNG.runif_int, Belief.nContexts]
  rw [hreset, ForgetBelief.calls_cons, ForgetBelief.forgetCall, testForgetBelief_keeps]
  simp only
  rw [ForgetBelief.calls_cons, ForgetBelief.forgetCall,
    ForgetBelief.contextForgetUpdate_forget Real.exp _ 5 .Uniform _ 1 0 0 h0 rfl hu, hc]
  exact ⟨_, rfl, rfl, rfl⟩

/-! ## C28 -/

/-- C28: if a call of `ForgetBelief::contextForgetUpdate` returns a substitute index
`k ≥ 0`, then `k < nContexts`, the stored true context is `k` and the flag `_forgot` is
set; every sequence of later `contextForgetUpdate` calls without a `reset()` returns,
each call returns `-1`, the state is the one left by plain context updates (no forget
draw and no substitute enters it), the stored true context is still `k`; and `reset()`
clears the flag. -/
theorem forgotten_context_is_kept {n m : Nat} (exp : K → K) (b b1 : ForgetBelief K n m)
    (noise : K) (forgetTo : PriorType) (u : K) (r : Int) (u2 z : K) (k : Int)
    (cs : List (ForgetCall K))
    (hcall : b.contextForgetUpdate exp noise forgetTo u r u2 z = .ok (k, b1))
    (hk : 0 ≤ k) :
    k < b.nContexts ∧ b1.trueContext = k ∧ b1.forgot = true ∧
    ∃ b2, b1.calls exp cs = .ok (List.replicate cs.length (-1), b2) ∧
      b2.trueContext = k ∧ b2.forgot = true ∧
      b2.toBelief = Belief.run exp b1.toBelief
        (cs.map (fun c => BaseCall.updateFromContext c.noise c.z)) ∧
      b2.reset.forgot = false ∧ b1.reset.forgot = false := by
  obtain ⟨-, -, h3⟩ := ForgetBelief.contextForgetUpdate_inv exp b b1 _ _ _ _ _ _ k hcall
  rcases h3 with ⟨r1, -⟩ | ⟨-, r1, -, -, -, r5, r6⟩
  · omega
  · obtain ⟨b2, i1, i2, i3, i4⟩ := ForgetBelief.calls_of_forgot exp cs b1 r5
    exact ⟨r1, r6, r5, b2, i1, i3.trans r6, i2, i4, rfl, rfl⟩

/-- On the test engine with `_forgetProb = 0.5`, a call with uniform variate 0.1 and
`Uniform` substitute 1 forgets and returns 1; two later calls whose uniform variates are
below `_forgetProb` return `-1` and keep the true context 1. -/
theorem forgotten_context_is_kept_witness :
    ∃ b1 b2, (testForgetBelief : ForgetBelief ℝ 2 2).contextForgetUpdate Real.exp 5 .Uniform
        (1 / 10) 1 0 0 = .ok (1, b1) ∧
      b1.calls Real.exp [⟨5, .Uniform, 1 / 10, 0, 0, 0⟩, ⟨5, .Informative, 0, 0, 0, 1⟩]
        = .ok ([-1, -1], b2) ∧
      b2.trueContext = 1 :=
  have hcall := testForgetBelief_forgets Real.exp 5 0 0
  have h := forgotten_context_is_kept Real.exp testForgetBelief _ 5 .Uniform (1 / 10) 1 0 0 1
    [⟨5, .Uniform, 1 / 10, 0, 0, 0⟩, ⟨5, .Informative, 0, 0, 0, 1⟩] hcall (by norm_num)
  ⟨_, h.2.2.2.choose, hcall, h.2.2.2.choose_spec.1, h.2.2.2.choose_spec.2.1⟩

/-! ## C29 -/

omit [LinearOrderedField K] in
theorem Belief.sameFrame_refl {n m : Nat} (b : Belief K n m) : b.SameFrame b :=
  ⟨rfl, rfl, rfl, rfl, rfl, rfl, rfl⟩

/-- C29: `Belief::updateFromContext`, `updateFromTarget`, `update` and `reset`, and the
decaying `DecayBelief::updateFromContext` in each of its branches (no decay, good
retrieval, substituted context, and the throwing range check), leave `_urPrior`, the
stored true context and true target, `_nContexts`, `_nTargets` and both spacings
unchanged; `reset` leaves the likelihood matrix unchanged too, and the decaying update
leaves the members added by `DecayBelief` unchanged. Only `_belief` and `_lik` are
outside this frame. -/
theorem updates_preserve_frame {n m : Nat} (exp : K → K) (b : Belief K n m)
    (d : DecayBelief K n m) (source : UpdateSource) (noise z trialTime : K)
    (decayTo : PriorType) (u : K) (r : Int) (u2 : K) :
    b.SameFrame (b.updateFromContext exp noise z) ∧
    b.SameFrame (b.updateFromTarget exp noise z) ∧
    b.SameFrame (b.update exp source noise z) ∧
    b.SameFrame b.reset ∧ b.reset.getLik = b.getLik ∧
    (∀ ret d1, d.updateFromContext exp noise trialTime decayTo u r u2 z = .ok (ret, d1) →
      d.toBelief.SameFrame d1.toBelief ∧ d1.contextMarginals = d.contextMarginals ∧
        d1.decayRate = d.decayRate) ∧
    (¬(d.decayRate = 0 ∨ trialTime = 0) → ¬ u < exp (-d.decayRate * trialTime) →
      ∀ k, DecayBelief.checkSubstitute d.nContexts
          (DecayBelief.drawSubstitute d.urPrior decayTo r u2) = .ok k →
        ∃ d1, d.updateFromContext exp noise trialTime decayTo u r u2 z = .ok (k, d1) ∧
          d.toBelief.SameFrame d1.toBelief) ∧
    d.toBelief.SameFrame
      (d.call exp (.decayUpdate noise trialTime decayTo u r u2 z)).toBelief := by
  have hdecay : ∀ ret d1,
      d.updateFromContext exp noise trialTime decayTo u r u2 z = .ok (ret, d1) →
      d.toBelief.SameFrame d1.toBelief ∧ d1.contextMarginals = d.contextMarginals ∧
        d1.decayRate = d.decayRate := by
    intro ret d1 h
    unfold DecayBelief.updateFromContext at h
    split_ifs at h with h0
    · simp only [Except.ok.injEq, Prod.mk.injEq] at h
      obtain ⟨-, h2⟩ := h
      subst h2
      exact ⟨⟨rfl, rfl, rfl, rfl, rfl, rfl, rfl⟩, rfl, rfl⟩
    · cases hs : d.sampleAndLikelihood exp noise trialTime decayTo u r u2 z with
      | error e => simp [hs] at h
      | ok p =>
        obtain ⟨ret1, b1⟩ := p
        obtain ⟨truth, hb1⟩ := DecayBelief.sampleAndLikelihood_ok exp d noise trialTime decayTo
          u r u2 z ret1 b1 hs
        simp only [hs, Except.ok.injEq, Prod.mk.injEq] at h
        obtain ⟨-, h2⟩ := h
        subst h2
        subst hb1
        exact ⟨⟨rfl, rfl, rfl, rfl, rfl, rfl, rfl⟩, rfl, rfl⟩
  refine ⟨⟨rfl, rfl, rfl, rfl, rfl, rfl, rfl⟩, ⟨rfl, rfl, rfl, rfl, rfl, rfl, rfl⟩,
    ⟨rfl, rfl, rfl, rfl, rfl, rfl, rfl⟩, ⟨rfl, rfl, rfl, rfl, rfl, rfl, rfl⟩, rfl, hdecay,
    ?_, ?_⟩
  · intro h0 hbad k hk
    have h := DecayBelief.updateFromContext_bad exp d noise trialTime decayTo u r u2 z h0 hbad
    rw [hk] at h
    exact ⟨_, h, (hdecay _ _ h).1⟩
  · simp only [DecayBelief.call]
    cases hu : d.updateFromContext exp noise trialTime decayTo u r u2 z with
    | error e => exact Belief.sameFrame_refl _
    | ok p =>
      obtain ⟨ret, d1⟩ := p
      exact (hdecay ret d1 hu).1

/-! ## C30 -/

/-- C30: `Belief::Belief` throws ("urPrior is not proper!") exactly when the entries of
the configured `urPrior` do not sum to 1, and `Task::Task` throws ("trialDist is not
proper!") exactly when the entries of `trialDist` do not sum to 1; a `urPrior` summing to 1
is accepted and is both the engine's `_urPrior` and its initial posterior, and a
`trialDist` summing to 1 is stored unchanged. -/
theorem ctor_fails_iff_sum_not_one {nd md n m : Nat} (c : TaskConfig K nd md n m)
    (r : Recorder K) :
    (Belief.ctor c.toConfig = .error "urPrior is not proper!" ↔ Mat.total c.urPrior ≠ 1) ∧
    ((∃ e, Belief.ctor c.toConfig = .error e) ↔ Mat.total c.urPrior ≠ 1) ∧
    (Task.ctor c r = .error "trialDist is not proper!" ↔ Mat.total c.trialDist ≠ 1) ∧
    ((∃ e, Task.ctor c r = .error e) ↔ Mat.total c.trialDist ≠ 1) ∧
    (Mat.total c.urPrior = 1 ↔
      ∃ b, Belief.ctor c.toConfig = .ok b ∧ b.urPrior = c.urPrior ∧
        b.getBelief = c.urPrior) ∧
    (Mat.total c.trialDist = 1 ↔
      ∃ t, Task.ctor c r = .ok t ∧ t.trialDist = c.trialDist) := by
  have hb : ∀ e, Belief.ctor c.toConfig = .error e → Mat.total c.urPrior ≠ 1 := by
    intro e h hsum
    obtain ⟨b, hb⟩ := Belief.ctor_of_total c.toConfig hsum
    rw [hb] at h
    cases h
  have hb2 : Mat.total c.urPrior ≠ 1 →
      Belief.ctor c.toConfig = .error "urPrior is not proper!" := by
    intro h
    unfold Belief.ctor
    rw [Mat.kahanSum_elems, if_pos h]
  have ht : ∀ e, Task.ctor c r = .error e → Mat.total c.trialDist ≠ 1 := by
    intro e h hsum
    rw [Task.task_ctor_of_total c r hsum] at h
    cases h
  have ht2 : Mat.total c.trialDist ≠ 1 →
      Task.ctor c r = .error "trialDist is not proper!" := by
    intro h
    unfold Task.ctor
    rw [Mat.kahanSum_elems, if_pos h]
  refine ⟨⟨hb _, hb2⟩, ⟨fun ⟨e, h⟩ => hb e h, fun h => ⟨_, hb2 h⟩⟩, ⟨ht _, ht2⟩,
    ⟨fun ⟨e, h⟩ => ht e h, fun h => ⟨_, ht2 h⟩⟩, ⟨?_, ?_⟩, ⟨?_, ?_⟩⟩
  · intro h
    obtain ⟨b, hb⟩ := Belief.ctor_of_total c.toConfig h
    obtain ⟨-, h2, h3, -⟩ := Belief.ctor_ok c.toConfig b hb
    exact ⟨b, hb, h2, h3⟩
  · rintro ⟨b, hb, -⟩
    exact (Belief.ctor_ok c.toConfig b hb).1
  · intro h
    exact ⟨_, Task.task_ctor_of_total c r h, rfl⟩
  · rintro ⟨t, h, -⟩
    by_contra hne
    rw [ht2 hne] at h
    cases h

/-! ## The memory-only phase of `AxcptTask::run` (C21, C26) -/

theorem AxcptRun.precomputeStep_time {S : Type} {nd md n m : Nat} (exp : K → K)
    (src : RandomSource K S) (s s1 : AxcptRun K S nd md n m)
    (h : s.precomputeStep exp src = .ok s1) :
    ∃ u r u2 z, s1.calls = s.calls ++ [.decayUpdate s.task.retentionNoise
      (s.task.trialTime + s.task.timePerStep) s.task.decayTo u r u2 z] := by
  unfold AxcptRun.precomputeStep at h
  cases hr : s.recordBelief with
  | error e => simp [hr] at h
  | ok s2 =>
    simp only [hr] at h
    obtain ⟨hs2, -⟩ := s.axcpt_update_inv s2 _ _ hr
    subst hs2
    obtain ⟨-, -, -, u, r, u2, z, hc⟩ := AxcptRun.decayingUpdate_locals exp src _ _ _ h
    exact ⟨u, r, u2, z, hc⟩

theorem AxcptRun.iterate_precomputeStep_times {S : Type} {nd md n m : Nat} (exp : K → K)
    (src : RandomSource K S) :
    ∀ (k : Nat) (s s1 : AxcptRun K S nd md n m),
      iterate (AxcptRun.precomputeStep exp src) k s = .ok s1 →
      ∃ L : List (Call K), s1.calls = s.calls ++ L ∧
        L.map Call.decayTime = (List.range k).map
          (fun (j : Nat) => some (s.task.trialTime + ((j : K) + 1) * s.task.timePerStep)) := by
  intro k
  induction k with
  | zero =>
    intro s s1 h
    simp only [iterate, Except.ok.injEq] at h
    subst h
    exact ⟨[], by simp, rfl⟩
  | succ k ih =>
    intro s s1 h
    rw [iterate_succ] at h
    cases hb : s.precomputeStep exp src with
    | error e => simp [hb] at h
    | ok s2 =>
      simp only [hb] at h
      obtain ⟨f1, t1, -⟩ := AxcptRun.precomputeStep_spec exp src s s2 hb
      obtain ⟨u, r, u2, z, hc⟩ := AxcptRun.precomputeStep_time exp src s s2 hb
      obtain ⟨L, hL, hmap⟩ := ih s2 s1 h
      refine ⟨Call.decayUpdate s.task.retentionNoise (s.task.trialTime + s.task.timePerStep)
        s.task.decayTo u r u2 z :: L, ?_, ?_⟩
      · rw [hL, hc]
        simp
      · rw [List.range_succ_eq_map, List.map_cons, List.map_cons, List.map_map, hmap]
        congr 1
        · simp [Call.decayTime]
        · apply List.map_congr_left
          intro j _
          simp only [Function.comp, t1, f1.timePerStep]
          congr 1
          push_cast
          ring

theorem AxcptTask.axcpt_prelude_times [FloorRing K] {S : Type} {nd md n m : Nat}
    (exp : K → K) (src : RandomSource K S) (t : AxcptTask K nd md n m) (g : S)
    (s0 : AxcptRun K S nd md n m) (h : t.prelude exp src g = .ok s0) :
    ∃ (c1 c2 : Call K) (L : List (Call K)), s0.calls = [c1, c2] ++ L ∧
      L.map Call.decayTime =
        (List.range (truncToInt (t.retentionIntervalDur / t.timePerStep) % 2 ^ 32).toNat).map
          (fun (j : Nat) => some (((j : K) + 1) * t.timePerStep)) := by
  unfold AxcptTask.prelude at h
  simp only [bind, Except.bind] at h
  cases hst : t.start src g with
  | error e => simp [hst] at h
  | ok s =>
    simp only [hst] at h
    cases hp : s.precomputeSamples exp src with
    | error e => simp [hp] at h
    | ok s1 =>
      simp only [hp, Except.ok.injEq] at h
      subst h
      obtain ⟨c1, -, -, -, c5, c6, -, c8, -⟩ := AxcptTask.axcpt_start_spec src t g s hst
      rw [AxcptRun.precomputeSamples] at hp
      cases hi : iterate (AxcptRun.precomputeStep exp src)
          (s.task.nPrecomputeSamps % 2 ^ 32).toNat s with
      | error e =>
        rw [hi] at hp
        cases hp
      | ok s2 =>
        rw [hi] at hp
        simp only [] at hp
        obtain ⟨h1, -, -⟩ := AxcptRun.axcpt_updateEvent_inv _ _ _ _ _ hp
        subst h1
        obtain ⟨L, hL, hmap⟩ := AxcptRun.iterate_precomputeStep_times exp src _ _ _ hi
        refine ⟨.base (.setTrueStim s.task.context s.task.target), .base .reset, L, ?_, ?_⟩
        · show s2.calls = _
          rw [hL, c1]
        · rw [hmap, c5, c6, c8]
          simp only [zero_add]

theorem truncToInt_natCast [FloorRing K] (N : Nat) : truncToInt ((N : Nat) : K) = (N : Int) := by
  unfold truncToInt
  rw [if_pos (Nat.cast_nonneg N)]
  exact Int.floor_natCast N

theorem retentionAxcptTask_ctor (sqrt : K → K) (ret : K) :
    AxcptTask.ctor sqrt (retentionConfig ret) (registeredRecorder AxcptTask.datumNames)
      = .ok (retentionAxcptTask ret) := by
  have hb : DecayBelief.ctor (retentionConfig ret).toConfig
      = .ok ⟨testBelief0, rowSums testPrior, 0⟩ := by
    have h : Belief.ctor (retentionConfig ret).toConfig = .ok testBelief0 :=
      testBelief0_ctor
    unfold DecayBelief.ctor
    rw [h]
    rfl
  have ht := Task.task_ctor_of_total (retentionConfig ret)
    (registeredRecorder AxcptTask.datumNames) testTrialDist_total
  have hn : AxcptTask.noises sqrt (retentionConfig ret) = .ok (3, 3) := by
    simp [AxcptTask.noises, retentionConfig, prematureConfig, defaultTaskConfig, Config.get,
      bind, Except.bind]
  unfold AxcptTask.ctor
  rw [ht, hb, hn]
  simp only [bind, Except.bind, retentionConfig, prematureConfig, defaultTaskConfig]
  norm_num
  rfl

theorem retentionAxcptTask_prelude [FloorRing K] (exp : K → K) (ret : K) (hret : 0 ≤ ret)
    (g : Nat) :
    ∃ s0, (retentionAxcptTask ret).prelude exp (countingSource (1 / 4) 0 0 50) g = .ok s0 ∧
      s0.KeysRegistered ∧ (s0.prematureDraw (countingSource (1 / 4) 0 0 50)).1 = true := by
  obtain ⟨s0, h, hk⟩ := AxcptTask.axcpt_prelude_ok exp (countingSource (1 / 4 : K) 0 0 50)
    (countingSource_gamma_nonneg _ _ _ _ (by norm_num)) (retentionAxcptTask ret) g
    testTrialDist_total (by rw [countingSource_runif]; norm_num)
    (by rw [countingSource_runif]; norm_num) le_rfl le_rfl
    (fun name hname c hc tt htt => mem_registeredKeys 2 2 _ name c tt hname hc htt)
    rfl hret (by show (0 : K) < 10; norm_num)
  refine ⟨s0, h, hk, ?_⟩
  obtain ⟨-, -, -, -, -, -, -, -, -, -, hp, -, -⟩ :=
    AxcptTask.axcpt_prelude_spec _ _ _ _ _ h
  rw [(AxcptRun.axcpt_prematureDraw_spec _ s0).2.2.2.2.2, hp]
  constructor
  · show (0 : K) < 1
    norm_num
  · show (1 / 4 : K) < 1
    norm_num

/-- C21 (the code diverges): with `retentionIntervalDur = 15` and `timePerStep = 10`,
not an integer multiple, `AxcptTask::AxcptTask` returns the task, the memory-only phase of
`run()` makes `int(15 / 10) = 1` decaying update and leaves the trial clock at 10, and
`run()` returns: no configuration error is reported at construction or at first use. -/
theorem retention_not_divisible_runs :
    (∀ k : Int, (retentionConfig (15 : ℝ)).retentionIntervalDur
      ≠ (k : ℝ) * (retentionConfig (15 : ℝ)).timePerStep) ∧
    AxcptTask.ctor Real.sqrt (retentionConfig (15 : ℝ))
      (registeredRecorder AxcptTask.datumNames) = .ok (retentionAxcptTask 15) ∧
    ∃ s0 sf L, (retentionAxcptTask (15 : ℝ)).prelude Real.exp
        (countingSource (1 / 4) 0 0 50) 0 = .ok s0 ∧
      s0.calls = [.base (.setTrueStim s0.task.context s0.task.target), .base .reset] ++ L ∧
      L.length = 1 ∧ (∀ c ∈ L, Call.IsDecayUpdateWith 3 c) ∧
      s0.task.trialTime = 10 ∧
      (retentionAxcptTask (15 : ℝ)).run Real.exp (countingSource (1 / 4) 0 0 50) 0
        = .ok sf := by
  have htrunc : ((truncToInt ((15 : ℝ) / 10) % 2 ^ 32).toNat) = 1 := by
    have h1 : truncToInt ((15 : ℝ) / 10) = 1 := by
      unfold truncToInt
      rw [if_pos (by norm_num)]
      rw [Int.floor_eq_iff]
      constructor <;> norm_num
    rw [h1]
    decide
  refine ⟨?_, retentionAxcptTask_ctor Real.sqrt 15, ?_⟩
  · intro k hk
    have h2 : ((15 : Int) : ℝ) = ((k * 10 : Int) : ℝ) := by
      push_cast
      simpa [retentionConfig, prematureConfig, defaultTaskConfig] using hk
    have h3 : (15 : Int) = k * 10 := by exact_mod_cast h2
    omega
  · obtain ⟨s0, hp, hk, hd⟩ := @retentionAxcptTask_prelude ℝ _ _ Real.exp 15 (by norm_num) 0
    obtain ⟨⟨L, hL, hlen, hall⟩, -, -, -, -, htime, -⟩ :=
      AxcptTask.axcpt_prelude_spec _ _ _ _ _ hp
    have hgam := countingSource_gamma_nonneg (1 / 4 : ℝ) 0 0 50 (by norm_num)
    obtain ⟨htask, -⟩ := AxcptRun.axcpt_prematureDraw_spec (countingSource (1 / 4 : ℝ) 0 0 50) s0
    have hk2 : (s0.prematureDraw (countingSource (1 / 4 : ℝ) 0 0 50)).2.KeysRegistered := by
      intro name hname
      rw [htask]
      exact hk name hname
    have hlen1 : L.length = 1 := by
      rw [hlen]
      exact htrunc
    have htime1 : s0.task.trialTime = 10 := by
      rw [htime]
      show (((truncToInt ((15 : ℝ) / 10) % 2 ^ 32).toNat : Nat) : ℝ) * 10 = 10
      rw [htrunc]
      norm_num
    refine ⟨s0, (s0.prematureDraw (countingSource (1 / 4 : ℝ) 0 0 50)).2.prematureResult
      (countingSource (1 / 4 : ℝ) 0 0 50), L, hp, hL, hlen1, hall, htime1, ?_⟩
    rw [AxcptTask.axcpt_run_eq Real.exp _ _ _ s0 hp, if_pos hd,
      AxcptRun.axcpt_prematureBranch_ok _ hgam _ hk2]

/-! ## C26 -/

/-- C26: when `retentionIntervalDur = N·timePerStep` for a natural number `N` in the range
of `int` and `timePerStep ≠ 0`, a memory-only phase of `AxcptTask::run` that returns has
made, after `setTrueStim` and `reset`, exactly `N` calls on the belief, all of them the
decaying `updateFromContext` with `retentionNoise` (no target update), the `j`-th with
elapsed trial time `j·timePerStep` (`j = 1..N`), and leaves the trial clock at
`retentionIntervalDur`. With a positive `timePerStep`, no decay (`decayRate = 0`), a proper
trial distribution, registered keys and a source whose gamma variates are not negative,
the phase returns. -/
theorem memory_phase_steps [FloorRing K] {S : Type} {nd md n m : Nat} (exp : K → K)
    (src : RandomSource K S) (t : AxcptTask K nd md n m) (g : S) (N : Nat)
    (hdiv : t.retentionIntervalDur = (N : K) * t.timePerStep) (htps : t.timePerStep ≠ 0)
    (hN : N < 2 ^ 31) :
    (∀ s0, t.prelude exp src g = .ok s0 →
      ∃ L : List (Call K),
        s0.calls = [.base (.setTrueStim s0.task.context s0.task.target), .base .reset] ++ L ∧
        L.length = N ∧
        (∀ c ∈ L, Call.IsDecayUpdateWith t.retentionNoise c) ∧
        L.map Call.decayTime
          = (List.range N).map (fun (j : Nat) => some (((j : K) + 1) * t.timePerStep)) ∧
        s0.task.trialTime = t.retentionIntervalDur) ∧
    ((∀ k theta g1, 0 ≤ (src.rgammaRaw k theta g1).1) → Mat.total t.trialDist = 1 →
      0 < (src.runif 1 g).1 → (src.runif 1 g).1 ≤ 1 → nd ≤ n → md ≤ m →
      (∀ name ∈ AxcptTask.datumNames, ∀ c < nd, ∀ tt < md,
        Task.labelOf c tt ++ name ∈ t.recorder.keys) →
      t.belief.decayRate = 0 → 0 < t.timePerStep →
      ∃ s0, t.prelude exp src g = .ok s0) := by
  have hq : t.retentionIntervalDur / t.timePerStep = (N : K) := by
    rw [hdiv, mul_div_assoc, div_self htps, mul_one]
  have hk : (truncToInt (t.retentionIntervalDur / t.timePerStep) % 2 ^ 32).toNat = N := by
    rw [hq, truncToInt_natCast]
    omega
  constructor
  · intro s0 h
    obtain ⟨⟨L, hL, hlen, hall⟩, -, -, -, -, htime, -⟩ :=
      AxcptTask.axcpt_prelude_spec _ _ _ _ _ h
    obtain ⟨c1, c2, L1, hL1, hmap⟩ := AxcptTask.axcpt_prelude_times _ _ _ _ _ h
    have hLL : L = L1 := by
      rw [hL] at hL1
      exact (List.append_inj hL1 rfl).2
    subst hLL
    refine ⟨L, hL, hlen.trans hk, hall, ?_, ?_⟩
    · rw [hmap, hk]
    · rw [htime, hk, hdiv]
  · intro hgam htot hp0 hp1 hn hm hreg hdecay hpos
    have hret : 0 ≤ t.retentionIntervalDur := by
      rw [hdiv]
      exact mul_nonneg (Nat.cast_nonneg N) hpos.le
    obtain ⟨s0, h, -⟩ := AxcptTask.axcpt_prelude_ok exp src hgam t g htot hp0 hp1 hn hm hreg
      hdecay hret hpos
    exact ⟨s0, h⟩

/-- The AX-CPT fixture with `retentionIntervalDur = 20 = 2·timePerStep`: the memory-only
phase returns after two decaying updates, at elapsed times 10 and 20, with the clock
at 20. -/
theorem memory_phase_steps_witness :
    (retentionAxcptTask (20 : ℝ)).retentionIntervalDur
      = ((2 : Nat) : ℝ) * (retentionAxcptTask (20 : ℝ)).timePerStep ∧
    (retentionAxcptTask (20 : ℝ)).timePerStep ≠ 0 ∧
    ∃ s0 L, (retentionAxcptTask (20 : ℝ)).prelude Real.exp
        (countingSource (1 / 4) 0 0 50) 0 = .ok s0 ∧
      s0.calls = [.base (.setTrueStim s0.task.context s0.task.target), .base .reset] ++ L ∧
      L.length = 2 ∧
      L.map Call.decayTime = [some 10, some 20] ∧
      s0.task.trialTime = 20 :=
  have hdiv : (retentionAxcptTask (20 : ℝ)).retentionIntervalDur
      = ((2 : Nat) : ℝ) * (retentionAxcptTask (20 : ℝ)).timePerStep := by
    show (20 : ℝ) = ((2 : Nat) : ℝ) * 10
    norm_num
  have htps : (retentionAxcptTask (20 : ℝ)).timePerStep ≠ 0 := by
    show (10 : ℝ) ≠ 0
    norm_num
  have h := memory_phase_steps Real.exp (countingSource (1 / 4 : ℝ) 0 0 50)
    (retentionAxcptTask 20) 0 2 hdiv htps (by norm_num)
  have hp := @retentionAxcptTask_prelude ℝ _ _ Real.exp 20 (by norm_num) 0
  have hs := h.1 hp.choose hp.choose_spec.1
  ⟨hdiv, htps, hp.choose, hs.choose, hp.choose_spec.1, hs.choose_spec.1, hs.choose_spec.2.1,
    by
      rw [hs.choose_spec.2.2.2.1]
      show [some ((((0 : Nat) : ℝ) + 1) * 10), some ((((1 : Nat) : ℝ) + 1) * 10)]
        = [some 10, some 20]
      norm_num,
    hs.choose_spec.2.2.2.2⟩

/-! ## The result of a committed trial of `FlankerTask::run` -/

theorem FlankerRun.flanker_committed_log [FloorRing K] {S : Type} {nd md n m : Nat}
    (src : RandomSource K S) (s : FlankerRun K S nd md n m) :
    (s.committed src).task.recorder.log = s.task.recorder.log ++
      [(s.task.trialLabel ++ "motorPlanEvent", .event s.task.trialTime
          (s.task.trialTime + (s.task.arch.drawMotorPlanning src s.rng).1)),
       (s.task.trialLabel ++ "Resp", .scalar ((s.resp : Int) : K)),
       (s.task.trialLabel ++ "Acc", .scalar ((s.acc : Int) : K))] := by
  simp [FlankerRun.committed, FlankerRun.logged, FlankerRun.resp, FlankerRun.acc]

theorem FlankerRun.flanker_committed_frame [FloorRing K] {S : Type} {nd md n m : Nat}
    (src : RandomSource K S) (s : FlankerRun K S nd md n m) :
    s.SameTrial (s.committed src) ∧ (s.committed src).task.trialTime = s.task.trialTime ∧
      (s.committed src).calls = s.calls ∧ (s.committed src).dv = s.dv :=
  ⟨⟨rfl, rfl, rfl, rfl, rfl, rfl, rfl, rfl, rfl, rfl, rfl, rfl, rfl, rfl, rfl, rfl⟩, rfl, rfl,
    rfl⟩

theorem FlankerRun.flanker_executed_log [FloorRing K] {S : Type} {nd md n m : Nat}
    (src : RandomSource K S) (s : FlankerRun K S nd md n m) :
    (s.executed src).task.recorder.log = s.task.recorder.log ++
      [(s.task.trialLabel ++ "motorExecEvent", .event s.task.trialTime
          (s.task.trialTime + (s.task.arch.drawMotorExec src s.rng).1)),
       (s.task.trialLabel ++ "RT", .scalar
          (s.task.trialTime + (s.task.arch.drawMotorExec src s.rng).1 + s.eblDur))] := by
  simp [FlankerRun.executed, FlankerRun.logged]

theorem FlankerRun.flanker_executed_frame [FloorRing K] {S : Type} {nd md n m : Nat}
    (src : RandomSource K S) (s : FlankerRun K S nd md n m) :
    s.SameTrial (s.executed src) ∧ (s.executed src).task.trialTime = s.task.trialTime ∧
      (s.executed src).calls = s.calls ∧ (s.executed src).dv = s.dv :=
  ⟨⟨rfl, rfl, rfl, rfl, rfl, rfl, rfl, rfl, rfl, rfl, rfl, rfl, rfl, rfl, rfl, rfl⟩, rfl, rfl,
    rfl⟩

/-- The state in which the commit block of `FlankerTask::run` ends, from the state `s`
in which it is entered: the clock, the calls on the belief and the entries appended to
the log. -/
theorem FlankerRun.flanker_commit_result [FloorRing K] {S : Type} {nd md n m : Nat}
    (exp : K → K) (src : RandomSource K S) (s s5 : FlankerRun K S nd md n m)
    (hit : iterate (FlankerRun.planStep exp src) (s.planSamps src) (s.committed src)
      = .ok s5) :
    s5.task.trialTime = s.task.trialTime + (s.planSamps src : K) * s.task.timePerStep ∧
    s.SameTrial s5 ∧
    (∃ C : List (BaseCall K), s5.calls = s.calls ++ C ∧ C.length = 2 * s.planSamps src) ∧
    ∃ P : List (String × Obs K), P.length = s.planSamps src ∧
      (∀ e ∈ P, e.1 = s.task.trialLabel ++ "post") ∧
      (s5.executed src).task.recorder.log = s.task.recorder.log ++
        [(s.task.trialLabel ++ "motorPlanEvent", .event s.task.trialTime
            (s.task.trialTime + (s.task.arch.drawMotorPlanning src s.rng).1)),
         (s.task.trialLabel ++ "Resp", .scalar ((s.resp : Int) : K)),
         (s.task.trialLabel ++ "Acc", .scalar ((s.acc : Int) : K))] ++ P ++
        [(s.task.trialLabel ++ "motorExecEvent", .event s5.task.trialTime
            (s5.task.trialTime + (s.task.arch.drawMotorExec src s5.rng).1)),
         (s.task.trialLabel ++ "RT", .scalar
            (s5.task.trialTime + (s.task.arch.drawMotorExec src s5.rng).1 + s.eblDur))] := by
  obtain ⟨f, -, ht, ⟨P, hP, hlen, hkey⟩, ⟨C, hC, hClen⟩⟩ :=
    FlankerRun.flanker_iterate_planStep_spec exp src _ _ _ hit
  obtain ⟨f0, t0, c0, -⟩ := FlankerRun.flanker_committed_frame src s
  have f1 := FlankerRun.flanker_sameTrial_trans _ _ _ f0 f
  refine ⟨?_, f1, ⟨C, ?_, hClen⟩, P, hlen, ?_, ?_⟩
  · rw [ht, t0, f0.timePerStep]
  · rw [hC, c0]
  · intro e he
    rw [hkey e he, f0.trialLabel]
  · rw [FlankerRun.flanker_executed_log, hP, FlankerRun.flanker_committed_log, f1.trialLabel,
      f1.arch, f1.eblDur]

/-- A non-premature trial of `FlankerTask::run` that crosses on pass `j + 1 ≤ maxSamps`
returns: the commit block runs in the state `sk` left by that pass, and the sampling event
is recorded last. -/
theorem FlankerRun.flanker_accumulate_ok [FloorRing K] {S : Type} {nd md n m : Nat}
    (exp : K → K) (src : RandomSource K S)
    (hgam : ∀ k theta g, 0 ≤ (src.rgammaRaw k theta g).1)
    (s sk : FlankerRun K S nd md n m) (j : Nat) (hkeys : s.KeysRegistered)
    (htps : 0 ≤ s.task.timePerStep) (hstart : s.sampStart ≤ s.task.trialTime)
    (hj : j < s.task.maxSamps.toNat)
    (hcross : CrossesAfter (FlankerRun.accStep exp src) FlankerRun.stop j s)
    (hit : iterate (FlankerRun.accStep exp src) (j + 1) s = .ok sk) :
    ∃ s5, iterate (FlankerRun.planStep exp src) (sk.planSamps src) (sk.committed src)
        = .ok s5 ∧
      s.accumulate exp src = .ok ((s5.executed src).logged "samplingEvent"
        (.event s.sampStart s5.task.trialTime)) := by
  obtain ⟨fk, -⟩ := FlankerRun.flanker_iterate_accStep_spec exp src _ _ _ hit
  have tk := FlankerRun.flanker_iterate_accStep_time exp src _ _ _ hit
  have hkk : sk.KeysRegistered := by
    intro name hname
    rw [fk.trialLabel, fk.keys]
    exact hkeys name hname
  obtain ⟨s5, hplan, hcommit⟩ := FlankerRun.flanker_commit_ok exp src hgam sk hkk
  obtain ⟨t5, f5, -, -⟩ := FlankerRun.flanker_commit_result exp src sk s5 hplan
  obtain ⟨fe, te, -, -⟩ := FlankerRun.flanker_executed_frame src s5
  have fall := FlankerRun.flanker_sameTrial_trans _ _ _
    (FlankerRun.flanker_sameTrial_trans _ _ _ fk f5) fe
  refine ⟨s5, hplan, ?_⟩
  rw [FlankerRun.flanker_accumulate_of_crosses exp src s sk j hj hcross hit, hcommit]
  simp only
  rw [fall.sampStart, te]
  apply FlankerRun.flanker_updateEvent_ok
  · rw [t5, tk, fk.timePerStep]
    have h1 : 0 ≤ ((j + 1 : Nat) : K) * s.task.timePerStep :=
      mul_nonneg (Nat.cast_nonneg _) htps
    have h2 : 0 ≤ (sk.planSamps src : K) * s.task.timePerStep :=
      mul_nonneg (Nat.cast_nonneg _) htps
    linarith
  · rw [fall.trialLabel, fall.keys]
    exact hkeys "samplingEvent" (by simp [FlankerTask.datumNames])

/-- The result of a non-premature trial of `FlankerTask::run` that crosses on pass
`j + 1 ≤ maxSamps`. -/
theorem FlankerTask.flanker_run_of_crosses [FloorRing K] {S : Type} {nd md n m : Nat}
    (exp : K → K) (src : RandomSource K S)
    (hgam : ∀ k theta g, 0 ≤ (src.rgammaRaw k theta g).1)
    (t : FlankerTask K nd md n m) (g : S) (s0 sk : FlankerRun K S nd md n m) (j : Nat)
    (hprel : t.prelude src g = .ok s0) (hprem : (s0.prematureDraw src).1 = false)
    (hkeys : s0.KeysRegistered) (htps : 0 ≤ t.timePerStep) (hj : j < t.maxSamps.toNat)
    (hcross : CrossesAfter (FlankerRun.accStep exp src) FlankerRun.stop j
      (s0.prematureDraw src).2)
    (hit : iterate (FlankerRun.accStep exp src) (j + 1) (s0.prematureDraw src).2 = .ok sk) :
    ∃ s5, iterate (FlankerRun.planStep exp src) (sk.planSamps src) (sk.committed src)
        = .ok s5 ∧
      t.run exp src g = .ok ((s5.executed src).logged "samplingEvent"
        (.event 0 s5.task.trialTime)) := by
  obtain ⟨-, -, -, -, hstart, htime, hms, htp, -, -, -, -⟩ :=
    FlankerTask.flanker_prelude_spec src t g s0 hprel
  obtain ⟨htask, -, -, hss, -, -⟩ := FlankerRun.flanker_prematureDraw_spec src s0
  obtain ⟨s5, hplan, hacc⟩ := FlankerRun.flanker_accumulate_ok exp src hgam
    (s0.prematureDraw src).2 sk j
    (by
      intro name hname
      rw [htask]
      exact hkeys name hname)
    (by rw [htask, htp]; exact htps)
    (by rw [htask, hss, hstart, htime])
    (by rw [htask, hms]; exact hj) hcross hit
  refine ⟨s5, hplan, ?_⟩
  rw [FlankerTask.flanker_run_eq exp src t g s0 hprel, if_neg (by rw [hprem]; decide), hacc,
    hss, hstart]

/-! ## The result of a committed trial of `AxcptTask::run` -/

theorem AxcptRun.axcpt_committed_log [FloorRing K] {S : Type} {nd md n m : Nat}
    (src : RandomSource K S) (s : AxcptRun K S nd md n m) :
    (s.committed src).task.recorder.log = s.task.recorder.log ++
      [(s.task.trialLabel ++ "motorPlanEvent", .event s.task.trialTime
          (s.task.trialTime + (s.task.arch.drawMotorPlanning src s.rng).1)),
       (s.task.trialLabel ++ "Resp", .scalar ((s.resp : Int) : K)),
       (s.task.trialLabel ++ "Acc", .scalar ((s.acc : Int) : K))] := by
  simp [AxcptRun.committed, AxcptRun.logged, AxcptRun.resp, AxcptRun.acc]

theorem AxcptRun.axcpt_committed_frame [FloorRing K] {S : Type} {nd md n m : Nat}
    (src : RandomSource K S) (s : AxcptRun K S nd md n m) :
    s.SameTrial (s.committed src) ∧ (s.committed src).task.trialTime = s.task.trialTime ∧
      (s.committed src).calls = s.calls ∧ (s.committed src).dv = s.dv :=
  ⟨⟨rfl, rfl, rfl, rfl, rfl, rfl, rfl, rfl, rfl, rfl, rfl, rfl, rfl, rfl, rfl, rfl, rfl, rfl,
    rfl, rfl, rfl⟩, rfl, rfl, rfl⟩

theorem AxcptRun.axcpt_executed_log [FloorRing K] {S : Type} {nd md n m : Nat}
    (src : RandomSource K S) (acc : Int) (s : AxcptRun K S nd md n m) :
    (s.executed src acc).task.recorder.log = s.task.recorder.log ++
      [(s.task.trialLabel ++ "motorExecEvent", .event s.task.trialTime
          (s.task.trialTime + (s.task.arch.drawMotorExec src s.rng).1)),
       (s.task.trialLabel ++ "RT", .scalar
          (s.task.trialTime + (s.task.arch.drawMotorExec src s.rng).1
            - s.task.retentionIntervalDur + s.eblDur)),
       (s.task.trialLabel ++ (if acc = 1 then "CorrectRT" else "IncorrectRT"), .scalar
          (s.task.trialTime + (s.task.arch.drawMotorExec src s.rng).1
            - s.task.retentionIntervalDur + s.eblDur))] := by
  simp [AxcptRun.executed, AxcptRun.logged]

theorem AxcptRun.axcpt_executed_frame [FloorRing K] {S : Type} {nd md n m : Nat}
    (src : RandomSource K S) (acc : Int) (s : AxcptRun K S nd md n m) :
    s.SameTrial (s.executed src acc) ∧
      (s.executed src acc).task.trialTime = s.task.trialTime ∧
      (s.executed src acc).calls = s.calls ∧ (s.executed src acc).dv = s.dv :=
  ⟨⟨rfl, rfl, rfl, rfl, rfl, rfl, rfl, rfl, rfl, rfl, rfl, rfl, rfl, rfl, rfl, rfl, rfl, rfl,
    rfl, rfl, rfl⟩, rfl, rfl, rfl⟩

/-- The state in which the commit block of `AxcptTask::run` ends, from the state `s` in
which it is entered: the clock, the calls on the belief and the entries appended to the
log. -/
theorem AxcptRun.axcpt_commit_result [FloorRing K] {S : Type} {nd md n m : Nat}
    (exp : K → K) (src : RandomSource K S) (s s5 : AxcptRun K S nd md n m)
    (hit : iterate (AxcptRun.planStep exp src) (s.planSamps src) (s.committed src)
      = .ok s5) :
    s5.task.trialTime = s.task.trialTime + (s.planSamps src : K) * s.task.timePerStep ∧
    s.SameTrial s5 ∧
    (∃ C : List (Call K), s5.calls = s.calls ++ C ∧ C.length = 2 * s.planSamps src) ∧
    ∃ P : List (String × Obs K), P.length = s.planSamps src ∧
      (∀ e ∈ P, e.1 = s.task.trialLabel ++ "post") ∧
      (s5.executed src s.acc).task.recorder.log = s.task.recorder.log ++
        [(s.task.trialLabel ++ "motorPlanEvent", .event s.task.trialTime
            (s.task.trialTime + (s.task.arch.drawMotorPlanning src s.rng).1)),
         (s.task.trialLabel ++ "Resp", .scalar ((s.resp : Int) : K)),
         (s.task.trialLabel ++ "Acc", .scalar ((s.acc : Int) : K))] ++ P ++
        [(s.task.trialLabel ++ "motorExecEvent", .event s5.task.trialTime
            (s5.task.trialTime + (s.task.arch.drawMotorExec src s5.rng).1)),
         (s.task.trialLabel ++ "RT", .scalar
            (s5.task.trialTime + (s.task.arch.drawMotorExec src s5.rng).1
              - s.task.retentionIntervalDur + s.eblDur)),
         (s.task.trialLabel ++ (if s.acc = 1 then "CorrectRT" else "IncorrectRT"), .scalar
            (s5.task.trialTime + (s.task.arch.drawMotorExec src s5.rng).1
              - s.task.retentionIntervalDur + s.eblDur))] := by
  obtain ⟨f, -, ht, ⟨P, hP, hlen, hkey⟩, ⟨C, hC, hClen⟩⟩ :=
    AxcptRun.axcpt_iterate_planStep_spec exp src _ _ _ hit
  obtain ⟨f0, t0, c0, -⟩ := AxcptRun.axcpt_committed_frame src s
  have f1 := AxcptRun.sameTrial_trans _ _ _ f0 f
  refine ⟨?_, f1, ⟨C, ?_, hClen⟩, P, hlen, ?_, ?_⟩
  · rw [ht, t0, f0.timePerStep]
  · rw [hC, c0]
  · intro e he
    rw [hkey e he, f0.trialLabel]
  · rw [AxcptRun.axcpt_executed_log, hP, AxcptRun.axcpt_committed_log, f1.trialLabel,
      f1.arch, f1.eblDur, f1.retentionIntervalDur]

/-- A non-premature trial of `AxcptTask::run` that crosses on pass `j + 1 ≤ maxSamps`
returns: the commit block runs in the state `sk` left by that pass, and the sampling event
is recorded last. -/
theorem AxcptRun.axcpt_accumulate_ok [FloorRing K] {S : Type} {nd md n m : Nat}
    (exp : K → K) (src : RandomSource K S)
    (hgam : ∀ k theta g, 0 ≤ (src.rgammaRaw k theta g).1)
    (s sk : AxcptRun K S nd md n m) (j : Nat) (hkeys : s.KeysRegistered)
    (htps : 0 ≤ s.task.timePerStep) (hstart : s.sampStart ≤ s.task.trialTime)
    (hj : j < s.task.maxSamps.toNat)
    (hcross : CrossesAfter (AxcptRun.accStep exp src) AxcptRun.stop j s)
    (hit : iterate (AxcptRun.accStep exp src) (j + 1) s = .ok sk) :
    ∃ s5, iterate (AxcptRun.planStep exp src) (sk.planSamps src) (sk.committed src)
        = .ok s5 ∧
      s.accumulate exp src = .ok ((s5.executed src sk.acc).logged "samplingBothEvent"
        (.event s.sampStart s5.task.trialTime)) := by
  obtain ⟨fk, -⟩ := AxcptRun.axcpt_iterate_accStep_spec exp src _ _ _ hit
  have tk := AxcptRun.axcpt_iterate_accStep_time exp src _ _ _ hit
  have hkk : sk.KeysRegistered := by
    intro name hname
    rw [fk.trialLabel, fk.keys]
    exact hkeys name hname
  obtain ⟨sc, hcommit⟩ := AxcptRun.axcpt_commit_ok exp src hgam sk hkk
  obtain ⟨-, s5, hplan, -, hsc⟩ := AxcptRun.axcpt_commit_inv exp src sk sc hcommit
  subst hsc
  obtain ⟨t5, f5, -, -⟩ := AxcptRun.axcpt_commit_result exp src sk s5 hplan
  obtain ⟨fe, te, -, -⟩ := AxcptRun.axcpt_executed_frame src sk.acc s5
  have fall := AxcptRun.sameTrial_trans _ _ _ (AxcptRun.sameTrial_trans _ _ _ fk f5) fe
  refine ⟨s5, hplan, ?_⟩
  rw [AxcptRun.axcpt_accumulate_of_crosses exp src s sk j hj hcross hit, hcommit]
  simp only
  rw [fall.sampStart, te]
  apply AxcptRun.axcpt_updateEvent_ok
  · rw [t5, tk, fk.timePerStep]
    have h1 : 0 ≤ ((j + 1 : Nat) : K) * s.task.timePerStep :=
      mul_nonneg (Nat.cast_nonneg _) htps
    have h2 : 0 ≤ (sk.planSamps src : K) * s.task.timePerStep :=
      mul_nonneg (Nat.cast_nonneg _) htps
    linarith
  · rw [fall.trialLabel, fall.keys]
    exact hkeys "samplingBothEvent" (by simp [AxcptTask.datumNames])

/-- The result of a non-premature trial of `AxcptTask::run` that crosses on pass
`j + 1 ≤ maxSamps`. -/
theorem AxcptTask.axcpt_run_of_crosses [FloorRing K] {S : Type} {nd md n m : Nat}
    (exp : K → K) (src : RandomSource K S)
    (hgam : ∀ k theta g, 0 ≤ (src.rgammaRaw k theta g).1)
    (t : AxcptTask K nd md n m) (g : S) (s0 sk : AxcptRun K S nd md n m) (j : Nat)
    (hprel : t.prelude exp src g = .ok s0) (hprem : (s0.prematureDraw src).1 = false)
    (hkeys : s0.KeysRegistered) (htps : 0 ≤ t.timePerStep) (hj : j < t.maxSamps.toNat)
    (hcross : CrossesAfter (AxcptRun.accStep exp src) AxcptRun.stop j
      (s0.prematureDraw src).2)
    (hit : iterate (AxcptRun.accStep exp src) (j + 1) (s0.prematureDraw src).2 = .ok sk) :
    ∃ s5, iterate (AxcptRun.planStep exp src) (sk.planSamps src) (sk.committed src)
        = .ok s5 ∧
      t.run exp src g = .ok ((s5.executed src sk.acc).logged "samplingBothEvent"
        (.event s0.task.trialTime s5.task.trialTime)) := by
  obtain ⟨-, -, -, -, hstart, -, hms, htp, -⟩ :=
    AxcptTask.axcpt_prelude_spec exp src t g s0 hprel
  obtain ⟨htask, -, -, hss, -, -⟩ := AxcptRun.axcpt_prematureDraw_spec src s0
  obtain ⟨s5, hplan, hacc⟩ := AxcptRun.axcpt_accumulate_ok exp src hgam
    (s0.prematureDraw src).2 sk j
    (by
      intro name hname
      rw [htask]
      exact hkeys name hname)
    (by rw [htask, htp]; exact htps)
    (by rw [htask, hss, hstart])
    (by rw [htask, hms]; exact hj) hcross hit
  refine ⟨s5, hplan, ?_⟩
  rw [AxcptTask.axcpt_run_eq exp src t g s0 hprel, if_neg (by rw [hprem]; decide), hacc,
    hss, hstart]

/-! ## The log of a committed trial -/

theorem FlankerTask.flanker_trial_frame [FloorRing K] {S : Type} {nd md n m : Nat}
    (exp : K → K) (src : RandomSource K S) (t : FlankerTask K nd md n m) (g : S)
    (s0 sk : FlankerRun K S nd md n m) (k : Nat)
    (hprel : t.prelude src g = .ok s0)
    (hit : iterate (FlankerRun.accStep exp src) k (s0.prematureDraw src).2 = .ok sk) :
    s0.SameTrial sk ∧ sk.task.arch = t.arch ∧ sk.task.timePerStep = t.timePerStep ∧
    sk.task.decisionThresh = t.decisionThresh ∧
    sk.cresp = (if sk.task.belief.trueTarget = 0 then 0 else 1) ∧
    sk.task.belief.trueTarget = s0.task.target ∧
    sk.task.trialTime = (k : K) * t.timePerStep := by
  obtain ⟨-, hcresp, -, htgt, -, htime, -, htp, -, harch, -, hth⟩ :=
    FlankerTask.flanker_prelude_spec src t g s0 hprel
  obtain ⟨htask, -, hc, hss, he, -⟩ := FlankerRun.flanker_prematureDraw_spec src s0
  obtain ⟨fk, -⟩ := FlankerRun.flanker_iterate_accStep_spec exp src _ _ _ hit
  have tk := FlankerRun.flanker_iterate_accStep_time exp src _ _ _ hit
  have f0 : s0.SameTrial sk :=
    ⟨by rw [fk.trialLabel, htask], by rw [fk.context, htask], by rw [fk.target, htask],
      by rw [fk.keys, htask], by rw [fk.arch, htask], by rw [fk.timePerStep, htask],
      by rw [fk.contextNoise, htask], by rw [fk.targetNoise, htask],
      by rw [fk.decisionThresh, htask], by rw [fk.pPrematureResponse, htask],
      by rw [fk.maxSamps, htask], by rw [fk.trueContext, htask],
      by rw [fk.trueTarget, htask], by rw [fk.eblDur, he], by rw [fk.sampStart, hss],
      by rw [fk.cresp, hc]⟩
  refine ⟨f0, f0.arch.trans harch, f0.timePerStep.trans htp, f0.decisionThresh.trans hth,
    ?_, f0.trueTarget.trans htgt, ?_⟩
  · rw [f0.cresp, f0.trueTarget, hcresp]
  · rw [tk, htask, htime, htp, zero_add]

/-- The log of a non-premature trial of `FlankerTask::run` that crosses on pass
`j + 1 ≤ maxSamps`, from the state `sk` left by that pass. -/
theorem FlankerTask.flanker_trial_log [FloorRing K] {S : Type} {nd md n m : Nat}
    (exp : K → K) (src : RandomSource K S)
    (hgam : ∀ k theta g, 0 ≤ (src.rgammaRaw k theta g).1)
    (t : FlankerTask K nd md n m) (g : S) (s0 sk : FlankerRun K S nd md n m) (j : Nat)
    (hprel : t.prelude src g = .ok s0) (hprem : (s0.prematureDraw src).1 = false)
    (hkeys : s0.KeysRegistered) (htps : 0 ≤ t.timePerStep) (hj : j < t.maxSamps.toNat)
    (hcross : CrossesAfter (FlankerRun.accStep exp src) FlankerRun.stop j
      (s0.prematureDraw src).2)
    (hit : iterate (FlankerRun.accStep exp src) (j + 1) (s0.prematureDraw src).2 = .ok sk) :
    ∃ (s5 sf : FlankerRun K S nd md n m) (P : List (String × Obs K)),
      iterate (FlankerRun.planStep exp src) (sk.planSamps src) (sk.committed src) = .ok s5 ∧
      P.length = sk.planSamps src ∧ (∀ e ∈ P, e.1 = sk.task.trialLabel ++ "post") ∧
      s5.task.trialTime = sk.task.trialTime + (sk.planSamps src : K) * t.timePerStep ∧
      (∃ C : List (BaseCall K), s5.calls = sk.calls ++ C ∧ C.length = 2 * sk.planSamps src) ∧
      t.run exp src g = .ok sf ∧ sf.calls = s5.calls ∧
      sf.task.recorder.log = sk.task.recorder.log ++ FlankerTask.trialLog sk.task.trialLabel
        (.event sk.task.trialTime
          (sk.task.trialTime + (t.arch.drawMotorPlanning src sk.rng).1))
        sk.resp sk.acc P
        (.event s5.task.trialTime
          (s5.task.trialTime + (t.arch.drawMotorExec src s5.rng).1))
        (s5.task.trialTime + (t.arch.drawMotorExec src s5.rng).1 + s0.eblDur)
        (.event 0 s5.task.trialTime) := by
  obtain ⟨s5, hplan, hrun⟩ := FlankerTask.flanker_run_of_crosses exp src hgam t g s0 sk j
    hprel hprem hkeys htps hj hcross hit
  obtain ⟨f0, harch, htp, -, -, -, -⟩ :=
    FlankerTask.flanker_trial_frame exp src t g s0 sk (j + 1) hprel hit
  obtain ⟨t5, f5, hC, P, hlen, hkey, hlog⟩ :=
    FlankerRun.flanker_commit_result exp src sk s5 hplan
  obtain ⟨fe, -, -, -⟩ := FlankerRun.flanker_executed_frame src s5
  refine ⟨s5, _, P, hplan, hlen, hkey, by rw [t5, htp], hC, hrun, rfl, ?_⟩
  show (s5.executed src).task.recorder.log
    ++ [((s5.executed src).task.trialLabel ++ "samplingEvent", _)] = _
  rw [hlog, fe.trialLabel, f5.trialLabel, harch, f0.eblDur]
  simp [FlankerTask.trialLog]

theorem AxcptTask.axcpt_prelude_dv [FloorRing K] {S : Type} {nd md n m : Nat}
    (exp : K → K) (src : RandomSource K S) (t : AxcptTask K nd md n m) (g : S)
    (s0 : AxcptRun K S nd md n m) (h : t.prelude exp src g = .ok s0) :
    (s0.prematureDraw src).2.dv = 0 ∧ (s0.prematureDraw src).2.oldDv = 0 := by
  have h0 : s0.dv = 0 ∧ s0.oldDv = 0 := by
    unfold AxcptTask.prelude at h
    simp only [bind, Except.bind] at h
    cases hst : t.start src g with
    | error e => simp [hst] at h
    | ok s =>
      simp only [hst] at h
      cases hp : s.precomputeSamples exp src with
      | error e => simp [hp] at h
      | ok s1 =>
        simp only [hp, Except.ok.injEq] at h
        subst h
        exact ⟨rfl, rfl⟩
  unfold AxcptRun.prematureDraw
  split_ifs
  · exact h0
  · exact h0

theorem AxcptTask.axcpt_trial_frame [FloorRing K] {S : Type} {nd md n m : Nat}
    (exp : K → K) (src : RandomSource K S) (t : AxcptTask K nd md n m) (g : S)
    (s0 sk : AxcptRun K S nd md n m) (k : Nat)
    (hprel : t.prelude exp src g = .ok s0)
    (hit : iterate (AxcptRun.accStep exp src) k (s0.prematureDraw src).2 = .ok sk) :
    s0.SameTrial sk ∧ sk.task.arch = t.arch ∧ sk.task.timePerStep = t.timePerStep ∧
    sk.task.decisionThresh = t.decisionThresh ∧
    sk.task.retentionIntervalDur = t.retentionIntervalDur ∧
    sk.cresp = (if sk.task.belief.trueContext = sk.task.belief.trueTarget then 1 else 0) ∧
    sk.task.belief.trueContext = s0.task.context ∧
    sk.task.belief.trueTarget = s0.task.target ∧
    sk.task.trialTime = s0.task.trialTime + (k : K) * t.timePerStep := by
  obtain ⟨-, hcresp, hctx, htgt, -, -, -, htp, -, harch, -, hth, hret⟩ :=
    AxcptTask.axcpt_prelude_spec exp src t g s0 hprel
  obtain ⟨htask, -, hc, hss, he, -⟩ := AxcptRun.axcpt_prematureDraw_spec src s0
  obtain ⟨fk, -⟩ := AxcptRun.axcpt_iterate_accStep_spec exp src _ _ _ hit
  have tk := AxcptRun.axcpt_iterate_accStep_time exp src _ _ _ hit
  have f0 : s0.SameTrial sk :=
    ⟨by rw [fk.trialLabel, htask], by rw [fk.context, htask], by rw [fk.target, htask],
      by rw [fk.keys, htask], by rw [fk.arch, htask], by rw [fk.timePerStep, htask],
      by rw [fk.retentionIntervalDur, htask], by rw [fk.nPrecomputeSamps, htask],
      by rw [fk.retentionNoise, htask], by rw [fk.contextNoise, htask],
      by rw [fk.targetNoise, htask], by rw [fk.decisionThresh, htask],
      by rw [fk.pPrematureResponse, htask], by rw [fk.maxSamps, htask],
      by rw [fk.decayTo, htask], by rw [fk.trueContext, htask],
      by rw [fk.trueTarget, htask], by rw [fk.decayRate, htask], by rw [fk.eblDur, he],
      by rw [fk.sampStart, hss], by rw [fk.cresp, hc]⟩
  refine ⟨f0, f0.arch.trans harch, f0.timePerStep.trans htp, f0.decisionThresh.trans hth,
    f0.retentionIntervalDur.trans hret, ?_, f0.trueContext.trans hctx,
    f0.trueTarget.trans htgt, ?_⟩
  · rw [f0.cresp, f0.trueContext, f0.trueTarget, hcresp]
  · rw [tk, htask, htp]

/-- The log of a non-premature trial of `AxcptTask::run` that crosses on pass
`j + 1 ≤ maxSamps`, from the state `sk` left by that pass. -/
theorem AxcptTask.axcpt_trial_log [FloorRing K] {S : Type} {nd md n m : Nat}
    (exp : K → K) (src : RandomSource K S)
    (hgam : ∀ k theta g, 0 ≤ (src.rgammaRaw k theta g).1)
    (t : AxcptTask K nd md n m) (g : S) (s0 sk : AxcptRun K S nd md n m) (j : Nat)
    (hprel : t.prelude exp src g = .ok s0) (hprem : (s0.prematureDraw src).1 = false)
    (hkeys : s0.KeysRegistered) (htps : 0 ≤ t.timePerStep) (hj : j < t.maxSamps.toNat)
    (hcross : CrossesAfter (AxcptRun.accStep exp src) AxcptRun.stop j
      (s0.prematureDraw src).2)
    (hit : iterate (AxcptRun.accStep exp src) (j + 1) (s0.prematureDraw src).2 = .ok sk) :
    ∃ (s5 sf : AxcptRun K S nd md n m) (P : List (String × Obs K)),
      iterate (AxcptRun.planStep exp src) (sk.planSamps src) (sk.committed src) = .ok s5 ∧
      P.length = sk.planSamps src ∧ (∀ e ∈ P, e.1 = sk.task.trialLabel ++ "post") ∧
      s5.task.trialTime = sk.task.trialTime + (sk.planSamps src : K) * t.timePerStep ∧
      (∃ C : List (Call K), s5.calls = sk.calls ++ C ∧ C.length = 2 * sk.planSamps src) ∧
      t.run exp src g = .ok sf ∧ sf.calls = s5.calls ∧
      sf.task.recorder.log = sk.task.recorder.log ++ AxcptTask.trialLog sk.task.trialLabel
        (.event sk.task.trialTime
          (sk.task.trialTime + (t.arch.drawMotorPlanning src sk.rng).1))
        sk.resp sk.acc P
        (.event s5.task.trialTime
          (s5.task.trialTime + (t.arch.drawMotorExec src s5.rng).1))
        (s5.task.trialTime + (t.arch.drawMotorExec src s5.rng).1
          - t.retentionIntervalDur + s0.eblDur)
        (.event s0.task.trialTime s5.task.trialTime) := by
  obtain ⟨s5, hplan, hrun⟩ := AxcptTask.axcpt_run_of_crosses exp src hgam t g s0 sk j
    hprel hprem hkeys htps hj hcross hit
  obtain ⟨f0, harch, htp, -, hret, -, -, -, -⟩ :=
    AxcptTask.axcpt_trial_frame exp src t g s0 sk (j + 1) hprel hit
  obtain ⟨t5, f5, hC, P, hlen, hkey, hlog⟩ :=
    AxcptRun.axcpt_commit_result exp src sk s5 hplan
  obtain ⟨fe, -, -, -⟩ := AxcptRun.axcpt_executed_frame src sk.acc s5
  refine ⟨s5, _, P, hplan, hlen, hkey, by rw [t5, htp], hC, hrun, rfl, ?_⟩
  show (s5.executed src sk.acc).task.recorder.log
    ++ [((s5.executed src sk.acc).task.trialLabel ++ "samplingBothEvent", _)] = _
  rw [hlog, fe.trialLabel, f5.trialLabel, harch, f0.eblDur, hret]
  simp [AxcptTask.trialLog]

/-! ## The fixture tasks with `decisionThresh = 0` cross on the first pass -/

theorem guardFlankerTask_crosses [FloorRing K] (exp : K → K) (maxSamps : Int) (g : Nat) :
    ∃ s0 sk, (guardFlankerTask maxSamps : FlankerTask K 2 2 2 2).prelude
        (countingSource (1 / 4) 0 0 50) g = .ok s0 ∧
      (s0.prematureDraw (countingSource (1 / 4) 0 0 50)).1 = false ∧ s0.KeysRegistered ∧
      CrossesAfter (FlankerRun.accStep exp (countingSource (1 / 4) 0 0 50)) FlankerRun.stop 0
        (s0.prematureDraw (countingSource (1 / 4) 0 0 50)).2 ∧
      iterate (FlankerRun.accStep exp (countingSource (1 / 4) 0 0 50)) (0 + 1)
        (s0.prematureDraw (countingSource (1 / 4) 0 0 50)).2 = .ok sk := by
  obtain ⟨s0, hp, hk, hd, hk1, hth⟩ := @guardFlankerTask_prelude K _ _ maxSamps g
  obtain ⟨s1, hs1⟩ := FlankerRun.flanker_accStep_ok exp
    (countingSource (1 / 4 : K) 0 0 50) _ hk1 le_rfl (by norm_num)
  have hth1 : s1.task.decisionThresh = 0 :=
    (FlankerRun.flanker_accStep_spec _ _ _ _ hs1).1.decisionThresh.trans hth
  refine ⟨s0, s1, hp, hd, hk, ⟨s1, hs1, s1.flanker_stop_of_thresh_zero hth1⟩, ?_⟩
  rw [iterate_succ, hs1]
  rfl

theorem guardAxcptTask_crosses [FloorRing K] (exp : K → K) (maxSamps : Int) (g : Nat) :
    ∃ s0 sk, (guardAxcptTask maxSamps : AxcptTask K 2 2 2 2).prelude exp
        (countingSource (1 / 4) 0 0 50) g = .ok s0 ∧
      (s0.prematureDraw (countingSource (1 / 4) 0 0 50)).1 = false ∧ s0.KeysRegistered ∧
      CrossesAfter (AxcptRun.accStep exp (countingSource (1 / 4) 0 0 50)) AxcptRun.stop 0
        (s0.prematureDraw (countingSource (1 / 4) 0 0 50)).2 ∧
      iterate (AxcptRun.accStep exp (countingSource (1 / 4) 0 0 50)) (0 + 1)
        (s0.prematureDraw (countingSource (1 / 4) 0 0 50)).2 = .ok sk := by
  obtain ⟨s0, hp, hk, hd, hk1, hth, hdec⟩ := @guardAxcptTask_prelude K _ _ exp maxSamps g
  obtain ⟨s1, hs1⟩ := AxcptRun.axcpt_accStep_ok exp
    (countingSource (1 / 4 : K) 0 0 50) _ hk1 hdec
  have hth1 : s1.task.decisionThresh = 0 :=
    (AxcptRun.axcpt_accStep_spec _ _ _ _ hs1).1.decisionThresh.trans hth
  refine ⟨s0, s1, hp, hd, hk, ⟨s1, hs1, s1.axcpt_stop_of_thresh_zero hth1⟩, ?_⟩
  rw [iterate_succ, hs1]
  rfl

theorem roundToIncrement_fifty [FloorRing K] : utils.roundToIncrement (50 : K) 50 = 50 := by
  rw [utils.roundToIncrement_eq (50 : K) 50 1 (by norm_num) (by norm_num)]
  norm_num

/-- With the gamma variate 50 and `motorSd = 50`, both motor draws of the fixture tasks
are 50. -/
theorem guardTask_motor_draws [FloorRing K] (u z : K) (r : Int) (g : Nat) :
    ((Architecture.ctor (prematureConfig : TaskConfig K 2 2 2 2)).drawMotorPlanning
      (countingSource u z r 50) g).1 = 50 ∧
    ((Architecture.ctor (prematureConfig : TaskConfig K 2 2 2 2)).drawMotorExec
      (countingSource u z r 50) g).1 = 50 := by
  have h150 : (150 : K) ≠ 0 := by norm_num
  constructor
  · show utils.roundToIncrement ((countingSource u z r (50 : K)).rgamma 150 50 g).1 50 = 50
    unfold RandomSource.rgamma
    rw [if_neg h150]
    exact roundToIncrement_fifty
  · show utils.roundToIncrement ((countingSource u z r (50 : K)).rgamma 150 50 g).1 50 = 50
    unfold RandomSource.rgamma
    rw [if_neg h150]
    exact roundToIncrement_fifty

theorem truncToInt_five [FloorRing K] : (truncToInt ((50 : K) / 10)).toNat = 5 := by
  have h : (50 : K) / 10 = ((5 : Nat) : K) := by norm_num
  rw [h, truncToInt_natCast]
  rfl

theorem iterate_snoc {σ : Type} (body : σ → Except String σ) :
    ∀ (k : Nat) (s s2 s1 : σ), iterate body k s = .ok s2 → body s2 = .ok s1 →
      iterate body (k + 1) s = .ok s1 := by
  intro k
  induction k with
  | zero =>
    intro s s2 s1 h hb
    simp only [iterate, Except.ok.injEq] at h
    subst h
    rw [iterate_succ, hb]
    rfl
  | succ k ih =>
    intro s s2 s1 h hb
    rw [iterate_succ] at h
    cases hs : body s with
    | error e => simp [hs] at h
    | ok s3 =>
      simp only [hs] at h
      rw [iterate_succ, hs]
      exact ih s3 s2 s1 h hb

/-! ## C22 -/

/-- C22: in a non-premature trial of either task, the stop condition of the state left
by a pass of the sampling loop is, for `FlankerTask`, `dv > θ ∨ dv < 1 − θ`, and for
`AxcptTask` additionally `|dv_{k−1} − dv_k| ≤ DBL_TOL`, where `θ` is `decisionThresh`,
`dv_k` the decision variable after pass `k` and `dv_0 = 0`. A trial that crosses on pass
`j + 1 ≤ maxSamps` (passes `1..j` do not satisfy the stop condition, pass `j + 1` does)
runs the commit block once, in the state left by pass `j + 1`, and then records the
sampling event; and with `maxSamps ≥ 0` a trial that returns has committed in this way at
its first crossing. -/
theorem commits_at_first_stop [FloorRing K] {S : Type} {nd md n m : Nat}
    (exp : K → K) (src : RandomSource K S) :
    (∀ (t : FlankerTask K nd md n m) (g : S) (s0 : FlankerRun K S nd md n m),
      t.prelude src g = .ok s0 → (s0.prematureDraw src).1 = false →
      (∀ (k : Nat) (sk : FlankerRun K S nd md n m),
        iterate (FlankerRun.accStep exp src) k (s0.prematureDraw src).2 = .ok sk →
        (sk.stop = true ↔ sk.dv > t.decisionThresh ∨ sk.dv < 1 - t.decisionThresh)) ∧
      (∀ (j : Nat) (sk : FlankerRun K S nd md n m), j < t.maxSamps.toNat →
        CrossesAfter (FlankerRun.accStep exp src) FlankerRun.stop j (s0.prematureDraw src).2 →
        iterate (FlankerRun.accStep exp src) (j + 1) (s0.prematureDraw src).2 = .ok sk →
        t.run exp src g =
          match sk.commit exp src with
          | .error e => .error e
          | .ok sc => sc.updateEvent "samplingEvent" sc.sampStart sc.task.trialTime) ∧
      (0 ≤ t.maxSamps → ∀ sf, t.run exp src g = .ok sf →
        ∃ (j : Nat) (sk sc : FlankerRun K S nd md n m), j < t.maxSamps.toNat ∧
          CrossesAfter (FlankerRun.accStep exp src) FlankerRun.stop j
            (s0.prematureDraw src).2 ∧
          iterate (FlankerRun.accStep exp src) (j + 1) (s0.prematureDraw src).2 = .ok sk ∧
          sk.commit exp src = .ok sc ∧
          sf = sc.logged "samplingEvent" (.event sc.sampStart sc.task.trialTime))) ∧
    (∀ (t : AxcptTask K nd md n m) (g : S) (s0 : AxcptRun K S nd md n m),
      t.prelude exp src g = .ok s0 → (s0.prematureDraw src).1 = false →
      (s0.prematureDraw src).2.dv = 0 ∧
      (∀ (k : Nat) (sp sk : AxcptRun K S nd md n m),
        iterate (AxcptRun.accStep exp src) k (s0.prematureDraw src).2 = .ok sp →
        sp.accStep exp src = .ok sk →
        (sk.stop = true ↔ sk.dv > t.decisionThresh ∨ sk.dv < 1 - t.decisionThresh
          ∨ |sp.dv - sk.dv| ≤ DBL_TOL)) ∧
      (∀ (j : Nat) (sk : AxcptRun K S nd md n m), j < t.maxSamps.toNat →
        CrossesAfter (AxcptRun.accStep exp src) AxcptRun.stop j (s0.prematureDraw src).2 →
        iterate (AxcptRun.accStep exp src) (j + 1) (s0.prematureDraw src).2 = .ok sk →
        t.run exp src g =
          match sk.commit exp src with
          | .error e => .error e
          | .ok sc => sc.updateEvent "samplingBothEvent" sc.sampStart sc.task.trialTime) ∧
      (0 ≤ t.maxSamps → ∀ sf, t.run exp src g = .ok sf →
        ∃ (j : Nat) (sk sc : AxcptRun K S nd md n m), j < t.maxSamps.toNat ∧
          CrossesAfter (AxcptRun.accStep exp src) AxcptRun.stop j
            (s0.prematureDraw src).2 ∧
          iterate (AxcptRun.accStep exp src) (j + 1) (s0.prematureDraw src).2 = .ok sk ∧
          sk.commit exp src = .ok sc ∧
          sf = sc.logged "samplingBothEvent" (.event sc.sampStart sc.task.trialTime))) := by
  constructor
  · intro t g s0 hprel hprem
    obtain ⟨-, -, -, -, -, -, hms, -⟩ := FlankerTask.flanker_prelude_spec src t g s0 hprel
    obtain ⟨htask, -⟩ := FlankerRun.flanker_prematureDraw_spec src s0
    have hmax : (s0.prematureDraw src).2.task.maxSamps = t.maxSamps := by rw [htask, hms]
    have hrun := FlankerTask.flanker_run_eq exp src t g s0 hprel
    rw [if_neg (by rw [hprem]; decide)] at hrun
    refine ⟨?_, ?_, ?_⟩
    · intro k sk hit
      obtain ⟨-, -, -, hth, -⟩ := FlankerTask.flanker_trial_frame exp src t g s0 sk k hprel hit
      unfold FlankerRun.stop
      rw [decide_eq_true_eq, hth]
    · intro j sk hj hcross hit
      rw [hrun]
      exact FlankerRun.flanker_accumulate_of_crosses exp src _ sk j (by rw [hmax]; exact hj)
        hcross hit
    · intro h0 sf hsf
      rw [hrun] at hsf
      obtain ⟨j, sk, sc, h1, h2, h3, -, h5, h6⟩ :=
        FlankerRun.flanker_accumulate_ok_inv exp src _ sf (by rw [hmax]; exact h0) hsf
      exact ⟨j, sk, sc, by rw [← hmax]; exact h1, h2, h3, h5, h6⟩
  · intro t g s0 hprel hprem
    obtain ⟨-, -, -, -, -, -, hms, -⟩ := AxcptTask.axcpt_prelude_spec exp src t g s0 hprel
    obtain ⟨htask, -⟩ := AxcptRun.axcpt_prematureDraw_spec src s0
    have hmax : (s0.prematureDraw src).2.task.maxSamps = t.maxSamps := by rw [htask, hms]
    have hrun := AxcptTask.axcpt_run_eq exp src t g s0 hprel
    rw [if_neg (by rw [hprem]; decide)] at hrun
    refine ⟨(AxcptTask.axcpt_prelude_dv exp src t g s0 hprel).1, ?_, ?_, ?_⟩
    · intro k sp sk hit hstep
      have hit1 := iterate_snoc (AxcptRun.accStep exp src) k _ sp sk hit hstep
      obtain ⟨-, -, -, hth, -⟩ :=
        AxcptTask.axcpt_trial_frame exp src t g s0 sk (k + 1) hprel hit1
      obtain ⟨-, hold, -⟩ := AxcptRun.axcpt_accStep_inv exp src sp sk hstep
      unfold AxcptRun.stop
      rw [decide_eq_true_eq, hth, hold]
    · intro j sk hj hcross hit
      rw [hrun]
      exact AxcptRun.axcpt_accumulate_of_crosses exp src _ sk j (by rw [hmax]; exact hj)
        hcross hit
    · intro h0 sf hsf
      rw [hrun] at hsf
      obtain ⟨j, sk, sc, h1, h2, h3, -, h5, h6⟩ :=
        AxcptRun.axcpt_accumulate_ok_inv exp src _ sf (by rw [hmax]; exact h0) hsf
      exact ⟨j, sk, sc, by rw [← hmax]; exact h1, h2, h3, h5, h6⟩

/-- The fixture tasks with `decisionThresh = 0` and `maxSamps = 1` cross on pass 1, and
`run()` is the commit block in the state left by that pass followed by the sampling
event. -/
theorem commits_at_first_stop_witness :
    (∃ s0 sk sc, (guardFlankerTask 1 : FlankerTask ℝ 2 2 2 2).prelude
        (countingSource (1 / 4) 0 0 50) 0 = .ok s0 ∧
      (s0.prematureDraw (countingSource (1 / 4) 0 0 50)).1 = false ∧
      CrossesAfter (FlankerRun.accStep Real.exp (countingSource (1 / 4) 0 0 50))
        FlankerRun.stop 0 (s0.prematureDraw (countingSource (1 / 4) 0 0 50)).2 ∧
      iterate (FlankerRun.accStep Real.exp (countingSource (1 / 4) 0 0 50)) (0 + 1)
        (s0.prematureDraw (countingSource (1 / 4) 0 0 50)).2 = .ok sk ∧
      sk.commit Real.exp (countingSource (1 / 4) 0 0 50) = .ok sc ∧
      (guardFlankerTask 1 : FlankerTask ℝ 2 2 2 2).run Real.exp
          (countingSource (1 / 4) 0 0 50) 0 =
        sc.updateEvent "samplingEvent" sc.sampStart sc.task.trialTime) ∧
    (∃ s0 sk sc, (guardAxcptTask 1 : AxcptTask ℝ 2 2 2 2).prelude Real.exp
        (countingSource (1 / 4) 0 0 50) 0 = .ok s0 ∧
      (s0.prematureDraw (countingSource (1 / 4) 0 0 50)).1 = false ∧
      CrossesAfter (AxcptRun.accStep Real.exp (countingSource (1 / 4) 0 0 50))
        AxcptRun.stop 0 (s0.prematureDraw (countingSource (1 / 4) 0 0 50)).2 ∧
      iterate (AxcptRun.accStep Real.exp (countingSource (1 / 4) 0 0 50)) (0 + 1)
        (s0.prematureDraw (countingSource (1 / 4) 0 0 50)).2 = .ok sk ∧
      sk.commit Real.exp (countingSource (1 / 4) 0 0 50) = .ok sc ∧
      (guardAxcptTask 1 : AxcptTask ℝ 2 2 2 2).run Real.exp
          (countingSource (1 / 4) 0 0 50) 0 =
        sc.updateEvent "samplingBothEvent" sc.sampStart sc.task.trialTime) := by
  have h := @commits_at_first_stop ℝ _ _ Nat 2 2 2 2 Real.exp (countingSource (1 / 4) 0 0 50)
  have hgam := countingSource_gamma_nonneg (1 / 4 : ℝ) 0 0 50 (by norm_num)
  constructor
  · obtain ⟨s0, sk, hp, hd, hk, hcross, hit⟩ := @guardFlankerTask_crosses ℝ _ _ Real.exp 1 0
    obtain ⟨f0, -⟩ := FlankerTask.flanker_trial_frame Real.exp _ _ _ s0 sk _ hp hit
    obtain ⟨s5, -, hc⟩ := FlankerRun.flanker_commit_ok Real.exp _ hgam sk
      (fun name hname => by rw [f0.trialLabel, f0.keys]; exact hk name hname)
    have hrun := (h.1 (guardFlankerTask 1) 0 s0 hp hd).2.1 0 sk (by decide) hcross hit
    rw [hc] at hrun
    exact ⟨s0, sk, _, hp, hd, hcross, hit, hc, hrun⟩
  · obtain ⟨s0, sk, hp, hd, hk, hcross, hit⟩ := @guardAxcptTask_crosses ℝ _ _ Real.exp 1 0
    obtain ⟨f0, -⟩ := AxcptTask.axcpt_trial_frame Real.exp _ _ _ s0 sk _ hp hit
    obtain ⟨sc, hc⟩ := AxcptRun.axcpt_commit_ok Real.exp _ hgam sk
      (fun name hname => by rw [f0.trialLabel, f0.keys]; exact hk name hname)
    have hrun := (h.2 (guardAxcptTask 1) 0 s0 hp hd).2.2.1 0 sk (by decide) hcross hit
    rw [hc] at hrun
    exact ⟨s0, sk, sc, hp, hd, hcross, hit, hc, hrun⟩

/-! ## C23 -/

/-- C23: in a non-premature trial that crosses on pass `j + 1 ≤ maxSamps` (registered
keys, gamma variates not negative, time step not negative), `run()` returns and the
commit records, after the motor planning event, `Resp` and then `Acc`. For `FlankerTask`
the decision variable of the crossing pass is `posterior(0,0) + posterior(1,0)`, `Resp` is
0 when `dv > 0.5` and 1 otherwise, and `Acc` is 1 iff `Resp` equals 0 if the true target
is 0 and 1 otherwise. For `AxcptTask` the decision variable is the trace of the posterior,
`Resp` is 1 when `dv > 0.5` and 0 otherwise, and `Acc` is 1 iff `Resp` equals 1 if the
true context equals the true target and 0 otherwise. The true stimulus is the one drawn
for the trial. -/
theorem commit_records_response [FloorRing K] {S : Type} {nd md n m : Nat}
    (exp : K → K) (src : RandomSource K S)
    (hgam : ∀ k theta g, 0 ≤ (src.rgammaRaw k theta g).1) :
    (∀ (t : FlankerTask K nd md n m) (g : S) (s0 sk : FlankerRun K S nd md n m) (j : Nat),
      t.prelude src g = .ok s0 → (s0.prematureDraw src).1 = false → s0.KeysRegistered →
      0 ≤ t.timePerStep → j < t.maxSamps.toNat →
      CrossesAfter (FlankerRun.accStep exp src) FlankerRun.stop j (s0.prematureDraw src).2 →
      iterate (FlankerRun.accStep exp src) (j + 1) (s0.prematureDraw src).2 = .ok sk →
      (∃ p00 p10, Mat.at sk.task.belief.getBelief 0 0 = .ok p00 ∧
        Mat.at sk.task.belief.getBelief 1 0 = .ok p10 ∧ sk.dv = p00 + p10) ∧
      sk.task.belief.trueTarget = s0.task.target ∧
      ∃ sf planEvent posts execEvent rt sampling, t.run exp src g = .ok sf ∧
        (∀ e ∈ posts, e.1 = sk.task.trialLabel ++ "post") ∧
        sf.task.recorder.log = sk.task.recorder.log ++
          FlankerTask.trialLog sk.task.trialLabel planEvent
            (if sk.dv > 1 / 2 then 0 else 1)
            (if (if sk.dv > 1 / 2 then (0 : Int) else 1)
              = (if sk.task.belief.trueTarget = 0 then 0 else 1) then 1 else 0)
            posts execEvent rt sampling) ∧
    (∀ (t : AxcptTask K nd md n m) (g : S) (s0 sk : AxcptRun K S nd md n m) (j : Nat),
      t.prelude exp src g = .ok s0 → (s0.prematureDraw src).1 = false → s0.KeysRegistered →
      0 ≤ t.timePerStep → j < t.maxSamps.toNat →
      CrossesAfter (AxcptRun.accStep exp src) AxcptRun.stop j (s0.prematureDraw src).2 →
      iterate (AxcptRun.accStep exp src) (j + 1) (s0.prematureDraw src).2 = .ok sk →
      sk.dv = Mat.trace sk.task.belief.getBelief ∧
      sk.task.belief.trueContext = s0.task.context ∧
      sk.task.belief.trueTarget = s0.task.target ∧
      ∃ sf planEvent posts execEvent rt sampling, t.run exp src g = .ok sf ∧
        (∀ e ∈ posts, e.1 = sk.task.trialLabel ++ "post") ∧
        sf.task.recorder.log = sk.task.recorder.log ++
          AxcptTask.trialLog sk.task.trialLabel planEvent
            (if sk.dv > 1 / 2 then 1 else 0)
            (if (if sk.dv > 1 / 2 then (1 : Int) else 0)
              = (if sk.task.belief.trueContext = sk.task.belief.trueTarget then 1 else 0)
              then 1 else 0)
            posts execEvent rt sampling) := by
  constructor
  · intro t g s0 sk j hprel hprem hkeys htps hj hcross hit
    obtain ⟨sp, -, hstep⟩ := iterate_succ_last _ _ _ _ hit
    obtain ⟨hdv, -, -⟩ := FlankerRun.flanker_accStep_inv exp src sp sk hstep
    obtain ⟨-, -, -, -, hcresp, htgt, -⟩ :=
      FlankerTask.flanker_trial_frame exp src t g s0 sk (j + 1) hprel hit
    obtain ⟨s5, sf, P, -, -, hkey, -, -, hrun, -, hlog⟩ :=
      FlankerTask.flanker_trial_log exp src hgam t g s0 sk j hprel hprem hkeys htps hj
        hcross hit
    have hacc : sk.acc = (if (if sk.dv > 1 / 2 then (0 : Int) else 1)
        = (if sk.task.belief.trueTarget = 0 then 0 else 1) then 1 else 0) := by
      unfold FlankerRun.acc FlankerRun.resp
      rw [hcresp]
    rw [hacc] at hlog
    exact ⟨hdv, htgt, sf, _, P, _, _, _, hrun, hkey, hlog⟩
  · intro t g s0 sk j hprel hprem hkeys htps hj hcross hit
    obtain ⟨sp, -, hstep⟩ := iterate_succ_last _ _ _ _ hit
    obtain ⟨hdv, -, -⟩ := AxcptRun.axcpt_accStep_inv exp src sp sk hstep
    obtain ⟨-, -, -, -, -, hcresp, hctx, htgt, -⟩ :=
      AxcptTask.axcpt_trial_frame exp src t g s0 sk (j + 1) hprel hit
    obtain ⟨s5, sf, P, -, -, hkey, -, -, hrun, -, hlog⟩ :=
      AxcptTask.axcpt_trial_log exp src hgam t g s0 sk j hprel hprem hkeys htps hj
        hcross hit
    have hacc : sk.acc = (if (if sk.dv > 1 / 2 then (1 : Int) else 0)
        = (if sk.task.belief.trueContext = sk.task.belief.trueTarget then 1 else 0)
        then 1 else 0) := by
      unfold AxcptRun.acc AxcptRun.resp
      rw [hcresp]
    rw [hacc] at hlog
    exact ⟨hdv, hctx, htgt, sf, _, P, _, _, _, hrun, hkey, hlog⟩

/-- The fixture tasks with `decisionThresh = 0` and `maxSamps = 1` return, and their logs
end with the observations of the commit, `Resp` and `Acc` among them. -/
theorem commit_records_response_witness :
    (∀ (k theta : ℝ) (g : Nat),
      0 ≤ ((countingSource (1 / 4 : ℝ) 0 0 50).rgammaRaw k theta g).1) ∧
    (∃ s0 sk sf planEvent posts execEvent rt sampling,
      (guardFlankerTask 1 : FlankerTask ℝ 2 2 2 2).prelude
        (countingSource (1 / 4) 0 0 50) 0 = .ok s0 ∧
      iterate (FlankerRun.accStep Real.exp (countingSource (1 / 4) 0 0 50)) (0 + 1)
        (s0.prematureDraw (countingSource (1 / 4) 0 0 50)).2 = .ok sk ∧
      (guardFlankerTask 1 : FlankerTask ℝ 2 2 2 2).run Real.exp
        (countingSource (1 / 4) 0 0 50) 0 = .ok sf ∧
      sf.task.recorder.log = sk.task.recorder.log ++
        FlankerTask.trialLog sk.task.trialLabel planEvent
          (if sk.dv > 1 / 2 then 0 else 1)
          (if (if sk.dv > 1 / 2 then (0 : Int) else 1)
            = (if sk.task.belief.trueTarget = 0 then 0 else 1) then 1 else 0)
          posts execEvent rt sampling) ∧
    (∃ s0 sk sf planEvent posts execEvent rt sampling,
      (guardAxcptTask 1 : AxcptTask ℝ 2 2 2 2).prelude Real.exp
        (countingSource (1 / 4) 0 0 50) 0 = .ok s0 ∧
      iterate (AxcptRun.accStep Real.exp (countingSource (1 / 4) 0 0 50)) (0 + 1)
        (s0.prematureDraw (countingSource (1 / 4) 0 0 50)).2 = .ok sk ∧
      (guardAxcptTask 1 : AxcptTask ℝ 2 2 2 2).run Real.exp
        (countingSource (1 / 4) 0 0 50) 0 = .ok sf ∧
      sf.task.recorder.log = sk.task.recorder.log ++
        AxcptTask.trialLog sk.task.trialLabel planEvent
          (if sk.dv > 1 / 2 then 1 else 0)
          (if (if sk.dv > 1 / 2 then (1 : Int) else 0)
            = (if sk.task.belief.trueContext = sk.task.belief.trueTarget then 1 else 0)
            then 1 else 0)
          posts execEvent rt sampling) := by
  have hgam := countingSource_gamma_nonneg (1 / 4 : ℝ) 0 0 50 (by norm_num)
  have h := @commit_records_response ℝ _ _ Nat 2 2 2 2 Real.exp
    (countingSource (1 / 4) 0 0 50) hgam
  refine ⟨hgam, ?_, ?_⟩
  · obtain ⟨s0, sk, hp, hd, hk, hcross, hit⟩ := @guardFlankerTask_crosses ℝ _ _ Real.exp 1 0
    obtain ⟨-, -, sf, e1, P, e2, rt, e3, hrun, -, hlog⟩ :=
      h.1 (guardFlankerTask 1) 0 s0 sk 0 hp hd hk (by show (0 : ℝ) ≤ 10; norm_num)
        (by decide) hcross hit
    exact ⟨s0, sk, sf, e1, P, e2, rt, e3, hp, hit, hrun, hlog⟩
  · obtain ⟨s0, sk, hp, hd, hk, hcross, hit⟩ := @guardAxcptTask_crosses ℝ _ _ Real.exp 1 0
    obtain ⟨-, -, -, sf, e1, P, e2, rt, e3, hrun, -, hlog⟩ :=
      h.2 (guardAxcptTask 1) 0 s0 sk 0 hp hd hk (by show (0 : ℝ) ≤ 10; norm_num)
        (by decide) hcross hit
    exact ⟨s0, sk, sf, e1, P, e2, rt, e3, hp, hit, hrun, hlog⟩

/-! ## C24 -/

theorem truncToInt_toNat_of_nonneg [FloorRing K] (x : K) (h : 0 ≤ x) :
    (((truncToInt x).toNat : Nat) : Int) = ⌊x⌋ := by
  unfold truncToInt
  rw [if_pos h]
  exact Int.toNat_of_nonneg (Int.floor_nonneg.mpr h)

theorem FlankerRun.flanker_planSamps_floor [FloorRing K] {S : Type} {nd md n m : Nat}
    (src : RandomSource K S) (hgam : ∀ k theta g, 0 ≤ (src.rgammaRaw k theta g).1)
    (s : FlankerRun K S nd md n m) (htps : 0 < s.task.timePerStep) :
    ((s.planSamps src : Nat) : Int)
      = ⌊(s.task.arch.drawMotorPlanning src s.rng).1 / s.task.timePerStep⌋ :=
  truncToInt_toNat_of_nonneg _
    (div_nonneg (Architecture.drawMotorPlanning_nonneg src hgam _ _) htps.le)

theorem AxcptRun.axcpt_planSamps_floor [FloorRing K] {S : Type} {nd md n m : Nat}
    (src : RandomSource K S) (hgam : ∀ k theta g, 0 ≤ (src.rgammaRaw k theta g).1)
    (s : AxcptRun K S nd md n m) (htps : 0 < s.task.timePerStep) :
    ((s.planSamps src : Nat) : Int)
      = ⌊(s.task.arch.drawMotorPlanning src s.rng).1 / s.task.timePerStep⌋ :=
  truncToInt_toNat_of_nonneg _
    (div_nonneg (Architecture.drawMotorPlanning_nonneg src hgam _ _) htps.le)

/-- C24 (as the code has it): in a non-premature trial that crosses on pass
`j + 1 ≤ maxSamps` (registered keys, gamma variates not negative, positive time step),
`run()` returns and records one `RT`. Its value is the trial clock after the samples taken
during motor planning, that is the clock of the pass where the response was committed
plus `⌊motorPlanning / timePerStep⌋·timePerStep`, plus the motor-execution draw, plus the
eye-brain lag for `FlankerTask`, and minus `retentionIntervalDur` plus the eye-brain lag
for `AxcptTask`. The clock of the crossing pass is `(j + 1)·timePerStep` after the start
of the sampling loop. -/
theorem rt_is_clock_after_planning [FloorRing K] {S : Type} {nd md n m : Nat}
    (exp : K → K) (src : RandomSource K S)
    (hgam : ∀ k theta g, 0 ≤ (src.rgammaRaw k theta g).1) :
    (∀ (t : FlankerTask K nd md n m) (g : S) (s0 sk : FlankerRun K S nd md n m) (j : Nat),
      t.prelude src g = .ok s0 → (s0.prematureDraw src).1 = false → s0.KeysRegistered →
      0 < t.timePerStep → j < t.maxSamps.toNat →
      CrossesAfter (FlankerRun.accStep exp src) FlankerRun.stop j (s0.prematureDraw src).2 →
      iterate (FlankerRun.accStep exp src) (j + 1) (s0.prematureDraw src).2 = .ok sk →
      sk.task.trialTime = ((j + 1 : Nat) : K) * t.timePerStep ∧
      ((sk.planSamps src : Nat) : Int)
        = ⌊(t.arch.drawMotorPlanning src sk.rng).1 / t.timePerStep⌋ ∧
      ∃ s5 sf planEvent resp acc posts execEvent sampling,
        iterate (FlankerRun.planStep exp src) (sk.planSamps src) (sk.committed src) = .ok s5 ∧
        t.run exp src g = .ok sf ∧
        (∀ e ∈ posts, e.1 = sk.task.trialLabel ++ "post") ∧
        sf.task.recorder.log = sk.task.recorder.log ++
          FlankerTask.trialLog sk.task.trialLabel planEvent resp acc posts execEvent
            (sk.task.trialTime + (sk.planSamps src : K) * t.timePerStep
              + (t.arch.drawMotorExec src s5.rng).1 + s0.eblDur)
            sampling) ∧
    (∀ (t : AxcptTask K nd md n m) (g : S) (s0 sk : AxcptRun K S nd md n m) (j : Nat),
      t.prelude exp src g = .ok s0 → (s0.prematureDraw src).1 = false → s0.KeysRegistered →
      0 < t.timePerStep → j < t.maxSamps.toNat →
      CrossesAfter (AxcptRun.accStep exp src) AxcptRun.stop j (s0.prematureDraw src).2 →
      iterate (AxcptRun.accStep exp src) (j + 1) (s0.prematureDraw src).2 = .ok sk →
      sk.task.trialTime = s0.task.trialTime + ((j + 1 : Nat) : K) * t.timePerStep ∧
      ((sk.planSamps src : Nat) : Int)
        = ⌊(t.arch.drawMotorPlanning src sk.rng).1 / t.timePerStep⌋ ∧
      ∃ s5 sf planEvent resp acc posts execEvent sampling,
        iterate (AxcptRun.planStep exp src) (sk.planSamps src) (sk.committed src) = .ok s5 ∧
        t.run exp src g = .ok sf ∧
        (∀ e ∈ posts, e.1 = sk.task.trialLabel ++ "post") ∧
        sf.task.recorder.log = sk.task.recorder.log ++
          AxcptTask.trialLog sk.task.trialLabel planEvent resp acc posts execEvent
            (sk.task.trialTime + (sk.planSamps src : K) * t.timePerStep
              + (t.arch.drawMotorExec src s5.rng).1 - t.retentionIntervalDur + s0.eblDur)
            sampling) := by
  constructor
  · intro t g s0 sk j hprel hprem hkeys htps hj hcross hit
    obtain ⟨-, harch, htp, -, -, -, htime⟩ :=
      FlankerTask.flanker_trial_frame exp src t g s0 sk (j + 1) hprel hit
    obtain ⟨s5, sf, P, hplan, -, hkey, t5, -, hrun, -, hlog⟩ :=
      FlankerTask.flanker_trial_log exp src hgam t g s0 sk j hprel hprem hkeys htps.le hj
        hcross hit
    have hfl := FlankerRun.flanker_planSamps_floor src hgam sk (by rw [htp]; exact htps)
    rw [harch, htp] at hfl
    rw [t5] at hlog
    exact ⟨htime, hfl, s5, sf, _, _, _, P, _, _, hplan, hrun, hkey, hlog⟩
  · intro t g s0 sk j hprel hprem hkeys htps hj hcross hit
    obtain ⟨-, harch, htp, -, -, -, -, -, htime⟩ :=
      AxcptTask.axcpt_trial_frame exp src t g s0 sk (j + 1) hprel hit
    obtain ⟨s5, sf, P, hplan, -, hkey, t5, -, hrun, -, hlog⟩ :=
      AxcptTask.axcpt_trial_log exp src hgam t g s0 sk j hprel hprem hkeys htps.le hj
        hcross hit
    have hfl := AxcptRun.axcpt_planSamps_floor src hgam sk (by rw [htp]; exact htps)
    rw [harch, htp] at hfl
    rw [t5] at hlog
    exact ⟨htime, hfl, s5, sf, _, _, _, P, _, _, hplan, hrun, hkey, hlog⟩

/-- The fixture tasks with `decisionThresh = 0` and `maxSamps = 1` return and record the
`RT` of the amended statement; the crossing pass is pass 1. -/
theorem rt_is_clock_after_planning_witness :
    (∀ (k theta : ℝ) (g : Nat),
      0 ≤ ((countingSource (1 / 4 : ℝ) 0 0 50).rgammaRaw k theta g).1) ∧
    (∃ s0 sk, ∃ s5 : FlankerRun ℝ Nat 2 2 2 2,
      ∃ sf planEvent resp acc posts execEvent sampling,
      (guardFlankerTask 1 : FlankerTask ℝ 2 2 2 2).prelude
        (countingSource (1 / 4) 0 0 50) 0 = .ok s0 ∧
      iterate (FlankerRun.accStep Real.exp (countingSource (1 / 4) 0 0 50)) (0 + 1)
        (s0.prematureDraw (countingSource (1 / 4) 0 0 50)).2 = .ok sk ∧
      (guardFlankerTask 1 : FlankerTask ℝ 2 2 2 2).run Real.exp
        (countingSource (1 / 4) 0 0 50) 0 = .ok sf ∧
      sf.task.recorder.log = sk.task.recorder.log ++
        FlankerTask.trialLog sk.task.trialLabel planEvent resp acc posts execEvent
          (sk.task.trialTime + (sk.planSamps (countingSource (1 / 4) 0 0 50) : ℝ)
              * (guardFlankerTask 1 : FlankerTask ℝ 2 2 2 2).timePerStep
            + ((guardFlankerTask 1 : FlankerTask ℝ 2 2 2 2).arch.drawMotorExec
                (countingSource (1 / 4) 0 0 50) s5.rng).1 + s0.eblDur)
          sampling) ∧
    (∃ s0 sk, ∃ s5 : AxcptRun ℝ Nat 2 2 2 2,
      ∃ sf planEvent resp acc posts execEvent sampling,
      (guardAxcptTask 1 : AxcptTask ℝ 2 2 2 2).prelude Real.exp
        (countingSource (1 / 4) 0 0 50) 0 = .ok s0 ∧
      iterate (AxcptRun.accStep Real.exp (countingSource (1 / 4) 0 0 50)) (0 + 1)
        (s0.prematureDraw (countingSource (1 / 4) 0 0 50)).2 = .ok sk ∧
      (guardAxcptTask 1 : AxcptTask ℝ 2 2 2 2).run Real.exp
        (countingSource (1 / 4) 0 0 50) 0 = .ok sf ∧
      sf.task.recorder.log = sk.task.recorder.log ++
        AxcptTask.trialLog sk.task.trialLabel planEvent resp acc posts execEvent
          (sk.task.trialTime + (sk.planSamps (countingSource (1 / 4) 0 0 50) : ℝ)
              * (guardAxcptTask 1 : AxcptTask ℝ 2 2 2 2).timePerStep
            + ((guardAxcptTask 1 : AxcptTask ℝ 2 2 2 2).arch.drawMotorExec
                (countingSource (1 / 4) 0 0 50) s5.rng).1
            - (guardAxcptTask 1 : AxcptTask ℝ 2 2 2 2).retentionIntervalDur + s0.eblDur)
          sampling) := by
  have hgam := countingSource_gamma_nonneg (1 / 4 : ℝ) 0 0 50 (by norm_num)
  have h := @rt_is_clock_after_planning ℝ _ _ Nat 2 2 2 2 Real.exp
    (countingSource (1 / 4) 0 0 50) hgam
  refine ⟨hgam, ?_, ?_⟩
  · obtain ⟨s0, sk, hp, hd, hk, hcross, hit⟩ := @guardFlankerTask_crosses ℝ _ _ Real.exp 1 0
    obtain ⟨-, -, s5, sf, e1, r, a, P, e2, e3, -, hrun, -, hlog⟩ :=
      h.1 (guardFlankerTask 1) 0 s0 sk 0 hp hd hk (by show (0 : ℝ) < 10; norm_num)
        (by decide) hcross hit
    exact ⟨s0, sk, s5, sf, e1, r, a, P, e2, e3, hp, hit, hrun, hlog⟩
  · obtain ⟨s0, sk, hp, hd, hk, hcross, hit⟩ := @guardAxcptTask_crosses ℝ _ _ Real.exp 1 0
    obtain ⟨-, -, s5, sf, e1, r, a, P, e2, e3, -, hrun, -, hlog⟩ :=
      h.2 (guardAxcptTask 1) 0 s0 sk 0 hp hd hk (by show (0 : ℝ) < 10; norm_num)
        (by decide) hcross hit
    exact ⟨s0, sk, s5, sf, e1, r, a, P, e2, e3, hp, hit, hrun, hlog⟩

/-- The Flanker fixture with `timePerStep = 10`, `decisionThresh = 0`, `maxSamps = 1` and
gamma variate 50: the response is committed on pass 1, when the trial clock is 10; the
motor-planning draw is 50, so that five more samples are taken and the clock is 60 when
`RT` is computed; the motor-execution draw is 50. The recorded `RT` is `60 + 50 + eblDur`,
not `10 + 50 + eblDur`. -/
theorem rt_clock_at_commit_counterexample :
    ∃ s0 sk sf planEvent resp acc posts execEvent sampling,
      (guardFlankerTask 1 : FlankerTask ℝ 2 2 2 2).prelude
        (countingSource (1 / 4) 0 0 50) 0 = .ok s0 ∧
      (s0.prematureDraw (countingSource (1 / 4) 0 0 50)).1 = false ∧
      CrossesAfter (FlankerRun.accStep Real.exp (countingSource (1 / 4) 0 0 50))
        FlankerRun.stop 0 (s0.prematureDraw (countingSource (1 / 4) 0 0 50)).2 ∧
      iterate (FlankerRun.accStep Real.exp (countingSource (1 / 4) 0 0 50)) (0 + 1)
        (s0.prematureDraw (countingSource (1 / 4) 0 0 50)).2 = .ok sk ∧
      sk.task.trialTime = 10 ∧
      (∀ g, ((guardFlankerTask 1 : FlankerTask ℝ 2 2 2 2).arch.drawMotorExec
        (countingSource (1 / 4) 0 0 50) g).1 = 50) ∧
      (guardFlankerTask 1 : FlankerTask ℝ 2 2 2 2).run Real.exp
        (countingSource (1 / 4) 0 0 50) 0 = .ok sf ∧
      (∀ e ∈ posts, e.1 = sk.task.trialLabel ++ "post") ∧
      sf.task.recorder.log = sk.task.recorder.log ++
        FlankerTask.trialLog sk.task.trialLabel planEvent resp acc posts execEvent
          (60 + 50 + s0.eblDur) sampling ∧
      (60 + 50 + s0.eblDur : ℝ) ≠ 10 + 50 + s0.eblDur := by
  have hgam := countingSource_gamma_nonneg (1 / 4 : ℝ) 0 0 50 (by norm_num)
  obtain ⟨s0, sk, hp, hd, hk, hcross, hit⟩ := @guardFlankerTask_crosses ℝ _ _ Real.exp 1 0
  obtain ⟨-, harch, htp, -, -, -, htime⟩ :=
    FlankerTask.flanker_trial_frame Real.exp _ (guardFlankerTask 1) 0 s0 sk (0 + 1) hp hit
  obtain ⟨s5, sf, P, -, -, hkey, t5, -, hrun, -, hlog⟩ :=
    FlankerTask.flanker_trial_log Real.exp _ hgam (guardFlankerTask 1) 0 s0 sk 0 hp hd hk
      (by show (0 : ℝ) ≤ 10; norm_num) (by decide) hcross hit
  have hexec : ∀ g, ((guardFlankerTask 1 : FlankerTask ℝ 2 2 2 2).arch.drawMotorExec
      (countingSource (1 / 4) 0 0 50) g).1 = 50 :=
    fun g => (guardTask_motor_draws (1 / 4 : ℝ) 0 0 g).2
  have htime1 : sk.task.trialTime = 10 := by
    rw [htime]
    show (((0 + 1 : Nat) : ℝ)) * 10 = 10
    norm_num
  have hplan : sk.planSamps (countingSource (1 / 4 : ℝ) 0 0 50) = 5 := by
    unfold FlankerRun.planSamps
    rw [harch, htp]
    have hmp : ((guardFlankerTask 1 : FlankerTask ℝ 2 2 2 2).arch.drawMotorPlanning
        (countingSource (1 / 4) 0 0 50) sk.rng).1 = 50 :=
      (guardTask_motor_draws (1 / 4 : ℝ) 0 0 sk.rng).1
    rw [hmp]
    exact truncToInt_five
  have ht5 : s5.task.trialTime = 60 := by
    rw [t5, htime1, hplan]
    show (10 : ℝ) + ((5 : Nat) : ℝ) * 10 = 60
    norm_num
  rw [ht5, hexec] at hlog
  exact ⟨s0, sk, sf, _, _, _, P, _, _, hp, hd, hcross, hit, htime1, hexec, hrun, hkey, hlog,
    by norm_num⟩

/-! ## C25 -/

theorem FlankerRun.flanker_planStep_time {S : Type} {nd md n m : Nat}
    (exp : K → K) (src : RandomSource K S) (s s1 : FlankerRun K S nd md n m)
    (h : s.planStep exp src = .ok s1) :
    s1.task.trialTime = s.task.trialTime + s.task.timePerStep := by
  rw [FlankerRun.flanker_planStep_inv exp src s s1 h]
  rfl

theorem AxcptRun.axcpt_planStep_time {S : Type} {nd md n m : Nat}
    (exp : K → K) (src : RandomSource K S) (s s1 : AxcptRun K S nd md n m)
    (h : s.planStep exp src = .ok s1) :
    s1.task.trialTime = s.task.trialTime + s.task.timePerStep := by
  rw [AxcptRun.axcpt_planStep_inv exp src s s1 h]
  rfl

/-- The first entries that the commit block of `FlankerTask::run` appends to the log are
the motor planning event, `Resp` and `Acc`, with values computed from the state in which
the block is entered, whatever the random source. -/
theorem FlankerRun.flanker_commit_head [FloorRing K] {S : Type} {nd md n m : Nat}
    (exp : K → K) (src : RandomSource K S) (s sc : FlankerRun K S nd md n m)
    (h : s.commit exp src = .ok sc) :
    ∃ planEvent rest, sc.task.recorder.log = s.task.recorder.log ++
      [(s.task.trialLabel ++ "motorPlanEvent", planEvent),
       (s.task.trialLabel ++ "Resp", .scalar ((s.resp : Int) : K)),
       (s.task.trialLabel ++ "Acc", .scalar ((s.acc : Int) : K))] ++ rest := by
  obtain ⟨-, s5, hplan, -, hsc⟩ := FlankerRun.flanker_commit_inv exp src s sc h
  obtain ⟨-, -, -, P, -, -, hlog⟩ := FlankerRun.flanker_commit_result exp src s s5 hplan
  subst hsc
  rw [hlog, List.append_assoc]
  exact ⟨_, _, rfl⟩

/-- The first entries that the commit block of `AxcptTask::run` appends to the log are
the motor planning event, `Resp` and `Acc`, with values computed from the state in which
the block is entered, whatever the random source. -/
theorem AxcptRun.axcpt_commit_head [FloorRing K] {S : Type} {nd md n m : Nat}
    (exp : K → K) (src : RandomSource K S) (s sc : AxcptRun K S nd md n m)
    (h : s.commit exp src = .ok sc) :
    ∃ planEvent rest, sc.task.recorder.log = s.task.recorder.log ++
      [(s.task.trialLabel ++ "motorPlanEvent", planEvent),
       (s.task.trialLabel ++ "Resp", .scalar ((s.resp : Int) : K)),
       (s.task.trialLabel ++ "Acc", .scalar ((s.acc : Int) : K))] ++ rest := by
  obtain ⟨-, s5, hplan, -, hsc⟩ := AxcptRun.axcpt_commit_inv exp src s sc h
  obtain ⟨-, -, -, P, -, -, hlog⟩ := AxcptRun.axcpt_commit_result exp src s s5 hplan
  subst hsc
  rw [hlog, List.append_assoc]
  exact ⟨_, _, rfl⟩

/-- C25: in a non-premature trial that crosses on pass `j + 1 ≤ maxSamps` (registered
keys, gamma variates not negative, positive time step), after `Resp` and `Acc` are
recorded each task runs exactly `⌊motorPlanning / timePerStep⌋` further sampling steps:
each advances the trial clock by `timePerStep`, together they make twice as many updates
of the belief engine and record as many posteriors, all after `Resp` and `Acc` in the log.
`Resp` and `Acc` are computed from the decision variable `dv` of the crossing pass and the
correct response `cresp` fixed at the start of the trial; the commit block records the
same `Resp` and `Acc` with any other random source `src2` for the draws made after the
crossing pass. -/
theorem post_commit_sampling [FloorRing K] {S : Type} {nd md n m : Nat}
    (exp : K → K) (src : RandomSource K S)
    (hgam : ∀ k theta g, 0 ≤ (src.rgammaRaw k theta g).1) :
    (∀ (t : FlankerTask K nd md n m) (g : S) (s0 sk : FlankerRun K S nd md n m) (j : Nat),
      t.prelude src g = .ok s0 → (s0.prematureDraw src).1 = false → s0.KeysRegistered →
      0 < t.timePerStep → j < t.maxSamps.toNat →
      CrossesAfter (FlankerRun.accStep exp src) FlankerRun.stop j (s0.prematureDraw src).2 →
      iterate (FlankerRun.accStep exp src) (j + 1) (s0.prematureDraw src).2 = .ok sk →
      ((sk.planSamps src : Nat) : Int)
        = ⌊(t.arch.drawMotorPlanning src sk.rng).1 / t.timePerStep⌋ ∧
      (∀ a b : FlankerRun K S nd md n m, a.planStep exp src = .ok b →
        b.task.trialTime = a.task.trialTime + a.task.timePerStep) ∧
      (∃ s5 sf planEvent posts execEvent rt sampling,
        iterate (FlankerRun.planStep exp src) (sk.planSamps src) (sk.committed src) = .ok s5 ∧
        s5.task.trialTime = sk.task.trialTime + (sk.planSamps src : K) * t.timePerStep ∧
        (∃ C : List (BaseCall K), s5.calls = sk.calls ++ C ∧
          C.length = 2 * sk.planSamps src) ∧
        t.run exp src g = .ok sf ∧ sf.calls = s5.calls ∧
        posts.length = sk.planSamps src ∧
        (∀ e ∈ posts, e.1 = sk.task.trialLabel ++ "post") ∧
        sf.task.recorder.log = sk.task.recorder.log ++
          FlankerTask.trialLog sk.task.trialLabel planEvent
            (if sk.dv > 1 / 2 then 0 else 1)
            (if (if sk.dv > 1 / 2 then (0 : Int) else 1) = sk.cresp then 1 else 0)
            posts execEvent rt sampling) ∧
      (∀ (src2 : RandomSource K S) (sc2 : FlankerRun K S nd md n m),
        sk.commit exp src2 = .ok sc2 →
        ∃ planEvent rest, sc2.task.recorder.log = sk.task.recorder.log ++
          [(sk.task.trialLabel ++ "motorPlanEvent", planEvent),
           (sk.task.trialLabel ++ "Resp",
              .scalar (((if sk.dv > 1 / 2 then 0 else 1 : Int)) : K)),
           (sk.task.trialLabel ++ "Acc",
              .scalar (((if (if sk.dv > 1 / 2 then (0 : Int) else 1) = sk.cresp
                then 1 else 0 : Int)) : K))] ++ rest)) ∧
    (∀ (t : AxcptTask K nd md n m) (g : S) (s0 sk : AxcptRun K S nd md n m) (j : Nat),
      t.prelude exp src g = .ok s0 → (s0.prematureDraw src).1 = false → s0.KeysRegistered →
      0 < t.timePerStep → j < t.maxSamps.toNat →
      CrossesAfter (AxcptRun.accStep exp src) AxcptRun.stop j (s0.prematureDraw src).2 →
      iterate (AxcptRun.accStep exp src) (j + 1) (s0.prematureDraw src).2 = .ok sk →
      ((sk.planSamps src : Nat) : Int)
        = ⌊(t.arch.drawMotorPlanning src sk.rng).1 / t.timePerStep⌋ ∧
      (∀ a b : AxcptRun K S nd md n m, a.planStep exp src = .ok b →
        b.task.trialTime = a.task.trialTime + a.task.timePerStep) ∧
      (∃ s5 sf planEvent posts execEvent rt sampling,
        iterate (AxcptRun.planStep exp src) (sk.planSamps src) (sk.committed src) = .ok s5 ∧
        s5.task.trialTime = sk.task.trialTime + (sk.planSamps src : K) * t.timePerStep ∧
        (∃ C : List (Call K), s5.calls = sk.calls ++ C ∧
          C.length = 2 * sk.planSamps src) ∧
        t.run exp src g = .ok sf ∧ sf.calls = s5.calls ∧
        posts.length = sk.planSamps src ∧
        (∀ e ∈ posts, e.1 = sk.task.trialLabel ++ "post") ∧
        sf.task.recorder.log = sk.task.recorder.log ++
          AxcptTask.trialLog sk.task.trialLabel planEvent
            (if sk.dv > 1 / 2 then 1 else 0)
            (if (if sk.dv > 1 / 2 then (1 : Int) else 0) = sk.cresp then 1 else 0)
            posts execEvent rt sampling) ∧
      (∀ (src2 : RandomSource K S) (sc2 : AxcptRun K S nd md n m),
        sk.commit exp src2 = .ok sc2 →
        ∃ planEvent rest, sc2.task.recorder.log = sk.task.recorder.log ++
          [(sk.task.trialLabel ++ "motorPlanEvent", planEvent),
           (sk.task.trialLabel ++ "Resp",
              .scalar (((if sk.dv > 1 / 2 then 1 else 0 : Int)) : K)),
           (sk.task.trialLabel ++ "Acc",
              .scalar (((if (if sk.dv > 1 / 2 then (1 : Int) else 0) = sk.cresp
                then 1 else 0 : Int)) : K))] ++ rest)) := by
  constructor
  · intro t g s0 sk j hprel hprem hkeys htps hj hcross hit
    obtain ⟨-, harch, htp, -⟩ :=
      FlankerTask.flanker_trial_frame exp src t g s0 sk (j + 1) hprel hit
    obtain ⟨s5, sf, P, hplan, hlen, hkey, t5, hC, hrun, hcalls, hlog⟩ :=
      FlankerTask.flanker_trial_log exp src hgam t g s0 sk j hprel hprem hkeys htps.le hj
        hcross hit
    have hfl := FlankerRun.flanker_planSamps_floor src hgam sk (by rw [htp]; exact htps)
    rw [harch, htp] at hfl
    exact ⟨hfl, FlankerRun.flanker_planStep_time exp src,
      ⟨s5, sf, _, P, _, _, _, hplan, t5, hC, hrun, hcalls, hlen, hkey, hlog⟩,
      fun src2 sc2 h2 => FlankerRun.flanker_commit_head exp src2 sk sc2 h2⟩
  · intro t g s0 sk j hprel hprem hkeys htps hj hcross hit
    obtain ⟨-, harch, htp, -⟩ :=
      AxcptTask.axcpt_trial_frame exp src t g s0 sk (j + 1) hprel hit
    obtain ⟨s5, sf, P, hplan, hlen, hkey, t5, hC, hrun, hcalls, hlog⟩ :=
      AxcptTask.axcpt_trial_log exp src hgam t g s0 sk j hprel hprem hkeys htps.le hj
        hcross hit
    have hfl := AxcptRun.axcpt_planSamps_floor src hgam sk (by rw [htp]; exact htps)
    rw [harch, htp] at hfl
    exact ⟨hfl, AxcptRun.axcpt_planStep_time exp src,
      ⟨s5, sf, _, P, _, _, _, hplan, t5, hC, hrun, hcalls, hlen, hkey, hlog⟩,
      fun src2 sc2 h2 => AxcptRun.axcpt_commit_head exp src2 sk sc2 h2⟩

/-- The fixture tasks with `decisionThresh = 0`, `maxSamps = 1`, `timePerStep = 10` and
gamma variate 50: the motor-planning draw is 50 and five further sampling steps are made
after the commit, which record five posteriors after `Resp` and `Acc`. -/
theorem post_commit_sampling_witness :
    (∀ (k theta : ℝ) (g : Nat),
      0 ≤ ((countingSource (1 / 4 : ℝ) 0 0 50).rgammaRaw k theta g).1) ∧
    (∃ s0 sk sf planEvent posts execEvent rt sampling,
      (guardFlankerTask 1 : FlankerTask ℝ 2 2 2 2).prelude
        (countingSource (1 / 4) 0 0 50) 0 = .ok s0 ∧
      iterate (FlankerRun.accStep Real.exp (countingSource (1 / 4) 0 0 50)) (0 + 1)
        (s0.prematureDraw (countingSource (1 / 4) 0 0 50)).2 = .ok sk ∧
      ((sk.planSamps (countingSource (1 / 4) 0 0 50) : Nat) : Int) = ⌊(50 : ℝ) / 10⌋ ∧
      (guardFlankerTask 1 : FlankerTask ℝ 2 2 2 2).run Real.exp
        (countingSource (1 / 4) 0 0 50) 0 = .ok sf ∧
      posts.length = sk.planSamps (countingSource (1 / 4) 0 0 50) ∧
      sf.task.recorder.log = sk.task.recorder.log ++
        FlankerTask.trialLog sk.task.trialLabel planEvent
          (if sk.dv > 1 / 2 then 0 else 1)
          (if (if sk.dv > 1 / 2 then (0 : Int) else 1) = sk.cresp then 1 else 0)
          posts execEvent rt sampling) ∧
    (∃ s0 sk sf planEvent posts execEvent rt sampling,
      (guardAxcptTask 1 : AxcptTask ℝ 2 2 2 2).prelude Real.exp
        (countingSource (1 / 4) 0 0 50) 0 = .ok s0 ∧
      iterate (AxcptRun.accStep Real.exp (countingSource (1 / 4) 0 0 50)) (0 + 1)
        (s0.prematureDraw (countingSource (1 / 4) 0 0 50)).2 = .ok sk ∧
      ((sk.planSamps (countingSource (1 / 4) 0 0 50) : Nat) : Int) = ⌊(50 : ℝ) / 10⌋ ∧
      (guardAxcptTask 1 : AxcptTask ℝ 2 2 2 2).run Real.exp
        (countingSource (1 / 4) 0 0 50) 0 = .ok sf ∧
      posts.length = sk.planSamps (countingSource (1 / 4) 0 0 50) ∧
      sf.task.recorder.log = sk.task.recorder.log ++
        AxcptTask.trialLog sk.task.trialLabel planEvent
          (if sk.dv > 1 / 2 then 1 else 0)
          (if (if sk.dv > 1 / 2 then (1 : Int) else 0) = sk.cresp then 1 else 0)
          posts execEvent rt sampling) := by
  have hgam := countingSource_gamma_nonneg (1 / 4 : ℝ) 0 0 50 (by norm_num)
  have h := @post_commit_sampling ℝ _ _ Nat 2 2 2 2 Real.exp
    (countingSource (1 / 4) 0 0 50) hgam
  refine ⟨hgam, ?_, ?_⟩
  · obtain ⟨s0, sk, hp, hd, hk, hcross, hit⟩ := @guardFlankerTask_crosses ℝ _ _ Real.exp 1 0
    obtain ⟨hfl, -, ⟨s5, sf, e1, P, e2, rt, e3, -, -, -, hrun, -, hlen, -, hlog⟩, -⟩ :=
      h.1 (guardFlankerTask 1) 0 s0 sk 0 hp hd hk (by show (0 : ℝ) < 10; norm_num)
        (by decide) hcross hit
    have hmp : ((guardFlankerTask 1 : FlankerTask ℝ 2 2 2 2).arch.drawMotorPlanning
        (countingSource (1 / 4) 0 0 50) sk.rng).1 = 50 :=
      (guardTask_motor_draws (1 / 4 : ℝ) 0 0 sk.rng).1
    rw [hmp] at hfl
    exact ⟨s0, sk, sf, e1, P, e2, rt, e3, hp, hit, hfl, hrun, hlen, hlog⟩
  · obtain ⟨s0, sk, hp, hd, hk, hcross, hit⟩ := @guardAxcptTask_crosses ℝ _ _ Real.exp 1 0
    obtain ⟨hfl, -, ⟨s5, sf, e1, P, e2, rt, e3, -, -, -, hrun, -, hlen, -, hlog⟩, -⟩ :=
      h.2 (guardAxcptTask 1) 0 s0 sk 0 hp hd hk (by show (0 : ℝ) < 10; norm_num)
        (by decide) hcross hit
    have hmp : ((guardAxcptTask 1 : AxcptTask ℝ 2 2 2 2).arch.drawMotorPlanning
        (countingSource (1 / 4) 0 0 50) sk.rng).1 = 50 :=
      (guardTask_motor_draws (1 / 4 : ℝ) 0 0 sk.rng).1
    rw [hmp] at hfl
    exact ⟨s0, sk, sf, e1, P, e2, rt, e3, hp, hit, hfl, hrun, hlen, hlog⟩

/-! ## The summary datums (C31) and the compensated sum (C32) -/

theorem sum_sq_dev (xs : List K) (m : K) :
    (xs.map fun x => (x - m) ^ 2).sum
      = (xs.map fun x => x ^ 2).sum - 2 * m * xs.sum + ((xs.length : Nat) : K) * m ^ 2 := by
  induction xs with
  | nil => simp
  | cons x xs ih =>
    simp only [List.map_cons, List.sum_cons, List.length_cons, ih]
    push_cast
    ring

theorem foldl_sq_dev (xs : List K) (m acc : K) :
    xs.foldl (fun s2 x => s2 + (x - m) * (x - m)) acc
      = acc + (xs.map fun x => (x - m) ^ 2).sum := by
  induction xs generalizing acc with
  | nil => simp
  | cons x xs ih =>
    simp only [List.foldl_cons, List.map_cons, List.sum_cons, ih]
    ring

/-- Invariant of `IncrementalMeanVarianceDatum::record` (Welford's update): after the
values `xs`, `_n` is their number, `_n · _mean` their sum and `_ssq` the sum of their
squares minus `_n · _mean²`. -/
theorem IncrementalMeanVarianceDatum.recorded_invariant (xs : List K) :
    (xs.foldl IncrementalMeanVarianceDatum.record IncrementalMeanVarianceDatum.ctor).n
      = (xs.length : Int) ∧
    ((xs.length : Nat) : K)
        * (xs.foldl IncrementalMeanVarianceDatum.record IncrementalMeanVarianceDatum.ctor).mean
      = xs.sum ∧
    (xs.foldl IncrementalMeanVarianceDatum.record IncrementalMeanVarianceDatum.ctor).ssq
      = (xs.map fun x => x ^ 2).sum - ((xs.length : Nat) : K)
          * (xs.foldl IncrementalMeanVarianceDatum.record
              IncrementalMeanVarianceDatum.ctor).mean ^ 2 := by
  induction xs using List.reverseRecOn with
  | nil => simp [IncrementalMeanVarianceDatum.ctor]
  | append_singleton l x ih =>
    obtain ⟨hn, hmean, hssq⟩ := ih
    rw [List.foldl_append, List.foldl_cons, List.foldl_nil]
    generalize l.foldl IncrementalMeanVarianceDatum.record IncrementalMeanVarianceDatum.ctor
      = d at hn hmean hssq
    have hn0 : d.n + 1 ≠ 0 := by
      rw [hn]
      omega
    have hcast : (((d.n + 1 : Int)) : K) = ((l.length : Nat) : K) + 1 := by
      rw [hn]
      push_cast
      ring
    have hpos : ((l.length : Nat) : K) + 1 ≠ 0 := by positivity
    have hm : (IncrementalMeanVarianceDatum.record d x).mean
        = d.mean + (x - d.mean) / (((l.length : Nat) : K) + 1) := by
      simp only [IncrementalMeanVarianceDatum.record]
      rw [if_neg hn0, hcast]
    have hlin : (((l.length : Nat) : K) + 1) * (IncrementalMeanVarianceDatum.record d x).mean
        = ((l.length : Nat) : K) * d.mean + x := by
      rw [hm]
      field_simp
      ring
    have hs : (IncrementalMeanVarianceDatum.record d x).ssq
        = d.ssq + (x - d.mean) * (x - (IncrementalMeanVarianceDatum.record d x).mean) := rfl
    refine ⟨?_, ?_, ?_⟩
    · show d.n + 1 = _
      rw [hn]
      simp
    · rw [List.length_append, List.sum_append]
      simp only [List.length_singleton, List.sum_singleton]
      push_cast
      rw [hlin, hmean]
    · rw [hs, hssq, List.length_append, List.map_append, List.sum_append]
      simp only [List.length_singleton, List.map_cons, List.map_nil, List.sum_singleton]
      push_cast
      linear_combination (d.mean + (IncrementalMeanVarianceDatum.record d x).mean) * hlin

theorem utils.mean_eq (xs : List K) : utils.mean xs = sampleMean xs := by
  unfold utils.mean sampleMean
  rw [utils.kahanSum_eq_sum]

theorem utils.variance_eq (xs : List K) (h1 : 1 ≤ xs.length) (h64 : xs.length < 2 ^ 64) :
    utils.variance xs = sampleVariance xs := by
  have hdiv : (xs.length + 2 ^ 64 - 1) % 2 ^ 64 = xs.length - 1 := by omega
  unfold utils.variance sampleVariance
  simp only
  rw [foldl_sq_dev, zero_add, hdiv, utils.mean_eq, Nat.cast_sub h1, Nat.cast_one]

omit [LinearOrderedField K] in
theorem RawVectorsDatum.recorded (xs : List K) (d : RawVectorsDatum K) :
    (xs.foldl RawVectorsDatum.record d).rawData = d.rawData ++ xs := by
  induction xs generalizing d with
  | nil => simp
  | cons x xs ih =>
    rw [List.foldl_cons, ih]
    simp [RawVectorsDatum.record]

/-- C31: after recording `n ≥ 2` values `x_1..x_n` (`n` in the range of `int`),
`IncrementalMeanVarianceDatum` reports `getN() = n`, `getMean() = (Σ x_i)/n` and
`getVariance() = Σ (x_i − mean)²/(n − 1)`; `utils::mean` and `utils::variance` compute the
same values from the vector, and so does a `RawVectorsDatum` that recorded it. -/
theorem incremental_datum_is_sample_statistics (xs : List K) (h2 : 2 ≤ xs.length)
    (hint : xs.length < 2 ^ 31) :
    (xs.foldl IncrementalMeanVarianceDatum.record IncrementalMeanVarianceDatum.ctor).getN
      = (xs.length : Int) ∧
    (xs.foldl IncrementalMeanVarianceDatum.record IncrementalMeanVarianceDatum.ctor).getMean
      = sampleMean xs ∧
    (xs.foldl IncrementalMeanVarianceDatum.record
      IncrementalMeanVarianceDatum.ctor).getVariance = sampleVariance xs ∧
    utils.mean xs = sampleMean xs ∧ utils.variance xs = sampleVariance xs ∧
    (xs.foldl RawVectorsDatum.record RawVectorsDatum.ctor).getRawData = xs ∧
    (xs.foldl RawVectorsDatum.record RawVectorsDatum.ctor).getN = (xs.length : Int) ∧
    (xs.foldl RawVectorsDatum.record RawVectorsDatum.ctor).getMean
      = (xs.foldl IncrementalMeanVarianceDatum.record
          IncrementalMeanVarianceDatum.ctor).getMean ∧
    (xs.foldl RawVectorsDatum.record RawVectorsDatum.ctor).getVariance
      = (xs.foldl IncrementalMeanVarianceDatum.record
          IncrementalMeanVarianceDatum.ctor).getVariance := by
  obtain ⟨hn, hmean, hssq⟩ := IncrementalMeanVarianceDatum.recorded_invariant xs
  have hraw : (xs.foldl RawVectorsDatum.record RawVectorsDatum.ctor).rawData = xs := by
    rw [RawVectorsDatum.recorded]
    rfl
  have hlen : ((xs.length : Nat) : K) ≠ 0 := by
    have : 0 < xs.length := by omega
    positivity
  have hm : (xs.foldl IncrementalMeanVarianceDatum.record
      IncrementalMeanVarianceDatum.ctor).getMean = sampleMean xs := by
    unfold IncrementalMeanVarianceDatum.getMean sampleMean
    rw [← hmean]
    field_simp
  have hv : (xs.foldl IncrementalMeanVarianceDatum.record
      IncrementalMeanVarianceDatum.ctor).getVariance = sampleVariance xs := by
    have hm1 : (xs.foldl IncrementalMeanVarianceDatum.record
        IncrementalMeanVarianceDatum.ctor).mean = sampleMean xs := hm
    unfold IncrementalMeanVarianceDatum.getVariance sampleVariance
    rw [hssq, hn, sum_sq_dev, hm1]
    have hs : xs.sum = ((xs.length : Nat) : K) * sampleMean xs := by
      rw [← hm1, hmean]
    congr 1
    · rw [hs]
      ring
    · push_cast
      ring
  have hvar := utils.variance_eq xs (by omega)
    (lt_trans hint (by norm_num))
  refine ⟨hn, hm, hv, utils.mean_eq xs, hvar, hraw, ?_, ?_, ?_⟩
  · unfold RawVectorsDatum.getN
    rw [hraw]
  · unfold RawVectorsDatum.getMean
    rw [hraw, utils.mean_eq, hm]
  · unfold RawVectorsDatum.getVariance
    rw [hraw, hvar, hv]

theorem testInputVec_statistics :
    sampleMean (testInputVec : List K) = 71 / 20 ∧
      sampleVariance (testInputVec : List K) = 5531 / 1000 := by
  have hm : sampleMean (testInputVec : List K) = 71 / 20 := by
    simp only [sampleMean, testInputVec, List.sum_cons, List.sum_nil, List.length_cons,
      List.length_nil]
    norm_num
  refine ⟨hm, ?_⟩
  unfold sampleVariance
  rw [hm]
  simp only [testInputVec, List.map_cons, List.map_nil, List.sum_cons, List.sum_nil,
    List.length_cons, List.length_nil]
  norm_num

/-- The test of `src/tests/recorder_test.cpp`: after `{0.1, 2, 3, 4.1, 5.7, 6.4}` the datum
reports `n = 6`, mean `3.55` and variance `5.531`. -/
theorem incremental_datum_is_sample_statistics_witness :
    2 ≤ (testInputVec : List ℚ).length ∧ (testInputVec : List ℚ).length < 2 ^ 31 ∧
    ((testInputVec : List ℚ).foldl IncrementalMeanVarianceDatum.record
      IncrementalMeanVarianceDatum.ctor).getN = 6 ∧
    ((testInputVec : List ℚ).foldl IncrementalMeanVarianceDatum.record
      IncrementalMeanVarianceDatum.ctor).getMean = 71 / 20 ∧
    ((testInputVec : List ℚ).foldl IncrementalMeanVarianceDatum.record
      IncrementalMeanVarianceDatum.ctor).getVariance = 5531 / 1000 ∧
    utils.mean (testInputVec : List ℚ) = 71 / 20 ∧
    utils.variance (testInputVec : List ℚ) = 5531 / 1000 :=
  have h2 : 2 ≤ (testInputVec : List ℚ).length := by decide
  have hint : (testInputVec : List ℚ).length < 2 ^ 31 := by decide
  have h := incremental_datum_is_sample_statistics (testInputVec : List ℚ) h2 hint
  have hs := @testInputVec_statistics ℚ _
  ⟨h2, hint, h.1, h.2.1.trans hs.1, h.2.2.1.trans hs.2, h.2.2.2.1.trans hs.1,
    h.2.2.2.2.1.trans hs.2⟩

/-! ## C32 -/

/-- C32: over a field, `utils::kahanSum` returns the plain sum of the elements of every
finite container, and its correction term is 0 after every step of the loop; so the
normalizer of the belief update is the sum of the entries of the un-normalized posterior
`_belief % _lik`, and the update divides every entry by that sum. -/
theorem kahanSum_is_plain_sum {n m : Nat} (container : List K) (b : Belief K n m) :
    utils.kahanSum container = container.sum ∧
    (∀ k : Nat, ((container.take k).foldl utils.kahanStep (0, 0)).2 = 0) ∧
    (∀ k : Nat, ((container.take k).foldl utils.kahanStep (0, 0)).1 = (container.take k).sum) ∧
    utils.kahanSum (Mat.elems fun i j => b.belief i j * b.lik i j)
      = ∑ i, ∑ j, b.belief i j * b.lik i j ∧
    (∀ c t, b.multiplyAndNormalize.getBelief c t
      = b.belief c t * b.lik c t / ∑ i, ∑ j, b.belief i j * b.lik i j) := by
  refine ⟨utils.kahanSum_eq_sum container, ?_, ?_, Mat.kahanSum_elems _, ?_⟩
  · intro k
    rw [utils.foldl_kahanStep]
  · intro k
    rw [utils.foldl_kahanStep, zero_add]
  · intro c t
    exact Belief.multiplyAndNormalize_belief b c t

/-! ## C33 -/

/-- C33: `Event(start, end)` throws if and only if `start > end`; otherwise, equal times
included, the event stores exactly `(start, end)`. -/
theorem event_ctor_fails_iff (start stop : K) :
    ((∃ e, Event.ctor start stop = .error e) ↔ start > stop) ∧
    (Event.ctor start stop = .error "Start time is later than end time!" ↔ start > stop) ∧
    (Event.ctor start stop = .ok (.event start stop) ↔ start ≤ stop) ∧
    (∀ ev, Event.ctor start stop = .ok ev → ev = .event start stop) ∧
    Event.ctor start start = .ok (.event start start) := by
  unfold Event.ctor
  by_cases h : start > stop
  · rw [if_pos h]
    refine ⟨⟨fun _ => h, fun _ => ⟨_, rfl⟩⟩, ⟨fun _ => h, fun _ => rfl⟩, ⟨fun h1 => ?_, fun h1 => ?_⟩,
      fun ev h1 => ?_, ?_⟩
    · cases h1
    · exact absurd h (not_lt.mpr h1)
    · cases h1
    · rw [if_neg (lt_irrefl start)]
  · rw [if_neg h]
    refine ⟨⟨fun ⟨e, h1⟩ => ?_, fun h1 => absurd h1 h⟩, ⟨fun h1 => ?_, fun h1 => absurd h1 h⟩,
      ⟨fun _ => not_lt.mp h, fun _ => rfl⟩, fun ev h1 => ?_, ?_⟩
    · cases h1
    · cases h1
    · simp only [Except.ok.injEq] at h1
      exact h1.symm
    · rw [if_neg (lt_irrefl start)]

/-! ## The checks of `Recorder` (C34) and of `Belief::setTrueStim` (C37) -/

omit [LinearOrderedField K] in
theorem Recorder.updateDatumExit_eq (r : Recorder K) (key : String) (val : Obs K) :
    r.updateDatum key val =
      match (r.updateDatumExit key val).2 with
      | some e => .error e
      | none => .ok (r.updateDatumExit key val).1 := by
  unfold Recorder.updateDatum Recorder.updateDatumExit
  split_ifs <;> rfl

omit [LinearOrderedField K] in
/-- C34: for every state of a `Recorder` and every key, `registerDatum(key, _)` throws if
and only if `key` is registered, whatever the class of the datum; `updateDatum(key, _)`
and `getDatum(key)` throw if and only if `key` is not registered; a call that throws
exits in the state in which it was entered (keys and recorded values); a call that
returns registers `key` with an empty datum, records the value under `key`, or returns
the values recorded under `key`; after `reset()` no key is registered; and registering
`key` a second time throws whatever the two classes. -/
theorem recorder_calls_fail_iff (r : Recorder K) (key : String) (T : DatumKind)
    (val : Obs K) :
    (((∃ e, (r.registerDatum key T).2 = some e) ↔ key ∈ r.keys) ∧
      (key ∈ r.keys → (r.registerDatum key T).1 = r) ∧
      (key ∉ r.keys → (r.registerDatum key T).2 = none ∧
        (r.registerDatum key T).1.keys = key :: r.keys ∧
        ((r.registerDatum key T).1.getDatum key).2 = .ok [])) ∧
    (((∃ e, (r.updateDatumExit key val).2 = some e) ↔ key ∉ r.keys) ∧
      ((∃ e, r.updateDatum key val = .error e) ↔ key ∉ r.keys) ∧
      (key ∉ r.keys → (r.updateDatumExit key val).1 = r) ∧
      (key ∈ r.keys → r.updateDatum key val = .ok (r.updateDatumExit key val).1 ∧
        (r.updateDatumExit key val).1.keys = r.keys ∧
        (r.updateDatumExit key val).1.log = r.log ++ [(key, val)])) ∧
    (((∃ e, (r.getDatum key).2 = .error e) ↔ key ∉ r.keys) ∧
      (r.getDatum key).1 = r ∧
      (key ∈ r.keys →
        (r.getDatum key).2 = .ok ((r.log.filter fun e => e.1 = key).map fun e => e.2))) ∧
    (∀ k : String, k ∉ r.reset.keys) ∧
    (∀ k : String, (∃ e, (r.reset.getDatum k).2 = .error e) ∧
      (∃ e, r.reset.updateDatum k val = .error e) ∧ (r.reset.registerDatum k T).2 = none) ∧
    (∀ T2 : DatumKind, ∃ e, ((r.registerDatum key T).1.registerDatum key T2).2 = some e) := by
  refine ⟨⟨?_, ?_, ?_⟩, ⟨?_, ?_, ?_, ?_⟩, ⟨?_, ?_, ?_⟩, ?_, ?_, ?_⟩
  · unfold Recorder.registerDatum
    by_cases h : key ∈ r.keys
    · rw [if_pos h]
      exact ⟨fun _ => h, fun _ => ⟨_, rfl⟩⟩
    · rw [if_neg h]
      exact ⟨fun ⟨e, he⟩ => (by cases he), fun h1 => absurd h1 h⟩
  · intro h
    unfold Recorder.registerDatum
    rw [if_pos h]
  · intro h
    unfold Recorder.registerDatum
    rw [if_neg h]
    refine ⟨rfl, rfl, ?_⟩
    unfold Recorder.getDatum
    rw [if_neg (by simp)]
    simp [List.filter_filter]
  · unfold Recorder.updateDatumExit
    by_cases h : key ∈ r.keys
    · rw [if_neg (not_not.mpr h)]
      exact ⟨fun ⟨e, he⟩ => (by cases he), fun h1 => absurd h h1⟩
    · rw [if_pos h]
      exact ⟨fun _ => h, fun _ => ⟨_, rfl⟩⟩
  · unfold Recorder.updateDatum
    by_cases h : key ∈ r.keys
    · rw [if_neg (not_not.mpr h)]
      exact ⟨fun ⟨e, he⟩ => (by cases he), fun h1 => absurd h h1⟩
    · rw [if_pos h]
      exact ⟨fun _ => h, fun _ => ⟨_, rfl⟩⟩
  · intro h
    unfold Recorder.updateDatumExit
    rw [if_pos h]
  · intro h
    unfold Recorder.updateDatum Recorder.updateDatumExit
    rw [if_neg (not_not.mpr h), if_neg (not_not.mpr h)]
    exact ⟨rfl, rfl, rfl⟩
  · unfold Recorder.getDatum
    by_cases h : key ∈ r.keys
    · rw [if_neg (not_not.mpr h)]
      exact ⟨fun ⟨e, he⟩ => (by cases he), fun h1 => absurd h h1⟩
    · rw [if_pos h]
      exact ⟨fun _ => h, fun _ => ⟨_, rfl⟩⟩
  · unfold Recorder.getDatum
    split_ifs <;> rfl
  · intro h
    unfold Recorder.getDatum
    rw [if_neg (not_not.mpr h)]
  · intro k
    simp [Recorder.reset]
  · intro k
    have hk : k ∉ (r.reset).keys := by simp [Recorder.reset]
    refine ⟨?_, ?_, ?_⟩
    · unfold Recorder.getDatum
      rw [if_pos hk]
      exact ⟨_, rfl⟩
    · unfold Recorder.updateDatum
      rw [if_pos hk]
      exact ⟨_, rfl⟩
    · unfold Recorder.registerDatum
      rw [if_neg hk]
  · intro T2
    have hk : key ∈ (r.registerDatum key T).1.keys := by
      unfold Recorder.registerDatum
      by_cases h : key ∈ r.keys
      · rw [if_pos h]
        exact h
      · rw [if_neg h]
        exact List.mem_cons_self _ _
    rw [Recorder.registerDatum, if_pos hk]
    exact ⟨_, rfl⟩

omit [LinearOrderedField K] in
theorem Belief.setTrueStimExit_eq {n m : Nat} (b : Belief K n m) (context target : Int) :
    b.setTrueStim context target =
      match (b.setTrueStimExit context target).2 with
      | some e => .error e
      | none => .ok (b.setTrueStimExit context target).1 := by
  unfold Belief.setTrueStim Belief.setTrueStimExit
  split_ifs <;> rfl

omit [LinearOrderedField K] in
/-- C37: for every state of the engine and every pair `(context, target)` that is not in
range, also when one of the two indices is in range, `setTrueStim` throws and exits in
the state in which it was entered: the stored true context, the stored true target and
the posterior are unchanged. -/
theorem setTrueStim_atomic_on_error {n m : Nat} (b : Belief K n m) (context target : Int)
    (hout : ¬(0 ≤ context ∧ context < b.nContexts ∧ 0 ≤ target ∧ target < b.nTargets)) :
    (∃ e, (b.setTrueStimExit context target).2 = some e ∧
      b.setTrueStim context target = .error e) ∧
    (b.setTrueStimExit context target).1 = b ∧
    (b.setTrueStimExit context target).1.trueContext = b.trueContext ∧
    (b.setTrueStimExit context target).1.trueTarget = b.trueTarget ∧
    (b.setTrueStimExit context target).1.getBelief = b.getBelief := by
  have h : ∃ e, (b.setTrueStimExit context target).2 = some e ∧
      (b.setTrueStimExit context target).1 = b := by
    unfold Belief.setTrueStimExit
    split_ifs with h1 h2 h3 h4
    · exact ⟨_, rfl, rfl⟩
    · exact ⟨_, rfl, rfl⟩
    · exact ⟨_, rfl, rfl⟩
    · exact ⟨_, rfl, rfl⟩
    · exfalso
      apply hout
      refine ⟨?_, ?_, ?_, ?_⟩ <;> omega
  obtain ⟨e, he, hb⟩ := h
  refine ⟨⟨e, he, ?_⟩, hb, ?_, ?_, ?_⟩
  · rw [Belief.setTrueStimExit_eq, he]
  · rw [hb]
  · rw [hb]
  · rw [hb]

/-- On the test engine with true stimulus `(0, 0)`, `setTrueStim(1, 2)`, whose context is
in range and whose target is not, throws and leaves the true stimulus `(0, 0)`. -/
theorem setTrueStim_atomic_on_error_witness :
    ¬(0 ≤ (1 : Int) ∧ (1 : Int) < (testBelief : Belief ℚ 2 2).nContexts ∧ 0 ≤ (2 : Int)
      ∧ (2 : Int) < (testBelief : Belief ℚ 2 2).nTargets) ∧
    ((testBelief : Belief ℚ 2 2).setTrueStimExit 1 2).1 = testBelief ∧
    ((testBelief : Belief ℚ 2 2).setTrueStimExit 1 2).1.trueContext
      = (testBelief : Belief ℚ 2 2).trueContext :=
  have hout : ¬(0 ≤ (1 : Int) ∧ (1 : Int) < (testBelief : Belief ℚ 2 2).nContexts
      ∧ 0 ≤ (2 : Int) ∧ (2 : Int) < (testBelief : Belief ℚ 2 2).nTargets) := by
    simp [Belief.nContexts, Belief.nTargets]
  have h := setTrueStim_atomic_on_error (testBelief : Belief ℚ 2 2) 1 2 hout
  ⟨hout, h.2.1, h.2.2.1⟩

/-! ## C35 -/

theorem Belief.multiplyAndNormalize_rows {n m : Nat} (b : Belief K n m)
    (hrow : ∀ c t1 t2, b.lik c t1 = b.lik c t2) (c : Fin n) (t1 t2 : Fin m) :
    b.multiplyAndNormalize.belief c t1 * b.belief c t2
      = b.multiplyAndNormalize.belief c t2 * b.belief c t1 := by
  rw [Belief.multiplyAndNormalize_belief, Belief.multiplyAndNormalize_belief, hrow c t1 t2]
  ring

theorem Belief.multiplyAndNormalize_cols {n m : Nat} (b : Belief K n m)
    (hcol : ∀ c1 c2 t, b.lik c1 t = b.lik c2 t) (c1 c2 : Fin n) (t : Fin m) :
    b.multiplyAndNormalize.belief c1 t * b.belief c2 t
      = b.multiplyAndNormalize.belief c2 t * b.belief c1 t := by
  rw [Belief.multiplyAndNormalize_belief, Belief.multiplyAndNormalize_belief, hcol c1 c2 t]
  ring

theorem DecayBelief.updateFromContext_ok {n m : Nat} (exp : K → K) (d : DecayBelief K n m)
    (noise trialTime : K) (decayTo : PriorType) (u : K) (r : Int) (u2 z : K) (ret : Int)
    (d1 : DecayBelief K n m)
    (h : d.updateFromContext exp noise trialTime decayTo u r u2 z = .ok (ret, d1)) :
    (∃ samp, d1.toBelief
        = (d.toBelief.computeLikelihoods exp samp noise .Context).multiplyAndNormalize) ∨
    (∃ samp p, d1.toBelief
        = (d.computeLikelihoods exp samp noise .Context p).toBelief.multiplyAndNormalize) := by
  unfold DecayBelief.updateFromContext at h
  split_ifs at h with h0
  · left
    simp only [Except.ok.injEq, Prod.mk.injEq] at h
    obtain ⟨-, rfl⟩ := h
    exact ⟨_, rfl⟩
  · right
    split at h
    · cases h
    · rename_i ret1 b1 hs
      simp only [Except.ok.injEq, Prod.mk.injEq] at h
      obtain ⟨-, rfl⟩ := h
      obtain ⟨truth, rfl⟩ := DecayBelief.sampleAndLikelihood_ok exp d noise trialTime decayTo
        u r u2 z ret1 b1 hs
      exact ⟨_, _, rfl⟩

/-- C35: for every posterior, every variate and every noise `> 0`, when the normalizer of
the update is not zero, a context update, base or decaying, satisfies
`B'(c,t1)·B(c,t2) = B'(c,t2)·B(c,t1)` for every row `c` and columns `t1`, `t2`, and a
target update satisfies `B'(c1,t)·B(c2,t) = B'(c2,t)·B(c1,t)` for every column `t` and
rows `c1`, `c2`. -/
theorem update_preserves_conditionals {n m : Nat} (exp : K → K) (b : Belief K n m)
    (d : DecayBelief K n m) (noise z trialTime : K) (decayTo : PriorType) (u : K) (r : Int)
    (u2 : K) (hnoise : 0 < noise) :
    ((b.computeLikelihoods exp (RNG.rnorm (b.truthOf .Context) noise z) noise
        .Context).normalizer ≠ 0 →
      ∀ c t1 t2, (b.updateFromContext exp noise z).getBelief c t1 * b.getBelief c t2
        = (b.updateFromContext exp noise z).getBelief c t2 * b.getBelief c t1) ∧
    ((b.computeLikelihoods exp (RNG.rnorm (b.truthOf .Target) noise z) noise
        .Target).normalizer ≠ 0 →
      ∀ c1 c2 t, (b.updateFromTarget exp noise z).getBelief c1 t * b.getBelief c2 t
        = (b.updateFromTarget exp noise z).getBelief c2 t * b.getBelief c1 t) ∧
    (∀ ret d1, d.updateFromContext exp noise trialTime decayTo u r u2 z = .ok (ret, d1) →
      (∀ v, d.callNormalizer exp (.decayUpdate noise trialTime decayTo u r u2 z) = some v →
        v ≠ 0) →
      ∀ c t1 t2, d1.getBelief c t1 * d.getBelief c t2
        = d1.getBelief c t2 * d.getBelief c t1) := by
  have _hnoise := hnoise
  refine ⟨fun _ c t1 t2 => ?_, fun _ c1 c2 t => ?_, fun ret d1 hok _ c t1 t2 => ?_⟩
  · exact Belief.multiplyAndNormalize_rows
      (b.computeLikelihoods exp (RNG.rnorm (b.truthOf .Context) noise z) noise .Context)
      (fun _ _ _ => rfl) c t1 t2
  · exact Belief.multiplyAndNormalize_cols
      (b.computeLikelihoods exp (RNG.rnorm (b.truthOf .Target) noise z) noise .Target)
      (fun _ _ _ => rfl) c1 c2 t
  · rcases DecayBelief.updateFromContext_ok exp d noise trialTime decayTo u r u2 z ret d1 hok
      with ⟨samp, h⟩ | ⟨samp, p, h⟩
    · show d1.toBelief.belief c t1 * d.belief c t2 = d1.toBelief.belief c t2 * d.belief c t1
      rw [h]
      exact Belief.multiplyAndNormalize_rows
        (d.toBelief.computeLikelihoods exp samp noise .Context) (fun _ _ _ => rfl) c t1 t2
    · show d1.toBelief.belief c t1 * d.belief c t2 = d1.toBelief.belief c t2 * d.belief c t1
      rw [h]
      exact Belief.multiplyAndNormalize_rows
        (d.computeLikelihoods exp samp noise .Context p).toBelief (fun _ _ _ => rfl) c t1 t2

/-- On the test engine with noise 1 and variate 0 the normalizers of the context and of
the target update are positive and both updates keep the cross products; on the decay
engine of the tests the decaying update at `trialTime = 10` with a good retrieval returns,
its normalizer is not zero, and it keeps the cross products of every row. -/
theorem update_preserves_conditionals_witness :
    (0 : ℝ) < 1 ∧
    ((testBelief : Belief ℝ 2 2).computeLikelihoods Real.exp
      (RNG.rnorm ((testBelief : Belief ℝ 2 2).truthOf .Context) 1 0) 1 .Context).normalizer
        ≠ 0 ∧
    ((testBelief : Belief ℝ 2 2).computeLikelihoods Real.exp
      (RNG.rnorm ((testBelief : Belief ℝ 2 2).truthOf .Target) 1 0) 1 .Target).normalizer
        ≠ 0 ∧
    (∀ c t1 t2, ((testBelief : Belief ℝ 2 2).updateFromContext Real.exp 1 0).getBelief c t1
        * (testBelief : Belief ℝ 2 2).getBelief c t2
      = ((testBelief : Belief ℝ 2 2).updateFromContext Real.exp 1 0).getBelief c t2
        * (testBelief : Belief ℝ 2 2).getBelief c t1) ∧
    (∀ c1 c2 t, ((testBelief : Belief ℝ 2 2).updateFromTarget Real.exp 1 0).getBelief c1 t
        * (testBelief : Belief ℝ 2 2).getBelief c2 t
      = ((testBelief : Belief ℝ 2 2).updateFromTarget Real.exp 1 0).getBelief c2 t
        * (testBelief : Belief ℝ 2 2).getBelief c1 t) ∧
    (∃ d1, (testDecayBelief : DecayBelief ℝ 2 2).updateFromContext Real.exp 1 10
        .Informative 0 0 0 0 = .ok (-1, d1) ∧
      (∀ v, (testDecayBelief : DecayBelief ℝ 2 2).callNormalizer Real.exp
        (.decayUpdate 1 10 .Informative 0 0 0 0) = some v → v ≠ 0) ∧
      ∀ c t1 t2, d1.getBelief c t1 * (testDecayBelief : DecayBelief ℝ 2 2).getBelief c t2
        = d1.getBelief c t2 * (testDecayBelief : DecayBelief ℝ 2 2).getBelief c t1) := by
  have hb : (testBelief : Belief ℝ 2 2).PosteriorOk := ⟨testPrior_nonneg, testPrior_total⟩
  have hc : ((testBelief : Belief ℝ 2 2).computeLikelihoods Real.exp
      (RNG.rnorm ((testBelief : Belief ℝ 2 2).truthOf .Context) 1 0) 1
        .Context).normalizer ≠ 0 :=
    Belief.callNormalizer_ne_zero Real.exp Real.exp_pos testBelief hb
      (.updateFromContext 1 0) one_pos _ rfl
  have ht : ((testBelief : Belief ℝ 2 2).computeLikelihoods Real.exp
      (RNG.rnorm ((testBelief : Belief ℝ 2 2).truthOf .Target) 1 0) 1
        .Target).normalizer ≠ 0 :=
    Belief.callNormalizer_ne_zero Real.exp Real.exp_pos testBelief hb
      (.updateFromTarget 1 0) one_pos _ rfl
  have hwf : (testDecayBelief : DecayBelief ℝ 2 2).WellFormed :=
    ⟨testPrior_nonneg, testPrior_total, rfl, by simp [testDecayBelief]⟩
  have hdb : (testDecayBelief : DecayBelief ℝ 2 2).toBelief.PosteriorOk :=
    ⟨testPrior_nonneg, testPrior_total⟩
  have h0 : ¬((testDecayBelief : DecayBelief ℝ 2 2).decayRate = 0 ∨ (10 : ℝ) = 0) := by
    simp [testDecayBelief]
  have hok := DecayBelief.updateFromContext_good Real.exp (testDecayBelief : DecayBelief ℝ 2 2)
    1 10 .Informative 0 0 0 0 h0 (Real.exp_pos _)
  have hnz : ∀ v, (testDecayBelief : DecayBelief ℝ 2 2).callNormalizer Real.exp
      (.decayUpdate 1 10 .Informative 0 0 0 0) = some v → v ≠ 0 :=
    DecayBelief.decay_callNormalizer_ne_zero Real.exp Real.exp_pos
      (fun x hx => Real.exp_le_one_iff.mpr hx) testDecayBelief hwf hdb
      (.decayUpdate 1 10 .Informative 0 0 0 0) one_pos (by norm_num [Call.TrialTimeNonneg])
  have h := update_preserves_conditionals Real.exp (testBelief : Belief ℝ 2 2)
    (testDecayBelief : DecayBelief ℝ 2 2) 1 0 10 .Informative 0 0 0 one_pos
  exact ⟨one_pos, hc, ht, h.1 hc, h.2.1 ht, _, hok, hnz, h.2.2 _ _ hok hnz⟩

/-! ## C36 -/

theorem Belief.multiplyAndNormalize_zero {n m : Nat} (b : Belief K n m) (c : Fin n)
    (t : Fin m) (h : b.belief c t = 0) : b.multiplyAndNormalize.belief c t = 0 := by
  rw [Belief.multiplyAndNormalize_belief, h, zero_mul, zero_div]

omit [LinearOrderedField K] in
theorem Belief.setTrueStim_belief {n m : Nat} (b b1 : Belief K n m) (tc tt : Int)
    (h : b.setTrueStim tc tt = .ok b1) : b1.belief = b.belief := by
  unfold Belief.setTrueStim at h
  split_ifs at h
  cases h
  rfl

theorem Belief.call_zero {n m : Nat} (exp : K → K) (b : Belief K n m) (call : BaseCall K)
    (hne : call ≠ .reset) (c : Fin n) (t : Fin m) (h : b.belief c t = 0) :
    (b.call exp call).belief c t = 0 := by
  cases call with
  | reset => exact absurd rfl hne
  | setTrueStim tc tt =>
    simp only [Belief.call]
    split
    · rename_i b1 hb1
      rw [Belief.setTrueStim_belief b b1 tc tt hb1]
      exact h
    · exact h
  | updateFromContext noise z =>
    exact Belief.multiplyAndNormalize_zero
      (b.computeLikelihoods exp (RNG.rnorm (b.truthOf .Context) noise z) noise .Context) c t h
  | updateFromTarget noise z =>
    exact Belief.multiplyAndNormalize_zero
      (b.computeLikelihoods exp (RNG.rnorm (b.truthOf .Target) noise z) noise .Target) c t h

theorem DecayBelief.updateFromContext_zero {n m : Nat} (exp : K → K) (d : DecayBelief K n m)
    (noise trialTime : K) (decayTo : PriorType) (u : K) (r : Int) (u2 z : K) (ret : Int)
    (d1 : DecayBelief K n m)
    (hok : d.updateFromContext exp noise trialTime decayTo u r u2 z = .ok (ret, d1))
    (c : Fin n) (t : Fin m) (h : d.belief c t = 0) : d1.belief c t = 0 := by
  rcases DecayBelief.updateFromContext_ok exp d noise trialTime decayTo u r u2 z ret d1 hok
    with ⟨samp, h1⟩ | ⟨samp, p, h1⟩
  · show d1.toBelief.belief c t = 0
    rw [h1]
    exact Belief.multiplyAndNormalize_zero
      (d.toBelief.computeLikelihoods exp samp noise .Context) c t h
  · show d1.toBelief.belief c t = 0
    rw [h1]
    exact Belief.multiplyAndNormalize_zero
      (d.computeLikelihoods exp samp noise .Context p).toBelief c t h

theorem DecayBelief.decay_call_zero {n m : Nat} (exp : K → K) (d : DecayBelief K n m)
    (call : Call K) (hne : call ≠ .base .reset) (c : Fin n) (t : Fin m)
    (h : d.belief c t = 0) : (d.call exp call).belief c t = 0 := by
  cases call with
  | base bc =>
    exact Belief.call_zero exp d.toBelief bc (fun hbc => hne (by rw [hbc])) c t h
  | decayUpdate noise trialTime decayTo u r u2 z =>
    simp only [DecayBelief.call]
    split
    · rename_i ret d1 hok
      exact DecayBelief.updateFromContext_zero exp d noise trialTime decayTo u r u2 z ret d1
        hok c t h
    · exact h

theorem ForgetBelief.contextForgetUpdate_zero {n m : Nat} (exp : K → K)
    (f : ForgetBelief K n m) (noise : K) (forgetTo : PriorType) (u : K) (r : Int) (u2 z : K)
    (ret : Int) (f1 : ForgetBelief K n m)
    (hok : f.contextForgetUpdate exp noise forgetTo u r u2 z = .ok (ret, f1))
    (c : Fin n) (t : Fin m) (h : f.belief c t = 0) : f1.belief c t = 0 := by
  unfold ForgetBelief.contextForgetUpdate at hok
  split_ifs at hok with h1 h2
  · simp only [Except.ok.injEq, Prod.mk.injEq] at hok
    obtain ⟨-, rfl⟩ := hok
    exact Belief.multiplyAndNormalize_zero
      (f.toBelief.computeLikelihoods exp (RNG.rnorm (f.truthOf .Context) noise z) noise
        .Context) c t h
  · simp only at hok
    split at hok
    · cases hok
    · rename_i drawFrom hd
      simp only [Except.ok.injEq, Prod.mk.injEq] at hok
      obtain ⟨-, rfl⟩ := hok
      exact Belief.multiplyAndNormalize_zero _ c t h
  · simp only [Except.ok.injEq, Prod.mk.injEq] at hok
    obtain ⟨-, rfl⟩ := hok
    exact Belief.multiplyAndNormalize_zero
      (f.toBelief.computeLikelihoods exp (RNG.rnorm (f.truthOf .Context) noise z) noise
        .Context) c t h

/-- C36: a posterior entry that is zero stays zero under every update operation whose
normalizer is not zero (the base update from either source, the decaying context update,
the forgetting context update), and along every sequence of calls of `Belief` or of
`DecayBelief` that does not contain `reset()` and whose normalizers are not zero. -/
theorem zero_mass_is_absorbing {n m : Nat} (exp : K → K) (b : Belief K n m)
    (d : DecayBelief K n m) (f : ForgetBelief K n m) (c : Fin n) (t : Fin m)
    (hb : b.getBelief c t = 0) (hd : d.getBelief c t = 0) (hf : f.getBelief c t = 0) :
    (∀ source noise z,
      (b.computeLikelihoods exp (RNG.rnorm (b.truthOf source) noise z) noise
        source).normalizer ≠ 0 →
      (b.update exp source noise z).getBelief c t = 0) ∧
    (∀ noise trialTime decayTo u r u2 z ret d1,
      d.updateFromContext exp noise trialTime decayTo u r u2 z = .ok (ret, d1) →
      (∀ v, d.callNormalizer exp (.decayUpdate noise trialTime decayTo u r u2 z) = some v →
        v ≠ 0) →
      d1.getBelief c t = 0) ∧
    (∀ noise forgetTo u r u2 z ret f1,
      f.contextForgetUpdate exp noise forgetTo u r u2 z = .ok (ret, f1) →
      (f.toBelief.computeLikelihoods exp (RNG.rnorm (f1.trueContext : K) noise z) noise
        .Context).normalizer ≠ 0 →
      f1.getBelief c t = 0) ∧
    (∀ calls : List (BaseCall K), BaseCall.reset ∉ calls →
      Belief.NormalizersNonzero exp b calls → (b.run exp calls).getBelief c t = 0) ∧
    (∀ calls : List (Call K), Call.base .reset ∉ calls →
      DecayBelief.NormalizersNonzero exp d calls → (d.run exp calls).getBelief c t = 0) := by
  refine ⟨fun source noise z _ => ?_, fun noise trialTime decayTo u r u2 z ret d1 hok _ => ?_,
    fun noise forgetTo u r u2 z ret f1 hok _ => ?_, fun calls hno hnz => ?_,
    fun calls hno hnz => ?_⟩
  · exact Belief.multiplyAndNormalize_zero
      (b.computeLikelihoods exp (RNG.rnorm (b.truthOf source) noise z) noise source) c t hb
  · exact DecayBelief.updateFromContext_zero exp d noise trialTime decayTo u r u2 z ret d1
      hok c t hd
  · exact ForgetBelief.contextForgetUpdate_zero exp f noise forgetTo u r u2 z ret f1 hok c t hf
  · clear hd hf
    induction calls generalizing b with
    | nil => exact hb
    | cons call cs ih =>
      exact ih (b.call exp call)
        (Belief.call_zero exp b call (fun he => hno (by rw [he]; exact List.mem_cons_self _ _))
          c t hb)
        (fun hmem => hno (List.mem_cons_of_mem _ hmem)) hnz.2
  · clear hb hf
    induction calls generalizing d with
    | nil => exact hd
    | cons call cs ih =>
      exact ih (d.call exp call)
        (DecayBelief.decay_call_zero exp d call
          (fun he => hno (by rw [he]; exact List.mem_cons_self _ _)) c t hd)
        (fun hmem => hno (List.mem_cons_of_mem _ hmem)) hnz.2

theorem excludingPrior_total : Mat.total (excludingPrior : Mat K 2 2) = 1 := by
  simp [Mat.total, excludingPrior, Fin.sum_univ_two]
  norm_num

theorem excludingPrior_nonneg (i j : Fin 2) : 0 ≤ (excludingPrior : Mat K 2 2) i j := by
  fin_cases i <;> fin_cases j <;> simp [excludingPrior]

/-- On the engines whose prior `0.5 0.5; 0 0` excludes the second context, the entry
`(1, 0)` of the posterior is zero, the normalizers along `setTrueStim(0,1)`, a context
update and a target update (and along a decaying context update followed by a target
update) are not zero, and the entry is still zero afterwards. -/
theorem zero_mass_is_absorbing_witness :
    (excludingBelief : Belief ℝ 2 2).getBelief 1 0 = 0 ∧
    (excludingDecayBelief : DecayBelief ℝ 2 2).getBelief 1 0 = 0 ∧
    (excludingForgetBelief : ForgetBelief ℝ 2 2).getBelief 1 0 = 0 ∧
    Belief.NormalizersNonzero Real.exp (excludingBelief : Belief ℝ 2 2)
      [.setTrueStim 0 1, .updateFromContext 1 0, .updateFromTarget 1 0] ∧
    ((excludingBelief : Belief ℝ 2 2).run Real.exp
      [.setTrueStim 0 1, .updateFromContext 1 0, .updateFromTarget 1 0]).getBelief 1 0 = 0 ∧
    DecayBelief.NormalizersNonzero Real.exp (excludingDecayBelief : DecayBelief ℝ 2 2)
      [.decayUpdate 1 10 .Informative 0 0 0 0, .base (.updateFromTarget 1 0)] ∧
    ((excludingDecayBelief : DecayBelief ℝ 2 2).run Real.exp
      [.decayUpdate 1 10 .Informative 0 0 0 0, .base (.updateFromTarget 1 0)]).getBelief 1 0
        = 0 := by
  have hb : (excludingBelief : Belief ℝ 2 2).getBelief 1 0 = 0 := by
    simp [Belief.getBelief, excludingBelief, excludingPrior]
  have hd : (excludingDecayBelief : DecayBelief ℝ 2 2).getBelief 1 0 = 0 := hb
  have hf : (excludingForgetBelief : ForgetBelief ℝ 2 2).getBelief 1 0 = 0 := hb
  have hpost : (excludingBelief : Belief ℝ 2 2).PosteriorOk :=
    ⟨excludingPrior_nonneg, excludingPrior_total⟩
  have hnz : Belief.NormalizersNonzero Real.exp (excludingBelief : Belief ℝ 2 2)
      [.setTrueStim 0 1, .updateFromContext 1 0, .updateFromTarget 1 0] := by
    apply Belief.normalizersNonzero_of_noisePos Real.exp Real.exp_pos _
      excludingPrior_nonneg excludingPrior_total hpost
    intro call hcall
    simp only [List.mem_cons, List.mem_singleton, List.not_mem_nil, or_false] at hcall
    rcases hcall with rfl | rfl | rfl <;> simp [BaseCall.NoisePos]
  have hwf : (excludingDecayBelief : DecayBelief ℝ 2 2).WellFormed :=
    ⟨excludingPrior_nonneg, excludingPrior_total, rfl, by simp [excludingDecayBelief]⟩
  have hdnz : DecayBelief.NormalizersNonzero Real.exp
      (excludingDecayBelief : DecayBelief ℝ 2 2)
      [.decayUpdate 1 10 .Informative 0 0 0 0, .base (.updateFromTarget 1 0)] := by
    apply DecayBelief.decay_normalizersNonzero_of_noisePos Real.exp Real.exp_pos
      (fun x hx => Real.exp_le_one_iff.mpr hx) _ hwf hpost
    · intro call hcall
      simp only [List.mem_cons, List.mem_singleton, List.not_mem_nil, or_false] at hcall
      rcases hcall with rfl | rfl <;> simp [Call.NoisePos, BaseCall.NoisePos]
    · intro call hcall
      simp only [List.mem_cons, List.mem_singleton, List.not_mem_nil, or_false] at hcall
      rcases hcall with rfl | rfl <;> simp [Call.TrialTimeNonneg]
  have h := zero_mass_is_absorbing Real.exp (excludingBelief : Belief ℝ 2 2)
    (excludingDecayBelief : DecayBelief ℝ 2 2) (excludingForgetBelief : ForgetBelief ℝ 2 2)
    1 0 hb hd hf
  exact ⟨hb, hd, hf, hnz, h.2.2.2.1 _ (by simp) hnz, hdnz, h.2.2.2.2 _ (by simp) hdnz⟩

/-! ## C39 -/

theorem categoricalScan_cumsum_iff {n : Nat} (v : Fin n → K) (p : K) (k : Nat) :
    categoricalScan p (cumsum v) = some k ↔
      k < n ∧ p < cumulative v k ∧ ∀ i, i < k → cumulative v i ≤ p := by
  have hscan := scanFrom_eq_some_iff p (cumsum v) 0 k
  simp only [Nat.sub_zero, Nat.zero_le, true_and, cumsum_getElem?] at hscan
  unfold categoricalScan
  rw [hscan]
  constructor
  · rintro ⟨⟨c, hc, hlt⟩, hall⟩
    have hk : k < n := by
      by_contra hk
      rw [if_neg hk] at hc
      cases hc
    rw [if_pos hk] at hc
    cases hc
    refine ⟨hk, hlt, fun i hi => ?_⟩
    obtain ⟨c', hc', hle⟩ := hall i hi
    rw [if_pos (lt_trans hi hk)] at hc'
    cases hc'
    exact hle
  · rintro ⟨hk, hlt, hall⟩
    refine ⟨⟨_, if_pos hk, hlt⟩, fun i hi => ⟨_, if_pos (lt_trans hi hk), hall i hi⟩⟩

/-- C39: for every prior with nonnegative entries summing to 1 and every uniform draw
`p = runif(1)` with `0 ≤ p < 1`, the `Informative` categorical scan stops at an index
`k < nContexts`, every entry of the cumulative vector it reads (indices `0..k`) exists,
the range check that follows accepts `k`, and neither `DecayBelief::updateFromContext`
nor `ForgetBelief::contextForgetUpdate` throws: each returns `-1` or `k`. -/
theorem informative_scan_in_range {n m : Nat} (exp : K → K) (urPrior : Mat K n m) (u2 : K)
    (hnonneg : ∀ i j, 0 ≤ urPrior i j) (hsum : Mat.total urPrior = 1)
    (hp0 : 0 ≤ RNG.runif 1 u2) (hp1 : RNG.runif 1 u2 < 1) :
    ∃ k : Nat, k < n ∧
      categoricalScan (RNG.runif 1 u2) (cumsum (rowSums urPrior)) = some k ∧
      (∀ i, i ≤ k → ∃ c, (cumsum (rowSums urPrior))[i]? = some c) ∧
      (∀ r, DecayBelief.checkSubstitute (n : Int)
        (DecayBelief.drawSubstitute urPrior .Informative r u2) = .ok (k : Int)) ∧
      (∀ (d : DecayBelief K n m) (noise trialTime u : K) (r : Int) (z : K),
        d.urPrior = urPrior →
        ∃ ret d1, d.updateFromContext exp noise trialTime .Informative u r u2 z
            = .ok (ret, d1) ∧ (ret = -1 ∨ ret = (k : Int))) ∧
      (∀ (f : ForgetBelief K n m) (noise u : K) (r : Int) (z : K),
        f.urPrior = urPrior →
        ∃ ret f1, f.contextForgetUpdate exp noise .Informative u r u2 z = .ok (ret, f1) ∧
          (ret = -1 ∨ ret = (k : Int))) := by
  have _h := hnonneg
  have _h0 := hp0
  obtain ⟨k, hk, h1, h2⟩ := exists_first_exceeding (rowSums urPrior) (RNG.runif 1 u2)
    (by rw [sum_rowSums]; exact hsum) hp1
  have hcheck : ∀ r, DecayBelief.checkSubstitute (n : Int)
      (DecayBelief.drawSubstitute urPrior .Informative r u2) = .ok (k : Int) :=
    fun r => (DecayBelief.checkSubstitute_informative_iff urPrior r u2 k).mpr ⟨hk, h1, h2⟩
  refine ⟨k, hk, (categoricalScan_cumsum_iff _ _ k).mpr ⟨hk, h1, h2⟩, fun i hi => ?_, hcheck,
    fun d noise trialTime u r z hd => ?_, fun f noise u r z hf => ?_⟩
  · rw [cumsum_getElem?, if_pos (lt_of_le_of_lt hi hk)]
    exact ⟨_, rfl⟩
  · by_cases h0 : d.decayRate = 0 ∨ trialTime = 0
    · exact ⟨_, _, DecayBelief.updateFromContext_noDecay exp d noise trialTime .Informative
        u r u2 z h0, Or.inl rfl⟩
    · by_cases hgood : u < exp (-d.decayRate * trialTime)
      · exact ⟨_, _, DecayBelief.updateFromContext_good exp d noise trialTime .Informative
          u r u2 z h0 hgood, Or.inl rfl⟩
      · have hc : DecayBelief.checkSubstitute d.nContexts
            (DecayBelief.drawSubstitute d.urPrior .Informative r u2) = .ok (k : Int) := by
          rw [hd]
          exact hcheck r
        have h := DecayBelief.updateFromContext_bad exp d noise trialTime .Informative
          u r u2 z h0 hgood
        rw [hc] at h
        exact ⟨_, _, h, Or.inr rfl⟩
  · by_cases h0 : f.forgetProb = 0 ∨ f.forgot = true
    · exact ⟨_, _, ForgetBelief.contextForgetUpdate_skip exp f noise .Informative u r u2 z h0,
        Or.inl rfl⟩
    · by_cases hu : u < f.forgetProb
      · have hc : DecayBelief.checkSubstitute f.nContexts
            (DecayBelief.drawSubstitute f.urPrior .Informative r u2) = .ok (k : Int) := by
          rw [hf]
          exact hcheck r
        have h := ForgetBelief.contextForgetUpdate_forgets exp f noise .Informative u r u2 z
          h0 hu
        rw [hc] at h
        exact ⟨_, _, h, Or.inr rfl⟩
      · exact ⟨_, _, ForgetBelief.contextForgetUpdate_keep exp f noise .Informative u r u2 z
          hu, Or.inl rfl⟩

/-- The prior `0.5 0.2; 0.2 0.1` of the tests with the uniform draw `0.7`: the scan stops
in range and both methods return. -/
theorem informative_scan_in_range_witness :
    (∀ i j, 0 ≤ (testPrior : Mat ℝ 2 2) i j) ∧ Mat.total (testPrior : Mat ℝ 2 2) = 1 ∧
    (0 : ℝ) ≤ RNG.runif 1 (7 / 10) ∧ RNG.runif (1 : ℝ) (7 / 10) < 1 ∧
    ∃ k : Nat, k < 2 ∧
      categoricalScan (RNG.runif (1 : ℝ) (7 / 10)) (cumsum (rowSums testPrior)) = some k ∧
      (∃ ret d1, (testDecayBelief : DecayBelief ℝ 2 2).updateFromContext Real.exp 1 10
        .Informative 1 0 (7 / 10) 0 = .ok (ret, d1) ∧ (ret = -1 ∨ ret = (k : Int))) ∧
      (∃ ret f1, (testForgetBelief : ForgetBelief ℝ 2 2).contextForgetUpdate Real.exp 1
        .Informative 0 0 (7 / 10) 0 = .ok (ret, f1) ∧ (ret = -1 ∨ ret = (k : Int))) := by
  have hp0 : (0 : ℝ) ≤ RNG.runif 1 (7 / 10) := by norm_num [RNG.runif]
  have hp1 : RNG.runif (1 : ℝ) (7 / 10) < 1 := by norm_num [RNG.runif]
  obtain ⟨k, hk, hscan, -, -, hd, hf⟩ := informative_scan_in_range Real.exp
    (testPrior : Mat ℝ 2 2) (7 / 10) testPrior_nonneg testPrior_total hp0 hp1
  exact ⟨testPrior_nonneg, testPrior_total, hp0, hp1, k, hk, hscan,
    hd testDecayBelief 1 10 1 0 0 rfl, hf testForgetBelief 1 0 0 0 rfl⟩

/-! ## C38 -/

theorem FlankerRun.flanker_stop_of_thresh_lt_half {S : Type} {nd md n m : Nat}
    (s : FlankerRun K S nd md n m) (h : s.task.decisionThresh < 1 / 2) : s.stop = true := by
  unfold FlankerRun.stop
  rw [decide_eq_true_eq]
  rcases lt_or_le s.task.decisionThresh s.dv with h0 | h0
  · exact Or.inl h0
  · right
    linarith

theorem AxcptRun.axcpt_stop_of_thresh_lt_half {S : Type} {nd md n m : Nat}
    (s : AxcptRun K S nd md n m) (h : s.task.decisionThresh < 1 / 2) : s.stop = true := by
  unfold AxcptRun.stop
  rw [decide_eq_true_eq]
  rcases lt_or_le s.task.decisionThresh s.dv with h0 | h0
  · exact Or.inl h0
  · right
    left
    linarith

theorem iterate_one {σ : Type} (body : σ → Except String σ) (s s1 : σ) :
    iterate body (0 + 1) s = .ok s1 ↔ body s = .ok s1 := by
  rw [iterate_succ]
  cases body s with
  | error e => simp
  | ok s2 => simp [iterate]

theorem threshFlankerTask_ctor (thresh : K) (maxSamps : Int) (h0 : 0 ≤ thresh)
    (h1 : thresh < 1) :
    FlankerTask.ctor (threshConfig thresh maxSamps : TaskConfig K 2 2 2 2)
      (registeredRecorder FlankerTask.datumNames) = .ok (threshFlankerTask thresh maxSamps) := by
  have hb : Belief.ctor (threshConfig thresh maxSamps : TaskConfig K 2 2 2 2).toConfig
      = .ok testBelief0 := testBelief0_ctor
  have ht := Task.task_ctor_of_total (threshConfig thresh maxSamps : TaskConfig K 2 2 2 2)
    (registeredRecorder FlankerTask.datumNames) testTrialDist_total
  unfold FlankerTask.ctor
  rw [ht, hb]
  simp only [bind, Except.bind, Config.get, threshConfig, prematureConfig, defaultTaskConfig]
  rw [if_neg (by norm_num), if_neg (by norm_num), if_neg (not_lt.mpr h0),
    if_neg (not_le.mpr h1)]
  rfl

theorem threshAxcptTask_ctor (sqrt : K → K) (thresh : K) (maxSamps : Int) (h0 : 0 ≤ thresh)
    (h1 : thresh < 1) :
    AxcptTask.ctor sqrt (threshConfig thresh maxSamps : TaskConfig K 2 2 2 2)
      (registeredRecorder AxcptTask.datumNames) = .ok (threshAxcptTask thresh maxSamps) := by
  have hb : DecayBelief.ctor (threshConfig thresh maxSamps : TaskConfig K 2 2 2 2).toConfig
      = .ok ⟨testBelief0, rowSums testPrior, 0⟩ := by
    have h : Belief.ctor (threshConfig thresh maxSamps : TaskConfig K 2 2 2 2).toConfig
        = .ok testBelief0 := testBelief0_ctor
    unfold DecayBelief.ctor
    rw [h]
    rfl
  have ht := Task.task_ctor_of_total (threshConfig thresh maxSamps : TaskConfig K 2 2 2 2)
    (registeredRecorder AxcptTask.datumNames) testTrialDist_total
  have hn : AxcptTask.noises sqrt (threshConfig thresh maxSamps : TaskConfig K 2 2 2 2)
      = .ok (3, 3) := by
    simp [AxcptTask.noises, threshConfig, prematureConfig, defaultTaskConfig, Config.get, bind,
      Except.bind]
  unfold AxcptTask.ctor
  rw [ht, hb, hn]
  simp only [bind, Except.bind, threshConfig, prematureConfig, defaultTaskConfig]
  rw [if_neg (by simp), if_neg (by norm_num), if_neg (by norm_num), if_neg (not_lt.mpr h0),
    if_neg (not_le.mpr h1)]
  rfl

theorem FlankerTask.flanker_prelude_log [FloorRing K] {S : Type} {nd md n m : Nat}
    (src : RandomSource K S) (t : FlankerTask K nd md n m) (g : S)
    (s0 : FlankerRun K S nd md n m) (h : t.prelude src g = .ok s0) :
    s0.task.recorder.log
      = t.recorder.log ++ [(s0.task.trialLabel ++ "eblEvent", .event 0 s0.eblDur)] := by
  unfold FlankerTask.prelude at h
  simp only [bind, Except.bind] at h
  cases hd : t.toTask.drawTrialType src (t.arch.drawEBL src g).2 with
  | error e => simp [hd] at h
  | ok drawn =>
    simp only [hd] at h
    cases hs : t.belief.setTrueStim drawn.1.context drawn.1.target with
    | error e => simp [hs] at h
    | ok b1 =>
      simp only [hs] at h
      have hrec := (Task.drawTrialType_frame src _ _ _ hd).1
      obtain ⟨h1, -, -⟩ := FlankerRun.flanker_updateEvent_inv _ _ _ _ _ h
      subst h1
      show drawn.1.recorder.log ++ _ = _
      rw [hrec]
      rfl

theorem threshFlankerTask_prelude [FloorRing K] (thresh : K) (maxSamps : Int) (g : Nat) :
    ∃ s0, (threshFlankerTask thresh maxSamps : FlankerTask K 2 2 2 2).prelude
        (countingSource (1 / 4) 0 0 50) g = .ok s0 ∧
      s0.KeysRegistered ∧ (s0.prematureDraw (countingSource (1 / 4) 0 0 50)).1 = false ∧
      (s0.prematureDraw (countingSource (1 / 4) 0 0 50)).2.KeysRegistered ∧
      s0.task.recorder.log = [(s0.task.trialLabel ++ "eblEvent", .event 0 s0.eblDur)] := by
  obtain ⟨s0, h, hk⟩ := FlankerTask.flanker_prelude_ok (countingSource (1 / 4 : K) 0 0 50)
    (countingSource_gamma_nonneg _ _ _ _ (by norm_num)) (threshFlankerTask thresh maxSamps) g
    testTrialDist_total (by rw [countingSource_runif]; norm_num)
    (by rw [countingSource_runif]; norm_num) le_rfl le_rfl
    (fun name hname c hc tt htt => mem_registeredKeys 2 2 _ name c tt hname hc htt)
  obtain ⟨-, -, -, -, -, -, -, -, -, -, hp, hth⟩ :=
    FlankerTask.flanker_prelude_spec _ _ _ _ h
  obtain ⟨htask, -, -, -, -, hiff⟩ :=
    FlankerRun.flanker_prematureDraw_spec (countingSource (1 / 4 : K) 0 0 50) s0
  refine ⟨s0, h, hk, ?_, ?_, ?_⟩
  · rw [← Bool.not_eq_true, hiff, hp]
    rintro ⟨h0, -⟩
    exact absurd h0 (lt_irrefl _)
  · intro name hname
    rw [htask]
    exact hk name hname
  · rw [FlankerTask.flanker_prelude_log _ _ _ _ h]
    rfl

theorem threshAxcptTask_prelude [FloorRing K] (exp : K → K) (thresh : K) (maxSamps : Int)
    (g : Nat) :
    ∃ s0, (threshAxcptTask thresh maxSamps : AxcptTask K 2 2 2 2).prelude exp
        (countingSource (1 / 4) 0 0 50) g = .ok s0 ∧
      s0.KeysRegistered ∧ (s0.prematureDraw (countingSource (1 / 4) 0 0 50)).1 = false ∧
      (s0.prematureDraw (countingSource (1 / 4) 0 0 50)).2.KeysRegistered := by
  obtain ⟨s0, h, hk⟩ := AxcptTask.axcpt_prelude_ok exp (countingSource (1 / 4 : K) 0 0 50)
    (countingSource_gamma_nonneg _ _ _ _ (by norm_num)) (threshAxcptTask thresh maxSamps) g
    testTrialDist_total (by rw [countingSource_runif]; norm_num)
    (by rw [countingSource_runif]; norm_num) le_rfl le_rfl
    (fun name hname c hc tt htt => mem_registeredKeys 2 2 _ name c tt hname hc htt)
    rfl (by show (0 : K) ≤ 10; norm_num) (by show (0 : K) < 10; norm_num)
  obtain ⟨-, -, -, -, -, -, -, -, -, -, hp, hth, -⟩ :=
    AxcptTask.axcpt_prelude_spec _ _ _ _ _ h
  obtain ⟨htask, -, -, -, -, hiff⟩ :=
    AxcptRun.axcpt_prematureDraw_spec (countingSource (1 / 4 : K) 0 0 50) s0
  refine ⟨s0, h, hk, ?_, ?_⟩
  · rw [← Bool.not_eq_true, hiff, hp]
    rintro ⟨h0, -⟩
    exact absurd h0 (lt_irrefl _)
  · intro name hname
    rw [htask]
    exact hk name hname

/-- C38: for every threshold `θ` with `0 ≤ θ < 0.5`, `dv > θ ∨ dv < 1 − θ` holds for every
`dv`, so that in a non-premature trial of `FlankerTask` or `AxcptTask` with
`decisionThresh = θ` and `maxSamps ≥ 1` the stop condition holds in the state left by the
first pass of the sampling loop, whatever the posterior: `run()` is the commit block in
that state followed by the sampling event, a trial that returns has committed after
exactly one pass, and with registered keys, gamma variates that are not negative and a
time step that is not negative (`FlankerTask`: at least two contexts and one target in
the posterior; `AxcptTask`: no decay) the trial returns. -/
theorem low_threshold_commits_after_one_step [FloorRing K] {S : Type} {nd md n m : Nat}
    (exp : K → K) (src : RandomSource K S) (thresh : K) (h0 : 0 ≤ thresh)
    (h1 : thresh < 1 / 2) :
    (∀ dv : K, dv > thresh ∨ dv < 1 - thresh) ∧
    (∀ (t : FlankerTask K nd md n m) (g : S) (s0 : FlankerRun K S nd md n m),
      t.decisionThresh = thresh → 1 ≤ t.maxSamps →
      t.prelude src g = .ok s0 → (s0.prematureDraw src).1 = false →
      (∀ s1, (s0.prematureDraw src).2.accStep exp src = .ok s1 →
        s1.stop = true ∧
        t.run exp src g =
          match s1.commit exp src with
          | .error e => .error e
          | .ok sc => sc.updateEvent "samplingEvent" sc.sampStart sc.task.trialTime) ∧
      (∀ sf, t.run exp src g = .ok sf →
        ∃ s1 sc, (s0.prematureDraw src).2.accStep exp src = .ok s1 ∧
          s1.commit exp src = .ok sc ∧
          sf = sc.logged "samplingEvent" (.event sc.sampStart sc.task.trialTime)) ∧
      ((∀ k theta g1, 0 ≤ (src.rgammaRaw k theta g1).1) → s0.KeysRegistered →
        0 ≤ t.timePerStep → 2 ≤ n → 1 ≤ m → ∃ sf, t.run exp src g = .ok sf)) ∧
    (∀ (t : AxcptTask K nd md n m) (g : S) (s0 : AxcptRun K S nd md n m),
      t.decisionThresh = thresh → 1 ≤ t.maxSamps →
      t.prelude exp src g = .ok s0 → (s0.prematureDraw src).1 = false →
      (∀ s1, (s0.prematureDraw src).2.accStep exp src = .ok s1 →
        s1.stop = true ∧
        t.run exp src g =
          match s1.commit exp src with
          | .error e => .error e
          | .ok sc => sc.updateEvent "samplingBothEvent" sc.sampStart sc.task.trialTime) ∧
      (∀ sf, t.run exp src g = .ok sf →
        ∃ s1 sc, (s0.prematureDraw src).2.accStep exp src = .ok s1 ∧
          s1.commit exp src = .ok sc ∧
          sf = sc.logged "samplingBothEvent" (.event sc.sampStart sc.task.trialTime)) ∧
      ((∀ k theta g1, 0 ≤ (src.rgammaRaw k theta g1).1) → s0.KeysRegistered →
        0 ≤ t.timePerStep → t.belief.decayRate = 0 → ∃ sf, t.run exp src g = .ok sf)) := by
  have _h0 := h0
  refine ⟨fun dv => ?_, ?_, ?_⟩
  · rcases lt_or_le thresh dv with h | h
    · exact Or.inl h
    · right
      linarith
  · intro t g s0 hth hmax hprel hprem
    obtain ⟨-, -, -, -, -, -, hms, -⟩ := FlankerTask.flanker_prelude_spec src t g s0 hprel
    obtain ⟨htask, -⟩ := FlankerRun.flanker_prematureDraw_spec src s0
    have hmaxeq : (s0.prematureDraw src).2.task.maxSamps = t.maxSamps := by rw [htask, hms]
    have hrun := FlankerTask.flanker_run_eq exp src t g s0 hprel
    rw [if_neg (by rw [hprem]; decide)] at hrun
    have hstop : ∀ s1, (s0.prematureDraw src).2.accStep exp src = .ok s1 → s1.stop = true := by
      intro s1 hs1
      obtain ⟨-, -, -, hth1, -⟩ := FlankerTask.flanker_trial_frame exp src t g s0 s1 (0 + 1)
        hprel ((iterate_one _ _ _).mpr hs1)
      exact s1.flanker_stop_of_thresh_lt_half (by rw [hth1, hth]; exact h1)
    have hj : 0 < t.maxSamps.toNat := by omega
    refine ⟨fun s1 hs1 => ⟨hstop s1 hs1, ?_⟩, fun sf hsf => ?_,
      fun hgam hkeys htps hn hm => ?_⟩
    · rw [hrun]
      exact FlankerRun.flanker_accumulate_of_crosses exp src _ s1 0 (by rw [hmaxeq]; exact hj)
        ⟨s1, hs1, hstop s1 hs1⟩ ((iterate_one _ _ _).mpr hs1)
    · rw [hrun] at hsf
      obtain ⟨j, sk, sc, -, h2, h3, -, h5, h6⟩ :=
        FlankerRun.flanker_accumulate_ok_inv exp src _ sf (by rw [hmaxeq]; omega) hsf
      cases j with
      | zero => exact ⟨sk, sc, (iterate_one _ _ _).mp h3, h5, h6⟩
      | succ j =>
        obtain ⟨s1, hs1, hfalse, -⟩ := h2
        rw [hstop s1 hs1] at hfalse
        cases hfalse
    · obtain ⟨s1, hs1⟩ := FlankerRun.flanker_accStep_ok exp src (s0.prematureDraw src).2
        (by
          intro name hname
          rw [htask]
          exact hkeys name hname) hn hm
      obtain ⟨s5, -, hr⟩ := FlankerTask.flanker_run_of_crosses exp src hgam t g s0 s1 0 hprel
        hprem hkeys htps hj ⟨s1, hs1, hstop s1 hs1⟩ ((iterate_one _ _ _).mpr hs1)
      exact ⟨_, hr⟩
  · intro t g s0 hth hmax hprel hprem
    obtain ⟨-, -, -, -, -, -, hms, -⟩ := AxcptTask.axcpt_prelude_spec exp src t g s0 hprel
    obtain ⟨htask, -⟩ := AxcptRun.axcpt_prematureDraw_spec src s0
    have hmaxeq : (s0.prematureDraw src).2.task.maxSamps = t.maxSamps := by rw [htask, hms]
    have hrun := AxcptTask.axcpt_run_eq exp src t g s0 hprel
    rw [if_neg (by rw [hprem]; decide)] at hrun
    have hstop : ∀ s1, (s0.prematureDraw src).2.accStep exp src = .ok s1 → s1.stop = true := by
      intro s1 hs1
      obtain ⟨-, -, -, hth1, -⟩ := AxcptTask.axcpt_trial_frame exp src t g s0 s1 (0 + 1)
        hprel ((iterate_one _ _ _).mpr hs1)
      exact s1.axcpt_stop_of_thresh_lt_half (by rw [hth1, hth]; exact h1)
    have hj : 0 < t.maxSamps.toNat := by omega
    refine ⟨fun s1 hs1 => ⟨hstop s1 hs1, ?_⟩, fun sf hsf => ?_,
      fun hgam hkeys htps hdecay => ?_⟩
    · rw [hrun]
      exact AxcptRun.axcpt_accumulate_of_crosses exp src _ s1 0 (by rw [hmaxeq]; exact hj)
        ⟨s1, hs1, hstop s1 hs1⟩ ((iterate_one _ _ _).mpr hs1)
    · rw [hrun] at hsf
      obtain ⟨j, sk, sc, -, h2, h3, -, h5, h6⟩ :=
        AxcptRun.axcpt_accumulate_ok_inv exp src _ sf (by rw [hmaxeq]; omega) hsf
      cases j with
      | zero => exact ⟨sk, sc, (iterate_one _ _ _).mp h3, h5, h6⟩
      | succ j =>
        obtain ⟨s1, hs1, hfalse, -⟩ := h2
        rw [hstop s1 hs1] at hfalse
        cases hfalse
    · obtain ⟨s1, hs1⟩ := AxcptRun.axcpt_accStep_ok exp src (s0.prematureDraw src).2
        (by
          intro name hname
          rw [htask]
          exact hkeys name hname)
        (by rw [htask, AxcptTask.axcpt_prelude_decayRate exp src t g s0 hprel]; exact hdecay)
      obtain ⟨s5, -, hr⟩ := AxcptTask.axcpt_run_of_crosses exp src hgam t g s0 s1 0 hprel
        hprem hkeys htps hj ⟨s1, hs1, hstop s1 hs1⟩ ((iterate_one _ _ _).mpr hs1)
      exact ⟨_, hr⟩

/-- The fixture tasks with `decisionThresh = 0.25` and `maxSamps = 1` are accepted by the
constructors; their trial is not premature, the first pass of the sampling loop returns
and satisfies the stop condition, and `run()` returns the state left by the commit block
in that state with the sampling event recorded. -/
theorem low_threshold_commits_after_one_step_witness :
    (0 : ℝ) ≤ 1 / 4 ∧ (1 / 4 : ℝ) < 1 / 2 ∧
    FlankerTask.ctor (threshConfig (1 / 4) 1 : TaskConfig ℝ 2 2 2 2)
      (registeredRecorder FlankerTask.datumNames) = .ok (threshFlankerTask (1 / 4) 1) ∧
    AxcptTask.ctor Real.sqrt (threshConfig (1 / 4) 1 : TaskConfig ℝ 2 2 2 2)
      (registeredRecorder AxcptTask.datumNames) = .ok (threshAxcptTask (1 / 4) 1) ∧
    (∃ s0 s1 sc, (threshFlankerTask (1 / 4) 1 : FlankerTask ℝ 2 2 2 2).prelude
        (countingSource (1 / 4) 0 0 50) 0 = .ok s0 ∧
      (s0.prematureDraw (countingSource (1 / 4) 0 0 50)).1 = false ∧
      (s0.prematureDraw (countingSource (1 / 4) 0 0 50)).2.accStep Real.exp
        (countingSource (1 / 4) 0 0 50) = .ok s1 ∧
      s1.stop = true ∧ s1.commit Real.exp (countingSource (1 / 4) 0 0 50) = .ok sc ∧
      (threshFlankerTask (1 / 4) 1 : FlankerTask ℝ 2 2 2 2).run Real.exp
          (countingSource (1 / 4) 0 0 50) 0
        = .ok (sc.logged "samplingEvent" (.event sc.sampStart sc.task.trialTime))) ∧
    (∃ s0 s1 sc, (threshAxcptTask (1 / 4) 1 : AxcptTask ℝ 2 2 2 2).prelude Real.exp
        (countingSource (1 / 4) 0 0 50) 0 = .ok s0 ∧
      (s0.prematureDraw (countingSource (1 / 4) 0 0 50)).1 = false ∧
      (s0.prematureDraw (countingSource (1 / 4) 0 0 50)).2.accStep Real.exp
        (countingSource (1 / 4) 0 0 50) = .ok s1 ∧
      s1.stop = true ∧ s1.commit Real.exp (countingSource (1 / 4) 0 0 50) = .ok sc ∧
      (threshAxcptTask (1 / 4) 1 : AxcptTask ℝ 2 2 2 2).run Real.exp
          (countingSource (1 / 4) 0 0 50) 0
        = .ok (sc.logged "samplingBothEvent" (.event sc.sampStart sc.task.trialTime))) := by
  have h0 : (0 : ℝ) ≤ 1 / 4 := by norm_num
  have h1 : (1 / 4 : ℝ) < 1 / 2 := by norm_num
  have h := @low_threshold_commits_after_one_step ℝ _ _ Nat 2 2 2 2 Real.exp
    (countingSource (1 / 4) 0 0 50) (1 / 4) h0 h1
  have hgam := countingSource_gamma_nonneg (1 / 4 : ℝ) 0 0 50 (by norm_num)
  refine ⟨h0, h1, threshFlankerTask_ctor _ _ h0 (by norm_num),
    threshAxcptTask_ctor _ _ _ h0 (by norm_num), ?_, ?_⟩
  · obtain ⟨s0, hp, hk, hd, -, -⟩ := @threshFlankerTask_prelude ℝ _ _ (1 / 4) 1 0
    obtain ⟨hA, hB, hC⟩ := h.2.1 (threshFlankerTask (1 / 4) 1) 0 s0 rfl le_rfl hp hd
    obtain ⟨sf, hsf⟩ := hC hgam hk (by show (0 : ℝ) ≤ 10; norm_num) le_rfl (by norm_num)
    obtain ⟨s1, sc, hs1, hc, hsc⟩ := hB sf hsf
    exact ⟨s0, s1, sc, hp, hd, hs1, (hA s1 hs1).1, hc, by rw [hsf, hsc]⟩
  · obtain ⟨s0, hp, hk, hd, -⟩ := @threshAxcptTask_prelude ℝ _ _ Real.exp (1 / 4) 1 0
    obtain ⟨hA, hB, hC⟩ := h.2.2 (threshAxcptTask (1 / 4) 1) 0 s0 rfl le_rfl hp hd
    obtain ⟨sf, hsf⟩ := hC hgam hk (by show (0 : ℝ) ≤ 10; norm_num) rfl
    obtain ⟨s1, sc, hs1, hc, hsc⟩ := hB sf hsf
    exact ⟨s0, s1, sc, hp, hd, hs1, (hA s1 hs1).1, hc, by rw [hsf, hsc]⟩

/-! ## C40 -/

theorem label_append_cancel (label a b : String) (h : label ++ a = label ++ b) : a = b := by
  have h1 := congrArg String.data h
  rw [String.data_append, String.data_append] at h1
  exact String.ext (List.append_cancel_left h1)

omit [LinearOrderedField K] in
theorem LogExtendsBy.refl (label : String) (names : List String)
    (log : List (String × Obs K)) : LogExtendsBy label names log log :=
  ⟨[], by simp, by simp⟩

omit [LinearOrderedField K] in
theorem LogExtendsBy.trans (label : String) (names : List String)
    (a b c : List (String × Obs K)) (h1 : LogExtendsBy label names a b)
    (h2 : LogExtendsBy label names b c) : LogExtendsBy label names a c := by
  obtain ⟨P, rfl, hP⟩ := h1
  obtain ⟨Q, rfl, hQ⟩ := h2
  refine ⟨P ++ Q, by simp, fun e he => ?_⟩
  rcases List.mem_append.mp he with h | h
  · exact hP e h
  · exact hQ e h

omit [LinearOrderedField K] in
theorem LogExtendsBy.snoc (label : String) (names : List String)
    (log : List (String × Obs K)) (name : String) (hname : name ∈ names) (v : Obs K) :
    LogExtendsBy label names log (log ++ [(label ++ name, v)]) :=
  ⟨[(label ++ name, v)], rfl, fun e he => by
    rw [List.mem_singleton] at he
    subst he
    exact ⟨name, hname, rfl⟩⟩

omit [LinearOrderedField K] in
theorem LogExtendsBy.mono (label : String) (names names1 : List String)
    (a b : List (String × Obs K)) (hsub : ∀ name ∈ names, name ∈ names1)
    (h : LogExtendsBy label names a b) : LogExtendsBy label names1 a b := by
  obtain ⟨P, rfl, hP⟩ := h
  refine ⟨P, rfl, fun e he => ?_⟩
  obtain ⟨name, hname, hk⟩ := hP e he
  exact ⟨name, hsub name hname, hk⟩

theorem AxcptRun.decayingUpdate_log {S : Type} {nd md n m : Nat} (exp : K → K)
    (src : RandomSource K S) (s s1 : AxcptRun K S nd md n m) (noise : K)
    (h : s.decayingUpdate exp src noise = .ok s1) :
    s1.task.recorder.log = s.task.recorder.log := by
  unfold AxcptRun.decayingUpdate at h
  simp only at h
  split at h
  · cases h
  · simp only [Except.ok.injEq] at h
    subst h
    rfl

theorem AxcptRun.precomputeStep_log {S : Type} {nd md n m : Nat} (exp : K → K)
    (src : RandomSource K S) (s s1 : AxcptRun K S nd md n m)
    (h : s.precomputeStep exp src = .ok s1) :
    LogExtendsBy s.task.trialLabel ["post"] s.task.recorder.log s1.task.recorder.log := by
  unfold AxcptRun.precomputeStep at h
  cases hr : s.recordBelief with
  | error e => simp [hr] at h
  | ok s2 =>
    simp only [hr] at h
    obtain ⟨hs2, -⟩ := s.axcpt_update_inv s2 _ _ hr
    subst hs2
    rw [AxcptRun.decayingUpdate_log exp src _ _ _ h]
    exact LogExtendsBy.snoc _ _ _ "post" (by simp) _

theorem AxcptRun.iterate_precomputeStep_log {S : Type} {nd md n m : Nat} (exp : K → K)
    (src : RandomSource K S) :
    ∀ (k : Nat) (s s1 : AxcptRun K S nd md n m),
      iterate (AxcptRun.precomputeStep exp src) k s = .ok s1 →
      LogExtendsBy s.task.trialLabel ["post"] s.task.recorder.log s1.task.recorder.log := by
  intro k
  induction k with
  | zero =>
    intro s s1 h
    simp only [iterate, Except.ok.injEq] at h
    subst h
    exact LogExtendsBy.refl _ _ _
  | succ k ih =>
    intro s s1 h
    rw [iterate_succ] at h
    cases hb : s.precomputeStep exp src with
    | error e => simp [hb] at h
    | ok s2 =>
      simp only [hb] at h
      obtain ⟨f1, -⟩ := AxcptRun.precomputeStep_spec exp src s s2 hb
      have h2 := ih s2 s1 h
      rw [f1.trialLabel] at h2
      exact LogExtendsBy.trans _ _ _ _ _ (AxcptRun.precomputeStep_log exp src s s2 hb) h2

theorem AxcptTask.axcpt_prelude_log [FloorRing K] {S : Type} {nd md n m : Nat}
    (exp : K → K) (src : RandomSource K S) (t : AxcptTask K nd md n m) (g : S)
    (s0 : AxcptRun K S nd md n m) (h : t.prelude exp src g = .ok s0) :
    LogExtendsBy s0.task.trialLabel ["eblEvent", "post", "samplingContextEvent"]
      t.recorder.log s0.task.recorder.log := by
  unfold AxcptTask.prelude at h
  simp only [bind, Except.bind] at h
  cases hst : t.start src g with
  | error e => simp [hst] at h
  | ok s =>
    simp only [hst] at h
    cases hp : s.precomputeSamples exp src with
    | error e => simp [hp] at h
    | ok s1 =>
      simp only [hp, Except.ok.injEq] at h
      subst h
      show LogExtendsBy s1.task.trialLabel _ _ s1.task.recorder.log
      obtain ⟨f, -⟩ := AxcptRun.precomputeSamples_spec exp src s s1 hp
      rw [f.trialLabel]
      have hstart : LogExtendsBy s.task.trialLabel
          ["eblEvent", "post", "samplingContextEvent"] t.recorder.log s.task.recorder.log := by
        unfold AxcptTask.start at hst
        simp only [bind, Except.bind] at hst
        cases hd : t.toTask.drawTrialType src g with
        | error e => simp [hd] at hst
        | ok drawn =>
          simp only [hd] at hst
          cases hs : t.belief.toBelief.setTrueStim drawn.1.context drawn.1.target with
          | error e => simp [hs] at hst
          | ok b1 =>
            simp only [hs] at hst
            have hrec := (Task.drawTrialType_frame src _ _ _ hd).1
            obtain ⟨h1, -, -⟩ := AxcptRun.axcpt_updateEvent_inv _ _ _ _ _ hst
            subst h1
            show LogExtendsBy drawn.1.trialLabel _ _ (drawn.1.recorder.log ++ _)
            rw [hrec]
            exact LogExtendsBy.snoc _ _ _ "eblEvent" (by simp) _
      have hpre : LogExtendsBy s.task.trialLabel
          ["eblEvent", "post", "samplingContextEvent"] s.task.recorder.log
          s1.task.recorder.log := by
        rw [AxcptRun.precomputeSamples] at hp
        cases hi : iterate (AxcptRun.precomputeStep exp src)
            (s.task.nPrecomputeSamps % 2 ^ 32).toNat s with
        | error e =>
          rw [hi] at hp
          cases hp
        | ok s2 =>
          rw [hi] at hp
          simp only [] at hp
          obtain ⟨f2, -⟩ := AxcptRun.iterate_precomputeStep_spec exp src _ _ _ hi
          obtain ⟨h1, -, -⟩ := AxcptRun.axcpt_updateEvent_inv _ _ _ _ _ hp
          subst h1
          refine LogExtendsBy.trans _ _ _ _ _
            (LogExtendsBy.mono _ ["post"] _ _ _ (by simp)
              (AxcptRun.iterate_precomputeStep_log exp src _ _ _ hi)) ?_
          show LogExtendsBy _ _ _ (s2.task.recorder.log ++ [(s2.task.trialLabel ++ _, _)])
          rw [f2.trialLabel]
          exact LogExtendsBy.snoc _ _ _ "samplingContextEvent" (by simp) _
      exact LogExtendsBy.trans _ _ _ _ _ hstart hpre

theorem FlankerRun.flanker_accumulate_of_neg [FloorRing K] {S : Type} {nd md n m : Nat}
    (exp : K → K) (src : RandomSource K S) (s : FlankerRun K S nd md n m)
    (hneg : s.task.maxSamps < 0) :
    s.accumulate exp src = s.updateEvent "samplingEvent" s.sampStart s.task.trialTime := by
  have h0 : s.task.maxSamps.toNat = 0 := by omega
  unfold FlankerRun.accumulate
  simp only [bind, Except.bind]
  rw [h0]
  simp only [forSamp]
  cases hu : s.updateEvent "samplingEvent" s.sampStart s.task.trialTime with
  | error e => rfl
  | ok s1 =>
    simp only
    obtain ⟨h1, -, -⟩ := FlankerRun.flanker_updateEvent_inv _ _ _ _ _ hu
    subst h1
    rw [if_neg]
    show ¬ (0 : Int) = s.task.maxSamps
    omega

theorem AxcptRun.axcpt_accumulate_of_neg [FloorRing K] {S : Type} {nd md n m : Nat}
    (exp : K → K) (src : RandomSource K S) (s : AxcptRun K S nd md n m)
    (hneg : s.task.maxSamps < 0) :
    s.accumulate exp src = s.updateEvent "samplingBothEvent" s.sampStart s.task.trialTime := by
  have h0 : s.task.maxSamps.toNat = 0 := by omega
  unfold AxcptRun.accumulate
  simp only [bind, Except.bind]
  rw [h0]
  simp only [forSamp]
  cases hu : s.updateEvent "samplingBothEvent" s.sampStart s.task.trialTime with
  | error e => rfl
  | ok s1 =>
    simp only
    obtain ⟨h1, -, -⟩ := AxcptRun.axcpt_updateEvent_inv _ _ _ _ _ hu
    subst h1
    rw [if_neg]
    show ¬ (0 : Int) = s.task.maxSamps
    omega

theorem FlankerTask.flanker_run_of_neg [FloorRing K] {S : Type} {nd md n m : Nat}
    (exp : K → K) (src : RandomSource K S) (t : FlankerTask K nd md n m) (g : S)
    (s0 : FlankerRun K S nd md n m) (hprel : t.prelude src g = .ok s0)
    (hprem : (s0.prematureDraw src).1 = false) (hkeys : s0.KeysRegistered)
    (hneg : t.maxSamps < 0) :
    t.run exp src g = .ok ((s0.prematureDraw src).2.logged "samplingEvent" (.event 0 0)) := by
  obtain ⟨-, -, -, -, hstart, htime, hms, -⟩ := FlankerTask.flanker_prelude_spec src t g s0 hprel
  obtain ⟨htask, -, -, hss, -, -⟩ := FlankerRun.flanker_prematureDraw_spec src s0
  rw [FlankerTask.flanker_run_eq exp src t g s0 hprel, if_neg (by rw [hprem]; decide),
    FlankerRun.flanker_accumulate_of_neg exp src _ (by rw [htask, hms]; exact hneg),
    hss, hstart, htask, htime]
  exact FlankerRun.flanker_updateEvent_ok _ _ _ _ le_rfl
    (by rw [htask]; exact hkeys "samplingEvent" (by simp [FlankerTask.datumNames]))

theorem AxcptTask.axcpt_run_of_neg [FloorRing K] {S : Type} {nd md n m : Nat}
    (exp : K → K) (src : RandomSource K S) (t : AxcptTask K nd md n m) (g : S)
    (s0 : AxcptRun K S nd md n m) (hprel : t.prelude exp src g = .ok s0)
    (hprem : (s0.prematureDraw src).1 = false) (hkeys : s0.KeysRegistered)
    (hneg : t.maxSamps < 0) :
    t.run exp src g = .ok ((s0.prematureDraw src).2.logged "samplingBothEvent"
      (.event s0.task.trialTime s0.task.trialTime)) := by
  obtain ⟨-, -, -, -, hstart, -, hms, -⟩ := AxcptTask.axcpt_prelude_spec exp src t g s0 hprel
  obtain ⟨htask, -, -, hss, -, -⟩ := AxcptRun.axcpt_prematureDraw_spec src s0
  rw [AxcptTask.axcpt_run_eq exp src t g s0 hprel, if_neg (by rw [hprem]; decide),
    AxcptRun.axcpt_accumulate_of_neg exp src _ (by rw [htask, hms]; exact hneg),
    hss, hstart, htask]
  exact AxcptRun.axcpt_updateEvent_ok _ _ _ _ le_rfl
    (by rw [htask]; exact hkeys "samplingBothEvent" (by simp [AxcptTask.datumNames]))

/-- C40 (the code diverges): the configuration of the runners with `maxSamps = -1` and
`pPrematureResp = 0` is accepted by the constructors of `FlankerTask` and of `AxcptTask`,
and `run()` returns without raising an error; the sampling loop makes no pass and the
check `samp == _maxSamps` compares `0` with `-1`. The `FlankerTask` trial has recorded
the eye-brain-lag event and the sampling event `(0, 0)` and nothing else, and neither
task has recorded an observation under the keys `Resp`, `Acc` or `RT` of the drawn trial
type. -/
theorem negative_maxSamps_returns_without_response :
    FlankerTask.ctor (threshConfig (19 / 20) (-1) : TaskConfig ℝ 2 2 2 2)
      (registeredRecorder FlankerTask.datumNames) = .ok (threshFlankerTask (19 / 20) (-1)) ∧
    (∃ sf, (threshFlankerTask (19 / 20) (-1) : FlankerTask ℝ 2 2 2 2).run Real.exp
        (countingSource (1 / 4) 0 0 50) 0 = .ok sf ∧
      sf.task.recorder.log = [(sf.task.trialLabel ++ "eblEvent", .event 0 sf.eblDur),
        (sf.task.trialLabel ++ "samplingEvent", .event 0 0)] ∧
      ∀ e ∈ sf.task.recorder.log, e.1 ≠ sf.task.trialLabel ++ "Resp" ∧
        e.1 ≠ sf.task.trialLabel ++ "Acc" ∧ e.1 ≠ sf.task.trialLabel ++ "RT") ∧
    AxcptTask.ctor Real.sqrt (threshConfig (19 / 20) (-1) : TaskConfig ℝ 2 2 2 2)
      (registeredRecorder AxcptTask.datumNames) = .ok (threshAxcptTask (19 / 20) (-1)) ∧
    (∃ sf, (threshAxcptTask (19 / 20) (-1) : AxcptTask ℝ 2 2 2 2).run Real.exp
        (countingSource (1 / 4) 0 0 50) 0 = .ok sf ∧
      ∀ e ∈ sf.task.recorder.log, e.1 ≠ sf.task.trialLabel ++ "Resp" ∧
        e.1 ≠ sf.task.trialLabel ++ "Acc" ∧ e.1 ≠ sf.task.trialLabel ++ "RT") := by
  have hnames : ∀ (label key : String) (names : List String), "Resp" ∉ names →
      "Acc" ∉ names → "RT" ∉ names → (∃ name ∈ names, key = label ++ name) →
      key ≠ label ++ "Resp" ∧ key ≠ label ++ "Acc" ∧ key ≠ label ++ "RT" := by
    rintro label key names h1 h2 h3 ⟨name, hname, rfl⟩
    refine ⟨fun h => h1 ?_, fun h => h2 ?_, fun h => h3 ?_⟩
    · rw [← label_append_cancel label _ _ h]
      exact hname
    · rw [← label_append_cancel label _ _ h]
      exact hname
    · rw [← label_append_cancel label _ _ h]
      exact hname
  refine ⟨threshFlankerTask_ctor _ _ (by norm_num) (by norm_num), ?_,
    threshAxcptTask_ctor _ _ _ (by norm_num) (by norm_num), ?_⟩
  · obtain ⟨s0, hp, hk, hd, -, hlog⟩ := @threshFlankerTask_prelude ℝ _ _ (19 / 20) (-1) 0
    obtain ⟨htask, -, -, -, he, -⟩ :=
      FlankerRun.flanker_prematureDraw_spec (countingSource (1 / 4 : ℝ) 0 0 50) s0
    have hrun := FlankerTask.flanker_run_of_neg Real.exp (countingSource (1 / 4 : ℝ) 0 0 50)
      (threshFlankerTask (19 / 20) (-1)) 0 s0 hp hd hk (by decide)
    have hl : ((s0.prematureDraw (countingSource (1 / 4 : ℝ) 0 0 50)).2.logged "samplingEvent"
        (.event 0 0)).task.recorder.log
        = [(s0.task.trialLabel ++ "eblEvent", .event 0 s0.eblDur),
          (s0.task.trialLabel ++ "samplingEvent", .event 0 0)] := by
      show (s0.prematureDraw (countingSource (1 / 4 : ℝ) 0 0 50)).2.task.recorder.log
        ++ [((s0.prematureDraw (countingSource (1 / 4 : ℝ) 0 0 50)).2.task.trialLabel
          ++ "samplingEvent", _)] = _
      rw [htask, hlog]
      rfl
    have hlabel : ((s0.prematureDraw (countingSource (1 / 4 : ℝ) 0 0 50)).2.logged
        "samplingEvent" (.event 0 0)).task.trialLabel = s0.task.trialLabel := by
      show (s0.prematureDraw (countingSource (1 / 4 : ℝ) 0 0 50)).2.task.trialLabel = _
      rw [htask]
    have hebl : ((s0.prematureDraw (countingSource (1 / 4 : ℝ) 0 0 50)).2.logged
        "samplingEvent" (.event 0 0)).eblDur = s0.eblDur := he
    refine ⟨_, hrun, ?_, ?_⟩
    · rw [hl, hlabel, hebl]
    · intro e hmem
      rw [hl] at hmem
      rw [hlabel]
      apply hnames s0.task.trialLabel e.1 ["eblEvent", "samplingEvent"] (by decide)
        (by decide) (by decide)
      simp only [List.mem_cons, List.mem_singleton, List.not_mem_nil, or_false] at hmem
      rcases hmem with rfl | rfl
      · exact ⟨"eblEvent", by simp, rfl⟩
      · exact ⟨"samplingEvent", by simp, rfl⟩
  · obtain ⟨s0, hp, hk, hd, -⟩ := @threshAxcptTask_prelude ℝ _ _ Real.exp (19 / 20) (-1) 0
    obtain ⟨htask, -⟩ :=
      AxcptRun.axcpt_prematureDraw_spec (countingSource (1 / 4 : ℝ) 0 0 50) s0
    have hrun := AxcptTask.axcpt_run_of_neg Real.exp (countingSource (1 / 4 : ℝ) 0 0 50)
      (threshAxcptTask (19 / 20) (-1)) 0 s0 hp hd hk (by decide)
    obtain ⟨P, hP, hall⟩ := AxcptTask.axcpt_prelude_log Real.exp
      (countingSource (1 / 4 : ℝ) 0 0 50) (threshAxcptTask (19 / 20) (-1)) 0 s0 hp
    have hl : ((s0.prematureDraw (countingSource (1 / 4 : ℝ) 0 0 50)).2.logged
        "samplingBothEvent" (.event s0.task.trialTime s0.task.trialTime)).task.recorder.log
        = P ++ [(s0.task.trialLabel ++ "samplingBothEvent",
            .event s0.task.trialTime s0.task.trialTime)] := by
      show (s0.prematureDraw (countingSource (1 / 4 : ℝ) 0 0 50)).2.task.recorder.log
        ++ [((s0.prematureDraw (countingSource (1 / 4 : ℝ) 0 0 50)).2.task.trialLabel
          ++ "samplingBothEvent", _)] = _
      rw [htask, hP]
      rfl
    have hlabel : ((s0.prematureDraw (countingSource (1 / 4 : ℝ) 0 0 50)).2.logged
        "samplingBothEvent" (.event s0.task.trialTime s0.task.trialTime)).task.trialLabel
        = s0.task.trialLabel := by
      show (s0.prematureDraw (countingSource (1 / 4 : ℝ) 0 0 50)).2.task.trialLabel = _
      rw [htask]
    refine ⟨_, hrun, ?_⟩
    intro e hmem
    rw [hl] at hmem
    rw [hlabel]
    apply hnames s0.task.trialLabel e.1
      ["eblEvent", "post", "samplingContextEvent", "samplingBothEvent"] (by decide)
      (by decide) (by decide)
    rcases List.mem_append.mp hmem with h | h
    · obtain ⟨name, hname, hkey⟩ := hall e h
      exact ⟨name, by
        simp only [List.mem_cons, List.mem_singleton, List.not_mem_nil, or_false] at hname ⊢
        tauto, hkey⟩
    · rw [List.mem_singleton] at h
      subst h
      exact ⟨"samplingBothEvent", by simp, rfl⟩

end Cddm
